import Mathlib

/-!
AVL tree over a binary search tree (`bst.h`, `avlbst.h`).

The C++ objects live on a heap and refer to each other by pointers, so the
embedding is a store of node cells addressed by natural numbers.  A pointer is
an `Option Nat` (`none` is `nullptr`).  Every operation returns an `Option`:
`none` stands for a dereference of `nullptr` or of a freed cell, or for a
recursion that did not finish within its fuel.
-/

/-- One `AVLNode<Key, Value>` object: the `item_` pair, the three links of
`Node` and the `balance_` byte added by `AVLNode`. -/
structure AVLNode (K V : Type) where
  key : K
  value : V
  parent_ : Option Nat
  left_ : Option Nat
  right_ : Option Nat
  balance_ : Int
deriving DecidableEq

/-- The state of a `BinarySearchTree<Key, Value>` object (and of the `AVLTree`
derived from it): the cells of the heap, `none` for a freed cell, and the
`root_` pointer. -/
structure BinarySearchTree (K V : Type) where
  mem : List (Option (AVLNode K V))
  root_ : Option Nat
deriving DecidableEq

/-- The class `AVLTree<Key, Value>` adds no data member to its base class. -/
abbrev AVLTree (K V : Type) : Type := BinarySearchTree K V

/-- The error thrown by `operator[]`: `std::out_of_range("Invalid key")`. -/
inductive Exception where
  | out_of_range (what : String)
deriving DecidableEq

/-- Conversion of an `int` to `int8_t` (two's complement wrap-around). -/
def int8 (x : Int) : Int := (x + 128) % 256 - 128

/-- Sequencing of two steps: the second runs on the result of the first, and
a failure of the first is a failure of the whole. -/
def andThen {α β : Type} (x : Option α) (f : α → Option β) : Option β :=
  match x with
  | none => none
  | some a => f a

section Cells
variable {K V : Type}

/-- Reading the object a pointer points at. -/
def deref (t : BinarySearchTree K V) (p : Option Nat) : Option (AVLNode K V) :=
  match p with
  | none => none
  | some a => t.mem.getD a none

/-- Overwriting the cell at address `a`. -/
def store (t : BinarySearchTree K V) (a : Nat) (n : AVLNode K V) : BinarySearchTree K V :=
  { t with mem := t.mem.set a (some n) }

/-- Changing the object a pointer points at. -/
def modifyNode (t : BinarySearchTree K V) (p : Option Nat) (f : AVLNode K V → AVLNode K V) :
    Option (BinarySearchTree K V) :=
  match p with
  | none => none
  | some a => (deref t (some a)).map (fun n => store t a (f n))

/-- The call `p->getKey()`. -/
def getKey (t : BinarySearchTree K V) (p : Option Nat) : Option K :=
  (deref t p).map (fun n => n.key)

/-- The call `p->getValue()`. -/
def getValue (t : BinarySearchTree K V) (p : Option Nat) : Option V :=
  (deref t p).map (fun n => n.value)

/-- The call `p->getParent()`. -/
def getParent (t : BinarySearchTree K V) (p : Option Nat) : Option (Option Nat) :=
  (deref t p).map (fun n => n.parent_)

/-- The call `p->getLeft()`. -/
def getLeft (t : BinarySearchTree K V) (p : Option Nat) : Option (Option Nat) :=
  (deref t p).map (fun n => n.left_)

/-- The call `p->getRight()`. -/
def getRight (t : BinarySearchTree K V) (p : Option Nat) : Option (Option Nat) :=
  (deref t p).map (fun n => n.right_)

/-- The call `p->getBalance()`. -/
def getBalance (t : BinarySearchTree K V) (p : Option Nat) : Option Int :=
  (deref t p).map (fun n => n.balance_)

/-- The call `p->setParent(q)`. -/
def setParent (t : BinarySearchTree K V) (p q : Option Nat) : Option (BinarySearchTree K V) :=
  modifyNode t p (fun n => { n with parent_ := q })

/-- The call `p->setLeft(q)`. -/
def setLeft (t : BinarySearchTree K V) (p q : Option Nat) : Option (BinarySearchTree K V) :=
  modifyNode t p (fun n => { n with left_ := q })

/-- The call `p->setRight(q)`. -/
def setRight (t : BinarySearchTree K V) (p q : Option Nat) : Option (BinarySearchTree K V) :=
  modifyNode t p (fun n => { n with right_ := q })

/-- The call `p->setValue(v)`. -/
def setValue (t : BinarySearchTree K V) (p : Option Nat) (v : V) : Option (BinarySearchTree K V) :=
  modifyNode t p (fun n => { n with value := v })

/-- The call `p->setBalance(b)`; the argument is converted to `int8_t`. -/
def setBalance (t : BinarySearchTree K V) (p : Option Nat) (b : Int) :
    Option (BinarySearchTree K V) :=
  modifyNode t p (fun n => { n with balance_ := int8 b })

/-- The expression `new AVLNode<Key, Value>(key, value, parent)`: a fresh cell
with no children and balance 0; the result is the new state and the address. -/
def new_AVLNode (t : BinarySearchTree K V) (key : K) (value : V) (parent : Option Nat) :
    BinarySearchTree K V × Nat :=
  ({ t with mem := t.mem ++ [some ⟨key, value, parent, none, none, 0⟩] }, t.mem.length)

/-- Releasing the cell at address `a`. -/
def free (t : BinarySearchTree K V) (a : Nat) : BinarySearchTree K V :=
  { t with mem := t.mem.set a none }

/-- The statement `delete n`; deleting a null pointer does nothing, deleting
a freed cell is an error. -/
def delete (t : BinarySearchTree K V) (p : Option Nat) : Option (BinarySearchTree K V) :=
  match p with
  | none => some t
  | some a => (deref t (some a)).map (fun _ => free t a)

end Cells

namespace BinarySearchTree
variable {K V : Type}

/-- The default constructor (bst.h 323-326): `root_ = nullptr`. -/
def empty_tree : BinarySearchTree K V := ⟨[], none⟩

/-- Recursive helper of `internalFind` (bst.h 578-592). -/
def internalFind_helper [LinearOrder K] (t : BinarySearchTree K V) (key : K) :
    Nat → Option Nat → Option (Option Nat)
  | _, none => some none
  | 0, some _ => none
  | fuel + 1, some a =>
    andThen (getKey t (some a)) fun k =>
    if key < k then
      andThen (getLeft t (some a)) fun l => internalFind_helper t key fuel l
    else if key = k then
      some (some a)
    else
      -- key > node->getKey()
      andThen (getRight t (some a)) fun r => internalFind_helper t key fuel r

/-- Member `internalFind` (bst.h 571-575). -/
def internalFind [LinearOrder K] (t : BinarySearchTree K V) (key : K) : Option (Option Nat) :=
  internalFind_helper t key t.mem.length t.root_

/-- Member `end` (bst.h 360-365): the iterator whose `current_` is null. -/
def end_ (_t : BinarySearchTree K V) : Option Nat := none

/-- Member `find` (bst.h 371-377); an iterator is modelled by its `current_`
pointer. -/
def find [LinearOrder K] (t : BinarySearchTree K V) (k : K) : Option (Option Nat) :=
  internalFind t k

/-- Member `operator[]` (bst.h 383-396), both overloads: the value stored with
the key, or the exception thrown. -/
def operator_index [LinearOrder K] (t : BinarySearchTree K V) (key : K) :
    Option (Except Exception V) :=
  andThen (internalFind t key) fun curr =>
  if curr = none then
    some (Except.error (Exception.out_of_range "Invalid key"))
  else
    andThen (getValue t curr) fun v => some (Except.ok v)

/-- The loop `while (current->getRight() != nullptr) current = current->getRight();`
of `predecessor`, followed by `return current`. -/
def predecessor_descend (t : BinarySearchTree K V) : Nat → Option Nat → Option (Option Nat)
  | 0, _ => none
  | fuel + 1, current =>
    andThen (getRight t current) fun r =>
    if r ≠ none then predecessor_descend t fuel r else some current

/-- The loop `while (current->getParent() != nullptr && current ==
current->getParent()->getLeft()) current = current->getParent();` of
`predecessor`, followed by `return current->getParent()`. -/
def predecessor_ascend (t : BinarySearchTree K V) : Nat → Option Nat → Option (Option Nat)
  | 0, _ => none
  | fuel + 1, current =>
    andThen (getParent t current) fun p =>
    if p ≠ none then
      andThen (getLeft t p) fun pl =>
      if current = pl then predecessor_ascend t fuel p else some p
    else some p

/-- Static member `predecessor` (bst.h 491-507). -/
def predecessor (t : BinarySearchTree K V) (current : Option Nat) : Option (Option Nat) :=
  andThen (getLeft t current) fun l =>
  if l ≠ none then predecessor_descend t (t.mem.length + 1) l
  else predecessor_ascend t (t.mem.length + 1) current

/-- Member `nodeSwap` of the base class (bst.h 630-709). -/
def nodeSwap (t : BinarySearchTree K V) (n1 n2 : Option Nat) : Option (BinarySearchTree K V) :=
  if n1 = n2 ∨ n1 = none ∨ n2 = none then some t else
  andThen (getParent t n1) fun n1p =>
  andThen (getRight t n1) fun n1r =>
  andThen (getLeft t n1) fun n1lt =>
  andThen (if n1p ≠ none then andThen (getLeft t n1p) fun l => some (decide (n1 = l))
           else some false) fun n1isLeft =>
  andThen (getParent t n2) fun n2p =>
  andThen (getRight t n2) fun n2r =>
  andThen (getLeft t n2) fun n2lt =>
  andThen (if n2p ≠ none then andThen (getLeft t n2p) fun l => some (decide (n2 = l))
           else some false) fun n2isLeft =>
  -- swap the parent links
  andThen (getParent t n1) fun temp =>
  andThen (getParent t n2) fun q =>
  andThen (setParent t n1 q) fun t =>
  andThen (setParent t n2 temp) fun t =>
  -- swap the left links
  andThen (getLeft t n1) fun temp =>
  andThen (getLeft t n2) fun q =>
  andThen (setLeft t n1 q) fun t =>
  andThen (setLeft t n2 temp) fun t =>
  -- swap the right links
  andThen (getRight t n1) fun temp =>
  andThen (getRight t n2) fun q =>
  andThen (setRight t n1 q) fun t =>
  andThen (setRight t n2 temp) fun t =>
  -- the adjacent cases
  andThen (if n1r ≠ none ∧ n1r = n2 then
             andThen (setRight t n2 n1) fun t => setParent t n1 n2
           else if n2r ≠ none ∧ n2r = n1 then
             andThen (setRight t n1 n2) fun t => setParent t n2 n1
           else if n1lt ≠ none ∧ n1lt = n2 then
             andThen (setLeft t n2 n1) fun t => setParent t n1 n2
           else if n2lt ≠ none ∧ n2lt = n1 then
             andThen (setLeft t n1 n2) fun t => setParent t n2 n1
           else some t) fun t =>
  andThen (if n1p ≠ none ∧ n1p ≠ n2 then
             (if n1isLeft = true then setLeft t n1p n2 else setRight t n1p n2)
           else some t) fun t =>
  andThen (if n1r ≠ none ∧ n1r ≠ n2 then setParent t n1r n2 else some t) fun t =>
  andThen (if n1lt ≠ none ∧ n1lt ≠ n2 then setParent t n1lt n2 else some t) fun t =>
  andThen (if n2p ≠ none ∧ n2p ≠ n1 then
             (if n2isLeft = true then setLeft t n2p n1 else setRight t n2p n1)
           else some t) fun t =>
  andThen (if n2r ≠ none ∧ n2r ≠ n1 then setParent t n2r n1 else some t) fun t =>
  andThen (if n2lt ≠ none ∧ n2lt ≠ n1 then setParent t n2lt n1 else some t) fun t =>
  if t.root_ = n1 then some { t with root_ := n2 }
  else if t.root_ = n2 then some { t with root_ := n1 }
  else some t

/-- Recursive helper of `isBalanced` (bst.h 602-628): the height of the
subtree, or -1 when it is not balanced. -/
def isBalanced_helper (t : BinarySearchTree K V) : Nat → Option Nat → Option Int
  | _, none => some 0
  | 0, some _ => none
  | fuel + 1, some a =>
    andThen (getLeft t (some a)) fun l =>
    andThen (isBalanced_helper t fuel l) fun left =>
    andThen (getRight t (some a)) fun r =>
    andThen (isBalanced_helper t fuel r) fun right =>
    if left = -1 ∨ right = -1 then some (-1)
    else if left < right then
      (if right - left > 1 then some (-1) else some (right + 1))
    else
      (if left - right > 1 then some (-1) else some (left + 1))

/-- Member `isBalanced` (bst.h 594-600). -/
def isBalanced (t : BinarySearchTree K V) : Option Bool :=
  andThen (isBalanced_helper t t.mem.length t.root_) fun h => some (decide (h ≠ -1))

end BinarySearchTree

namespace AVLTree
variable {K V : Type}

/-- Member `rotate_right` (avlbst.h 271-292). -/
def rotate_right (t : AVLTree K V) (y : Option Nat) : Option (AVLTree K V) :=
  andThen (getLeft t y) fun x =>
  andThen (getRight t x) fun b =>
  andThen (getParent t y) fun p =>
  andThen (if p = none then some { t with root_ := x }
           else
             andThen (getLeft t p) fun pl =>
             if pl = y then setLeft t p x else setRight t p x) fun t =>
  andThen (setParent t y x) fun t =>
  andThen (setLeft t y b) fun t =>
  andThen (setParent t x p) fun t =>
  andThen (setRight t x y) fun t =>
  if b ≠ none then setParent t b y else some t

/-- Member `rotate_left` (avlbst.h 294-315). -/
def rotate_left (t : AVLTree K V) (x : Option Nat) : Option (AVLTree K V) :=
  andThen (getRight t x) fun y =>
  andThen (getLeft t y) fun b =>
  andThen (getParent t x) fun p =>
  andThen (if p = none then some { t with root_ := y }
           else
             andThen (getLeft t p) fun pl =>
             if pl = x then setLeft t p y else setRight t p y) fun t =>
  andThen (setParent t x y) fun t =>
  andThen (setRight t x b) fun t =>
  andThen (setParent t y p) fun t =>
  andThen (setLeft t y x) fun t =>
  if b ≠ none then setParent t b x else some t

/-- Member `insert_fix` (avlbst.h 189-269). -/
def insert_fix : Nat → AVLTree K V → Option Nat → Option Nat → Option (AVLTree K V)
  | 0, _, _, _ => none
  | fuel + 1, t, p, n =>
    if p = none then some t else
    andThen (getParent t p) fun g =>
    if g = none then some t else
    andThen (getLeft t g) fun gl =>
    if p = gl then
      -- p is left child
      andThen (getBalance t g) fun gb =>
      andThen (setBalance t g (gb - 1)) fun t =>
      andThen (getBalance t g) fun gb =>
      if gb = 0 then some t
      else if gb = -1 then insert_fix fuel t g p
      else if gb = -2 then
        andThen (getBalance t p) fun pb =>
        if pb = -1 then
          -- zig-zig
          andThen (rotate_right t g) fun t =>
          andThen (setBalance t p 0) fun t =>
          setBalance t g 0
        else
          -- zig-zag
          andThen (rotate_left t p) fun t =>
          andThen (rotate_right t g) fun t =>
          andThen (getBalance t n) fun nb =>
          andThen (if nb = -1 then
                     andThen (setBalance t p 0) fun t => setBalance t g 1
                   else if nb = 0 then
                     andThen (setBalance t p 0) fun t => setBalance t g 0
                   else if nb = 1 then
                     andThen (setBalance t p (-1)) fun t => setBalance t g 0
                   else some t) fun t =>
          setBalance t n 0
      else some t
    else
      -- p is right child
      andThen (getBalance t g) fun gb =>
      andThen (setBalance t g (gb + 1)) fun t =>
      andThen (getBalance t g) fun gb =>
      if gb = 0 then some t
      else if gb = 1 then insert_fix fuel t g p
      else if gb = 2 then
        andThen (getBalance t p) fun pb =>
        if pb = 1 then
          -- zig-zig
          andThen (rotate_left t g) fun t =>
          andThen (setBalance t p 0) fun t =>
          setBalance t g 0
        else
          -- zig-zag
          andThen (rotate_right t p) fun t =>
          andThen (rotate_left t g) fun t =>
          andThen (getBalance t n) fun nb =>
          andThen (if nb = 1 then
                     andThen (setBalance t p 0) fun t => setBalance t g (-1)
                   else if nb = 0 then
                     andThen (setBalance t p 0) fun t => setBalance t g 0
                   else if nb = -1 then
                     andThen (setBalance t p 1) fun t => setBalance t g 0
                   else some t) fun t =>
          setBalance t n 0
      else some t

/-- Member `insert_helper` (avlbst.h 151-187). -/
def insert_helper [LinearOrder K] (new_item : K × V) :
    Nat → AVLTree K V → Option Nat → Option (AVLTree K V)
  | 0, _, _ => none
  | fuel + 1, t, node =>
    andThen (getKey t node) fun key =>
    if new_item.1 < key then
      andThen (getLeft t node) fun l =>
      if l = none then
        let tn := new_AVLNode t new_item.1 new_item.2 node
        andThen (setLeft tn.1 node (some tn.2)) fun t =>
        andThen (getBalance t node) fun b =>
        if b ≠ 0 then
          setBalance t node 0
        else
          andThen (setBalance t node (-1)) fun t =>
          insert_fix (t.mem.length + 1) t node (some tn.2)
      else insert_helper new_item fuel t l
    else if new_item.1 = key then
      setValue t node new_item.2
    else
      -- new_item.first > node->getKey()
      andThen (getRight t node) fun r =>
      if r = none then
        let tn := new_AVLNode t new_item.1 new_item.2 node
        andThen (setRight tn.1 node (some tn.2)) fun t =>
        andThen (getBalance t node) fun b =>
        if b ≠ 0 then
          setBalance t node 0
        else
          andThen (setBalance t node 1) fun t =>
          insert_fix (t.mem.length + 1) t node (some tn.2)
      else insert_helper new_item fuel t r

/-- Member `insert` of `AVLTree` (avlbst.h 140-149). -/
def insert [LinearOrder K] (t : AVLTree K V) (new_item : K × V) : Option (AVLTree K V) :=
  if t.root_ = none then
    -- Tree is empty
    let tn := new_AVLNode t new_item.1 new_item.2 none
    some { tn.1 with root_ := some tn.2 }
  else
    insert_helper new_item (t.mem.length + 1) t t.root_

/-- Member `remove_fix` (avlbst.h 368-474). -/
def remove_fix : Nat → AVLTree K V → Option Nat → Int → Option (AVLTree K V)
  | 0, _, _, _ => none
  | fuel + 1, t, n, diff =>
    if n = none then some t else
    andThen (getParent t n) fun p =>
    andThen (if p ≠ none then
               andThen (getLeft t p) fun pl => some (if n = pl then (1 : Int) else -1)
             else some 0) fun ndiff =>
    andThen (getBalance t n) fun nb =>
    if nb + diff = -2 then
      andThen (getLeft t n) fun c =>
      andThen (getBalance t c) fun cb =>
      if cb = -1 then
        -- zig-zig case
        andThen (rotate_right t n) fun t =>
        andThen (setBalance t n 0) fun t =>
        andThen (setBalance t c 0) fun t =>
        remove_fix fuel t p ndiff
      else if cb = 0 then
        -- zig-zig case
        andThen (rotate_right t n) fun t =>
        andThen (setBalance t n (-1)) fun t =>
        setBalance t c 1
      else if cb = 1 then
        -- zig-zag case
        andThen (getRight t c) fun g =>
        andThen (rotate_left t c) fun t =>
        andThen (rotate_right t n) fun t =>
        andThen (getBalance t g) fun gb =>
        andThen (if gb = 1 then
                   andThen (setBalance t n 0) fun t => setBalance t c (-1)
                 else if gb = 0 then
                   andThen (setBalance t n 0) fun t => setBalance t c 0
                 else if gb = -1 then
                   andThen (setBalance t n 1) fun t => setBalance t c 0
                 else some t) fun t =>
        andThen (setBalance t g 0) fun t =>
        remove_fix fuel t p ndiff
      else some t
    else if nb + diff = 2 then
      andThen (getRight t n) fun c =>
      andThen (getBalance t c) fun cb =>
      if cb = 1 then
        -- zig-zig case
        andThen (rotate_left t n) fun t =>
        andThen (setBalance t n 0) fun t =>
        andThen (setBalance t c 0) fun t =>
        remove_fix fuel t p ndiff
      else if cb = 0 then
        -- zig-zig case
        andThen (rotate_left t n) fun t =>
        andThen (setBalance t n 1) fun t =>
        setBalance t c (-1)
      else if cb = -1 then
        -- zig-zag case
        andThen (getLeft t c) fun g =>
        andThen (rotate_right t c) fun t =>
        andThen (rotate_left t n) fun t =>
        andThen (getBalance t g) fun gb =>
        andThen (if gb = -1 then
                   andThen (setBalance t n 0) fun t => setBalance t c 1
                 else if gb = 0 then
                   andThen (setBalance t n 0) fun t => setBalance t c 0
                 else if gb = 1 then
                   andThen (setBalance t n (-1)) fun t => setBalance t c 0
                 else some t) fun t =>
        andThen (setBalance t g 0) fun t =>
        remove_fix fuel t p ndiff
      else some t
    else if nb + diff = -1 then setBalance t n (-1)
    else if nb + diff = 1 then setBalance t n 1
    else if nb + diff = 0 then
      andThen (setBalance t n 0) fun t =>
      remove_fix fuel t p ndiff
    else some t

/-- Member `nodeSwap` of `AVLTree` (avlbst.h 476-483). -/
def nodeSwap (t : AVLTree K V) (n1 n2 : Option Nat) : Option (AVLTree K V) :=
  andThen (BinarySearchTree.nodeSwap t n1 n2) fun t =>
  andThen (getBalance t n1) fun tempB =>
  andThen (getBalance t n2) fun b2 =>
  andThen (setBalance t n1 b2) fun t =>
  setBalance t n2 tempB

/-- Member `remove` of `AVLTree` (avlbst.h 321-366). -/
def remove [LinearOrder K] (t : AVLTree K V) (key : K) : Option (AVLTree K V) :=
  andThen (BinarySearchTree.internalFind t key) fun n =>
  if n = none then some t else
  andThen (getLeft t n) fun nl =>
  andThen (if nl ≠ none then andThen (getRight t n) fun nr => some (decide (nr ≠ none))
           else some false) fun two =>
  andThen (if two = true then
             -- n has two children
             andThen (BinarySearchTree.predecessor t n) fun pr => nodeSwap t n pr
           else some t) fun t =>
  andThen (getParent t n) fun p =>
  andThen (if p ≠ none then
             andThen (getLeft t p) fun pl => some (if n = pl then (1 : Int) else -1)
           else some 0) fun diff =>
  andThen (getLeft t n) fun c =>
  andThen (if c = none then getRight t n else some c) fun c =>
  andThen (delete t n) fun t =>
  -- Fix pointers
  andThen (if p = none then some { t with root_ := c }
           else if diff = 1 then setLeft t p c
           else setRight t p c) fun t =>
  andThen (if c ≠ none then setParent t c p else some t) fun t =>
  remove_fix (t.mem.length + 1) t p diff

end AVLTree

/-! ## The tree a heap represents

`Shape` is the tree drawn by the child links: every node carries the address
of its cell, its key, value and stored balance.  `Models t T` says that the
heap of `t` holds exactly this tree: each cell has the recorded contents, the
child links and the parent links agree with the drawing, no cell is used
twice, and `root_` points at the top node.
-/

/-- A binary tree of cells. -/
inductive Shape (K V : Type) where
  | nil : Shape K V
  | node (a : Nat) (l : Shape K V) (k : K) (v : V) (b : Int) (r : Shape K V) : Shape K V
deriving DecidableEq

/-- One step of a path from a node up to its parent: the parent's cell and the
sibling subtree; `left` when the path comes up from the left child. -/
inductive Frame (K V : Type) where
  | left (a : Nat) (k : K) (v : V) (b : Int) (r : Shape K V) : Frame K V
  | right (a : Nat) (l : Shape K V) (k : K) (v : V) (b : Int) : Frame K V
deriving DecidableEq

namespace Shape
variable {K V : Type}

/-- The pointer to the top node. -/
def ptr : Shape K V → Option Nat
  | nil => none
  | node a _ _ _ _ _ => some a

/-- The addresses of all cells of the tree. -/
def addrs : Shape K V → List Nat
  | nil => []
  | node a l _ _ _ r => a :: (addrs l ++ addrs r)

/-- The in-order sequence of (key, value) pairs. -/
def toList : Shape K V → List (K × V)
  | nil => []
  | node _ l k v _ r => toList l ++ (k, v) :: toList r

/-- The in-order sequence of keys. -/
def keys (t : Shape K V) : List K := (toList t).map Prod.fst

/-- The number of nodes. -/
def size : Shape K V → Nat
  | nil => 0
  | node _ l _ _ _ r => size l + 1 + size r

/-- The height, counted in nodes on the longest path to a leaf. -/
def height : Shape K V → Nat
  | nil => 0
  | node _ l _ _ _ r => max (height l) (height r) + 1

/-- Binary-search order: every key of a left subtree is smaller than the key
of the node and every key of a right subtree is larger. -/
def ordered [LinearOrder K] : Shape K V → Prop
  | nil => True
  | node _ l k _ _ r =>
    (∀ x ∈ keys l, x < k) ∧ (∀ x ∈ keys r, k < x) ∧ ordered l ∧ ordered r

/-- The AVL invariant on the stored balance factors: at every node the stored
balance equals height(right) - height(left) and lies in {-1, 0, 1}. -/
def balanced : Shape K V → Prop
  | nil => True
  | node _ l _ _ b r =>
    b = (height r : Int) - (height l : Int) ∧ -1 ≤ b ∧ b ≤ 1 ∧ balanced l ∧ balanced r

/-- Height balance without reference to the stored factors: at every node the
heights of the two subtrees differ by at most one. -/
def heightBalanced : Shape K V → Prop
  | nil => True
  | node _ l _ _ _ r =>
    (height l : Int) - (height r : Int) ≤ 1 ∧ (height r : Int) - (height l : Int) ≤ 1 ∧
      heightBalanced l ∧ heightBalanced r

/-- The value stored with a key, found by the search of `internalFind`. -/
def lookup [LinearOrder K] (key : K) : Shape K V → Option V
  | nil => none
  | node _ l k v _ r =>
    if key < k then lookup key l else if key = k then some v else lookup key r

/-- The cell found by the search of `internalFind`. -/
def locate [LinearOrder K] (key : K) : Shape K V → Option Nat
  | nil => none
  | node a l k _ _ r =>
    if key < k then locate key l else if key = k then some a else locate key r

/-- What `isBalanced_helper` computes on the subtree: its height, or -1 when
it is not balanced. -/
def isBalanced_helper : Shape K V → Int
  | nil => 0
  | node _ l _ _ _ r =>
    if isBalanced_helper l = -1 ∨ isBalanced_helper r = -1 then -1
    else if isBalanced_helper l < isBalanced_helper r then
      (if isBalanced_helper r - isBalanced_helper l > 1 then -1 else isBalanced_helper r + 1)
    else
      (if isBalanced_helper l - isBalanced_helper r > 1 then -1 else isBalanced_helper l + 1)

end Shape

namespace Frame
variable {K V : Type}

/-- The address of the parent cell. -/
def addr : Frame K V → Nat
  | left a _ _ _ _ => a
  | right a _ _ _ _ => a

/-- The parent node with the given subtree put in the open child slot. -/
def fill : Frame K V → Shape K V → Shape K V
  | left a k v b r, s => Shape.node a s k v b r
  | right a l k v b, s => Shape.node a l k v b s

/-- The sibling subtree. -/
def sibling : Frame K V → Shape K V
  | left _ _ _ _ r => r
  | right _ l _ _ _ => l

/-- The side argument of `remove_fix`: +1 below a left child slot, -1 below a
right child slot. -/
def diff : Frame K V → Int
  | left _ _ _ _ _ => 1
  | right _ _ _ _ _ => -1

end Frame

namespace Shape
variable {K V : Type}

/-- The whole tree: the subtree put back below the frames of the path, the
nearest parent first. -/
def plug : List (Frame K V) → Shape K V → Shape K V
  | [], s => s
  | f :: c, s => plug c (f.fill s)

/-- The pointer to the nearest parent on a path. -/
def pathPtr : List (Frame K V) → Option Nat
  | [] => none
  | f :: _ => some f.addr

/-- The addresses of the parent cells on a path. -/
def pathAddrs : List (Frame K V) → List Nat
  | [] => []
  | f :: c => f.addr :: (f.sibling.addrs ++ pathAddrs c)

/-- The pointer to the top node of the whole tree, given the pointer in the
open slot. -/
def pathRoot : List (Frame K V) → Option Nat → Option Nat
  | [], hole => hole
  | f :: c, _ => pathRoot c (some f.addr)

/-- The side argument `remove_fix` gets for the nearest parent on a path: +1
below a left child slot, -1 below a right child slot, 0 at the root. -/
def pathDiff : List (Frame K V) → Int
  | [] => 0
  | f :: _ => f.diff

/-- The entries of the whole tree that come before the open slot in order. -/
def pathBefore : List (Frame K V) → List (K × V)
  | [] => []
  | Frame.left _ _ _ _ _ :: c => pathBefore c
  | Frame.right _ l k v _ :: c => pathBefore c ++ (toList l ++ [(k, v)])

/-- The entries of the whole tree that come after the open slot in order. -/
def pathAfter : List (Frame K V) → List (K × V)
  | [] => []
  | Frame.left _ k v _ r :: c => ((k, v) :: toList r) ++ pathAfter c
  | Frame.right _ _ _ _ _ :: c => pathAfter c

/-- The AVL invariant on the frames of a path whose open slot holds a subtree
of height `h`. -/
def pathBalanced : List (Frame K V) → Nat → Prop
  | [], _ => True
  | Frame.left _ _ _ b r :: c, h =>
    b = (height r : Int) - (h : Int) ∧ -1 ≤ b ∧ b ≤ 1 ∧ balanced r ∧
      pathBalanced c (max h (height r) + 1)
  | Frame.right _ l _ _ b :: c, h =>
    b = (h : Int) - (height l : Int) ∧ -1 ≤ b ∧ b ≤ 1 ∧ balanced l ∧
      pathBalanced c (max (height l) h + 1)

/-- The height of the whole tree when the open slot holds a subtree of height
`h`. -/
def pathHeight : List (Frame K V) → Nat → Nat
  | [], h => h
  | f :: c, h => pathHeight c (max h (height f.sibling) + 1)

end Shape

section Entries
variable {K V : Type}

/-- A sorted sequence of entries with the entry for `k` set to `(k, v)`:
replaced where the key is present, put in at its sorted position otherwise. -/
def insertEntry [LinearOrder K] (k : K) (v : V) : List (K × V) → List (K × V)
  | [] => [(k, v)]
  | (k2, v2) :: rest =>
    if k < k2 then (k, v) :: (k2, v2) :: rest
    else if k = k2 then (k, v) :: rest
    else (k2, v2) :: insertEntry k v rest

/-- A sequence of entries without the entries for the key `k`. -/
def eraseEntry [DecidableEq K] (k : K) (l : List (K × V)) : List (K × V) :=
  l.filter (fun e => decide (e.1 ≠ k))

end Entries

section Representation
variable {K V : Type}

/-- The heap holds the subtree `s` below the parent pointer `par`: every cell
has the recorded key, value and balance, its child links point at the tops of
the two subtrees and its parent link is `par`. -/
def RepTree (t : BinarySearchTree K V) : Option Nat → Shape K V → Prop
  | _, Shape.nil => True
  | par, Shape.node a l k v b r =>
    deref t (some a) = some ⟨k, v, par, l.ptr, r.ptr, b⟩ ∧ RepTree t (some a) l ∧ RepTree t (some a) r

/-- The heap holds the frames of a path whose open slot contains the pointer
`hole`. -/
def RepPath (t : BinarySearchTree K V) : List (Frame K V) → Option Nat → Prop
  | [], _ => True
  | Frame.left a k v b r :: c, hole =>
    deref t (some a) = some ⟨k, v, Shape.pathPtr c, hole, r.ptr, b⟩ ∧ RepTree t (some a) r ∧
      RepPath t c (some a)
  | Frame.right a l k v b :: c, hole =>
    deref t (some a) = some ⟨k, v, Shape.pathPtr c, l.ptr, hole, b⟩ ∧ RepTree t (some a) l ∧
      RepPath t c (some a)

/-- The state `t` holds the tree `T`: `root_` points at its top node, the top
node has no parent, all links are consistent and no cell occurs twice. -/
def Models (t : BinarySearchTree K V) (T : Shape K V) : Prop :=
  t.root_ = T.ptr ∧ RepTree t none T ∧ T.addrs.Nodup

/-- The state `t` holds the tree `plug c s`, seen from the subtree `s`. -/
def ModelsAt (t : BinarySearchTree K V) (c : List (Frame K V)) (s : Shape K V) : Prop :=
  t.root_ = Shape.pathRoot c s.ptr ∧ RepPath t c s.ptr ∧ RepTree t (Shape.pathPtr c) s ∧
    (Shape.pathAddrs c ++ s.addrs).Nodup

/-- A valid AVL tree: a consistent heap whose keys are in binary-search order
and whose stored balance factors are the height differences, all in
{-1, 0, 1}. -/
def ValidAVL [LinearOrder K] (t : BinarySearchTree K V) (T : Shape K V) : Prop :=
  Models t T ∧ T.ordered ∧ T.balanced

end Representation

/-! ## The operations on the represented tree

Each function below is what the C++ member of the same name does to the tree
the heap represents; the refinement theorems relate them to the heap
operations.
-/

namespace Shape
variable {K V : Type}

/-- The path walked by `insert_helper` and `internalFind`: from the subtree
`s` below the path `c` down to the node carrying the key, or to the empty
slot where the search ends. -/
def descend [LinearOrder K] (key : K) : List (Frame K V) → Shape K V →
    List (Frame K V) × Shape K V
  | c, nil => (c, nil)
  | c, node a l k v b r =>
    if key < k then descend key (Frame.left a k v b r :: c) l
    else if key = k then (c, node a l k v b r)
    else descend key (Frame.right a l k v b :: c) r

/-- The path walked by the first loop of `predecessor`: down the right links
as far as they go. -/
def descendRight : List (Frame K V) → Shape K V → List (Frame K V) × Shape K V
  | c, nil => (c, nil)
  | c, node a l k v b nil => (c, node a l k v b nil)
  | c, node a l k v b (node a2 l2 k2 v2 b2 r2) =>
    descendRight (Frame.right a l k v b :: c) (node a2 l2 k2 v2 b2 r2)

/-- What `insert_fix(p, n)` does, where `s` is the subtree at `p` and `c` the
path above it. -/
def insert_fix : List (Frame K V) → Shape K V → Shape K V
  | [], s => s
  | Frame.left g kg vg bg R :: c, s =>
    -- p is left child
    if int8 (bg - 1) = 0 then plug c (node g s kg vg (int8 (bg - 1)) R)
    else if int8 (bg - 1) = -1 then insert_fix c (node g s kg vg (int8 (bg - 1)) R)
    else if int8 (bg - 1) = -2 then
      match s with
      | nil => plug c (node g s kg vg (int8 (bg - 1)) R)
      | node p A kp vp pb B =>
        if pb = -1 then
          -- zig-zig
          plug c (node p A kp vp 0 (node g B kg vg 0 R))
        else
          -- zig-zag
          match B with
          | nil => plug c (node g s kg vg (int8 (bg - 1)) R)
          | node n B1 kn vn nb B2 =>
            if nb = -1 then plug c (node n (node p A kp vp 0 B1) kn vn 0 (node g B2 kg vg 1 R))
            else if nb = 0 then
              plug c (node n (node p A kp vp 0 B1) kn vn 0 (node g B2 kg vg 0 R))
            else if nb = 1 then
              plug c (node n (node p A kp vp (-1) B1) kn vn 0 (node g B2 kg vg 0 R))
            else
              plug c (node n (node p A kp vp pb B1) kn vn 0 (node g B2 kg vg (int8 (bg - 1)) R))
    else plug c (node g s kg vg (int8 (bg - 1)) R)
  | Frame.right g L kg vg bg :: c, s =>
    -- p is right child
    if int8 (bg + 1) = 0 then plug c (node g L kg vg (int8 (bg + 1)) s)
    else if int8 (bg + 1) = 1 then insert_fix c (node g L kg vg (int8 (bg + 1)) s)
    else if int8 (bg + 1) = 2 then
      match s with
      | nil => plug c (node g L kg vg (int8 (bg + 1)) s)
      | node p A kp vp pb B =>
        if pb = 1 then
          -- zig-zig
          plug c (node p (node g L kg vg 0 A) kp vp 0 B)
        else
          -- zig-zag
          match A with
          | nil => plug c (node g L kg vg (int8 (bg + 1)) s)
          | node n A1 kn vn nb A2 =>
            if nb = 1 then plug c (node n (node g L kg vg (-1) A1) kn vn 0 (node p A2 kp vp 0 B))
            else if nb = 0 then
              plug c (node n (node g L kg vg 0 A1) kn vn 0 (node p A2 kp vp 0 B))
            else if nb = -1 then
              plug c (node n (node g L kg vg 0 A1) kn vn 0 (node p A2 kp vp 1 B))
            else
              plug c (node n (node g L kg vg (int8 (bg + 1)) A1) kn vn 0 (node p A2 kp vp pb B))
    else plug c (node g L kg vg (int8 (bg + 1)) s)

/-- What `insert_helper(new_item, node)` does, where `s` is the subtree at
`node`, `c` the path above it and `fresh` the address of the next new cell. -/
def insert_helper [LinearOrder K] (fresh : Nat) (new_item : K × V) :
    List (Frame K V) → Shape K V → Shape K V
  | c, nil => plug c nil
  | c, node a l k v b r =>
    if new_item.1 < k then
      if l.ptr = none then
        if b ≠ 0 then plug c (node a (node fresh nil new_item.1 new_item.2 0 nil) k v 0 r)
        else insert_fix c (node a (node fresh nil new_item.1 new_item.2 0 nil) k v (-1) r)
      else insert_helper fresh new_item (Frame.left a k v b r :: c) l
    else if new_item.1 = k then plug c (node a l k new_item.2 b r)
    else
      -- new_item.first > node->getKey()
      if r.ptr = none then
        if b ≠ 0 then plug c (node a l k v 0 (node fresh nil new_item.1 new_item.2 0 nil))
        else insert_fix c (node a l k v 1 (node fresh nil new_item.1 new_item.2 0 nil))
      else insert_helper fresh new_item (Frame.right a l k v b :: c) r

/-- What `AVLTree::insert` does; `fresh` is the address of the next new cell. -/
def insert [LinearOrder K] (fresh : Nat) (T : Shape K V) (new_item : K × V) : Shape K V :=
  match T with
  | nil => node fresh nil new_item.1 new_item.2 0 nil
  | node a l k v b r => insert_helper fresh new_item [] (node a l k v b r)

/-- One call of `remove_fix(n, diff)` up to its recursive call, on the subtree
at `n`: the new subtree and whether the fix-up goes on at the parent.  The
result is `none` where the code dereferences a null pointer. -/
def remove_step (diff : Int) : Shape K V → Option (Shape K V × Bool)
  | nil => none
  | node n L kn vn nb R =>
    if nb + diff = -2 then
      match L with
      | nil => none
      | node c A kc vc cb B =>
        if cb = -1 then some (node c A kc vc 0 (node n B kn vn 0 R), true)
        else if cb = 0 then some (node c A kc vc 1 (node n B kn vn (-1) R), false)
        else if cb = 1 then
          match B with
          | nil => none
          | node g B1 kg vg gb B2 =>
            if gb = 1 then
              some (node g (node c A kc vc (-1) B1) kg vg 0 (node n B2 kn vn 0 R), true)
            else if gb = 0 then
              some (node g (node c A kc vc 0 B1) kg vg 0 (node n B2 kn vn 0 R), true)
            else if gb = -1 then
              some (node g (node c A kc vc 0 B1) kg vg 0 (node n B2 kn vn 1 R), true)
            else
              some (node g (node c A kc vc cb B1) kg vg 0 (node n B2 kn vn nb R), true)
        else some (node n L kn vn nb R, false)
    else if nb + diff = 2 then
      match R with
      | nil => none
      | node c A kc vc cb B =>
        if cb = 1 then some (node c (node n L kn vn 0 A) kc vc 0 B, true)
        else if cb = 0 then some (node c (node n L kn vn 1 A) kc vc (-1) B, false)
        else if cb = -1 then
          match A with
          | nil => none
          | node g A1 kg vg gb A2 =>
            if gb = -1 then
              some (node g (node n L kn vn 0 A1) kg vg 0 (node c A2 kc vc 1 B), true)
            else if gb = 0 then
              some (node g (node n L kn vn 0 A1) kg vg 0 (node c A2 kc vc 0 B), true)
            else if gb = 1 then
              some (node g (node n L kn vn (-1) A1) kg vg 0 (node c A2 kc vc 0 B), true)
            else
              some (node g (node n L kn vn nb A1) kg vg 0 (node c A2 kc vc cb B), true)
        else some (node n L kn vn nb R, false)
    else if nb + diff = -1 then some (node n L kn vn (-1) R, false)
    else if nb + diff = 1 then some (node n L kn vn 1 R, false)
    else if nb + diff = 0 then some (node n L kn vn 0 R, true)
    else some (node n L kn vn nb R, false)

/-- What `remove_fix(n, diff)` does, where `n` is the nearest parent on the
path `c`, `diff` the side of its open slot and `s` the subtree now in that
slot. -/
def remove_fix : List (Frame K V) → Shape K V → Option (Shape K V)
  | [], s => some s
  | f :: c, s =>
    match remove_step f.diff (f.fill s) with
    | none => none
    | some (s2, true) => remove_fix c s2
    | some (s2, false) => some (plug c s2)

/-- What `AVLTree::remove` does. -/
def remove [LinearOrder K] (T : Shape K V) (key : K) : Option (Shape K V) :=
  match descend key [] T with
  | (_, nil) => some T
  | (c, node _ L _ _ nb R) =>
    match L, R with
    | node al ll kl vl bl rl, node _ _ _ _ _ _ =>
      -- n has two children: swap with the predecessor, then unlink n
      match descendRight [] (node al ll kl vl bl rl) with
      | (_, nil) => none
      | (cm, node m ML km vm _ MR) =>
        remove_fix (cm ++ Frame.left m km vm (int8 nb) R :: c) (if ML.ptr = none then MR else ML)
    | nil, _ => remove_fix c R
    | node al ll kl vl bl rl, nil => remove_fix c (node al ll kl vl bl rl)

end Shape

/-! ## Reachable states and a sample tree -/

/-- The states an `AVLTree` object can be in: the state the constructor leaves
and every state a returning call of `insert` or `remove` leaves. -/
inductive Reachable {K V : Type} [LinearOrder K] : AVLTree K V → Prop
  | empty : Reachable BinarySearchTree.empty_tree
  | insert (t : AVLTree K V) (new_item : K × V) (t2 : AVLTree K V) :
      Reachable t → AVLTree.insert t new_item = some t2 → Reachable t2
  | remove (t : AVLTree K V) (key : K) (t2 : AVLTree K V) :
      Reachable t → AVLTree.remove t key = some t2 → Reachable t2

/-- The heap after the calls `insert(20,200)`, `insert(10,100)`,
`insert(30,300)`, `insert(25,250)` on a new tree. -/
def sampleTree : AVLTree Nat Nat :=
  { mem := [some ⟨20, 200, none, some 1, some 2, 1⟩,
            some ⟨10, 100, some 0, none, none, 0⟩,
            some ⟨30, 300, some 0, some 3, none, -1⟩,
            some ⟨25, 250, some 2, none, none, 0⟩],
    root_ := some 0 }

/-- The tree drawn by the links of `sampleTree`. -/
def sampleShape : Shape Nat Nat :=
  Shape.node 0 (Shape.node 1 Shape.nil 10 100 0 Shape.nil) 20 200 1
    (Shape.node 2 (Shape.node 3 Shape.nil 25 250 0 Shape.nil) 30 300 (-1) Shape.nil)

/-! ## Iteration, `clear` and `empty` of the base class (`bst.h`) -/

namespace BinarySearchTree
variable {K V : Type}

/-- Member `empty` (bst.h 336-339): `return root_ == NULL`. -/
def empty (t : BinarySearchTree K V) : Bool := decide (t.root_ = none)

/-- The call `p->getItem()`. -/
def getItem (t : BinarySearchTree K V) (p : Option Nat) : Option (K × V) :=
  (deref t p).map (fun n => (n.key, n.value))

/-- The loop `while (node->getLeft() != nullptr) node = node->getLeft();` of
`getSmallestNode`, followed by `return node`. -/
def getSmallestNode_loop (t : BinarySearchTree K V) : Nat → Option Nat → Option (Option Nat)
  | 0, _ => none
  | fuel + 1, node =>
    andThen (getLeft t node) fun l =>
    if l ≠ none then getSmallestNode_loop t fuel l else some node

/-- Member `getSmallestNode` (bst.h 549-564). -/
def getSmallestNode (t : BinarySearchTree K V) : Option (Option Nat) :=
  if t.root_ = none then some none
  else getSmallestNode_loop t (t.mem.length + 1) t.root_

/-- Member `begin` (bst.h 350-355); an iterator is modelled by its `current_`
pointer. -/
def begin (t : BinarySearchTree K V) : Option (Option Nat) := getSmallestNode t

/-- The loop `while (current->getLeft() != nullptr) current = current->getLeft();`
of `successor`, followed by `return current`. -/
def successor_descend (t : BinarySearchTree K V) : Nat → Option Nat → Option (Option Nat)
  | 0, _ => none
  | fuel + 1, current =>
    andThen (getLeft t current) fun l =>
    if l ≠ none then successor_descend t fuel l else some current

/-- The loop `while (current->getParent() != nullptr && current ==
current->getParent()->getRight()) current = current->getParent();` of
`successor`, followed by `return current->getParent()`. -/
def successor_ascend (t : BinarySearchTree K V) : Nat → Option Nat → Option (Option Nat)
  | 0, _ => none
  | fuel + 1, current =>
    andThen (getParent t current) fun p =>
    if p ≠ none then
      andThen (getRight t p) fun pr =>
      if current = pr then successor_ascend t fuel p else some p
    else some p

/-- Static member `successor` (bst.h 509-525). -/
def successor (t : BinarySearchTree K V) (current : Option Nat) : Option (Option Nat) :=
  andThen (getRight t current) fun r =>
  if r ≠ none then successor_descend t (t.mem.length + 1) r
  else successor_ascend t (t.mem.length + 1) current

/-- Recursive helper of `clear` (bst.h 537-547). -/
def clear_helper : Nat → BinarySearchTree K V → Option Nat → Option (BinarySearchTree K V)
  | _, t, none => some t
  | 0, _, some _ => none
  | fuel + 1, t, some a =>
    andThen (getLeft t (some a)) fun l =>
    andThen (clear_helper fuel t l) fun t =>
    andThen (getRight t (some a)) fun r =>
    andThen (clear_helper fuel t r) fun t =>
    delete t (some a)

/-- Member `clear` (bst.h 527-535). -/
def clear (t : BinarySearchTree K V) : Option (BinarySearchTree K V) :=
  andThen (clear_helper t.mem.length t t.root_) fun t => some { t with root_ := none }

end BinarySearchTree

/-! ## The iterator of the base class -/

namespace iterator
variable {K V : Type}

/-- Member `operator*` of the iterator (bst.h 263-268): `current_->getItem()`. -/
def operator_star (t : BinarySearchTree K V) (current_ : Option Nat) : Option (K × V) :=
  BinarySearchTree.getItem t current_

/-- Member `operator==` of the iterator (bst.h 280-285): equality of the
`current_` pointers. -/
def operator_eq (current_ rhs : Option Nat) : Bool := decide (current_ = rhs)

/-- Member `operator!=` of the iterator (bst.h 291-296). -/
def operator_ne (current_ rhs : Option Nat) : Bool := decide (current_ ≠ rhs)

/-- Member `operator++` of the iterator (bst.h 301-306): `current_ =
successor(current_)`. -/
def operator_inc (t : BinarySearchTree K V) (current_ : Option Nat) : Option (Option Nat) :=
  BinarySearchTree.successor t current_

/-- The client loop `for (it = first; it != end(); ++it)` that records at
every step the node the iterator stands at and the item `*it` read there. -/
def loop (t : BinarySearchTree K V) : Nat → Option Nat → Option (List (Nat × (K × V)))
  | 0, _ => none
  | fuel + 1, it =>
    if operator_ne it (BinarySearchTree.end_ t) = true then
      match it with
      | none => none
      | some a =>
        andThen (operator_star t (some a)) fun item =>
        andThen (operator_inc t (some a)) fun next =>
        andThen (loop t fuel next) fun rest => some ((a, item) :: rest)
    else some []

/-- The client loop `for (it = begin(); it != end(); ++it)`. -/
def traverse (t : BinarySearchTree K V) : Option (List (Nat × (K × V))) :=
  andThen (BinarySearchTree.begin t) fun it => loop t (t.mem.length + 1) it

end iterator

/-! ## The path-length check of `equal-paths.cpp` -/

namespace EqualPaths

/-- The `Node` of `equal-paths.h` as `path_len` walks it: the tree below the
`left` and `right` pointers, with `nullptr` for a null pointer.  The key is
carried along and never read. -/
inductive Node where
  | nullptr : Node
  | node (left : Node) (key : Int) (right : Node) : Node
deriving DecidableEq

/-- Function `path_len` (equal-paths.cpp 5-23); -1 denotes mismatching
paths. -/
def path_len : Node → Int
  | Node.nullptr => 0
  | Node.node left _ right =>
    if path_len left = -1 ∨ path_len right = -1 then -1
    else if path_len left = 0 then path_len right + 1
    else if path_len right = 0 then path_len left + 1
    else if path_len left ≠ path_len right then -1
    else path_len left + 1

/-- Function `equalPaths` (equal-paths.cpp 25). -/
def equalPaths (root : Node) : Bool := decide (path_len root ≠ -1)

/-- The lengths, counted in nodes, of all paths from the root to a leaf (a
node without children): the property `equalPaths` is meant to decide is that
all of them are equal. -/
def leafDepths : Node → List Nat
  | Node.nullptr => []
  | Node.node left _ right =>
    if left = Node.nullptr ∧ right = Node.nullptr then [1]
    else (leafDepths left ++ leafDepths right).map (· + 1)

end EqualPaths

/-! ## Sequences of calls -/

/-- The calls `insert(item)` for the items of a list, one after the other. -/
def insertAll {K V : Type} [LinearOrder K] :
    AVLTree K V → List (K × V) → Option (AVLTree K V)
  | t, [] => some t
  | t, new_item :: rest => andThen (AVLTree.insert t new_item) fun t2 => insertAll t2 rest

/-! ## The nodes of the represented tree in order -/

namespace Shape
variable {K V : Type}

/-- The in-order sequence of the nodes: the address of each cell with its
(key, value) pair. -/
def cells : Shape K V → List (Nat × (K × V))
  | nil => []
  | node a l k v _ r => cells l ++ (a, (k, v)) :: cells r

/-- The nodes of the whole tree that come before the open slot in order. -/
def pathBeforeCells : List (Frame K V) → List (Nat × (K × V))
  | [] => []
  | Frame.left _ _ _ _ _ :: c => pathBeforeCells c
  | Frame.right a l k v _ :: c => pathBeforeCells c ++ (cells l ++ [(a, (k, v))])

/-- The nodes of the whole tree that come after the open slot in order. -/
def pathAfterCells : List (Frame K V) → List (Nat × (K × V))
  | [] => []
  | Frame.left a k v _ r :: c => ((a, (k, v)) :: cells r) ++ pathAfterCells c
  | Frame.right _ _ _ _ _ :: c => pathAfterCells c

end Shape

/-- The heap after the calls `insert(3,30)`, `insert(2,20)`, `insert(4,40)`,
`insert(1,10)`, `insert(5,50)` on a new tree. -/
def scenarioTree : AVLTree Nat Nat :=
  { mem := [some ⟨3, 30, none, some 1, some 2, 0⟩,
            some ⟨2, 20, some 0, some 3, none, -1⟩,
            some ⟨4, 40, some 0, none, some 4, 1⟩,
            some ⟨1, 10, some 1, none, none, 0⟩,
            some ⟨5, 50, some 2, none, none, 0⟩],
    root_ := some 0 }

/-! ## `insert` with a record of the rotation steps

The three functions below are `insert_fix`, `insert_helper` and `insert` of
`avlbst.h` once more, statement by statement; in addition each call hands back
the list of the nodes `g` whose balance it found at -2 or 2 after the update,
which are the nodes at which it performed a rotation step (one single or one
double rotation), in the order of the steps. -/

namespace AVLTree
variable {K V : Type}

/-- Member `insert_fix` (avlbst.h 189-269) with the record of the rotation
steps. -/
def insert_fix_traced :
    Nat → AVLTree K V → Option Nat → Option Nat → Option (AVLTree K V × List (Option Nat))
  | 0, _, _, _ => none
  | fuel + 1, t, p, n =>
    if p = none then some (t, []) else
    andThen (getParent t p) fun g =>
    if g = none then some (t, []) else
    andThen (getLeft t g) fun gl =>
    if p = gl then
      -- p is left child
      andThen (getBalance t g) fun gb =>
      andThen (setBalance t g (gb - 1)) fun t =>
      andThen (getBalance t g) fun gb =>
      if gb = 0 then some (t, [])
      else if gb = -1 then insert_fix_traced fuel t g p
      else if gb = -2 then
        andThen (getBalance t p) fun pb =>
        if pb = -1 then
          -- zig-zig
          andThen (rotate_right t g) fun t =>
          andThen (setBalance t p 0) fun t =>
          andThen (setBalance t g 0) fun t => some (t, [g])
        else
          -- zig-zag
          andThen (rotate_left t p) fun t =>
          andThen (rotate_right t g) fun t =>
          andThen (getBalance t n) fun nb =>
          andThen (if nb = -1 then
                     andThen (setBalance t p 0) fun t => setBalance t g 1
                   else if nb = 0 then
                     andThen (setBalance t p 0) fun t => setBalance t g 0
                   else if nb = 1 then
                     andThen (setBalance t p (-1)) fun t => setBalance t g 0
                   else some t) fun t =>
          andThen (setBalance t n 0) fun t => some (t, [g])
      else some (t, [])
    else
      -- p is right child
      andThen (getBalance t g) fun gb =>
      andThen (setBalance t g (gb + 1)) fun t =>
      andThen (getBalance t g) fun gb =>
      if gb = 0 then some (t, [])
      else if gb = 1 then insert_fix_traced fuel t g p
      else if gb = 2 then
        andThen (getBalance t p) fun pb =>
        if pb = 1 then
          -- zig-zig
          andThen (rotate_left t g) fun t =>
          andThen (setBalance t p 0) fun t =>
          andThen (setBalance t g 0) fun t => some (t, [g])
        else
          -- zig-zag
          andThen (rotate_right t p) fun t =>
          andThen (rotate_left t g) fun t =>
          andThen (getBalance t n) fun nb =>
          andThen (if nb = 1 then
                     andThen (setBalance t p 0) fun t => setBalance t g (-1)
                   else if nb = 0 then
                     andThen (setBalance t p 0) fun t => setBalance t g 0
                   else if nb = -1 then
                     andThen (setBalance t p 1) fun t => setBalance t g 0
                   else some t) fun t =>
          andThen (setBalance t n 0) fun t => some (t, [g])
      else some (t, [])

/-- Member `insert_helper` (avlbst.h 151-187) with the record of the rotation
steps. -/
def insert_helper_traced [LinearOrder K] (new_item : K × V) :
    Nat → AVLTree K V → Option Nat → Option (AVLTree K V × List (Option Nat))
  | 0, _, _ => none
  | fuel + 1, t, node =>
    andThen (getKey t node) fun key =>
    if new_item.1 < key then
      andThen (getLeft t node) fun l =>
      if l = none then
        let tn := new_AVLNode t new_item.1 new_item.2 node
        andThen (setLeft tn.1 node (some tn.2)) fun t =>
        andThen (getBalance t node) fun b =>
        if b ≠ 0 then
          andThen (setBalance t node 0) fun t => some (t, [])
        else
          andThen (setBalance t node (-1)) fun t =>
          insert_fix_traced (t.mem.length + 1) t node (some tn.2)
      else insert_helper_traced new_item fuel t l
    else if new_item.1 = key then
      andThen (setValue t node new_item.2) fun t => some (t, [])
    else
      -- new_item.first > node->getKey()
      andThen (getRight t node) fun r =>
      if r = none then
        let tn := new_AVLNode t new_item.1 new_item.2 node
        andThen (setRight tn.1 node (some tn.2)) fun t =>
        andThen (getBalance t node) fun b =>
        if b ≠ 0 then
          andThen (setBalance t node 0) fun t => some (t, [])
        else
          andThen (setBalance t node 1) fun t =>
          insert_fix_traced (t.mem.length + 1) t node (some tn.2)
      else insert_helper_traced new_item fuel t r

/-- Member `insert` of `AVLTree` (avlbst.h 140-149) with the record of the
rotation steps. -/
def insert_traced [LinearOrder K] (t : AVLTree K V) (new_item : K × V) :
    Option (AVLTree K V × List (Option Nat)) :=
  if t.root_ = none then
    -- Tree is empty
    let tn := new_AVLNode t new_item.1 new_item.2 none
    some ({ tn.1 with root_ := some tn.2 }, [])
  else
    insert_helper_traced new_item (t.mem.length + 1) t t.root_

end AVLTree

namespace Shape
variable {K V : Type}

/-- The rotation steps of `insert_fix(p, n)`, where `s` is the subtree at `p`
and `c` the path above it. -/
def insert_fix_trace : List (Frame K V) → Shape K V → List (Option Nat)
  | [], _ => []
  | Frame.left g kg vg bg R :: c, s =>
    if int8 (bg - 1) = 0 then []
    else if int8 (bg - 1) = -1 then insert_fix_trace c (node g s kg vg (int8 (bg - 1)) R)
    else if int8 (bg - 1) = -2 then [some g]
    else []
  | Frame.right g L kg vg bg :: c, s =>
    if int8 (bg + 1) = 0 then []
    else if int8 (bg + 1) = 1 then insert_fix_trace c (node g L kg vg (int8 (bg + 1)) s)
    else if int8 (bg + 1) = 2 then [some g]
    else []

/-- The rotation steps of `insert_helper(new_item, node)`, where `s` is the
subtree at `node` and `c` the path above it. -/
def insert_helper_trace [LinearOrder K] (fresh : Nat) (new_item : K × V) :
    List (Frame K V) → Shape K V → List (Option Nat)
  | _, nil => []
  | c, node a l k v b r =>
    if new_item.1 < k then
      if l.ptr = none then
        if b ≠ 0 then []
        else insert_fix_trace c (node a (node fresh nil new_item.1 new_item.2 0 nil) k v (-1) r)
      else insert_helper_trace fresh new_item (Frame.left a k v b r :: c) l
    else if new_item.1 = k then []
    else
      if r.ptr = none then
        if b ≠ 0 then []
        else insert_fix_trace c (node a l k v 1 (node fresh nil new_item.1 new_item.2 0 nil))
      else insert_helper_trace fresh new_item (Frame.right a l k v b :: c) r

/-- The rotation steps of `AVLTree::insert`. -/
def insert_trace [LinearOrder K] (fresh : Nat) (T : Shape K V) (new_item : K × V) :
    List (Option Nat) :=
  match T with
  | nil => []
  | node a l k v b r => insert_helper_trace fresh new_item [] (node a l k v b r)

end Shape

/-! ## A heap in the middle of a removal -/

/-- The heap in the middle of `remove(30)` on the tree built from the keys
20, 10, 30, 5, 15: the leaf 30 is unlinked and deleted and `remove_fix` is
about to be called on the node with key 20 with `diff = -1`. -/
def fixupTree : AVLTree Nat Nat :=
  { mem := [some ⟨20, 200, none, some 1, none, -1⟩,
            some ⟨10, 100, some 0, some 3, some 4, 0⟩,
            none,
            some ⟨5, 50, some 1, none, none, 0⟩,
            some ⟨15, 150, some 1, none, none, 0⟩],
    root_ := some 0 }

/-- The left subtree of the node with key 20 in `fixupTree`. -/
def fixupLeft : Shape Nat Nat :=
  Shape.node 1 (Shape.node 3 Shape.nil 5 50 0 Shape.nil) 10 100 0
    (Shape.node 4 Shape.nil 15 150 0 Shape.nil)

/-! ## `insert` and `remove` with every `switch` checked

The functions below are `insert_fix`, `insert_helper`, `insert`, `remove_fix`
and `remove` of `AVLTree` once more, with one difference: where a `switch` on a
balance value has no case for the value, the call fails instead of leaving the
`switch`.  As everywhere, a call also fails where it reads or writes through a
null pointer. -/

namespace AVLTree
variable {K V : Type}

/-- Member `insert_fix` (avlbst.h 189-269) with every `switch` checked. -/
def insert_fix_checked : Nat → AVLTree K V → Option Nat → Option Nat → Option (AVLTree K V)
  | 0, _, _, _ => none
  | fuel + 1, t, p, n =>
    if p = none then some t else
    andThen (getParent t p) fun g =>
    if g = none then some t else
    andThen (getLeft t g) fun gl =>
    if p = gl then
      -- p is left child
      andThen (getBalance t g) fun gb =>
      andThen (setBalance t g (gb - 1)) fun t =>
      andThen (getBalance t g) fun gb =>
      if gb = 0 then some t
      else if gb = -1 then insert_fix_checked fuel t g p
      else if gb = -2 then
        andThen (getBalance t p) fun pb =>
        if pb = -1 then
          -- zig-zig
          andThen (rotate_right t g) fun t =>
          andThen (setBalance t p 0) fun t =>
          setBalance t g 0
        else
          -- zig-zag
          andThen (rotate_left t p) fun t =>
          andThen (rotate_right t g) fun t =>
          andThen (getBalance t n) fun nb =>
          andThen (if nb = -1 then
                     andThen (setBalance t p 0) fun t => setBalance t g 1
                   else if nb = 0 then
                     andThen (setBalance t p 0) fun t => setBalance t g 0
                   else if nb = 1 then
                     andThen (setBalance t p (-1)) fun t => setBalance t g 0
                   else none) fun t =>
          setBalance t n 0
      else none
    else
      -- p is right child
      andThen (getBalance t g) fun gb =>
      andThen (setBalance t g (gb + 1)) fun t =>
      andThen (getBalance t g) fun gb =>
      if gb = 0 then some t
      else if gb = 1 then insert_fix_checked fuel t g p
      else if gb = 2 then
        andThen (getBalance t p) fun pb =>
        if pb = 1 then
          -- zig-zig
          andThen (rotate_left t g) fun t =>
          andThen (setBalance t p 0) fun t =>
          setBalance t g 0
        else
          -- zig-zag
          andThen (rotate_right t p) fun t =>
          andThen (rotate_left t g) fun t =>
          andThen (getBalance t n) fun nb =>
          andThen (if nb = 1 then
                     andThen (setBalance t p 0) fun t => setBalance t g (-1)
                   else if nb = 0 then
                     andThen (setBalance t p 0) fun t => setBalance t g 0
                   else if nb = -1 then
                     andThen (setBalance t p 1) fun t => setBalance t g 0
                   else none) fun t =>
          setBalance t n 0
      else none

/-- Member `insert_helper` (avlbst.h 151-187), calling the checked
`insert_fix`. -/
def insert_helper_checked [LinearOrder K] (new_item : K × V) :
    Nat → AVLTree K V → Option Nat → Option (AVLTree K V)
  | 0, _, _ => none
  | fuel + 1, t, node =>
    andThen (getKey t node) fun key =>
    if new_item.1 < key then
      andThen (getLeft t node) fun l =>
      if l = none then
        let tn := new_AVLNode t new_item.1 new_item.2 node
        andThen (setLeft tn.1 node (some tn.2)) fun t =>
        andThen (getBalance t node) fun b =>
        if b ≠ 0 then
          setBalance t node 0
        else
          andThen (setBalance t node (-1)) fun t =>
          insert_fix_checked (t.mem.length + 1) t node (some tn.2)
      else insert_helper_checked new_item fuel t l
    else if new_item.1 = key then
      setValue t node new_item.2
    else
      -- new_item.first > node->getKey()
      andThen (getRight t node) fun r =>
      if r = none then
        let tn := new_AVLNode t new_item.1 new_item.2 node
        andThen (setRight tn.1 node (some tn.2)) fun t =>
        andThen (getBalance t node) fun b =>
        if b ≠ 0 then
          setBalance t node 0
        else
          andThen (setBalance t node 1) fun t =>
          insert_fix_checked (t.mem.length + 1) t node (some tn.2)
      else insert_helper_checked new_item fuel t r

/-- Member `insert` of `AVLTree` (avlbst.h 140-149), calling the checked
`insert_helper`. -/
def insert_checked [LinearOrder K] (t : AVLTree K V) (new_item : K × V) : Option (AVLTree K V) :=
  if t.root_ = none then
    -- Tree is empty
    let tn := new_AVLNode t new_item.1 new_item.2 none
    some { tn.1 with root_ := some tn.2 }
  else
    insert_helper_checked new_item (t.mem.length + 1) t t.root_

/-- Member `remove_fix` (avlbst.h 368-474) with every `switch` checked. -/
def remove_fix_checked : Nat → AVLTree K V → Option Nat → Int → Option (AVLTree K V)
  | 0, _, _, _ => none
  | fuel + 1, t, n, diff =>
    if n = none then some t else
    andThen (getParent t n) fun p =>
    andThen (if p ≠ none then
               andThen (getLeft t p) fun pl => some (if n = pl then (1 : Int) else -1)
             else some 0) fun ndiff =>
    andThen (getBalance t n) fun nb =>
    if nb + diff = -2 then
      andThen (getLeft t n) fun c =>
      andThen (getBalance t c) fun cb =>
      if cb = -1 then
        -- zig-zig case
        andThen (rotate_right t n) fun t =>
        andThen (setBalance t n 0) fun t =>
        andThen (setBalance t c 0) fun t =>
        remove_fix_checked fuel t p ndiff
      else if cb = 0 then
        -- zig-zig case
        andThen (rotate_right t n) fun t =>
        andThen (setBalance t n (-1)) fun t =>
        setBalance t c 1
      else if cb = 1 then
        -- zig-zag case
        andThen (getRight t c) fun g =>
        andThen (rotate_left t c) fun t =>
        andThen (rotate_right t n) fun t =>
        andThen (getBalance t g) fun gb =>
        andThen (if gb = 1 then
                   andThen (setBalance t n 0) fun t => setBalance t c (-1)
                 else if gb = 0 then
                   andThen (setBalance t n 0) fun t => setBalance t c 0
                 else if gb = -1 then
                   andThen (setBalance t n 1) fun t => setBalance t c 0
                 else none) fun t =>
        andThen (setBalance t g 0) fun t =>
        remove_fix_checked fuel t p ndiff
      else none
    else if nb + diff = 2 then
      andThen (getRight t n) fun c =>
      andThen (getBalance t c) fun cb =>
      if cb = 1 then
        -- zig-zig case
        andThen (rotate_left t n) fun t =>
        andThen (setBalance t n 0) fun t =>
        andThen (setBalance t c 0) fun t =>
        remove_fix_checked fuel t p ndiff
      else if cb = 0 then
        -- zig-zig case
        andThen (rotate_left t n) fun t =>
        andThen (setBalance t n 1) fun t =>
        setBalance t c (-1)
      else if cb = -1 then
        -- zig-zag case
        andThen (getLeft t c) fun g =>
        andThen (rotate_right t c) fun t =>
        andThen (rotate_left t n) fun t =>
        andThen (getBalance t g) fun gb =>
        andThen (if gb = -1 then
                   andThen (setBalance t n 0) fun t => setBalance t c 1
                 else if gb = 0 then
                   andThen (setBalance t n 0) fun t => setBalance t c 0
                 else if gb = 1 then
                   andThen (setBalance t n (-1)) fun t => setBalance t c 0
                 else none) fun t =>
        andThen (setBalance t g 0) fun t =>
        remove_fix_checked fuel t p ndiff
      else none
    else if nb + diff = -1 then setBalance t n (-1)
    else if nb + diff = 1 then setBalance t n 1
    else if nb + diff = 0 then
      andThen (setBalance t n 0) fun t =>
      remove_fix_checked fuel t p ndiff
    else none

/-- Member `remove` of `AVLTree` (avlbst.h 321-366), calling the checked
`remove_fix`. -/
def remove_checked [LinearOrder K] (t : AVLTree K V) (key : K) : Option (AVLTree K V) :=
  andThen (BinarySearchTree.internalFind t key) fun n =>
  if n = none then some t else
  andThen (getLeft t n) fun nl =>
  andThen (if nl ≠ none then andThen (getRight t n) fun nr => some (decide (nr ≠ none))
           else some false) fun two =>
  andThen (if two = true then
             -- n has two children
             andThen (BinarySearchTree.predecessor t n) fun pr => nodeSwap t n pr
           else some t) fun t =>
  andThen (getParent t n) fun p =>
  andThen (if p ≠ none then
             andThen (getLeft t p) fun pl => some (if n = pl then (1 : Int) else -1)
           else some 0) fun diff =>
  andThen (getLeft t n) fun c =>
  andThen (if c = none then getRight t n else some c) fun c =>
  andThen (delete t n) fun t =>
  -- Fix pointers
  andThen (if p = none then some { t with root_ := c }
           else if diff = 1 then setLeft t p c
           else setRight t p c) fun t =>
  andThen (if c ≠ none then setParent t c p else some t) fun t =>
  remove_fix_checked (t.mem.length + 1) t p diff

end AVLTree

/-! ## Two nodes changing places -/

/-- The address of the node that stands where the node `a` stood, after the
nodes `n1` and `n2` have changed places. -/
def swapAddr (n1 n2 a : Nat) : Nat :=
  if a = n1 then n2 else if a = n2 then n1 else a

/-- A pointer after the nodes `n1` and `n2` have changed places. -/
def swapPtr (n1 n2 : Nat) : Option Nat → Option Nat
  | none => none
  | some a => some (swapAddr n1 n2 a)

namespace Shape
variable {K V : Type}

/-- The number of links from the top node down to the node `a`. -/
def depthOf (a : Nat) : Shape K V → Nat
  | nil => 0
  | node x l _ _ _ r =>
    if x = a then 0 else if a ∈ addrs l then depthOf a l + 1 else depthOf a r + 1

/-- The tree after the nodes `n1` and `n2`, with cells `c1` and `c2`, have
changed places: every place keeps its parent and children, the place of `n1`
holds `n2` with the key, value and balance of its cell, and the place of `n2`
holds `n1` with the key, value and balance of its cell. -/
def swapNodes (n1 n2 : Nat) (c1 c2 : AVLNode K V) : Shape K V → Shape K V
  | nil => nil
  | node a l k v b r =>
    if a = n1 then
      node n2 (swapNodes n1 n2 c1 c2 l) c2.key c2.value c2.balance_ (swapNodes n1 n2 c1 c2 r)
    else if a = n2 then
      node n1 (swapNodes n1 n2 c1 c2 l) c1.key c1.value c1.balance_ (swapNodes n1 n2 c1 c2 r)
    else node a (swapNodes n1 n2 c1 c2 l) k v b (swapNodes n1 n2 c1 c2 r)

end Shape

/-! ## Insertion and removal in the base class

The members `insert`, `insert_helper` and `remove` of `BinarySearchTree`
(bst.h 398-489).  A plain `Node` is kept in the same kind of cell as an
`AVLNode`; the members of the base class never read or write the field
`balance_`, which a plain node does not have.
-/

/-- The expression `new Node<Key, Value>(key, value, parent)`: a fresh cell
with no children; the result is the new state and the address. -/
def new_Node {K V : Type} (t : BinarySearchTree K V) (key : K) (value : V)
    (parent : Option Nat) : BinarySearchTree K V × Nat :=
  new_AVLNode t key value parent

namespace BinarySearchTree
variable {K V : Type}

/-- Member `insert_helper` of the base class (bst.h 412-437). -/
def insert_helper [LinearOrder K] (keyValuePair : K × V) :
    Nat → BinarySearchTree K V → Option Nat → Option (BinarySearchTree K V)
  | 0, _, _ => none
  | fuel + 1, t, node =>
    andThen (getKey t node) fun key =>
    if keyValuePair.1 < key then
      andThen (getLeft t node) fun l =>
      if l = none then
        let tn := new_Node t keyValuePair.1 keyValuePair.2 node
        setLeft tn.1 node (some tn.2)
      else insert_helper keyValuePair fuel t l
    else if keyValuePair.1 = key then
      setValue t node keyValuePair.2
    else
      -- keyValuePair.first > node->getKey()
      andThen (getRight t node) fun r =>
      if r = none then
        let tn := new_Node t keyValuePair.1 keyValuePair.2 node
        setRight tn.1 node (some tn.2)
      else insert_helper keyValuePair fuel t r

/-- Member `insert` of the base class (bst.h 398-410). -/
def insert [LinearOrder K] (t : BinarySearchTree K V) (keyValuePair : K × V) :
    Option (BinarySearchTree K V) :=
  if t.root_ = none then
    let tn := new_Node t keyValuePair.1 keyValuePair.2 none
    some { tn.1 with root_ := some tn.2 }
  else
    insert_helper keyValuePair (t.mem.length + 1) t t.root_

/-- Member `remove` of the base class (bst.h 439-489). -/
def remove [LinearOrder K] (t : BinarySearchTree K V) (key : K) :
    Option (BinarySearchTree K V) :=
  andThen (internalFind t key) fun node =>
  if node = none then
    -- Do nothing
    some t
  else
  andThen (getLeft t node) fun nl =>
  andThen (if nl ≠ none then andThen (getRight t node) fun nr => some (decide (nr ≠ none))
           else some false) fun two =>
  andThen (if two = true then
             -- node has two children
             andThen (predecessor t node) fun pr => nodeSwap t node pr
           else some t) fun t =>
  andThen (getLeft t node) fun left =>
  andThen (getRight t node) fun right =>
  andThen (if left ≠ none ∨ right ≠ none then
             -- Node has one child
             andThen (getParent t node) fun parent =>
             let child := if left ≠ none then left else right
             andThen (if parent ≠ none then
                        -- Node is not root
                        andThen (getLeft t parent) fun pl =>
                        if node = pl then setLeft t parent child
                        else setRight t parent child
                      else some { t with root_ := child }) fun t =>
             setParent t child parent
           else
             andThen (getParent t node) fun np =>
             if np ≠ none then
               andThen (getParent t node) fun np1 =>
               andThen (getLeft t np1) fun pl =>
               if node = pl then
                 andThen (getParent t node) fun np2 => setLeft t np2 none
               else
                 andThen (getParent t node) fun np2 => setRight t np2 none
             else some { t with root_ := none }) fun t =>
  delete t node

end BinarySearchTree

namespace Shape
variable {K V : Type}

/-- What `insert_helper(keyValuePair, node)` of the base class does, where `s`
is the subtree at `node`, `c` the path above it and `fresh` the address of the
next new cell. -/
def bst_insert_helper [LinearOrder K] (fresh : Nat) (keyValuePair : K × V) :
    List (Frame K V) → Shape K V → Shape K V
  | c, nil => plug c nil
  | c, node a l k v b r =>
    if keyValuePair.1 < k then
      if l.ptr = none then
        plug c (node a (node fresh nil keyValuePair.1 keyValuePair.2 0 nil) k v b r)
      else bst_insert_helper fresh keyValuePair (Frame.left a k v b r :: c) l
    else if keyValuePair.1 = k then plug c (node a l k keyValuePair.2 b r)
    else
      if r.ptr = none then
        plug c (node a l k v b (node fresh nil keyValuePair.1 keyValuePair.2 0 nil))
      else bst_insert_helper fresh keyValuePair (Frame.right a l k v b :: c) r

/-- What `BinarySearchTree::insert` does; `fresh` is the address of the next
new cell. -/
def bst_insert [LinearOrder K] (fresh : Nat) (T : Shape K V) (keyValuePair : K × V) :
    Shape K V :=
  match T with
  | nil => node fresh nil keyValuePair.1 keyValuePair.2 0 nil
  | node a l k v b r => bst_insert_helper fresh keyValuePair [] (node a l k v b r)

/-- What `BinarySearchTree::remove` does: a node with two children changes
places with its predecessor, then the node, which has at most one child, is
taken out and its child takes its place. -/
def bst_remove [LinearOrder K] (T : Shape K V) (key : K) : Shape K V :=
  match descend key [] T with
  | (_, nil) => T
  | (c, node _ L _ _ _ R) =>
    match L, R with
    | node al ll kl vl bl rl, node ar lr kr vr br rr =>
      match descendRight [] (node al ll kl vl bl rl) with
      | (_, nil) => T
      | (cm, node m ML km vm mb _) =>
        plug (cm ++ Frame.left m km vm mb (node ar lr kr vr br rr) :: c) ML
    | nil, _ => plug c R
    | node al ll kl vl bl rl, nil => plug c (node al ll kl vl bl rl)

end Shape

/-! ## Cells: reading and writing -/

section CellLemmas
variable {K V : Type}

@[simp] theorem andThen_some {α β : Type} (a : α) (f : α → Option β) :
    andThen (some a) f = f a := rfl

@[simp] theorem andThen_none {α β : Type} (f : α → Option β) :
    andThen (none : Option α) f = none := rfl

theorem andThen_eq_some {α β : Type} {x : Option α} {f : α → Option β} {b : β} :
    andThen x f = some b ↔ ∃ a, x = some a ∧ f a = some b := by
  cases x <;> simp

theorem int8_of_small {x : Int} (h1 : -128 ≤ x) (h2 : x ≤ 127) : int8 x = x := by
  unfold int8; omega

@[simp] theorem int8_zero : int8 0 = 0 := by decide
@[simp] theorem int8_one : int8 1 = 1 := by decide
@[simp] theorem int8_neg_one : int8 (-1) = -1 := by decide
@[simp] theorem int8_two : int8 2 = 2 := by decide
@[simp] theorem int8_neg_two : int8 (-2) = -2 := by decide

@[simp] theorem deref_none (t : BinarySearchTree K V) : deref t none = none := rfl

theorem deref_lt {t : BinarySearchTree K V} {a : Nat} {n : AVLNode K V}
    (h : deref t (some a) = some n) : a < t.mem.length := by
  by_contra hlt
  simp [deref, List.getElem?_eq_none (Nat.le_of_not_lt hlt)] at h

@[simp] theorem store_length (t : BinarySearchTree K V) (a : Nat) (n : AVLNode K V) :
    (store t a n).mem.length = t.mem.length := by
  simp [store]

@[simp] theorem store_root (t : BinarySearchTree K V) (a : Nat) (n : AVLNode K V) :
    (store t a n).root_ = t.root_ := rfl

theorem deref_store_same {t : BinarySearchTree K V} {a : Nat} (n : AVLNode K V)
    (h : a < t.mem.length) : deref (store t a n) (some a) = some n := by
  simp [deref, store, List.getD_eq_getElem?_getD, List.getElem?_set, h]

theorem deref_store_ne {t : BinarySearchTree K V} {a b : Nat} (n : AVLNode K V)
    (h : b ≠ a) : deref (store t a n) (some b) = deref t (some b) := by
  simp [deref, store, List.getD_eq_getElem?_getD, List.getElem?_set, Ne.symm h]

theorem deref_store (t : BinarySearchTree K V) (a b : Nat) (n : AVLNode K V) :
    deref (store t a n) (some b) =
      if b = a then (if a < t.mem.length then some n else none) else deref t (some b) := by
  by_cases h : b = a
  · subst h
    by_cases hl : b < t.mem.length
    · simp [deref_store_same n hl, hl]
    · simp [hl, deref, store, List.getElem?_set]
  · simp [h, deref_store_ne n h]

@[simp] theorem deref_set_root (t : BinarySearchTree K V) (r : Option Nat) (p : Option Nat) :
    deref { t with root_ := r } p = deref t p := by
  cases p <;> rfl

theorem modifyNode_eq {t : BinarySearchTree K V} {a : Nat} {n : AVLNode K V}
    (h : deref t (some a) = some n) (f : AVLNode K V → AVLNode K V) :
    modifyNode t (some a) f = some (store t a (f n)) := by
  simp [modifyNode, h]

end CellLemmas

/-! ## Representation: frame rules and paths -/

section RepLemmas
variable {K V : Type}
open Shape

@[simp] theorem ptr_nil : (Shape.nil : Shape K V).ptr = none := rfl

@[simp] theorem ptr_node (a : Nat) (l : Shape K V) (k : K) (v : V) (b : Int) (r : Shape K V) :
    (Shape.node a l k v b r).ptr = some a := rfl

@[simp] theorem pathPtr_nil : pathPtr ([] : List (Frame K V)) = none := rfl

@[simp] theorem pathPtr_cons (f : Frame K V) (c : List (Frame K V)) :
    pathPtr (f :: c) = some f.addr := rfl

@[simp] theorem pathDiff_nil : pathDiff ([] : List (Frame K V)) = 0 := rfl

@[simp] theorem pathDiff_cons (f : Frame K V) (c : List (Frame K V)) :
    pathDiff (f :: c) = f.diff := rfl

@[simp] theorem addr_left (a : Nat) (k : K) (v : V) (b : Int) (r : Shape K V) :
    (Frame.left a k v b r).addr = a := rfl

@[simp] theorem addr_right (a : Nat) (l : Shape K V) (k : K) (v : V) (b : Int) :
    (Frame.right a l k v b).addr = a := rfl

@[simp] theorem diff_left (a : Nat) (k : K) (v : V) (b : Int) (r : Shape K V) :
    (Frame.left a k v b r).diff = 1 := rfl

@[simp] theorem diff_right (a : Nat) (l : Shape K V) (k : K) (v : V) (b : Int) :
    (Frame.right a l k v b).diff = -1 := rfl

theorem RepTree_congr {t t2 : BinarySearchTree K V} {s : Shape K V} :
    ∀ {par : Option Nat}, RepTree t par s →
      (∀ a ∈ s.addrs, deref t2 (some a) = deref t (some a)) → RepTree t2 par s := by
  induction s with
  | nil => intro _ _ _; trivial
  | node a l k v b r ihl ihr =>
    intro par h hd
    obtain ⟨h1, h2, h3⟩ := h
    refine ⟨?_, ihl h2 ?_, ihr h3 ?_⟩
    · rw [hd a (by simp [Shape.addrs])]; exact h1
    · intro x hx; exact hd x (by simp [Shape.addrs, hx])
    · intro x hx; exact hd x (by simp [Shape.addrs, hx])

theorem RepPath_congr {t t2 : BinarySearchTree K V} {c : List (Frame K V)} :
    ∀ {hole : Option Nat}, RepPath t c hole →
      (∀ a ∈ pathAddrs c, deref t2 (some a) = deref t (some a)) → RepPath t2 c hole := by
  induction c with
  | nil => intro _ _ _; trivial
  | cons f c ih =>
    intro hole h hd
    cases f with
    | left a k v b r =>
      obtain ⟨h1, h2, h3⟩ := h
      refine ⟨?_, RepTree_congr h2 ?_, ih h3 ?_⟩
      · rw [hd a (by simp [pathAddrs, Frame.addr])]; exact h1
      · intro x hx; exact hd x (by simp [pathAddrs, Frame.sibling, hx])
      · intro x hx; exact hd x (by simp [pathAddrs, hx])
    | right a l k v b =>
      obtain ⟨h1, h2, h3⟩ := h
      refine ⟨?_, RepTree_congr h2 ?_, ih h3 ?_⟩
      · rw [hd a (by simp [pathAddrs, Frame.addr])]; exact h1
      · intro x hx; exact hd x (by simp [pathAddrs, Frame.sibling, hx])
      · intro x hx; exact hd x (by simp [pathAddrs, hx])

/-- A subtree keeps its representation when only its top cell's parent link
is what the new parent pointer says. -/
theorem RepTree_reparent {t t2 : BinarySearchTree K V} {s : Shape K V} {par par2 : Option Nat}
    (h : RepTree t par s)
    (htop : ∀ a n, s.ptr = some a → deref t (some a) = some n →
      deref t2 (some a) = some { n with parent_ := par2 })
    (hd : ∀ a ∈ s.addrs, s.ptr ≠ some a → deref t2 (some a) = deref t (some a))
    (hnd : s.addrs.Nodup) : RepTree t2 par2 s := by
  cases s with
  | nil => trivial
  | node a l k v b r =>
    obtain ⟨h1, h2, h3⟩ := h
    simp only [Shape.addrs, List.nodup_cons, List.mem_append, not_or] at hnd
    refine ⟨?_, RepTree_congr h2 ?_, RepTree_congr h3 ?_⟩
    · rw [htop a _ rfl h1]
    · intro x hx
      refine hd x (by simp [Shape.addrs, hx]) ?_
      simp only [ptr_node, ne_eq, Option.some.injEq]
      rintro rfl; exact hnd.1.1 hx
    · intro x hx
      refine hd x (by simp [Shape.addrs, hx]) ?_
      simp only [ptr_node, ne_eq, Option.some.injEq]
      rintro rfl; exact hnd.1.2 hx

theorem ptr_plug (c : List (Frame K V)) (s : Shape K V) :
    (plug c s).ptr = pathRoot c s.ptr := by
  induction c generalizing s with
  | nil => rfl
  | cons f c ih => cases f <;> simp [plug, pathRoot, ih, Frame.fill, Frame.addr]

theorem addrs_plug_perm (c : List (Frame K V)) (s : Shape K V) :
    (plug c s).addrs.Perm (pathAddrs c ++ s.addrs) := by
  induction c generalizing s with
  | nil => simp [plug, pathAddrs]
  | cons f c ih =>
    refine (ih (f.fill s)).trans ?_
    rw [List.perm_iff_count]
    intro a
    cases f <;>
      simp [pathAddrs, Frame.fill, Shape.addrs, Frame.addr, Frame.sibling, List.count_cons] <;>
      omega

theorem RepTree_plug {t : BinarySearchTree K V} (c : List (Frame K V)) (s : Shape K V) :
    RepTree t none (plug c s) ↔ RepPath t c s.ptr ∧ RepTree t (pathPtr c) s := by
  induction c generalizing s with
  | nil => simp [plug, RepPath, pathPtr]
  | cons f c ih =>
    cases f <;>
      simp only [plug, ih, Frame.fill, RepPath, RepTree, pathPtr, ptr_node, Frame.addr] <;>
      tauto

theorem models_plug {t : BinarySearchTree K V} (c : List (Frame K V)) (s : Shape K V) :
    Models t (plug c s) ↔ ModelsAt t c s := by
  unfold Models ModelsAt
  rw [ptr_plug, RepTree_plug, (addrs_plug_perm c s).nodup_iff]
  tauto

theorem modelsAt_nil {t : BinarySearchTree K V} (s : Shape K V) :
    ModelsAt t [] s ↔ Models t s := (models_plug [] s).symm

theorem modelsAt_cons {t : BinarySearchTree K V} (f : Frame K V) (c : List (Frame K V))
    (s : Shape K V) : ModelsAt t (f :: c) s ↔ ModelsAt t c (f.fill s) := by
  rw [← models_plug, ← models_plug]; rfl

theorem ptr_ne_of_not_mem {s : Shape K V} {a : Nat} (h : a ∉ s.addrs) : s.ptr ≠ some a := by
  cases s with
  | nil => simp
  | node b l k v bb r =>
    simp only [Shape.addrs, List.mem_cons, not_or] at h
    simp only [ptr_node, ne_eq, Option.some.injEq]
    exact fun e => h.1 e.symm

end RepLemmas

section Rotations
open Shape
variable {K V : Type}

theorem RepTree_store_iff {t : BinarySearchTree K V} {s : Shape K V} {par : Option Nat} {w : Nat}
    {n : AVLNode K V} (hw : w ∉ s.addrs) : RepTree (store t w n) par s ↔ RepTree t par s :=
  ⟨fun h => RepTree_congr h (fun a ha => (deref_store_ne n (fun e : a = w => hw (e ▸ ha))).symm),
   fun h => RepTree_congr h (fun a ha => deref_store_ne n (fun e : a = w => hw (e ▸ ha)))⟩

theorem RepPath_store_iff {t : BinarySearchTree K V} {c : List (Frame K V)} {hole : Option Nat}
    {w : Nat} {n : AVLNode K V} (hw : w ∉ pathAddrs c) :
    RepPath (store t w n) c hole ↔ RepPath t c hole :=
  ⟨fun h => RepPath_congr h (fun a ha => (deref_store_ne n (fun e : a = w => hw (e ▸ ha))).symm),
   fun h => RepPath_congr h (fun a ha => deref_store_ne n (fun e : a = w => hw (e ▸ ha)))⟩

@[simp] theorem RepTree_root_iff {t : BinarySearchTree K V} {s : Shape K V} {par : Option Nat}
    (r : Option Nat) : RepTree { mem := t.mem, root_ := r } par s ↔ RepTree t par s :=
  ⟨fun h => RepTree_congr h (fun _ _ => rfl), fun h => RepTree_congr h (fun _ _ => rfl)⟩

@[simp] theorem RepPath_root_iff {t : BinarySearchTree K V} {c : List (Frame K V)}
    {hole : Option Nat} (r : Option Nat) :
    RepPath { mem := t.mem, root_ := r } c hole ↔ RepPath t c hole :=
  ⟨fun h => RepPath_congr h (fun _ _ => rfl), fun h => RepPath_congr h (fun _ _ => rfl)⟩

@[simp] theorem deref_mk_root (t : BinarySearchTree K V) (r : Option Nat) (p : Option Nat) :
    deref { mem := t.mem, root_ := r } p = deref t p := by
  cases p <;> rfl

/-- The rotation `rotate_right(y)` on a heap that holds the tree: the left
child `x` of `y` takes the place of `y`, and `y` becomes its right child. -/
theorem rotate_right_spec {t : AVLTree K V} {c : List (Frame K V)} {y x : Nat}
    {A B C : Shape K V} {kx ky : K} {vx vy : V} {bx yb : Int}
    (h : ModelsAt t c (node y (node x A kx vx bx B) ky vy yb C)) :
    ∃ t2, AVLTree.rotate_right t (some y) = some t2 ∧
      ModelsAt t2 c (node x A kx vx bx (node y B ky vy yb C)) ∧
      t2.mem.length = t.mem.length := by
  obtain ⟨hroot, hpath, ⟨hy, ⟨hx, hA, hB⟩, hC⟩, hnd0⟩ := h
  have hyl := deref_lt hy
  have hxl := deref_lt hx
  have hnd := hnd0
  have hnd2 : (pathAddrs c ++ (node x A kx vx bx (node y B ky vy yb C)).addrs).Nodup := by
    refine (List.Perm.nodup_iff ?_).mp hnd0
    rw [List.perm_iff_count]; intro a
    simp [Shape.addrs, List.count_cons]; omega
  cases c with
  | nil =>
    cases B with
    | nil =>
      simp only [Shape.addrs, pathAddrs, Frame.addr, Frame.sibling,
          List.nodup_append, List.nodup_cons, List.mem_append, List.mem_cons,
          not_or, List.cons_append, List.append_assoc, List.disjoint_append_left,
          List.disjoint_append_right, List.disjoint_cons_left, List.disjoint_cons_right,
          List.nil_append, List.append_nil, List.not_mem_nil, not_false_eq_true, true_and,
          and_true, List.nodup_nil, List.disjoint_nil_left, List.disjoint_nil_right] at hnd
      simp only [RepPath, RepTree, pathPtr, ptr_node, ptr_nil, Frame.addr] at hy hx hpath hB hroot
      have e1 : x ≠ y := by omega
      simp [AVLTree.rotate_right, getLeft, getRight, getParent, setParent, setLeft, setRight,
          modifyNode, deref_store, hx, hy, hxl, hyl, e1, e1.symm]
      refine ⟨rfl, ?_, ?_, hnd2⟩ <;>
          simp [RepPath, RepTree, pathPtr, Frame.addr, deref_store, RepTree_store_iff,
            RepPath_store_iff, hx, hy, hxl, hyl, e1, e1.symm, hnd, hA, hC]
    | node b B1 kb vb bb B2 =>
      simp only [Shape.addrs, pathAddrs, Frame.addr, Frame.sibling,
          List.nodup_append, List.nodup_cons, List.mem_append, List.mem_cons,
          not_or, List.cons_append, List.append_assoc, List.disjoint_append_left,
          List.disjoint_append_right, List.disjoint_cons_left, List.disjoint_cons_right,
          List.nil_append, List.append_nil, List.not_mem_nil, not_false_eq_true, true_and,
          and_true, List.nodup_nil, List.disjoint_nil_left, List.disjoint_nil_right] at hnd
      simp only [RepPath, RepTree, pathPtr, ptr_node, ptr_nil, Frame.addr] at hy hx hpath hB hroot
      obtain ⟨hb, hB1, hB2⟩ := hB
      have hbl := deref_lt hb
      have e1 : x ≠ y := by omega
      have e2 : x ≠ b := by omega
      have e3 : y ≠ b := by omega
      simp [AVLTree.rotate_right, getLeft, getRight, getParent, setParent, setLeft, setRight,
          modifyNode, deref_store, hx, hy, hxl, hyl, hb, hbl, e1, e1.symm, e2, e2.symm, e3, e3.symm]
      refine ⟨rfl, ?_, ?_, hnd2⟩ <;>
          simp [RepPath, RepTree, pathPtr, Frame.addr, deref_store, RepTree_store_iff,
            RepPath_store_iff, hx, hy, hxl, hyl, hb, hbl, e1, e1.symm, e2, e2.symm, e3, e3.symm, hnd, hA, hC, hB1, hB2]
  | cons f c =>
    cases f with
    | left p kp vp pb R =>
      cases B with
      | nil =>
        simp only [Shape.addrs, pathAddrs, Frame.addr, Frame.sibling,
          List.nodup_append, List.nodup_cons, List.mem_append, List.mem_cons,
          not_or, List.cons_append, List.append_assoc, List.disjoint_append_left,
          List.disjoint_append_right, List.disjoint_cons_left, List.disjoint_cons_right,
          List.nil_append, List.append_nil, List.not_mem_nil, not_false_eq_true, true_and,
          and_true, List.nodup_nil, List.disjoint_nil_left, List.disjoint_nil_right] at hnd
        simp only [RepPath, RepTree, pathPtr, ptr_node, ptr_nil, Frame.addr] at hy hx hpath hB hroot
        obtain ⟨hp, hR, hc⟩ := hpath
        have hpl := deref_lt hp
        have e1 : x ≠ y := by omega
        have e2 : x ≠ p := by omega
        have e3 : y ≠ p := by omega
        simp [AVLTree.rotate_right, getLeft, getRight, getParent, setParent, setLeft, setRight,
          modifyNode, deref_store, hx, hy, hxl, hyl, hp, hpl, e1, e1.symm, e2, e2.symm, e3, e3.symm]
        refine ⟨hroot, ?_, ?_, hnd2⟩ <;>
          simp [RepPath, RepTree, pathPtr, Frame.addr, deref_store, RepTree_store_iff,
            RepPath_store_iff, hx, hy, hxl, hyl, hp, hpl, e1, e1.symm, e2, e2.symm, e3, e3.symm, hnd, hR, hc, hA, hC]
      | node b B1 kb vb bb B2 =>
        simp only [Shape.addrs, pathAddrs, Frame.addr, Frame.sibling,
          List.nodup_append, List.nodup_cons, List.mem_append, List.mem_cons,
          not_or, List.cons_append, List.append_assoc, List.disjoint_append_left,
          List.disjoint_append_right, List.disjoint_cons_left, List.disjoint_cons_right,
          List.nil_append, List.append_nil, List.not_mem_nil, not_false_eq_true, true_and,
          and_true, List.nodup_nil, List.disjoint_nil_left, List.disjoint_nil_right] at hnd
        simp only [RepPath, RepTree, pathPtr, ptr_node, ptr_nil, Frame.addr] at hy hx hpath hB hroot
        obtain ⟨hp, hR, hc⟩ := hpath
        have hpl := deref_lt hp
        obtain ⟨hb, hB1, hB2⟩ := hB
        have hbl := deref_lt hb
        have e1 : x ≠ y := by omega
        have e2 : x ≠ p := by omega
        have e3 : x ≠ b := by omega
        have e4 : y ≠ p := by omega
        have e5 : y ≠ b := by omega
        have e6 : p ≠ b := by omega
        simp [AVLTree.rotate_right, getLeft, getRight, getParent, setParent, setLeft, setRight,
          modifyNode, deref_store, hx, hy, hxl, hyl, hp, hpl, hb, hbl, e1, e1.symm, e2, e2.symm, e3, e3.symm, e4, e4.symm, e5, e5.symm, e6, e6.symm]
        refine ⟨hroot, ?_, ?_, hnd2⟩ <;>
          simp [RepPath, RepTree, pathPtr, Frame.addr, deref_store, RepTree_store_iff,
            RepPath_store_iff, hx, hy, hxl, hyl, hp, hpl, hb, hbl, e1, e1.symm, e2, e2.symm, e3, e3.symm, e4, e4.symm, e5, e5.symm, e6, e6.symm, hnd, hR, hc, hA, hC, hB1, hB2]
    | right p R kp vp pb =>
      cases B with
      | nil =>
        simp only [Shape.addrs, pathAddrs, Frame.addr, Frame.sibling,
          List.nodup_append, List.nodup_cons, List.mem_append, List.mem_cons,
          not_or, List.cons_append, List.append_assoc, List.disjoint_append_left,
          List.disjoint_append_right, List.disjoint_cons_left, List.disjoint_cons_right,
          List.nil_append, List.append_nil, List.not_mem_nil, not_false_eq_true, true_and,
          and_true, List.nodup_nil, List.disjoint_nil_left, List.disjoint_nil_right] at hnd
        simp only [RepPath, RepTree, pathPtr, ptr_node, ptr_nil, Frame.addr] at hy hx hpath hB hroot
        obtain ⟨hp, hR, hc⟩ := hpath
        have hpl := deref_lt hp
        have e1 : x ≠ y := by omega
        have e2 : x ≠ p := by omega
        have e3 : y ≠ p := by omega
        have hLy : R.ptr ≠ some y := ptr_ne_of_not_mem (by tauto)
        simp [AVLTree.rotate_right, getLeft, getRight, getParent, setParent, setLeft, setRight,
          modifyNode, deref_store, hx, hy, hxl, hyl, hp, hpl, e1, e1.symm, e2, e2.symm, e3, e3.symm, hLy]
        refine ⟨hroot, ?_, ?_, hnd2⟩ <;>
          simp [RepPath, RepTree, pathPtr, Frame.addr, deref_store, RepTree_store_iff,
            RepPath_store_iff, hx, hy, hxl, hyl, hp, hpl, e1, e1.symm, e2, e2.symm, e3, e3.symm, hLy, hnd, hR, hc, hA, hC]
      | node b B1 kb vb bb B2 =>
        simp only [Shape.addrs, pathAddrs, Frame.addr, Frame.sibling,
          List.nodup_append, List.nodup_cons, List.mem_append, List.mem_cons,
          not_or, List.cons_append, List.append_assoc, List.disjoint_append_left,
          List.disjoint_append_right, List.disjoint_cons_left, List.disjoint_cons_right,
          List.nil_append, List.append_nil, List.not_mem_nil, not_false_eq_true, true_and,
          and_true, List.nodup_nil, List.disjoint_nil_left, List.disjoint_nil_right] at hnd
        simp only [RepPath, RepTree, pathPtr, ptr_node, ptr_nil, Frame.addr] at hy hx hpath hB hroot
        obtain ⟨hp, hR, hc⟩ := hpath
        have hpl := deref_lt hp
        obtain ⟨hb, hB1, hB2⟩ := hB
        have hbl := deref_lt hb
        have e1 : x ≠ y := by omega
        have e2 : x ≠ p := by omega
        have e3 : x ≠ b := by omega
        have e4 : y ≠ p := by omega
        have e5 : y ≠ b := by omega
        have e6 : p ≠ b := by omega
        have hLy : R.ptr ≠ some y := ptr_ne_of_not_mem (by tauto)
        simp [AVLTree.rotate_right, getLeft, getRight, getParent, setParent, setLeft, setRight,
          modifyNode, deref_store, hx, hy, hxl, hyl, hp, hpl, hb, hbl, e1, e1.symm, e2, e2.symm, e3, e3.symm, e4, e4.symm, e5, e5.symm, e6, e6.symm, hLy]
        refine ⟨hroot, ?_, ?_, hnd2⟩ <;>
          simp [RepPath, RepTree, pathPtr, Frame.addr, deref_store, RepTree_store_iff,
            RepPath_store_iff, hx, hy, hxl, hyl, hp, hpl, hb, hbl, e1, e1.symm, e2, e2.symm, e3, e3.symm, e4, e4.symm, e5, e5.symm, e6, e6.symm, hLy, hnd, hR, hc, hA, hC, hB1, hB2]

/-- The rotation `rotate_left(x)` on a heap that holds the tree: the right
child `y` of `x` takes the place of `x`, and `x` becomes its left child. -/
theorem rotate_left_spec {t : AVLTree K V} {c : List (Frame K V)} {y x : Nat}
    {A B C : Shape K V} {kx ky : K} {vx vy : V} {bx yb : Int}
    (h : ModelsAt t c (node x A kx vx bx (node y B ky vy yb C))) :
    ∃ t2, AVLTree.rotate_left t (some x) = some t2 ∧
      ModelsAt t2 c (node y (node x A kx vx bx B) ky vy yb C) ∧
      t2.mem.length = t.mem.length := by
  obtain ⟨hroot, hpath, ⟨hx, hA, ⟨hy, hB, hC⟩⟩, hnd0⟩ := h
  have hyl := deref_lt hy
  have hxl := deref_lt hx
  have hnd := hnd0
  have hnd2 : (pathAddrs c ++ (node y (node x A kx vx bx B) ky vy yb C).addrs).Nodup := by
    refine (List.Perm.nodup_iff ?_).mp hnd0
    rw [List.perm_iff_count]; intro a
    simp [Shape.addrs, List.count_cons]; omega
  cases c with
  | nil =>
    cases B with
    | nil =>
      simp only [Shape.addrs, pathAddrs, Frame.addr, Frame.sibling,
          List.nodup_append, List.nodup_cons, List.mem_append, List.mem_cons,
          not_or, List.cons_append, List.append_assoc, List.disjoint_append_left,
          List.disjoint_append_right, List.disjoint_cons_left, List.disjoint_cons_right,
          List.nil_append, List.append_nil, List.not_mem_nil, not_false_eq_true, true_and,
          and_true, List.nodup_nil, List.disjoint_nil_left, List.disjoint_nil_right] at hnd
      simp only [RepPath, RepTree, pathPtr, ptr_node, ptr_nil, Frame.addr] at hy hx hpath hB hroot
      have e1 : x ≠ y := by omega
      simp [AVLTree.rotate_left, getLeft, getRight, getParent, setParent, setLeft, setRight,
          modifyNode, deref_store, hx, hy, hxl, hyl, e1, e1.symm]
      refine ⟨rfl, ?_, ?_, hnd2⟩ <;>
          simp [RepPath, RepTree, pathPtr, Frame.addr, deref_store, RepTree_store_iff,
            RepPath_store_iff, hx, hy, hxl, hyl, e1, e1.symm, hnd, hA, hC]
    | node b B1 kb vb bb B2 =>
      simp only [Shape.addrs, pathAddrs, Frame.addr, Frame.sibling,
          List.nodup_append, List.nodup_cons, List.mem_append, List.mem_cons,
          not_or, List.cons_append, List.append_assoc, List.disjoint_append_left,
          List.disjoint_append_right, List.disjoint_cons_left, List.disjoint_cons_right,
          List.nil_append, List.append_nil, List.not_mem_nil, not_false_eq_true, true_and,
          and_true, List.nodup_nil, List.disjoint_nil_left, List.disjoint_nil_right] at hnd
      simp only [RepPath, RepTree, pathPtr, ptr_node, ptr_nil, Frame.addr] at hy hx hpath hB hroot
      obtain ⟨hb, hB1, hB2⟩ := hB
      have hbl := deref_lt hb
      have e1 : x ≠ y := by omega
      have e2 : x ≠ b := by omega
      have e3 : y ≠ b := by omega
      simp [AVLTree.rotate_left, getLeft, getRight, getParent, setParent, setLeft, setRight,
          modifyNode, deref_store, hx, hy, hxl, hyl, hb, hbl, e1, e1.symm, e2, e2.symm, e3, e3.symm]
      refine ⟨rfl, ?_, ?_, hnd2⟩ <;>
          simp [RepPath, RepTree, pathPtr, Frame.addr, deref_store, RepTree_store_iff,
            RepPath_store_iff, hx, hy, hxl, hyl, hb, hbl, e1, e1.symm, e2, e2.symm, e3, e3.symm, hnd, hA, hC, hB1, hB2]
  | cons f c =>
    cases f with
    | left p kp vp pb R =>
      cases B with
      | nil =>
        simp only [Shape.addrs, pathAddrs, Frame.addr, Frame.sibling,
          List.nodup_append, List.nodup_cons, List.mem_append, List.mem_cons,
          not_or, List.cons_append, List.append_assoc, List.disjoint_append_left,
          List.disjoint_append_right, List.disjoint_cons_left, List.disjoint_cons_right,
          List.nil_append, List.append_nil, List.not_mem_nil, not_false_eq_true, true_and,
          and_true, List.nodup_nil, List.disjoint_nil_left, List.disjoint_nil_right] at hnd
        simp only [RepPath, RepTree, pathPtr, ptr_node, ptr_nil, Frame.addr] at hy hx hpath hB hroot
        obtain ⟨hp, hR, hc⟩ := hpath
        have hpl := deref_lt hp
        have e1 : x ≠ y := by omega
        have e2 : x ≠ p := by omega
        have e3 : y ≠ p := by omega
        simp [AVLTree.rotate_left, getLeft, getRight, getParent, setParent, setLeft, setRight,
          modifyNode, deref_store, hx, hy, hxl, hyl, hp, hpl, e1, e1.symm, e2, e2.symm, e3, e3.symm]
        refine ⟨hroot, ?_, ?_, hnd2⟩ <;>
          simp [RepPath, RepTree, pathPtr, Frame.addr, deref_store, RepTree_store_iff,
            RepPath_store_iff, hx, hy, hxl, hyl, hp, hpl, e1, e1.symm, e2, e2.symm, e3, e3.symm, hnd, hR, hc, hA, hC]
      | node b B1 kb vb bb B2 =>
        simp only [Shape.addrs, pathAddrs, Frame.addr, Frame.sibling,
          List.nodup_append, List.nodup_cons, List.mem_append, List.mem_cons,
          not_or, List.cons_append, List.append_assoc, List.disjoint_append_left,
          List.disjoint_append_right, List.disjoint_cons_left, List.disjoint_cons_right,
          List.nil_append, List.append_nil, List.not_mem_nil, not_false_eq_true, true_and,
          and_true, List.nodup_nil, List.disjoint_nil_left, List.disjoint_nil_right] at hnd
        simp only [RepPath, RepTree, pathPtr, ptr_node, ptr_nil, Frame.addr] at hy hx hpath hB hroot
        obtain ⟨hp, hR, hc⟩ := hpath
        have hpl := deref_lt hp
        obtain ⟨hb, hB1, hB2⟩ := hB
        have hbl := deref_lt hb
        have e1 : x ≠ y := by omega
        have e2 : x ≠ p := by omega
        have e3 : x ≠ b := by omega
        have e4 : y ≠ p := by omega
        have e5 : y ≠ b := by omega
        have e6 : p ≠ b := by omega
        simp [AVLTree.rotate_left, getLeft, getRight, getParent, setParent, setLeft, setRight,
          modifyNode, deref_store, hx, hy, hxl, hyl, hp, hpl, hb, hbl, e1, e1.symm, e2, e2.symm, e3, e3.symm, e4, e4.symm, e5, e5.symm, e6, e6.symm]
        refine ⟨hroot, ?_, ?_, hnd2⟩ <;>
          simp [RepPath, RepTree, pathPtr, Frame.addr, deref_store, RepTree_store_iff,
            RepPath_store_iff, hx, hy, hxl, hyl, hp, hpl, hb, hbl, e1, e1.symm, e2, e2.symm, e3, e3.symm, e4, e4.symm, e5, e5.symm, e6, e6.symm, hnd, hR, hc, hA, hC, hB1, hB2]
    | right p R kp vp pb =>
      cases B with
      | nil =>
        simp only [Shape.addrs, pathAddrs, Frame.addr, Frame.sibling,
          List.nodup_append, List.nodup_cons, List.mem_append, List.mem_cons,
          not_or, List.cons_append, List.append_assoc, List.disjoint_append_left,
          List.disjoint_append_right, List.disjoint_cons_left, List.disjoint_cons_right,
          List.nil_append, List.append_nil, List.not_mem_nil, not_false_eq_true, true_and,
          and_true, List.nodup_nil, List.disjoint_nil_left, List.disjoint_nil_right] at hnd
        simp only [RepPath, RepTree, pathPtr, ptr_node, ptr_nil, Frame.addr] at hy hx hpath hB hroot
        obtain ⟨hp, hR, hc⟩ := hpath
        have hpl := deref_lt hp
        have e1 : x ≠ y := by omega
        have e2 : x ≠ p := by omega
        have e3 : y ≠ p := by omega
        have hLy : R.ptr ≠ some x := ptr_ne_of_not_mem (by tauto)
        simp [AVLTree.rotate_left, getLeft, getRight, getParent, setParent, setLeft, setRight,
          modifyNode, deref_store, hx, hy, hxl, hyl, hp, hpl, e1, e1.symm, e2, e2.symm, e3, e3.symm, hLy]
        refine ⟨hroot, ?_, ?_, hnd2⟩ <;>
          simp [RepPath, RepTree, pathPtr, Frame.addr, deref_store, RepTree_store_iff,
            RepPath_store_iff, hx, hy, hxl, hyl, hp, hpl, e1, e1.symm, e2, e2.symm, e3, e3.symm, hLy, hnd, hR, hc, hA, hC]
      | node b B1 kb vb bb B2 =>
        simp only [Shape.addrs, pathAddrs, Frame.addr, Frame.sibling,
          List.nodup_append, List.nodup_cons, List.mem_append, List.mem_cons,
          not_or, List.cons_append, List.append_assoc, List.disjoint_append_left,
          List.disjoint_append_right, List.disjoint_cons_left, List.disjoint_cons_right,
          List.nil_append, List.append_nil, List.not_mem_nil, not_false_eq_true, true_and,
          and_true, List.nodup_nil, List.disjoint_nil_left, List.disjoint_nil_right] at hnd
        simp only [RepPath, RepTree, pathPtr, ptr_node, ptr_nil, Frame.addr] at hy hx hpath hB hroot
        obtain ⟨hp, hR, hc⟩ := hpath
        have hpl := deref_lt hp
        obtain ⟨hb, hB1, hB2⟩ := hB
        have hbl := deref_lt hb
        have e1 : x ≠ y := by omega
        have e2 : x ≠ p := by omega
        have e3 : x ≠ b := by omega
        have e4 : y ≠ p := by omega
        have e5 : y ≠ b := by omega
        have e6 : p ≠ b := by omega
        have hLy : R.ptr ≠ some x := ptr_ne_of_not_mem (by tauto)
        simp [AVLTree.rotate_left, getLeft, getRight, getParent, setParent, setLeft, setRight,
          modifyNode, deref_store, hx, hy, hxl, hyl, hp, hpl, hb, hbl, e1, e1.symm, e2, e2.symm, e3, e3.symm, e4, e4.symm, e5, e5.symm, e6, e6.symm, hLy]
        refine ⟨hroot, ?_, ?_, hnd2⟩ <;>
          simp [RepPath, RepTree, pathPtr, Frame.addr, deref_store, RepTree_store_iff,
            RepPath_store_iff, hx, hy, hxl, hyl, hp, hpl, hb, hbl, e1, e1.symm, e2, e2.symm, e3, e3.symm, e4, e4.symm, e5, e5.symm, e6, e6.symm, hLy, hnd, hR, hc, hA, hC, hB1, hB2]

end Rotations

section Focus
open Shape
variable {K V : Type}

/-! ## Reading and writing the node in focus -/

theorem modelsAt_deref {t : BinarySearchTree K V} {c : List (Frame K V)} {a : Nat}
    {L R : Shape K V} {k : K} {v : V} {b : Int} (h : ModelsAt t c (node a L k v b R)) :
    deref t (some a) = some ⟨k, v, pathPtr c, L.ptr, R.ptr, b⟩ := h.2.2.1.1

theorem modelsAt_left {t : BinarySearchTree K V} {c : List (Frame K V)} {a : Nat}
    {L R : Shape K V} {k : K} {v : V} {b : Int} :
    ModelsAt t c (node a L k v b R) ↔ ModelsAt t (Frame.left a k v b R :: c) L :=
  (modelsAt_cons (Frame.left a k v b R) c L).symm

theorem modelsAt_right {t : BinarySearchTree K V} {c : List (Frame K V)} {a : Nat}
    {L R : Shape K V} {k : K} {v : V} {b : Int} :
    ModelsAt t c (node a L k v b R) ↔ ModelsAt t (Frame.right a L k v b :: c) R :=
  (modelsAt_cons (Frame.right a L k v b) c R).symm

theorem setBalance_spec {t : BinarySearchTree K V} {c : List (Frame K V)} {a : Nat}
    {L R : Shape K V} {k : K} {v : V} {b : Int} (b2 : Int)
    (h : ModelsAt t c (node a L k v b R)) :
    ∃ t2, setBalance t (some a) b2 = some t2 ∧ ModelsAt t2 c (node a L k v (int8 b2) R) ∧
      t2.mem.length = t.mem.length := by
  obtain ⟨hroot, hpath, ⟨ha, hL, hR⟩, hnd⟩ := h
  have hal := deref_lt ha
  have hnd0 := hnd
  simp only [Shape.addrs, List.nodup_append, List.nodup_cons, List.mem_append, List.mem_cons,
    not_or, List.disjoint_append_right, List.disjoint_cons_right] at hnd
  simp only [ptr_node] at hpath hroot
  simp [setBalance, modifyNode, ha]
  refine ⟨hroot, ?_, ?_, hnd0⟩ <;>
    simp [RepTree, deref_store, RepTree_store_iff, RepPath_store_iff, hal, hnd, hpath, hL, hR]

theorem setValue_spec {t : BinarySearchTree K V} {c : List (Frame K V)} {a : Nat}
    {L R : Shape K V} {k : K} {v : V} {b : Int} (v2 : V)
    (h : ModelsAt t c (node a L k v b R)) :
    ∃ t2, setValue t (some a) v2 = some t2 ∧ ModelsAt t2 c (node a L k v2 b R) ∧
      t2.mem.length = t.mem.length := by
  obtain ⟨hroot, hpath, ⟨ha, hL, hR⟩, hnd⟩ := h
  have hal := deref_lt ha
  have hnd0 := hnd
  simp only [Shape.addrs, List.nodup_append, List.nodup_cons, List.mem_append, List.mem_cons,
    not_or, List.disjoint_append_right, List.disjoint_cons_right] at hnd
  simp only [ptr_node] at hpath hroot
  simp [setValue, modifyNode, ha]
  refine ⟨hroot, ?_, ?_, hnd0⟩ <;>
    simp [RepTree, deref_store, RepTree_store_iff, RepPath_store_iff, hal, hnd, hpath, hL, hR]

theorem getBalance_focus {t : BinarySearchTree K V} {c : List (Frame K V)} {a : Nat}
    {L R : Shape K V} {k : K} {v : V} {b : Int} (h : ModelsAt t c (node a L k v b R)) :
    getBalance t (some a) = some b := by
  simp [getBalance, modelsAt_deref h]

theorem getParent_focus {t : BinarySearchTree K V} {c : List (Frame K V)} {a : Nat}
    {L R : Shape K V} {k : K} {v : V} {b : Int} (h : ModelsAt t c (node a L k v b R)) :
    getParent t (some a) = some (pathPtr c) := by
  simp [getParent, modelsAt_deref h]

theorem getLeft_focus {t : BinarySearchTree K V} {c : List (Frame K V)} {a : Nat}
    {L R : Shape K V} {k : K} {v : V} {b : Int} (h : ModelsAt t c (node a L k v b R)) :
    getLeft t (some a) = some L.ptr := by
  simp [getLeft, modelsAt_deref h]

theorem getRight_focus {t : BinarySearchTree K V} {c : List (Frame K V)} {a : Nat}
    {L R : Shape K V} {k : K} {v : V} {b : Int} (h : ModelsAt t c (node a L k v b R)) :
    getRight t (some a) = some R.ptr := by
  simp [getRight, modelsAt_deref h]

theorem getKey_focus {t : BinarySearchTree K V} {c : List (Frame K V)} {a : Nat}
    {L R : Shape K V} {k : K} {v : V} {b : Int} (h : ModelsAt t c (node a L k v b R)) :
    getKey t (some a) = some k := by
  simp [getKey, modelsAt_deref h]

/-- In a consistent heap the cell in focus is not one of the cells of its own
subtrees, so the pointer to it differs from its child pointers. -/
theorem modelsAt_ptr_ne_left {t : BinarySearchTree K V} {c : List (Frame K V)} {a : Nat}
    {L R : Shape K V} {k : K} {v : V} {b : Int} (h : ModelsAt t c (node a L k v b R)) :
    L.ptr ≠ some a ∧ R.ptr ≠ some a := by
  have hnd := h.2.2.2
  simp only [Shape.addrs, List.nodup_append, List.nodup_cons, List.mem_append, List.mem_cons,
    not_or] at hnd
  exact ⟨ptr_ne_of_not_mem hnd.2.1.1.1, ptr_ne_of_not_mem hnd.2.1.1.2⟩

theorem length_addrs (s : Shape K V) : s.addrs.length = s.size := by
  induction s with
  | nil => rfl
  | node a l k v b r ihl ihr => simp [Shape.addrs, Shape.size, ihl, ihr]; omega

theorem RepTree_addr_lt {t : BinarySearchTree K V} {s : Shape K V} :
    ∀ {par : Option Nat}, RepTree t par s → ∀ a ∈ s.addrs, a < t.mem.length := by
  induction s with
  | nil => intro _ _ a ha; simp [Shape.addrs] at ha
  | node a l k v b r ihl ihr =>
    intro par h x hx
    obtain ⟨h1, h2, h3⟩ := h
    simp only [Shape.addrs, List.mem_cons, List.mem_append] at hx
    rcases hx with rfl | hx | hx
    · exact deref_lt h1
    · exact ihl h2 x hx
    · exact ihr h3 x hx

theorem models_size_le {t : BinarySearchTree K V} {T : Shape K V} (h : Models t T) :
    T.size ≤ t.mem.length := by
  obtain ⟨-, hrep, hnd⟩ := h
  have hsub : T.addrs.toFinset ⊆ Finset.range t.mem.length := by
    intro a ha
    simp only [List.mem_toFinset] at ha
    simpa using RepTree_addr_lt hrep a ha
  have := Finset.card_le_card hsub
  rw [List.toFinset_card_of_nodup hnd, Finset.card_range, length_addrs] at this
  exact this

theorem size_plug (c : List (Frame K V)) (s : Shape K V) :
    c.length + s.size ≤ (plug c s).size := by
  induction c generalizing s with
  | nil => simp [plug]
  | cons f c ih =>
    have := ih (f.fill s)
    cases f <;> simp [plug, Frame.fill, Shape.size] at this ⊢ <;> omega

theorem height_le_size (s : Shape K V) : s.height ≤ s.size := by
  induction s with
  | nil => simp [Shape.height, Shape.size]
  | node a l k v b r ihl ihr => simp [Shape.height, Shape.size]; omega

theorem path_length_le {t : BinarySearchTree K V} {c : List (Frame K V)} {s : Shape K V}
    (h : ModelsAt t c s) : c.length + s.size ≤ t.mem.length :=
  le_trans (size_plug c s) (models_size_le ((models_plug c s).mpr h))

end Focus

section InsertFixRefinement
open Shape
variable {K V : Type}

theorem modelsAt_left_ne_right {t : BinarySearchTree K V} {c : List (Frame K V)} {a p : Nat}
    {L A B : Shape K V} {k kp : K} {v vp : V} {b pb : Int}
    (h : ModelsAt t c (node a L k v b (node p A kp vp pb B))) : L.ptr ≠ some p := by
  have hnd := h.2.2.2
  simp only [Shape.addrs, List.nodup_append, List.nodup_cons, List.mem_append, List.mem_cons,
    not_or, List.disjoint_cons_right] at hnd
  exact ptr_ne_of_not_mem (by tauto)

theorem modelsAt_right_ne_left {t : BinarySearchTree K V} {c : List (Frame K V)} {a p : Nat}
    {R A B : Shape K V} {k kp : K} {v vp : V} {b pb : Int}
    (h : ModelsAt t c (node a (node p A kp vp pb B) k v b R)) : R.ptr ≠ some p := by
  have hnd := h.2.2.2
  simp only [Shape.addrs, List.nodup_append, List.nodup_cons, List.mem_append, List.mem_cons,
    not_or, List.disjoint_cons_left] at hnd
  exact ptr_ne_of_not_mem (by tauto)

theorem setBalance_left_spec {t : BinarySearchTree K V} {c : List (Frame K V)} {a p : Nat}
    {A B R : Shape K V} {k kp : K} {v vp : V} {b pb : Int} (b2 : Int)
    (h : ModelsAt t c (node a (node p A kp vp pb B) k v b R)) :
    ∃ t2, setBalance t (some p) b2 = some t2 ∧
      ModelsAt t2 c (node a (node p A kp vp (int8 b2) B) k v b R) ∧
      t2.mem.length = t.mem.length := by
  obtain ⟨t2, e, m, l⟩ := setBalance_spec b2 (modelsAt_left.mp h)
  exact ⟨t2, e, modelsAt_left.mpr m, l⟩

theorem setBalance_right_spec {t : BinarySearchTree K V} {c : List (Frame K V)} {a p : Nat}
    {A B L : Shape K V} {k kp : K} {v vp : V} {b pb : Int} (b2 : Int)
    (h : ModelsAt t c (node a L k v b (node p A kp vp pb B))) :
    ∃ t2, setBalance t (some p) b2 = some t2 ∧
      ModelsAt t2 c (node a L k v b (node p A kp vp (int8 b2) B)) ∧
      t2.mem.length = t.mem.length := by
  obtain ⟨t2, e, m, l⟩ := setBalance_spec b2 (modelsAt_right.mp h)
  exact ⟨t2, e, modelsAt_right.mpr m, l⟩

/-- Refinement of `insert_fix`: on a heap that holds the tree, with `p` the top
of the subtree in focus and `n` the child of `p` on the side `p` leans to, the
call returns and the heap then holds the tree computed by `Shape.insert_fix`. -/
theorem insert_fix_spec (c : List (Frame K V)) :
    ∀ (fuel : Nat) (t : AVLTree K V) (p n : Nat) (A B : Shape K V) (kp : K) (vp : V) (pb : Int),
      ModelsAt t c (node p A kp vp pb B) →
      ((pb = -1 ∧ A.ptr = some n) ∨ (pb = 1 ∧ B.ptr = some n)) →
      c.length < fuel →
      ∃ t2, AVLTree.insert_fix fuel t (some p) (some n) = some t2 ∧
        Models t2 (Shape.insert_fix c (node p A kp vp pb B)) ∧
        t2.mem.length = t.mem.length := by
  induction c with
  | nil =>
    intro fuel t p n A B kp vp pb h _ hf
    cases fuel with
    | zero => simp at hf
    | succ fuel =>
      refine ⟨t, ?_, (modelsAt_nil _).mp h, rfl⟩
      simp [AVLTree.insert_fix, getParent_focus h, pathPtr]
  | cons f c ih =>
    intro fuel t p n A B kp vp pb h hn hf
    cases fuel with
    | zero => simp at hf
    | succ fuel =>
      have hf2 : c.length < fuel := by simpa using hf
      cases f with
      | left g kg vg bg R =>
        have hg := modelsAt_left.mpr h
        have r1 := getParent_focus h
        have r2 := getLeft_focus hg
        have r3 := getBalance_focus hg
        obtain ⟨t1, e1, m1, l1⟩ := setBalance_spec (bg - 1) hg
        have r4 := getBalance_focus m1
        have r5 := getBalance_focus (modelsAt_left.mp m1)
        simp only [AVLTree.insert_fix, Shape.insert_fix, r1, r2, r3, e1, r4, r5, andThen_some,
          pathPtr, Frame.addr, ptr_node, reduceCtorEq, if_false, if_true, if_true]
        by_cases h0 : int8 (bg - 1) = 0
        · simp only [h0, if_true]
          exact ⟨t1, rfl, (models_plug _ _).mpr (h0 ▸ m1), l1⟩
        simp only [h0, if_false]
        by_cases h1 : int8 (bg - 1) = -1
        · rw [h1] at m1
          obtain ⟨t2, e2, m2, l2⟩ := ih fuel t1 g p _ _ kg vg _ m1 (Or.inl ⟨rfl, rfl⟩) hf2
          simp only [h1, e2, if_true]
          exact ⟨t2, rfl, m2, l2.trans l1⟩
        simp only [h1, if_false]
        by_cases h2 : int8 (bg - 1) = -2
        · simp only [h2, if_true]
          rw [h2] at m1
          by_cases hpb : pb = -1
          · subst hpb
            obtain ⟨t2, e2, m2, l2⟩ := rotate_right_spec m1
            obtain ⟨t3, e3, m3, l3⟩ := setBalance_spec 0 m2
            obtain ⟨t4, e4, m4, l4⟩ := setBalance_right_spec 0 m3
            simp only [e2, e3, e4, andThen_some, if_true, int8_zero] at m4 ⊢
            exact ⟨t4, rfl, (models_plug _ _).mpr m4, by omega⟩
          · have hB : pb = 1 ∧ B.ptr = some n := hn.resolve_left (fun hx => hpb hx.1)
            obtain ⟨hpb1, hBn⟩ := hB
            cases B with
            | nil => simp at hBn
            | node n2 B1 kn vn nb B2 =>
              simp only [ptr_node, Option.some.injEq] at hBn
              subst hBn
              obtain ⟨t2, e2, m2, l2⟩ := rotate_left_spec (modelsAt_left.mp m1)
              obtain ⟨t3, e3, m3, l3⟩ := rotate_right_spec (modelsAt_left.mpr m2)
              have r6 := getBalance_focus m3
              simp only [hpb, e2, e3, r6, andThen_some, if_false]
              by_cases hn1 : nb = -1
              · obtain ⟨t4, e4, m4, l4⟩ := setBalance_left_spec 0 m3
                obtain ⟨t5, e5, m5, l5⟩ := setBalance_right_spec (1) m4
                obtain ⟨t6, e6, m6, l6⟩ := setBalance_spec 0 m5
                simp only [hn1, e4, e5, e6, andThen_some, if_true, int8_zero, int8_one,
                  int8_neg_one] at m6 ⊢
                exact ⟨t6, rfl, (models_plug _ _).mpr m6, by omega⟩
              simp only [hn1, if_false]
              by_cases hn2 : nb = 0
              · obtain ⟨t4, e4, m4, l4⟩ := setBalance_left_spec 0 m3
                obtain ⟨t5, e5, m5, l5⟩ := setBalance_right_spec 0 m4
                obtain ⟨t6, e6, m6, l6⟩ := setBalance_spec 0 m5
                simp only [hn2, e4, e5, e6, andThen_some, if_true, int8_zero, int8_one,
                  int8_neg_one] at m6 ⊢
                exact ⟨t6, rfl, (models_plug _ _).mpr m6, by omega⟩
              simp only [hn2, if_false]
              by_cases hn3 : nb = 1
              · obtain ⟨t4, e4, m4, l4⟩ := setBalance_left_spec (-1) m3
                obtain ⟨t5, e5, m5, l5⟩ := setBalance_right_spec 0 m4
                obtain ⟨t6, e6, m6, l6⟩ := setBalance_spec 0 m5
                simp only [hn3, e4, e5, e6, andThen_some, if_true, int8_zero, int8_one,
                  int8_neg_one] at m6 ⊢
                exact ⟨t6, rfl, (models_plug _ _).mpr m6, by omega⟩
              · obtain ⟨t6, e6, m6, l6⟩ := setBalance_spec 0 m3
                simp only [hn3, e6, andThen_some, if_false, int8_zero] at m6 ⊢
                exact ⟨t6, rfl, (models_plug _ _).mpr m6, by omega⟩
        · simp only [h2, if_false]
          exact ⟨t1, rfl, (models_plug _ _).mpr m1, l1⟩
      | right g R kg vg bg =>
        have hg := modelsAt_right.mpr h
        have r1 := getParent_focus h
        have r2 := getLeft_focus hg
        have hne : some p ≠ R.ptr := fun e => modelsAt_left_ne_right hg e.symm
        have r3 := getBalance_focus hg
        obtain ⟨t1, e1, m1, l1⟩ := setBalance_spec (bg + 1) hg
        have r4 := getBalance_focus m1
        have r5 := getBalance_focus (modelsAt_right.mp m1)
        simp only [AVLTree.insert_fix, Shape.insert_fix, r1, r2, r3, e1, r4, r5, andThen_some,
          pathPtr, Frame.addr, ptr_node, reduceCtorEq, if_false, if_true, hne]
        by_cases h0 : int8 (bg + 1) = 0
        · simp only [h0, if_true]
          exact ⟨t1, rfl, (models_plug _ _).mpr (h0 ▸ m1), l1⟩
        simp only [h0, if_false]
        by_cases h1 : int8 (bg + 1) = 1
        · rw [h1] at m1
          obtain ⟨t2, e2, m2, l2⟩ := ih fuel t1 g p _ _ kg vg _ m1 (Or.inr ⟨rfl, rfl⟩) hf2
          simp only [h1, e2, if_true]
          exact ⟨t2, rfl, m2, l2.trans l1⟩
        simp only [h1, if_false]
        by_cases h2 : int8 (bg + 1) = 2
        · simp only [h2, if_true]
          rw [h2] at m1
          by_cases hpb : pb = 1
          · subst hpb
            obtain ⟨t2, e2, m2, l2⟩ := rotate_left_spec m1
            obtain ⟨t3, e3, m3, l3⟩ := setBalance_spec 0 m2
            obtain ⟨t4, e4, m4, l4⟩ := setBalance_left_spec 0 m3
            simp only [e2, e3, e4, andThen_some, if_true, int8_zero] at m4 ⊢
            exact ⟨t4, rfl, (models_plug _ _).mpr m4, by omega⟩
          · have hB : pb = -1 ∧ A.ptr = some n := hn.resolve_right (fun hx => hpb hx.1)
            obtain ⟨hpb1, hBn⟩ := hB
            cases A with
            | nil => simp at hBn
            | node n2 A1 kn vn nb A2 =>
              simp only [ptr_node, Option.some.injEq] at hBn
              subst hBn
              obtain ⟨t2, e2, m2, l2⟩ := rotate_right_spec (modelsAt_right.mp m1)
              obtain ⟨t3, e3, m3, l3⟩ := rotate_left_spec (modelsAt_right.mpr m2)
              have r6 := getBalance_focus m3
              simp only [hpb, e2, e3, r6, andThen_some, if_false]
              by_cases hn1 : nb = 1
              · obtain ⟨t4, e4, m4, l4⟩ := setBalance_right_spec 0 m3
                obtain ⟨t5, e5, m5, l5⟩ := setBalance_left_spec (-1) m4
                obtain ⟨t6, e6, m6, l6⟩ := setBalance_spec 0 m5
                simp only [hn1, e4, e5, e6, andThen_some, if_true, int8_zero, int8_one,
                  int8_neg_one] at m6 ⊢
                exact ⟨t6, rfl, (models_plug _ _).mpr m6, by omega⟩
              simp only [hn1, if_false]
              by_cases hn2 : nb = 0
              · obtain ⟨t4, e4, m4, l4⟩ := setBalance_right_spec 0 m3
                obtain ⟨t5, e5, m5, l5⟩ := setBalance_left_spec 0 m4
                obtain ⟨t6, e6, m6, l6⟩ := setBalance_spec 0 m5
                simp only [hn2, e4, e5, e6, andThen_some, if_true, int8_zero, int8_one,
                  int8_neg_one] at m6 ⊢
                exact ⟨t6, rfl, (models_plug _ _).mpr m6, by omega⟩
              simp only [hn2, if_false]
              by_cases hn3 : nb = -1
              · obtain ⟨t4, e4, m4, l4⟩ := setBalance_right_spec (1) m3
                obtain ⟨t5, e5, m5, l5⟩ := setBalance_left_spec 0 m4
                obtain ⟨t6, e6, m6, l6⟩ := setBalance_spec 0 m5
                simp only [hn3, e4, e5, e6, andThen_some, if_true, int8_zero, int8_one,
                  int8_neg_one] at m6 ⊢
                exact ⟨t6, rfl, (models_plug _ _).mpr m6, by omega⟩
              · obtain ⟨t6, e6, m6, l6⟩ := setBalance_spec 0 m3
                simp only [hn3, e6, andThen_some, if_false, int8_zero] at m6 ⊢
                exact ⟨t6, rfl, (models_plug _ _).mpr m6, by omega⟩
        · simp only [h2, if_false]
          exact ⟨t1, rfl, (models_plug _ _).mpr m1, l1⟩

end InsertFixRefinement

section Allocation
open Shape
variable {K V : Type}

/-! ## Allocation and the descent of `insert_helper` -/

theorem deref_alloc_lt {t : BinarySearchTree K V} {x : Option (AVLNode K V)} {r : Option Nat}
    {a : Nat} (h : a < t.mem.length) :
    deref { mem := t.mem ++ [x], root_ := r } (some a) = deref t (some a) := by
  simp [deref, List.getElem?_append_left h]

theorem deref_alloc_new (t : BinarySearchTree K V) (x : Option (AVLNode K V)) (r : Option Nat) :
    deref { mem := t.mem ++ [x], root_ := r } (some t.mem.length) = x := by
  simp [deref]

theorem RepTree_alloc {t : BinarySearchTree K V} {s : Shape K V} {par : Option Nat}
    (x : Option (AVLNode K V)) (r : Option Nat) (h : RepTree t par s) :
    RepTree { mem := t.mem ++ [x], root_ := r } par s :=
  RepTree_congr h (fun a ha => deref_alloc_lt (RepTree_addr_lt h a ha))

theorem RepPath_addr_lt {t : BinarySearchTree K V} {c : List (Frame K V)} :
    ∀ {hole : Option Nat}, RepPath t c hole → ∀ a ∈ pathAddrs c, a < t.mem.length := by
  induction c with
  | nil => intro _ _ a ha; simp [pathAddrs] at ha
  | cons f c ih =>
    intro hole h x hx
    cases f with
    | left a k v b r =>
      obtain ⟨h1, h2, h3⟩ := h
      simp only [pathAddrs, Frame.addr, Frame.sibling, List.mem_cons, List.mem_append] at hx
      rcases hx with rfl | hx | hx
      · exact deref_lt h1
      · exact RepTree_addr_lt h2 x hx
      · exact ih h3 x hx
    | right a l k v b =>
      obtain ⟨h1, h2, h3⟩ := h
      simp only [pathAddrs, Frame.addr, Frame.sibling, List.mem_cons, List.mem_append] at hx
      rcases hx with rfl | hx | hx
      · exact deref_lt h1
      · exact RepTree_addr_lt h2 x hx
      · exact ih h3 x hx

theorem RepPath_alloc {t : BinarySearchTree K V} {c : List (Frame K V)} {hole : Option Nat}
    (x : Option (AVLNode K V)) (r : Option Nat) (h : RepPath t c hole) :
    RepPath { mem := t.mem ++ [x], root_ := r } c hole :=
  RepPath_congr h (fun a ha => deref_alloc_lt (RepPath_addr_lt h a ha))

@[simp] theorem new_AVLNode_snd (t : BinarySearchTree K V) (k : K) (v : V) (p : Option Nat) :
    (new_AVLNode t k v p).2 = t.mem.length := rfl

theorem attach_left_spec {t : BinarySearchTree K V} {c : List (Frame K V)} {a : Nat}
    {R : Shape K V} {k : K} {v : V} {b : Int} (k2 : K) (v2 : V)
    (h : ModelsAt t c (node a nil k v b R)) :
    ∃ t2, setLeft (new_AVLNode t k2 v2 (some a)).1 (some a) (some t.mem.length) = some t2 ∧
      ModelsAt t2 c (node a (node t.mem.length nil k2 v2 0 nil) k v b R) ∧
      t2.mem.length = t.mem.length + 1 := by
  obtain ⟨hroot, hpath, ⟨ha, hL, hR⟩, hnd⟩ := h
  have hal := deref_lt ha
  have hlt1 := RepPath_addr_lt hpath
  have hlt2 := RepTree_addr_lt hR
  have hnd0 := hnd
  simp only [Shape.addrs, List.nodup_append, List.nodup_cons, List.mem_append, List.mem_cons,
    not_or, List.disjoint_append_right, List.disjoint_cons_right, List.nil_append,
    List.not_mem_nil, not_false_eq_true, true_and, List.nodup_nil,
    List.disjoint_nil_right] at hnd
  simp only [ptr_node, ptr_nil] at hpath hroot ha
  have hf1 : t.mem.length ∉ pathAddrs c := fun hm => Nat.lt_irrefl _ (hlt1 _ hm)
  have hf2 : t.mem.length ∉ R.addrs := fun hm => Nat.lt_irrefl _ (hlt2 _ hm)
  have hne : t.mem.length ≠ a := by omega
  simp [setLeft, new_AVLNode, modifyNode, deref_alloc_lt hal, ha]
  refine ⟨hroot, ?_, ⟨?_, ?_, ?_⟩, ?_⟩
  · rw [RepPath_store_iff hnd.2.2.1]; exact RepPath_alloc _ _ hpath
  · rw [deref_store_same _ (by simp; omega)]; simp
  · simp only [RepTree, ptr_nil, and_true]
    rw [deref_store_ne _ hne, deref_alloc_new]
  · rw [RepTree_store_iff hnd.2.1.1]; exact RepTree_alloc _ _ hR
  · simp only [Shape.addrs, List.nodup_append, List.nodup_cons, List.mem_append, List.mem_cons,
      not_or, List.disjoint_append_right, List.disjoint_cons_right, List.nil_append,
      List.not_mem_nil, not_false_eq_true, true_and, List.nodup_nil,
      List.disjoint_nil_right, List.append_nil, List.cons_append]
    tauto

theorem attach_right_spec {t : BinarySearchTree K V} {c : List (Frame K V)} {a : Nat}
    {L : Shape K V} {k : K} {v : V} {b : Int} (k2 : K) (v2 : V)
    (h : ModelsAt t c (node a L k v b nil)) :
    ∃ t2, setRight (new_AVLNode t k2 v2 (some a)).1 (some a) (some t.mem.length) = some t2 ∧
      ModelsAt t2 c (node a L k v b (node t.mem.length nil k2 v2 0 nil)) ∧
      t2.mem.length = t.mem.length + 1 := by
  obtain ⟨hroot, hpath, ⟨ha, hL, hR⟩, hnd⟩ := h
  have hal := deref_lt ha
  have hlt1 := RepPath_addr_lt hpath
  have hlt2 := RepTree_addr_lt hL
  have hnd0 := hnd
  simp only [Shape.addrs, List.nodup_append, List.nodup_cons, List.mem_append, List.mem_cons,
    not_or, List.disjoint_append_right, List.disjoint_cons_right, List.append_nil,
    List.not_mem_nil, not_false_eq_true, and_true, List.nodup_nil,
    List.disjoint_nil_right] at hnd
  simp only [ptr_node, ptr_nil] at hpath hroot ha
  have hf1 : t.mem.length ∉ pathAddrs c := fun hm => Nat.lt_irrefl _ (hlt1 _ hm)
  have hf2 : t.mem.length ∉ L.addrs := fun hm => Nat.lt_irrefl _ (hlt2 _ hm)
  have hne : t.mem.length ≠ a := by omega
  simp [setRight, new_AVLNode, modifyNode, deref_alloc_lt hal, ha]
  refine ⟨hroot, ?_, ⟨?_, ?_, ?_⟩, ?_⟩
  · rw [RepPath_store_iff (by tauto)]; exact RepPath_alloc _ _ hpath
  · rw [deref_store_same _ (by simp; omega)]; simp
  · rw [RepTree_store_iff (by tauto)]; exact RepTree_alloc _ _ hL
  · simp only [RepTree, ptr_nil, and_true]
    rw [deref_store_ne _ hne, deref_alloc_new]
  · simp only [Shape.addrs, List.nodup_append, List.nodup_cons, List.mem_append, List.mem_cons,
      not_or, List.disjoint_append_right, List.disjoint_cons_right, List.nil_append,
      List.not_mem_nil, not_false_eq_true, true_and, List.nodup_nil,
      List.disjoint_nil_right, List.append_nil, List.cons_append]
    tauto

end Allocation

section InsertRefinement
open Shape
variable {K V : Type}

/-- Refinement of `insert_helper`. -/
theorem insert_helper_spec [LinearOrder K] (item : K × V) (s : Shape K V) :
    ∀ (c : List (Frame K V)) (fuel : Nat) (t : AVLTree K V),
      ModelsAt t c s → s ≠ nil → s.height ≤ fuel →
      ∃ t2, AVLTree.insert_helper item fuel t s.ptr = some t2 ∧
        Models t2 (Shape.insert_helper t.mem.length item c s) := by
  induction s with
  | nil => intro c fuel t _ hs; exact absurd rfl hs
  | node a l k v b r ihl ihr =>
    intro c fuel t h _ hf
    cases fuel with
    | zero => simp [Shape.height] at hf
    | succ fuel =>
      simp only [Shape.height, Nat.add_le_add_iff_right, max_le_iff] at hf
      have r1 := getKey_focus h
      have r2 := getLeft_focus h
      have r3 := getRight_focus h
      simp only [AVLTree.insert_helper, Shape.insert_helper, ptr_node, r1, r2, r3, andThen_some]
      by_cases hlt : item.1 < k
      · simp only [hlt, if_true]
        cases l with
        | nil =>
          obtain ⟨t1, e1, m1, l1⟩ := attach_left_spec item.1 item.2 h
          have r4 := getBalance_focus m1
          simp only [ptr_nil, if_true, new_AVLNode_snd, e1, r4, andThen_some]
          by_cases hb : b = 0
          · subst hb
            obtain ⟨t2, e2, m2, l2⟩ := setBalance_spec (-1) m1
            simp only [int8_neg_one] at m2
            have hfu : c.length < t2.mem.length + 1 := by
              have := path_length_le m2; omega
            obtain ⟨t3, e3, m3, l3⟩ := insert_fix_spec c _ t2 a t.mem.length _ _ k v _ m2
              (Or.inl ⟨rfl, rfl⟩) hfu
            simp only [ne_eq, not_true_eq_false, if_false, e2, andThen_some, e3]
            exact ⟨t3, rfl, m3⟩
          · obtain ⟨t2, e2, m2, l2⟩ := setBalance_spec 0 m1
            simp only [int8_zero] at m2
            simp only [ne_eq, hb, not_false_eq_true, if_true, e2]
            exact ⟨t2, rfl, (models_plug _ _).mpr m2⟩
        | node a2 l2 k2 v2 b2 r2 =>
          simp only [ptr_node, reduceCtorEq, if_false]
          exact ihl _ fuel t (modelsAt_left.mp h) (by simp) hf.1
      · simp only [hlt, if_false]
        by_cases heq : item.1 = k
        · obtain ⟨t2, e2, m2, l2⟩ := setValue_spec item.2 h
          simp only [heq, if_true, e2] at m2 ⊢
          exact ⟨t2, by simp [← heq, e2], (models_plug _ _).mpr m2⟩
        · simp only [heq, if_false]
          cases r with
          | nil =>
            obtain ⟨t1, e1, m1, l1⟩ := attach_right_spec item.1 item.2 h
            have r4 := getBalance_focus m1
            simp only [ptr_nil, if_true, new_AVLNode_snd, e1, r4, andThen_some]
            by_cases hb : b = 0
            · subst hb
              obtain ⟨t2, e2, m2, l2⟩ := setBalance_spec 1 m1
              simp only [int8_one] at m2
              have hfu : c.length < t2.mem.length + 1 := by
                have := path_length_le m2; omega
              obtain ⟨t3, e3, m3, l3⟩ := insert_fix_spec c _ t2 a t.mem.length _ _ k v _ m2
                (Or.inr ⟨rfl, rfl⟩) hfu
              simp only [ne_eq, not_true_eq_false, if_false, e2, andThen_some, e3]
              exact ⟨t3, rfl, m3⟩
            · obtain ⟨t2, e2, m2, l2⟩ := setBalance_spec 0 m1
              simp only [int8_zero] at m2
              simp only [ne_eq, hb, not_false_eq_true, if_true, e2]
              exact ⟨t2, rfl, (models_plug _ _).mpr m2⟩
          | node a2 l2 k2 v2 b2 r2 =>
            simp only [ptr_node, reduceCtorEq, if_false]
            exact ihr _ fuel t (modelsAt_right.mp h) (by simp) hf.2

/-- Refinement of `AVLTree::insert`: on a heap that holds the tree `T` the call
returns, and the heap then holds the tree `Shape.insert` computes. -/
theorem insert_spec [LinearOrder K] {t : AVLTree K V} {T : Shape K V} (item : K × V)
    (h : Models t T) :
    ∃ t2, AVLTree.insert t item = some t2 ∧ Models t2 (Shape.insert t.mem.length T item) := by
  cases T with
  | nil =>
    obtain ⟨hroot, -, -⟩ := h
    simp only [ptr_nil] at hroot
    refine ⟨_, by simp [AVLTree.insert, hroot, new_AVLNode]; rfl, ?_⟩
    refine ⟨rfl, ⟨?_, trivial, trivial⟩, by simp [Shape.addrs]⟩
    simp [deref]
  | node a l k v b r =>
    have hroot := h.1
    simp only [ptr_node] at hroot
    have hs : (node a l k v b r).height ≤ t.mem.length + 1 :=
      le_trans (height_le_size _) (le_trans (models_size_le h) (Nat.le_succ _))
    obtain ⟨t2, e2, m2⟩ := insert_helper_spec item (node a l k v b r) [] _ t
      ((modelsAt_nil _).mpr h) (by simp) hs
    refine ⟨t2, ?_, m2⟩
    simp only [AVLTree.insert, hroot, reduceCtorEq, if_false]
    simpa using e2

end InsertRefinement

section Traversals
open Shape
variable {K V : Type}

/-! ## Read-only traversals -/

/-- Refinement of `internalFind_helper`. -/
theorem internalFind_helper_spec [LinearOrder K] {t : BinarySearchTree K V} (key : K)
    (s : Shape K V) :
    ∀ (par : Option Nat) (fuel : Nat), RepTree t par s → s.height ≤ fuel →
      BinarySearchTree.internalFind_helper t key fuel s.ptr = some (locate key s) := by
  induction s with
  | nil => intro par fuel _ _; cases fuel <;> rfl
  | node a l k v b r ihl ihr =>
    intro par fuel h hf
    cases fuel with
    | zero => simp [Shape.height] at hf
    | succ fuel =>
      simp only [Shape.height, Nat.add_le_add_iff_right, max_le_iff] at hf
      obtain ⟨h1, h2, h3⟩ := h
      simp only [ptr_node, BinarySearchTree.internalFind_helper, getKey, getLeft, getRight, h1,
        Option.map_some', andThen_some, locate]
      by_cases hlt : key < k
      · simp only [hlt, if_true]; exact ihl _ fuel h2 hf.1
      · by_cases heq : key = k
        · subst heq
          simp only [lt_irrefl, if_true, if_false]
        · simp only [hlt, heq, if_false]; exact ihr _ fuel h3 hf.2

/-- Refinement of `internalFind`. -/
theorem internalFind_spec [LinearOrder K] {t : BinarySearchTree K V} {T : Shape K V} (key : K)
    (h : Models t T) : BinarySearchTree.internalFind t key = some (locate key T) := by
  unfold BinarySearchTree.internalFind
  rw [h.1]
  exact internalFind_helper_spec key T none _ h.2.1
    (le_trans (height_le_size _) (models_size_le h))

/-- Refinement of `isBalanced_helper`. -/
theorem isBalanced_helper_spec {t : BinarySearchTree K V} (s : Shape K V) :
    ∀ (par : Option Nat) (fuel : Nat), RepTree t par s → s.height ≤ fuel →
      BinarySearchTree.isBalanced_helper t fuel s.ptr = some (Shape.isBalanced_helper s) := by
  induction s with
  | nil => intro par fuel _ _; cases fuel <;> rfl
  | node a l k v b r ihl ihr =>
    intro par fuel h hf
    cases fuel with
    | zero => simp [Shape.height] at hf
    | succ fuel =>
      simp only [Shape.height, Nat.add_le_add_iff_right, max_le_iff] at hf
      obtain ⟨h1, h2, h3⟩ := h
      simp only [ptr_node, BinarySearchTree.isBalanced_helper, getLeft, getRight, h1,
        Option.map_some', andThen_some, ihl _ fuel h2 hf.1, ihr _ fuel h3 hf.2,
        Shape.isBalanced_helper]
      split_ifs <;> rfl

/-- Refinement of `isBalanced`. -/
theorem isBalanced_spec {t : BinarySearchTree K V} {T : Shape K V} (h : Models t T) :
    BinarySearchTree.isBalanced t = some (decide (Shape.isBalanced_helper T ≠ -1)) := by
  unfold BinarySearchTree.isBalanced
  rw [h.1, isBalanced_helper_spec T none _ h.2.1
    (le_trans (height_le_size _) (models_size_le h))]
  rfl

/-- On a tree that is height-balanced at every node the helper returns the
height. -/
theorem isBalanced_helper_of_heightBalanced (s : Shape K V) (h : heightBalanced s) :
    Shape.isBalanced_helper s = (height s : Int) := by
  induction s with
  | nil => rfl
  | node a l k v b r ihl ihr =>
    obtain ⟨h1, h2, h3, h4⟩ := h
    simp only [Shape.isBalanced_helper, ihl h3, ihr h4, Shape.height]
    split_ifs <;> first | omega | tauto

theorem heightBalanced_of_balanced (s : Shape K V) (h : balanced s) : heightBalanced s := by
  induction s with
  | nil => trivial
  | node a l k v b r ihl ihr =>
    obtain ⟨h1, h2, h3, h4, h5⟩ := h
    exact ⟨by omega, by omega, ihl h4, ihr h5⟩

/-- On a heap that holds a tree with correct balance factors `isBalanced`
returns true. -/
theorem isBalanced_of_balanced {t : BinarySearchTree K V} {T : Shape K V} (h : Models t T)
    (hb : balanced T) : BinarySearchTree.isBalanced t = some true := by
  rw [isBalanced_spec h, isBalanced_helper_of_heightBalanced T (heightBalanced_of_balanced T hb)]
  simp

end Traversals

section InsertFixShape
open Shape
variable {K V : Type}

/-! ## Paths: entries, heights and balance -/

theorem toList_plug (c : List (Frame K V)) (s : Shape K V) :
    toList (plug c s) = pathBefore c ++ toList s ++ pathAfter c := by
  induction c generalizing s with
  | nil => simp [plug, pathBefore, pathAfter]
  | cons f c ih =>
    cases f <;> simp [plug, ih, Frame.fill, toList, pathBefore, pathAfter]

theorem height_plug (c : List (Frame K V)) (s : Shape K V) :
    height (plug c s) = pathHeight c (height s) := by
  induction c generalizing s with
  | nil => rfl
  | cons f c ih =>
    cases f <;> simp [plug, ih, Frame.fill, pathHeight, Shape.height, Frame.sibling, max_comm]

theorem balanced_plug (c : List (Frame K V)) (s : Shape K V) :
    balanced (plug c s) ↔ balanced s ∧ pathBalanced c (height s) := by
  induction c generalizing s with
  | nil => simp [plug, pathBalanced]
  | cons f c ih =>
    cases f <;> simp only [plug, ih, Frame.fill, pathBalanced, balanced, Shape.height] <;> tauto

theorem size_plug_eq (c : List (Frame K V)) (s s2 : Shape K V) (h : s2.size = s.size + 1) :
    (plug c s2).size = (plug c s).size + 1 := by
  induction c generalizing s s2 with
  | nil => simpa [plug] using h
  | cons f c ih =>
    cases f <;> simp only [plug, Frame.fill] <;> apply ih <;> simp [Shape.size, h] <;> omega

/-! ## `insert_fix` keeps the entries and restores the balance factors -/

theorem toList_insert_fix (c : List (Frame K V)) (s : Shape K V) :
    toList (insert_fix c s) = toList (plug c s) := by
  induction c generalizing s with
  | nil => rfl
  | cons f c ih =>
    cases f with
    | left g kg vg bg R =>
      simp only [insert_fix, plug, Frame.fill]
      split_ifs with h0 h1 h2
      · simp [toList_plug, toList]
      · rw [ih]; simp [toList_plug, toList]
      · cases s with
        | nil => simp [toList_plug, toList]
        | node p A kp vp pb B =>
          simp only []
          split_ifs
          · simp [toList_plug, toList]
          · cases B with
            | nil => simp [toList_plug, toList]
            | node n B1 kn vn nb B2 =>
              simp only []
              split_ifs <;> simp [toList_plug, toList]
      · simp [toList_plug, toList]
    | right g L kg vg bg =>
      simp only [insert_fix, plug, Frame.fill]
      split_ifs with h0 h1 h2
      · simp [toList_plug, toList]
      · rw [ih]; simp [toList_plug, toList]
      · cases s with
        | nil => simp [toList_plug, toList]
        | node p A kp vp pb B =>
          simp only []
          split_ifs
          · simp [toList_plug, toList]
          · cases A with
            | nil => simp [toList_plug, toList]
            | node n A1 kn vn nb A2 =>
              simp only []
              split_ifs <;> simp [toList_plug, toList]
      · simp [toList_plug, toList]

theorem balanced_insert_fix (c : List (Frame K V)) :
    ∀ (h : Nat) (p : Nat) (A B : Shape K V) (kp : K) (vp : V) (pb : Int),
      pathBalanced c h → balanced (node p A kp vp pb B) →
      height (node p A kp vp pb B) = h + 1 → pb ≠ 0 →
      balanced (insert_fix c (node p A kp vp pb B)) := by
  induction c with
  | nil => intro h p A B kp vp pb _ hs _ _; exact hs
  | cons f c ih =>
    intro h p A B kp vp pb hc hs hh hpb
    cases f with
    | left g kg vg bg R =>
      obtain ⟨hb1, hb2, hb3, hR, hc2⟩ := hc
      obtain ⟨hs1, hs2, hs3, hA, hB⟩ := hs
      simp only [Shape.height] at hh
      have hi : int8 (bg - 1) = bg - 1 := int8_of_small (by omega) (by omega)
      simp only [insert_fix, hi]
      by_cases h0 : bg - 1 = 0
      · rw [if_pos h0, balanced_plug]
        refine ⟨⟨?_, by omega, by omega, ⟨hs1, hs2, hs3, hA, hB⟩, hR⟩, ?_⟩
        · simp only [Shape.height]; omega
        · have : (node g (node p A kp vp pb B) kg vg (bg - 1) R).height = max h R.height + 1 := by
            simp only [Shape.height]; omega
          rw [this]; exact hc2
      rw [if_neg h0]
      by_cases h1 : bg - 1 = -1
      · rw [if_pos h1]
        refine ih (max h R.height + 1) g _ _ kg vg _ hc2 ?_ ?_ (by omega)
        · refine ⟨?_, by omega, by omega, ⟨hs1, hs2, hs3, hA, hB⟩, hR⟩
          simp only [Shape.height]; omega
        · simp only [Shape.height]; omega
      rw [if_neg h1]
      have h2 : bg - 1 = -2 := by omega
      rw [if_pos h2]
      by_cases hz : pb = -1
      · rw [if_pos hz, balanced_plug]
        have : (node p A kp vp 0 (node g B kg vg 0 R)).height = max h R.height + 1 := by
          simp only [Shape.height]; omega
        rw [this]
        refine ⟨⟨?_, by omega, by omega, hA, ⟨?_, by omega, by omega, hB, hR⟩⟩, hc2⟩ <;> (try simp only [Shape.height]) <;> omega
      rw [if_neg hz]
      cases B with
      | nil => simp only [Shape.height] at hh hs1; omega
      | node n B1 kn vn nb B2 =>
        obtain ⟨hn1, hn2, hn3, hB1, hB2⟩ := hB
        simp only [Shape.height] at hh hs1 hn1
        simp only []
        have hH : ∀ x y z : Int, (node n (node p A kp vp x B1) kn vn y (node g B2 kg vg z R)).height = max h R.height + 1 := by
          intro x y z; simp only [Shape.height]; omega
        by_cases q1 : nb = -1
        · rw [if_pos q1, balanced_plug, hH]
          refine ⟨⟨?_, by omega, by omega, ⟨?_, by omega, by omega, hA, hB1⟩, ⟨?_, by omega, by omega, hB2, hR⟩⟩, hc2⟩ <;> (try simp only [Shape.height]) <;> omega
        rw [if_neg q1]
        by_cases q2 : nb = 0
        · rw [if_pos q2, balanced_plug, hH]
          refine ⟨⟨?_, by omega, by omega, ⟨?_, by omega, by omega, hA, hB1⟩, ⟨?_, by omega, by omega, hB2, hR⟩⟩, hc2⟩ <;> (try simp only [Shape.height]) <;> omega
        rw [if_neg q2]
        have q3 : nb = 1 := by omega
        rw [if_pos q3, balanced_plug, hH]
        refine ⟨⟨?_, by omega, by omega, ⟨?_, by omega, by omega, hA, hB1⟩, ⟨?_, by omega, by omega, hB2, hR⟩⟩, hc2⟩ <;> (try simp only [Shape.height]) <;> omega
    | right g R kg vg bg =>
      obtain ⟨hb1, hb2, hb3, hR, hc2⟩ := hc
      obtain ⟨hs1, hs2, hs3, hA, hB⟩ := hs
      simp only [Shape.height] at hh
      have hi : int8 (bg + 1) = bg + 1 := int8_of_small (by omega) (by omega)
      simp only [insert_fix, hi]
      by_cases h0 : bg + 1 = 0
      · rw [if_pos h0, balanced_plug]
        refine ⟨⟨?_, by omega, by omega, hR, ⟨hs1, hs2, hs3, hA, hB⟩⟩, ?_⟩
        · simp only [Shape.height]; omega
        · have : (node g R kg vg (bg + 1) (node p A kp vp pb B)).height = max R.height h + 1 := by
            simp only [Shape.height]; omega
          rw [this]; exact hc2
      rw [if_neg h0]
      by_cases h1 : bg + 1 = 1
      · rw [if_pos h1]
        refine ih (max R.height h + 1) g _ _ kg vg _ hc2 ?_ ?_ (by omega)
        · refine ⟨?_, by omega, by omega, hR, ⟨hs1, hs2, hs3, hA, hB⟩⟩
          simp only [Shape.height]; omega
        · simp only [Shape.height]; omega
      rw [if_neg h1]
      have h2 : bg + 1 = 2 := by omega
      rw [if_pos h2]
      by_cases hz : pb = 1
      · rw [if_pos hz, balanced_plug]
        have : (node p (node g R kg vg 0 A) kp vp 0 B).height = max R.height h + 1 := by
          simp only [Shape.height]; omega
        rw [this]
        refine ⟨⟨?_, by omega, by omega, ⟨?_, by omega, by omega, hR, hA⟩, hB⟩, hc2⟩ <;> (try simp only [Shape.height]) <;> omega
      rw [if_neg hz]
      cases A with
      | nil => simp only [Shape.height] at hh hs1; omega
      | node n A1 kn vn nb A2 =>
        obtain ⟨hn1, hn2, hn3, hA1, hA2⟩ := hA
        simp only [Shape.height] at hh hs1 hn1
        simp only []
        have hH : ∀ x y z : Int, (node n (node g R kg vg x A1) kn vn y (node p A2 kp vp z B)).height = max R.height h + 1 := by
          intro x y z; simp only [Shape.height]; omega
        by_cases q1 : nb = 1
        · rw [if_pos q1, balanced_plug, hH]
          refine ⟨⟨?_, by omega, by omega, ⟨?_, by omega, by omega, hR, hA1⟩, ⟨?_, by omega, by omega, hA2, hB⟩⟩, hc2⟩ <;> (try simp only [Shape.height]) <;> omega
        rw [if_neg q1]
        by_cases q2 : nb = 0
        · rw [if_pos q2, balanced_plug, hH]
          refine ⟨⟨?_, by omega, by omega, ⟨?_, by omega, by omega, hR, hA1⟩, ⟨?_, by omega, by omega, hA2, hB⟩⟩, hc2⟩ <;> (try simp only [Shape.height]) <;> omega
        rw [if_neg q2]
        have q3 : nb = -1 := by omega
        rw [if_pos q3, balanced_plug, hH]
        refine ⟨⟨?_, by omega, by omega, ⟨?_, by omega, by omega, hR, hA1⟩, ⟨?_, by omega, by omega, hA2, hB⟩⟩, hc2⟩ <;> (try simp only [Shape.height]) <;> omega

end InsertFixShape

section InsertShape
open Shape
variable {K V : Type}

/-! ## `insert_helper` and `insert` on the represented tree -/

theorem ptr_eq_none_iff (s : Shape K V) : s.ptr = none ↔ s = nil := by
  cases s <;> simp

theorem balanced_insert_helper [LinearOrder K] (fresh : Nat) (item : K × V) (s : Shape K V) :
    ∀ (c : List (Frame K V)), s ≠ nil → balanced s → pathBalanced c (height s) →
      balanced (insert_helper fresh item c s) := by
  induction s with
  | nil => intro c hs; exact absurd rfl hs
  | node a l k v b r ihl ihr =>
    intro c _ hs hc
    have hs0 := hs
    obtain ⟨hb1, hb2, hb3, hl, hr⟩ := hs
    simp only [insert_helper]
    by_cases hlt : item.1 < k
    · rw [if_pos hlt]
      by_cases hn : l.ptr = none
      · rw [if_pos hn]
        have hl0 : l = nil := (ptr_eq_none_iff l).mp hn
        subst hl0
        simp only [Shape.height] at hb1 hc
        by_cases hb : b = 0
        · rw [if_neg (not_not.mpr hb)]
          refine balanced_insert_fix c (max 0 r.height + 1) a _ _ k v (-1) hc ?_ ?_ (by decide)
          · refine ⟨?_, by omega, by omega, ⟨?_, by omega, by omega, trivial, trivial⟩, hr⟩ <;>
              simp only [Shape.height] <;> omega
          · simp only [Shape.height]; omega
        · rw [if_pos hb, balanced_plug]
          have : (node a (node fresh nil item.1 item.2 0 nil) k v 0 r).height
              = max 0 r.height + 1 := by
            simp only [Shape.height]; omega
          rw [this]
          refine ⟨⟨?_, by omega, by omega, ⟨?_, by omega, by omega, trivial, trivial⟩, hr⟩, hc⟩ <;>
            simp only [Shape.height] <;> omega
      · rw [if_neg hn]
        exact ihl _ (fun e => hn ((ptr_eq_none_iff l).mpr e)) hl ⟨hb1, hb2, hb3, hr, hc⟩
    · rw [if_neg hlt]
      by_cases heq : item.1 = k
      · rw [if_pos heq, balanced_plug]
        exact ⟨⟨hb1, hb2, hb3, hl, hr⟩, hc⟩
      · rw [if_neg heq]
        by_cases hn : r.ptr = none
        · rw [if_pos hn]
          have hr0 : r = nil := (ptr_eq_none_iff r).mp hn
          subst hr0
          simp only [Shape.height] at hb1 hc
          by_cases hb : b = 0
          · rw [if_neg (not_not.mpr hb)]
            refine balanced_insert_fix c (max l.height 0 + 1) a _ _ k v 1 hc ?_ ?_ (by decide)
            · refine ⟨?_, by omega, by omega, hl, ⟨?_, by omega, by omega, trivial, trivial⟩⟩ <;>
                simp only [Shape.height] <;> omega
            · simp only [Shape.height]; omega
          · rw [if_pos hb, balanced_plug]
            have : (node a l k v 0 (node fresh nil item.1 item.2 0 nil)).height
                = max l.height 0 + 1 := by
              simp only [Shape.height]; omega
            rw [this]
            refine ⟨⟨?_, by omega, by omega, hl, ⟨?_, by omega, by omega, trivial, trivial⟩⟩, hc⟩ <;>
              simp only [Shape.height] <;> omega
        · rw [if_neg hn]
          exact ihr _ (fun e => hn ((ptr_eq_none_iff r).mpr e)) hr ⟨hb1, hb2, hb3, hl, hc⟩

/-- The AVL invariant on the balance factors is kept by `insert`. -/
theorem balanced_insert [LinearOrder K] (fresh : Nat) (T : Shape K V) (item : K × V)
    (h : balanced T) : balanced (Shape.insert fresh T item) := by
  cases T with
  | nil => exact ⟨by simp [Shape.height], by omega, by omega, trivial, trivial⟩
  | node a l k v b r =>
    exact balanced_insert_helper fresh item _ [] (by simp) h trivial

/-! ### Entries -/

theorem insertEntry_append_lt [LinearOrder K] (k : K) (v : V) (l1 l2 : List (K × V))
    (k2 : K) (v2 : V) (h : k < k2) :
    insertEntry k v (l1 ++ (k2, v2) :: l2) = insertEntry k v l1 ++ (k2, v2) :: l2 := by
  induction l1 with
  | nil => simp [insertEntry, h]
  | cons e l1 ih =>
    obtain ⟨k1, v1⟩ := e
    simp only [List.cons_append, insertEntry]
    split_ifs <;> simp [ih]

theorem insertEntry_append_eq [LinearOrder K] (k : K) (v : V) (l1 l2 : List (K × V))
    (v2 : V) (h : ∀ e ∈ l1, e.1 < k) :
    insertEntry k v (l1 ++ (k, v2) :: l2) = l1 ++ (k, v) :: l2 := by
  induction l1 with
  | nil => simp [insertEntry]
  | cons e l1 ih =>
    obtain ⟨k1, v1⟩ := e
    have h1 : k1 < k := h (k1, v1) (by simp)
    have ih2 := ih (fun e he => h e (by simp [he]))
    simp only [List.cons_append, insertEntry, not_lt_of_gt h1, (ne_of_gt h1), if_false]
    exact congrArg _ ih2

theorem insertEntry_append_gt [LinearOrder K] (k : K) (v : V) (l1 l2 : List (K × V))
    (k2 : K) (v2 : V) (h : ∀ e ∈ l1, e.1 < k) (h2 : k2 < k) :
    insertEntry k v (l1 ++ (k2, v2) :: l2) = l1 ++ (k2, v2) :: insertEntry k v l2 := by
  induction l1 with
  | nil => simp [insertEntry, not_lt_of_gt h2, ne_of_gt h2]
  | cons e l1 ih =>
    obtain ⟨k1, v1⟩ := e
    have h1 : k1 < k := h (k1, v1) (by simp)
    have ih2 := ih (fun e he => h e (by simp [he]))
    simp only [List.cons_append, insertEntry, not_lt_of_gt h1, (ne_of_gt h1), if_false]
    exact congrArg _ ih2

theorem mem_keys_iff {s : Shape K V} {x : K} : x ∈ keys s ↔ ∃ e ∈ toList s, e.1 = x := by
  simp [keys]

theorem toList_insert_helper [LinearOrder K] (fresh : Nat) (item : K × V) (s : Shape K V) :
    ∀ (c : List (Frame K V)), s ≠ nil → ordered s →
      toList (insert_helper fresh item c s)
        = pathBefore c ++ insertEntry item.1 item.2 (toList s) ++ pathAfter c := by
  induction s with
  | nil => intro c hs; exact absurd rfl hs
  | node a l k v b r ihl ihr =>
    intro c _ hs
    obtain ⟨ho1, ho2, hl, hr⟩ := hs
    have hlk : ∀ e ∈ toList l, e.1 < k := fun e he => ho1 e.1 (mem_keys_iff.mpr ⟨e, he, rfl⟩)
    simp only [insert_helper]
    by_cases hlt : item.1 < k
    · rw [if_pos hlt]
      simp only [toList, insertEntry_append_lt _ _ _ _ _ _ hlt]
      by_cases hn : l.ptr = none
      · rw [if_pos hn]
        have hl0 : l = nil := (ptr_eq_none_iff l).mp hn
        subst hl0
        split_ifs <;> simp [toList_insert_fix, toList_plug, toList, insertEntry]
      · rw [if_neg hn, ihl _ (fun e => hn ((ptr_eq_none_iff l).mpr e)) hl]
        simp [pathBefore, pathAfter]
    · rw [if_neg hlt]
      by_cases heq : item.1 = k
      · rw [if_pos heq]
        simp only [toList, toList_plug]
        rw [← heq, insertEntry_append_eq _ _ _ _ _ (fun e he => heq ▸ hlk e he)]
      · rw [if_neg heq]
        have hgt : k < item.1 := lt_of_le_of_ne (le_of_not_lt hlt) (Ne.symm heq)
        simp only [toList]
        rw [insertEntry_append_gt _ _ _ _ _ _ (fun e he => lt_trans (hlk e he) hgt) hgt]
        by_cases hn : r.ptr = none
        · rw [if_pos hn]
          have hr0 : r = nil := (ptr_eq_none_iff r).mp hn
          subst hr0
          split_ifs <;> simp [toList_insert_fix, toList_plug, toList, insertEntry]
        · rw [if_neg hn, ihr _ (fun e => hn ((ptr_eq_none_iff r).mpr e)) hr]
          simp [pathBefore, pathAfter]

/-- The entries after `insert`: the sorted sequence with the entry for the
key set to the new item. -/
theorem toList_insert [LinearOrder K] (fresh : Nat) (T : Shape K V) (item : K × V)
    (h : ordered T) :
    toList (Shape.insert fresh T item) = insertEntry item.1 item.2 (toList T) := by
  cases T with
  | nil => rfl
  | node a l k v b r =>
    simpa [pathBefore, pathAfter] using toList_insert_helper fresh item _ [] (by simp) h

/-! ### Order -/

theorem ordered_iff_sorted [LinearOrder K] (s : Shape K V) :
    ordered s ↔ (keys s).Pairwise (· < ·) := by
  induction s with
  | nil => simp [ordered, keys, toList]
  | node a l k v b r ihl ihr =>
    have hk : keys (node a l k v b r) = keys l ++ k :: keys r := by simp [keys, toList]
    rw [hk, List.pairwise_append, List.pairwise_cons, ← ihl, ← ihr]
    simp only [ordered, List.mem_cons]
    constructor
    · rintro ⟨h1, h2, h3, h4⟩
      refine ⟨h3, ⟨h2, h4⟩, ?_⟩
      rintro x hx y (rfl | hy)
      · exact h1 x hx
      · exact lt_trans (h1 x hx) (h2 y hy)
    · rintro ⟨h3, ⟨h2, h4⟩, h5⟩
      exact ⟨fun x hx => h5 x hx k (Or.inl rfl), h2, h3, h4⟩

theorem mem_insertEntry [LinearOrder K] (k : K) (v : V) (l : List (K × V)) (e : K × V)
    (h : e ∈ insertEntry k v l) : e = (k, v) ∨ e ∈ l := by
  induction l with
  | nil => simpa [insertEntry] using h
  | cons e2 l ih =>
    obtain ⟨k2, v2⟩ := e2
    simp only [insertEntry] at h
    split_ifs at h
    · simp only [List.mem_cons] at h ⊢; tauto
    · simp only [List.mem_cons] at h ⊢; tauto
    · simp only [List.mem_cons] at h ⊢
      rcases h with h | h
      · tauto
      · have := ih h; tauto

theorem sorted_insertEntry [LinearOrder K] (k : K) (v : V) (l : List (K × V))
    (h : (l.map Prod.fst).Pairwise (· < ·)) :
    ((insertEntry k v l).map Prod.fst).Pairwise (· < ·) := by
  induction l with
  | nil => simp [insertEntry]
  | cons e2 l ih =>
    obtain ⟨k2, v2⟩ := e2
    simp only [List.map_cons, List.pairwise_cons] at h
    obtain ⟨h1, h2⟩ := h
    simp only [insertEntry]
    split_ifs with hlt heq
    · simp only [List.map_cons, List.pairwise_cons, List.mem_cons]
      refine ⟨?_, h1, h2⟩
      rintro x (rfl | hx)
      · exact hlt
      · exact lt_trans hlt (h1 x hx)
    · subst heq
      simp only [List.map_cons, List.pairwise_cons]
      exact ⟨h1, h2⟩
    · have hgt : k2 < k := lt_of_le_of_ne (le_of_not_lt hlt) (Ne.symm heq)
      simp only [List.map_cons, List.pairwise_cons]
      refine ⟨?_, ih h2⟩
      intro x hx
      simp only [List.mem_map] at hx
      obtain ⟨e, he, rfl⟩ := hx
      rcases mem_insertEntry k v l e he with rfl | he2
      · exact hgt
      · exact h1 e.1 (List.mem_map.mpr ⟨e, he2, rfl⟩)

/-- Binary-search order is kept by `insert`. -/
theorem ordered_insert [LinearOrder K] (fresh : Nat) (T : Shape K V) (item : K × V)
    (h : ordered T) : ordered (Shape.insert fresh T item) := by
  rw [ordered_iff_sorted] at h ⊢
  unfold keys at h ⊢
  rw [toList_insert fresh T item ((ordered_iff_sorted T).mpr h)]
  exact sorted_insertEntry _ _ _ h

end InsertShape

section RemoveFixRefinement
open Shape
variable {K V : Type}

/-! ## Refinement of `remove_fix` -/

/-- The side of the node in focus as `remove_fix` computes it from the parent's
left link. -/
theorem ndiff_focus {t : BinarySearchTree K V} {c : List (Frame K V)} {n : Nat}
    {L R : Shape K V} {k : K} {v : V} {b : Int} (h : ModelsAt t c (node n L k v b R)) :
    (if pathPtr c ≠ none then
        andThen (getLeft t (pathPtr c)) fun pl => some (if some n = pl then (1 : Int) else -1)
      else some 0) = some (pathDiff c) := by
  cases c with
  | nil => simp [pathPtr, pathDiff]
  | cons f c =>
    cases f with
    | left g kg vg bg S =>
      have r := getLeft_focus (modelsAt_left.mpr h)
      simp [pathPtr, pathDiff, Frame.addr, Frame.diff, r]
    | right g S kg vg bg =>
      have hg := modelsAt_right.mpr h
      have r := getLeft_focus hg
      have hne : some n ≠ S.ptr := fun e => modelsAt_left_ne_right hg e.symm
      simp [pathPtr, pathDiff, Frame.addr, Frame.diff, r, hne]

/-- One call of `remove_fix(n, diff)` on a heap that holds the tree, up to its
recursive call: the heap then holds the subtree `remove_step` computes, and
the call goes on at the parent exactly when `remove_step` says so. -/
theorem remove_fix_step {t : AVLTree K V} {c : List (Frame K V)} {n : Nat}
    {L R : Shape K V} {kn : K} {vn : V} {nb : Int} {diff : Int} {s2 : Shape K V} {cont : Bool}
    (h : ModelsAt t c (node n L kn vn nb R))
    (hs : remove_step diff (node n L kn vn nb R) = some (s2, cont)) (fuel : Nat) :
    ∃ t2, ModelsAt t2 c s2 ∧ t2.mem.length = t.mem.length ∧
      AVLTree.remove_fix (fuel + 1) t (some n) diff =
        if cont = true then AVLTree.remove_fix fuel t2 (pathPtr c) (pathDiff c) else some t2 := by
  have r1 := getParent_focus h
  have r2 := ndiff_focus h
  have r3 := getBalance_focus h
  simp only [AVLTree.remove_fix, reduceCtorEq, if_false, r1, r2, r3, andThen_some]
  simp only [remove_step] at hs
  by_cases hs2 : nb + diff = -2
  · simp only [hs2, if_true] at hs ⊢
    cases L with
    | nil => simp at hs
    | node c A kc vc cb B =>
      have hc := modelsAt_left.mp h
      have r4 := getLeft_focus h
      have r5 := getBalance_focus hc
      simp only [r4, r5, ptr_node, andThen_some] at hs ⊢
      by_cases hz : cb = -1
      · subst hz
        simp only [if_true, Option.some.injEq, Prod.mk.injEq] at hs
        obtain ⟨rfl, rfl⟩ := hs
        obtain ⟨t1, e1, m1, l1⟩ := rotate_right_spec h
        obtain ⟨t2, e2, m2, l2⟩ := setBalance_right_spec 0 m1
        obtain ⟨t3, e3, m3, l3⟩ := setBalance_spec 0 m2
        simp only [int8_zero] at m3
        exact ⟨t3, m3, by omega, by simp [e1, e2, e3]⟩
      simp only [hz, if_false] at hs ⊢
      by_cases hz0 : cb = 0
      · subst hz0
        simp only [if_true, Option.some.injEq, Prod.mk.injEq] at hs
        obtain ⟨rfl, rfl⟩ := hs
        obtain ⟨t1, e1, m1, l1⟩ := rotate_right_spec h
        obtain ⟨t2, e2, m2, l2⟩ := setBalance_right_spec (-1) m1
        obtain ⟨t3, e3, m3, l3⟩ := setBalance_spec (1) m2
        simp only [int8_one, int8_neg_one] at m3
        exact ⟨t3, m3, by omega, by simp [e1, e2, e3]⟩
      simp only [hz0, if_false] at hs ⊢
      by_cases hz1 : cb = 1
      · subst hz1
        simp only [if_true] at hs ⊢
        cases B with
        | nil => simp at hs
        | node g B1 kg vg gb B2 =>
          have r6 := getRight_focus hc
          obtain ⟨t1, e1, m1, l1⟩ := rotate_left_spec hc
          obtain ⟨t2, e2, m2, l2⟩ := rotate_right_spec (modelsAt_left.mpr m1)
          have r7 := getBalance_focus m2
          simp only [r6, ptr_node, andThen_some, e1, e2, r7]
          by_cases hg1 : gb = 1
          · subst hg1
            simp only [if_true, Option.some.injEq, Prod.mk.injEq] at hs
            obtain ⟨rfl, rfl⟩ := hs
            obtain ⟨t3, e3, m3, l3⟩ := setBalance_right_spec (0) m2
            obtain ⟨t4, e4, m4, l4⟩ := setBalance_left_spec (-1) m3
            obtain ⟨t5, e5, m5, l5⟩ := setBalance_spec 0 m4
            simp only [int8_zero, int8_one, int8_neg_one] at m5
            exact ⟨t5, m5, by omega, by simp [e3, e4, e5]⟩
          simp only [hg1, if_false] at hs ⊢
          by_cases hg2 : gb = 0
          · subst hg2
            simp only [if_true, Option.some.injEq, Prod.mk.injEq] at hs
            obtain ⟨rfl, rfl⟩ := hs
            obtain ⟨t3, e3, m3, l3⟩ := setBalance_right_spec 0 m2
            obtain ⟨t4, e4, m4, l4⟩ := setBalance_left_spec 0 m3
            obtain ⟨t5, e5, m5, l5⟩ := setBalance_spec 0 m4
            simp only [int8_zero, int8_one, int8_neg_one] at m5
            exact ⟨t5, m5, by omega, by simp [e3, e4, e5]⟩
          simp only [hg2, if_false] at hs ⊢
          by_cases hg3 : gb = -1
          · subst hg3
            simp only [if_true, Option.some.injEq, Prod.mk.injEq] at hs
            obtain ⟨rfl, rfl⟩ := hs
            obtain ⟨t3, e3, m3, l3⟩ := setBalance_right_spec (1) m2
            obtain ⟨t4, e4, m4, l4⟩ := setBalance_left_spec (0) m3
            obtain ⟨t5, e5, m5, l5⟩ := setBalance_spec 0 m4
            simp only [int8_zero, int8_one, int8_neg_one] at m5
            exact ⟨t5, m5, by omega, by simp [e3, e4, e5]⟩
          · simp only [hg3, if_false, Option.some.injEq, Prod.mk.injEq] at hs ⊢
            obtain ⟨rfl, rfl⟩ := hs
            obtain ⟨t5, e5, m5, l5⟩ := setBalance_spec 0 m2
            simp only [int8_zero] at m5
            exact ⟨t5, m5, by omega, by simp [e5]⟩
      · simp only [hz1, if_false, Option.some.injEq, Prod.mk.injEq] at hs ⊢
        obtain ⟨rfl, rfl⟩ := hs
        exact ⟨t, h, rfl, by simp⟩
  simp only [hs2, if_false] at hs ⊢
  by_cases hs2 : nb + diff = 2
  · simp only [hs2, if_true] at hs ⊢
    cases R with
    | nil => simp at hs
    | node c A kc vc cb B =>
      have hc := modelsAt_right.mp h
      have r4 := getRight_focus h
      have r5 := getBalance_focus hc
      simp only [r4, r5, ptr_node, andThen_some] at hs ⊢
      by_cases hz : cb = 1
      · subst hz
        simp only [if_true, Option.some.injEq, Prod.mk.injEq] at hs
        obtain ⟨rfl, rfl⟩ := hs
        obtain ⟨t1, e1, m1, l1⟩ := rotate_left_spec h
        obtain ⟨t2, e2, m2, l2⟩ := setBalance_left_spec 0 m1
        obtain ⟨t3, e3, m3, l3⟩ := setBalance_spec 0 m2
        simp only [int8_zero] at m3
        exact ⟨t3, m3, by omega, by simp [e1, e2, e3]⟩
      simp only [hz, if_false] at hs ⊢
      by_cases hz0 : cb = 0
      · subst hz0
        simp only [if_true, Option.some.injEq, Prod.mk.injEq] at hs
        obtain ⟨rfl, rfl⟩ := hs
        obtain ⟨t1, e1, m1, l1⟩ := rotate_left_spec h
        obtain ⟨t2, e2, m2, l2⟩ := setBalance_left_spec (1) m1
        obtain ⟨t3, e3, m3, l3⟩ := setBalance_spec (-1) m2
        simp only [int8_one, int8_neg_one] at m3
        exact ⟨t3, m3, by omega, by simp [e1, e2, e3]⟩
      simp only [hz0, if_false] at hs ⊢
      by_cases hz1 : cb = -1
      · subst hz1
        simp only [if_true] at hs ⊢
        cases A with
        | nil => simp at hs
        | node g A1 kg vg gb A2 =>
          have r6 := getLeft_focus hc
          obtain ⟨t1, e1, m1, l1⟩ := rotate_right_spec hc
          obtain ⟨t2, e2, m2, l2⟩ := rotate_left_spec (modelsAt_right.mpr m1)
          have r7 := getBalance_focus m2
          simp only [r6, ptr_node, andThen_some, e1, e2, r7]
          by_cases hg1 : gb = -1
          · subst hg1
            simp only [if_true, Option.some.injEq, Prod.mk.injEq] at hs
            obtain ⟨rfl, rfl⟩ := hs
            obtain ⟨t3, e3, m3, l3⟩ := setBalance_left_spec (0) m2
            obtain ⟨t4, e4, m4, l4⟩ := setBalance_right_spec (1) m3
            obtain ⟨t5, e5, m5, l5⟩ := setBalance_spec 0 m4
            simp only [int8_zero, int8_one, int8_neg_one] at m5
            exact ⟨t5, m5, by omega, by simp [e3, e4, e5]⟩
          simp only [hg1, if_false] at hs ⊢
          by_cases hg2 : gb = 0
          · subst hg2
            simp only [if_true, Option.some.injEq, Prod.mk.injEq] at hs
            obtain ⟨rfl, rfl⟩ := hs
            obtain ⟨t3, e3, m3, l3⟩ := setBalance_left_spec 0 m2
            obtain ⟨t4, e4, m4, l4⟩ := setBalance_right_spec 0 m3
            obtain ⟨t5, e5, m5, l5⟩ := setBalance_spec 0 m4
            simp only [int8_zero, int8_one, int8_neg_one] at m5
            exact ⟨t5, m5, by omega, by simp [e3, e4, e5]⟩
          simp only [hg2, if_false] at hs ⊢
          by_cases hg3 : gb = 1
          · subst hg3
            simp only [if_true, Option.some.injEq, Prod.mk.injEq] at hs
            obtain ⟨rfl, rfl⟩ := hs
            obtain ⟨t3, e3, m3, l3⟩ := setBalance_left_spec (-1) m2
            obtain ⟨t4, e4, m4, l4⟩ := setBalance_right_spec (0) m3
            obtain ⟨t5, e5, m5, l5⟩ := setBalance_spec 0 m4
            simp only [int8_zero, int8_one, int8_neg_one] at m5
            exact ⟨t5, m5, by omega, by simp [e3, e4, e5]⟩
          · simp only [hg3, if_false, Option.some.injEq, Prod.mk.injEq] at hs ⊢
            obtain ⟨rfl, rfl⟩ := hs
            obtain ⟨t5, e5, m5, l5⟩ := setBalance_spec 0 m2
            simp only [int8_zero] at m5
            exact ⟨t5, m5, by omega, by simp [e5]⟩
      · simp only [hz1, if_false, Option.some.injEq, Prod.mk.injEq] at hs ⊢
        obtain ⟨rfl, rfl⟩ := hs
        exact ⟨t, h, rfl, by simp⟩
  simp only [hs2, if_false] at hs ⊢
  by_cases hs3 : nb + diff = -1
  · simp only [hs3, if_true, Option.some.injEq, Prod.mk.injEq] at hs ⊢
    obtain ⟨rfl, rfl⟩ := hs
    obtain ⟨t1, e1, m1, l1⟩ := setBalance_spec (-1) h
    simp only [int8_neg_one] at m1
    exact ⟨t1, m1, l1, by simp [e1]⟩
  simp only [hs3, if_false] at hs ⊢
  by_cases hs4 : nb + diff = 1
  · simp only [hs4, if_true, Option.some.injEq, Prod.mk.injEq] at hs ⊢
    obtain ⟨rfl, rfl⟩ := hs
    obtain ⟨t1, e1, m1, l1⟩ := setBalance_spec 1 h
    simp only [int8_one] at m1
    exact ⟨t1, m1, l1, by simp [e1]⟩
  simp only [hs4, if_false] at hs ⊢
  by_cases hs5 : nb + diff = 0
  · simp only [hs5, if_true, Option.some.injEq, Prod.mk.injEq] at hs ⊢
    obtain ⟨rfl, rfl⟩ := hs
    obtain ⟨t1, e1, m1, l1⟩ := setBalance_spec 0 h
    simp only [int8_zero] at m1
    exact ⟨t1, m1, l1, by simp [e1]⟩
  · simp only [hs5, if_false, Option.some.injEq, Prod.mk.injEq] at hs ⊢
    obtain ⟨rfl, rfl⟩ := hs
    exact ⟨t, h, rfl, by simp⟩

/-- Refinement of `remove_fix`: where `Shape.remove_fix` gives a tree, the heap
call returns and the heap then holds that tree. -/
theorem remove_fix_spec (c : List (Frame K V)) :
    ∀ (fuel : Nat) (t : AVLTree K V) (s T2 : Shape K V),
      ModelsAt t c s → c.length < fuel → Shape.remove_fix c s = some T2 →
      ∃ t2, AVLTree.remove_fix fuel t (pathPtr c) (pathDiff c) = some t2 ∧ Models t2 T2 ∧
        t2.mem.length = t.mem.length := by
  induction c with
  | nil =>
    intro fuel t s T2 h hf hs
    cases fuel with
    | zero => simp at hf
    | succ fuel =>
      simp only [Shape.remove_fix, Option.some.injEq] at hs
      subst hs
      exact ⟨t, by simp [AVLTree.remove_fix, pathPtr], (modelsAt_nil _).mp h, rfl⟩
  | cons f c ih =>
    intro fuel t s T2 h hf hs
    cases fuel with
    | zero => simp at hf
    | succ fuel =>
      have hf2 : c.length < fuel := by simpa using hf
      have hN := (modelsAt_cons f c s).mp h
      simp only [Shape.remove_fix] at hs
      have hfill : ∃ L R kn vn nb, f.fill s = node f.addr L kn vn nb R := by
        cases f <;> exact ⟨_, _, _, _, _, rfl⟩
      obtain ⟨L, R, kn, vn, nb, hfe⟩ := hfill
      rw [hfe] at hN hs
      cases hstep : remove_step f.diff (node f.addr L kn vn nb R) with
      | none => simp [hstep] at hs
      | some res =>
        obtain ⟨s2, cont⟩ := res
        obtain ⟨t1, m1, l1, e1⟩ := remove_fix_step hN hstep fuel
        simp only [pathPtr, pathDiff, e1]
        cases cont with
        | true =>
          simp only [hstep] at hs
          obtain ⟨t2, e2, m2, l2⟩ := ih fuel t1 s2 T2 m1 hf2 hs
          exact ⟨t2, by simpa using e2, m2, l2.trans l1⟩
        | false =>
          simp only [hstep, Option.some.injEq] at hs
          subst hs
          exact ⟨t1, by simp, (models_plug _ _).mpr m1, l1⟩

end RemoveFixRefinement

section Predecessor
open Shape
variable {K V : Type}

/-! ## Releasing a cell -/

@[simp] theorem free_length (t : BinarySearchTree K V) (a : Nat) :
    (free t a).mem.length = t.mem.length := by
  simp [free]

@[simp] theorem free_root (t : BinarySearchTree K V) (a : Nat) :
    (free t a).root_ = t.root_ := rfl

theorem deref_free (t : BinarySearchTree K V) (a b : Nat) :
    deref (free t a) (some b) = if b = a then none else deref t (some b) := by
  by_cases h : b = a
  · subst h
    simp only [deref, free, List.getD_eq_getElem?_getD, List.getElem?_set, if_true]
    split_ifs <;> rfl
  · simp [deref, free, List.getElem?_set, h, Ne.symm h]

theorem RepTree_free_iff {t : BinarySearchTree K V} {s : Shape K V} {par : Option Nat} {w : Nat}
    (hw : w ∉ s.addrs) : RepTree (free t w) par s ↔ RepTree t par s :=
  ⟨fun h => RepTree_congr h (fun a ha => by
      rw [deref_free, if_neg (fun e : a = w => hw (e ▸ ha))]),
   fun h => RepTree_congr h (fun a ha => by
      rw [deref_free, if_neg (fun e : a = w => hw (e ▸ ha))])⟩

theorem RepPath_free_iff {t : BinarySearchTree K V} {c : List (Frame K V)} {hole : Option Nat}
    {w : Nat} (hw : w ∉ pathAddrs c) : RepPath (free t w) c hole ↔ RepPath t c hole :=
  ⟨fun h => RepPath_congr h (fun a ha => by
      rw [deref_free, if_neg (fun e : a = w => hw (e ▸ ha))]),
   fun h => RepPath_congr h (fun a ha => by
      rw [deref_free, if_neg (fun e : a = w => hw (e ▸ ha))])⟩

/-! ## The searches of `remove` -/

theorem descend_plug [LinearOrder K] (key : K) (s : Shape K V) :
    ∀ (c : List (Frame K V)), plug (descend key c s).1 (descend key c s).2 = plug c s := by
  induction s with
  | nil => intro c; rfl
  | node a l k v b r ihl ihr =>
    intro c
    simp only [descend]
    split_ifs
    · rw [ihl]; rfl
    · rfl
    · rw [ihr]; rfl

theorem descend_ptr [LinearOrder K] (key : K) (s : Shape K V) :
    ∀ (c : List (Frame K V)), (descend key c s).2.ptr = locate key s := by
  induction s with
  | nil => intro c; rfl
  | node a l k v b r ihl ihr =>
    intro c
    simp only [descend, locate]
    split_ifs
    · exact ihl _
    · rfl
    · exact ihr _

theorem descend_key [LinearOrder K] (key : K) (s : Shape K V) :
    ∀ (c : List (Frame K V)) (n : Nat) (L R : Shape K V) (kn : K) (vn : V) (nb : Int),
      (descend key c s).2 = node n L kn vn nb R → kn = key := by
  induction s with
  | nil => intro c n L R kn vn nb h; simp [descend] at h
  | node a l k v b r ihl ihr =>
    intro c n L R kn vn nb h
    simp only [descend] at h
    split_ifs at h with h1 h2
    · exact ihl _ _ _ _ _ _ _ h
    · simp only [node.injEq] at h; rw [← h.2.2.1, h2]
    · exact ihr _ _ _ _ _ _ _ h

theorem descendRight_plug (s : Shape K V) :
    ∀ (c : List (Frame K V)),
      plug (descendRight c s).1 (descendRight c s).2 = plug c s := by
  induction s with
  | nil => intro c; rfl
  | node a l k v b r _ ihr =>
    intro c
    cases r with
    | nil => rfl
    | node a2 l2 k2 v2 b2 r2 =>
      simp only [descendRight]
      rw [ihr]; rfl

/-- The path of `descendRight` goes down right links only and ends at a node
without right child. -/
theorem descendRight_shape (s : Shape K V) :
    ∀ (c : List (Frame K V)), s ≠ nil →
      ∃ cm m ML km vm mb, descendRight c s = (cm ++ c, node m ML km vm mb nil) ∧
        ∀ f ∈ cm, ∃ a l k v b, f = Frame.right a l k v b := by
  induction s with
  | nil => intro c hs; exact absurd rfl hs
  | node a l k v b r _ ihr =>
    intro c _
    cases r with
    | nil => exact ⟨[], a, l, k, v, b, rfl, by simp⟩
    | node a2 l2 k2 v2 b2 r2 =>
      obtain ⟨cm, m, ML, km, vm, mb, e, hall⟩ := ihr (Frame.right a l k v b :: c) (by simp)
      refine ⟨cm ++ [Frame.right a l k v b], m, ML, km, vm, mb, ?_, ?_⟩
      · simp only [descendRight, e, List.append_assoc, List.singleton_append]
      · intro f hf
        simp only [List.mem_append, List.mem_singleton] at hf
        rcases hf with hf | rfl
        · exact hall f hf
        · exact ⟨_, _, _, _, _, rfl⟩

/-- Refinement of the first loop of `predecessor`. -/
theorem predecessor_descend_spec {t : BinarySearchTree K V} (s : Shape K V) :
    ∀ (par : Option Nat) (fuel : Nat) (c : List (Frame K V)), RepTree t par s → s ≠ nil →
      s.height ≤ fuel →
      BinarySearchTree.predecessor_descend t fuel s.ptr = some (descendRight c s).2.ptr := by
  induction s with
  | nil => intro par fuel c _ hs; exact absurd rfl hs
  | node a l k v b r _ ihr =>
    intro par fuel c h _ hf
    cases fuel with
    | zero => simp [Shape.height] at hf
    | succ fuel =>
      simp only [Shape.height, Nat.add_le_add_iff_right, max_le_iff] at hf
      obtain ⟨h1, h2, h3⟩ := h
      cases r with
      | nil =>
        simp [BinarySearchTree.predecessor_descend, getRight, h1, descendRight]
      | node a2 l2 k2 v2 b2 r2 =>
        have := ihr (some a) fuel (Frame.right a l k v b :: c) h3 (by simp) hf.2
        simp only [ptr_node] at this
        simp [BinarySearchTree.predecessor_descend, getRight, h1, descendRight, this]

end Predecessor

section Splice
open Shape
variable {K V : Type}

/-! ## Unlinking a node with at most one child -/

/-- The pointer work of `remove` after the optional swap, on a node with at
most one child: the node is released and its child, if any, takes its place;
whatever is called next (`k`) is called at the former parent with the side the
node was on. -/
theorem splice_gen {α : Type} (k : AVLTree K V → Option Nat → Int → Option α)
    {t : AVLTree K V} {c : List (Frame K V)} {n : Nat} {L R : Shape K V}
    {kn : K} {vn : V} {nb : Int} (h : ModelsAt t c (node n L kn vn nb R))
    (hLR : L = nil ∨ R = nil) :
    ∃ t2, ModelsAt t2 c (if L.ptr = none then R else L) ∧ t2.mem.length = t.mem.length ∧
      (andThen (getParent t (some n)) fun p =>
       andThen (if p ≠ none then
                  andThen (getLeft t p) fun pl => some (if some n = pl then (1 : Int) else -1)
                else some 0) fun diff =>
       andThen (getLeft t (some n)) fun c =>
       andThen (if c = none then getRight t (some n) else some c) fun c =>
       andThen (delete t (some n)) fun t =>
       andThen (if p = none then some { t with root_ := c }
                else if diff = 1 then setLeft t p c
                else setRight t p c) fun t =>
       andThen (if c ≠ none then setParent t c p else some t) fun t =>
       k t p diff)
      = k t2 (pathPtr c) (pathDiff c) := by
  obtain ⟨hroot, hpath, ⟨hn, hL, hR⟩, hnd0⟩ := h
  have hnl := deref_lt hn
  have hnd := hnd0
  cases c with
  | nil =>
    rcases hLR with rfl | rfl
    · cases R with
      | nil =>
        simp only [Shape.addrs, pathAddrs, addr_left, addr_right, Frame.sibling,
          List.nodup_append, List.nodup_cons, List.mem_append, List.mem_cons,
          not_or, List.cons_append, List.append_assoc, List.disjoint_append_left,
          List.disjoint_append_right, List.disjoint_cons_left, List.disjoint_cons_right,
          List.nil_append, List.append_nil, List.not_mem_nil, not_false_eq_true, true_and,
          and_true, List.nodup_nil, List.disjoint_nil_left, List.disjoint_nil_right] at hnd
        simp only [RepPath, RepTree, pathPtr_nil, pathPtr_cons, ptr_node, ptr_nil, addr_left,
          addr_right] at hn hpath hL hR hroot
        simp only [getParent, getLeft, getRight, setParent, setLeft, setRight, delete, modifyNode,
          deref_store, deref_free, deref_mk_root, pathPtr_nil, pathPtr_cons, pathDiff_nil,
          pathDiff_cons, addr_left, addr_right, diff_left, diff_right, ptr_node, ptr_nil,
          Option.map_some', andThen_some, ne_eq, not_true_eq_false, not_false_eq_true,
          reduceCtorEq, if_true, if_false, free_length, store_length, Option.some.injEq,
          hn, hnl]
        refine ⟨_, ⟨?_, ?_, ?_, ?_⟩, ?_, rfl⟩
        · rfl
        · simp [RepPath, RepTree, deref_store, deref_free, RepTree_store_iff,
            RepPath_store_iff, RepTree_free_iff, RepPath_free_iff, hn, hnl, hnd]
        · simp [RepPath, RepTree, deref_store, deref_free, RepTree_store_iff,
            RepPath_store_iff, RepTree_free_iff, RepPath_free_iff, hn, hnl, hnd]
        · simp only [Shape.addrs, pathAddrs, addr_left, addr_right, Frame.sibling,
            List.nodup_append, List.nodup_cons, List.mem_append, List.mem_cons,
            not_or, List.cons_append, List.append_assoc, List.disjoint_append_left,
            List.disjoint_append_right, List.disjoint_cons_left, List.disjoint_cons_right,
            List.nil_append, List.append_nil, List.not_mem_nil, not_false_eq_true, true_and,
            and_true, List.nodup_nil, List.disjoint_nil_left, List.disjoint_nil_right]
          try tauto
        all_goals simp
      | node ch C1 kc vc cb C2 =>
        simp only [Shape.addrs, pathAddrs, addr_left, addr_right, Frame.sibling,
          List.nodup_append, List.nodup_cons, List.mem_append, List.mem_cons,
          not_or, List.cons_append, List.append_assoc, List.disjoint_append_left,
          List.disjoint_append_right, List.disjoint_cons_left, List.disjoint_cons_right,
          List.nil_append, List.append_nil, List.not_mem_nil, not_false_eq_true, true_and,
          and_true, List.nodup_nil, List.disjoint_nil_left, List.disjoint_nil_right] at hnd
        simp only [RepPath, RepTree, pathPtr_nil, pathPtr_cons, ptr_node, ptr_nil, addr_left,
          addr_right] at hn hpath hL hR hroot
        obtain ⟨hch, hC1, hC2⟩ := hR
        have hchl := deref_lt hch
        have e1 : n ≠ ch := by omega
        simp only [getParent, getLeft, getRight, setParent, setLeft, setRight, delete, modifyNode,
          deref_store, deref_free, deref_mk_root, pathPtr_nil, pathPtr_cons, pathDiff_nil,
          pathDiff_cons, addr_left, addr_right, diff_left, diff_right, ptr_node, ptr_nil,
          Option.map_some', andThen_some, ne_eq, not_true_eq_false, not_false_eq_true,
          reduceCtorEq, if_true, if_false, free_length, store_length, Option.some.injEq,
          hn, hnl, hch, hchl, e1, e1.symm]
        refine ⟨_, ⟨?_, ?_, ?_, ?_⟩, ?_, rfl⟩
        · rfl
        · simp [RepPath, RepTree, deref_store, deref_free, RepTree_store_iff,
            RepPath_store_iff, RepTree_free_iff, RepPath_free_iff, hn, hnl, hch, hchl, e1, e1.symm, hnd, hC1, hC2]
        · simp [RepPath, RepTree, deref_store, deref_free, RepTree_store_iff,
            RepPath_store_iff, RepTree_free_iff, RepPath_free_iff, hn, hnl, hch, hchl, e1, e1.symm, hnd, hC1, hC2]
        · simp only [Shape.addrs, pathAddrs, addr_left, addr_right, Frame.sibling,
            List.nodup_append, List.nodup_cons, List.mem_append, List.mem_cons,
            not_or, List.cons_append, List.append_assoc, List.disjoint_append_left,
            List.disjoint_append_right, List.disjoint_cons_left, List.disjoint_cons_right,
            List.nil_append, List.append_nil, List.not_mem_nil, not_false_eq_true, true_and,
            and_true, List.nodup_nil, List.disjoint_nil_left, List.disjoint_nil_right]
          try tauto
        all_goals simp
    · cases L with
      | nil =>
        simp only [Shape.addrs, pathAddrs, addr_left, addr_right, Frame.sibling,
          List.nodup_append, List.nodup_cons, List.mem_append, List.mem_cons,
          not_or, List.cons_append, List.append_assoc, List.disjoint_append_left,
          List.disjoint_append_right, List.disjoint_cons_left, List.disjoint_cons_right,
          List.nil_append, List.append_nil, List.not_mem_nil, not_false_eq_true, true_and,
          and_true, List.nodup_nil, List.disjoint_nil_left, List.disjoint_nil_right] at hnd
        simp only [RepPath, RepTree, pathPtr_nil, pathPtr_cons, ptr_node, ptr_nil, addr_left,
          addr_right] at hn hpath hL hR hroot
        simp only [getParent, getLeft, getRight, setParent, setLeft, setRight, delete, modifyNode,
          deref_store, deref_free, deref_mk_root, pathPtr_nil, pathPtr_cons, pathDiff_nil,
          pathDiff_cons, addr_left, addr_right, diff_left, diff_right, ptr_node, ptr_nil,
          Option.map_some', andThen_some, ne_eq, not_true_eq_false, not_false_eq_true,
          reduceCtorEq, if_true, if_false, free_length, store_length, Option.some.injEq,
          hn, hnl]
        refine ⟨_, ⟨?_, ?_, ?_, ?_⟩, ?_, rfl⟩
        · rfl
        · simp [RepPath, RepTree, deref_store, deref_free, RepTree_store_iff,
            RepPath_store_iff, RepTree_free_iff, RepPath_free_iff, hn, hnl, hnd]
        · simp [RepPath, RepTree, deref_store, deref_free, RepTree_store_iff,
            RepPath_store_iff, RepTree_free_iff, RepPath_free_iff, hn, hnl, hnd]
        · simp only [Shape.addrs, pathAddrs, addr_left, addr_right, Frame.sibling,
            List.nodup_append, List.nodup_cons, List.mem_append, List.mem_cons,
            not_or, List.cons_append, List.append_assoc, List.disjoint_append_left,
            List.disjoint_append_right, List.disjoint_cons_left, List.disjoint_cons_right,
            List.nil_append, List.append_nil, List.not_mem_nil, not_false_eq_true, true_and,
            and_true, List.nodup_nil, List.disjoint_nil_left, List.disjoint_nil_right]
          try tauto
        all_goals simp
      | node ch C1 kc vc cb C2 =>
        simp only [Shape.addrs, pathAddrs, addr_left, addr_right, Frame.sibling,
          List.nodup_append, List.nodup_cons, List.mem_append, List.mem_cons,
          not_or, List.cons_append, List.append_assoc, List.disjoint_append_left,
          List.disjoint_append_right, List.disjoint_cons_left, List.disjoint_cons_right,
          List.nil_append, List.append_nil, List.not_mem_nil, not_false_eq_true, true_and,
          and_true, List.nodup_nil, List.disjoint_nil_left, List.disjoint_nil_right] at hnd
        simp only [RepPath, RepTree, pathPtr_nil, pathPtr_cons, ptr_node, ptr_nil, addr_left,
          addr_right] at hn hpath hL hR hroot
        obtain ⟨hch, hC1, hC2⟩ := hL
        have hchl := deref_lt hch
        have e1 : n ≠ ch := by omega
        simp only [getParent, getLeft, getRight, setParent, setLeft, setRight, delete, modifyNode,
          deref_store, deref_free, deref_mk_root, pathPtr_nil, pathPtr_cons, pathDiff_nil,
          pathDiff_cons, addr_left, addr_right, diff_left, diff_right, ptr_node, ptr_nil,
          Option.map_some', andThen_some, ne_eq, not_true_eq_false, not_false_eq_true,
          reduceCtorEq, if_true, if_false, free_length, store_length, Option.some.injEq,
          hn, hnl, hch, hchl, e1, e1.symm]
        refine ⟨_, ⟨?_, ?_, ?_, ?_⟩, ?_, rfl⟩
        · rfl
        · simp [RepPath, RepTree, deref_store, deref_free, RepTree_store_iff,
            RepPath_store_iff, RepTree_free_iff, RepPath_free_iff, hn, hnl, hch, hchl, e1, e1.symm, hnd, hC1, hC2]
        · simp [RepPath, RepTree, deref_store, deref_free, RepTree_store_iff,
            RepPath_store_iff, RepTree_free_iff, RepPath_free_iff, hn, hnl, hch, hchl, e1, e1.symm, hnd, hC1, hC2]
        · simp only [Shape.addrs, pathAddrs, addr_left, addr_right, Frame.sibling,
            List.nodup_append, List.nodup_cons, List.mem_append, List.mem_cons,
            not_or, List.cons_append, List.append_assoc, List.disjoint_append_left,
            List.disjoint_append_right, List.disjoint_cons_left, List.disjoint_cons_right,
            List.nil_append, List.append_nil, List.not_mem_nil, not_false_eq_true, true_and,
            and_true, List.nodup_nil, List.disjoint_nil_left, List.disjoint_nil_right]
          try tauto
        all_goals simp
  | cons f c =>
    cases f with
    | left p kp vp pb S =>
      rcases hLR with rfl | rfl
      · cases R with
        | nil =>
          simp only [Shape.addrs, pathAddrs, addr_left, addr_right, Frame.sibling,
            List.nodup_append, List.nodup_cons, List.mem_append, List.mem_cons,
            not_or, List.cons_append, List.append_assoc, List.disjoint_append_left,
            List.disjoint_append_right, List.disjoint_cons_left, List.disjoint_cons_right,
            List.nil_append, List.append_nil, List.not_mem_nil, not_false_eq_true, true_and,
            and_true, List.nodup_nil, List.disjoint_nil_left, List.disjoint_nil_right] at hnd
          simp only [RepPath, RepTree, pathPtr_nil, pathPtr_cons, ptr_node, ptr_nil, addr_left,
            addr_right] at hn hpath hL hR hroot
          obtain ⟨hp, hS, hc⟩ := hpath
          have hpl := deref_lt hp
          have e1 : n ≠ p := by omega
          simp only [getParent, getLeft, getRight, setParent, setLeft, setRight, delete, modifyNode,
            deref_store, deref_free, deref_mk_root, pathPtr_nil, pathPtr_cons, pathDiff_nil,
            pathDiff_cons, addr_left, addr_right, diff_left, diff_right, ptr_node, ptr_nil,
            Option.map_some', andThen_some, ne_eq, not_true_eq_false, not_false_eq_true,
            reduceCtorEq, if_true, if_false, free_length, store_length, Option.some.injEq,
            hn, hnl, hp, hpl, e1, e1.symm]
          refine ⟨_, ⟨?_, ?_, ?_, ?_⟩, ?_, rfl⟩
          · exact hroot
          · simp [RepPath, RepTree, deref_store, deref_free, RepTree_store_iff,
              RepPath_store_iff, RepTree_free_iff, RepPath_free_iff, hn, hnl, hp, hpl, e1, e1.symm, hnd, hS, hc]
          · simp [RepPath, RepTree, deref_store, deref_free, RepTree_store_iff,
              RepPath_store_iff, RepTree_free_iff, RepPath_free_iff, hn, hnl, hp, hpl, e1, e1.symm, hnd, hS, hc]
          · simp only [Shape.addrs, pathAddrs, addr_left, addr_right, Frame.sibling,
              List.nodup_append, List.nodup_cons, List.mem_append, List.mem_cons,
              not_or, List.cons_append, List.append_assoc, List.disjoint_append_left,
              List.disjoint_append_right, List.disjoint_cons_left, List.disjoint_cons_right,
              List.nil_append, List.append_nil, List.not_mem_nil, not_false_eq_true, true_and,
              and_true, List.nodup_nil, List.disjoint_nil_left, List.disjoint_nil_right]
            try tauto
          all_goals simp
        | node ch C1 kc vc cb C2 =>
          simp only [Shape.addrs, pathAddrs, addr_left, addr_right, Frame.sibling,
            List.nodup_append, List.nodup_cons, List.mem_append, List.mem_cons,
            not_or, List.cons_append, List.append_assoc, List.disjoint_append_left,
            List.disjoint_append_right, List.disjoint_cons_left, List.disjoint_cons_right,
            List.nil_append, List.append_nil, List.not_mem_nil, not_false_eq_true, true_and,
            and_true, List.nodup_nil, List.disjoint_nil_left, List.disjoint_nil_right] at hnd
          simp only [RepPath, RepTree, pathPtr_nil, pathPtr_cons, ptr_node, ptr_nil, addr_left,
            addr_right] at hn hpath hL hR hroot
          obtain ⟨hp, hS, hc⟩ := hpath
          have hpl := deref_lt hp
          obtain ⟨hch, hC1, hC2⟩ := hR
          have hchl := deref_lt hch
          have e1 : n ≠ p := by omega
          have e2 : n ≠ ch := by omega
          have e3 : p ≠ ch := by omega
          simp only [getParent, getLeft, getRight, setParent, setLeft, setRight, delete, modifyNode,
            deref_store, deref_free, deref_mk_root, pathPtr_nil, pathPtr_cons, pathDiff_nil,
            pathDiff_cons, addr_left, addr_right, diff_left, diff_right, ptr_node, ptr_nil,
            Option.map_some', andThen_some, ne_eq, not_true_eq_false, not_false_eq_true,
            reduceCtorEq, if_true, if_false, free_length, store_length, Option.some.injEq,
            hn, hnl, hp, hpl, hch, hchl, e1, e1.symm, e2, e2.symm, e3, e3.symm]
          refine ⟨_, ⟨?_, ?_, ?_, ?_⟩, ?_, rfl⟩
          · exact hroot
          · simp [RepPath, RepTree, deref_store, deref_free, RepTree_store_iff,
              RepPath_store_iff, RepTree_free_iff, RepPath_free_iff, hn, hnl, hp, hpl, hch, hchl, e1, e1.symm, e2, e2.symm, e3, e3.symm, hnd, hS, hc, hC1, hC2]
          · simp [RepPath, RepTree, deref_store, deref_free, RepTree_store_iff,
              RepPath_store_iff, RepTree_free_iff, RepPath_free_iff, hn, hnl, hp, hpl, hch, hchl, e1, e1.symm, e2, e2.symm, e3, e3.symm, hnd, hS, hc, hC1, hC2]
          · simp only [Shape.addrs, pathAddrs, addr_left, addr_right, Frame.sibling,
              List.nodup_append, List.nodup_cons, List.mem_append, List.mem_cons,
              not_or, List.cons_append, List.append_assoc, List.disjoint_append_left,
              List.disjoint_append_right, List.disjoint_cons_left, List.disjoint_cons_right,
              List.nil_append, List.append_nil, List.not_mem_nil, not_false_eq_true, true_and,
              and_true, List.nodup_nil, List.disjoint_nil_left, List.disjoint_nil_right]
            try tauto
          all_goals simp
      · cases L with
        | nil =>
          simp only [Shape.addrs, pathAddrs, addr_left, addr_right, Frame.sibling,
            List.nodup_append, List.nodup_cons, List.mem_append, List.mem_cons,
            not_or, List.cons_append, List.append_assoc, List.disjoint_append_left,
            List.disjoint_append_right, List.disjoint_cons_left, List.disjoint_cons_right,
            List.nil_append, List.append_nil, List.not_mem_nil, not_false_eq_true, true_and,
            and_true, List.nodup_nil, List.disjoint_nil_left, List.disjoint_nil_right] at hnd
          simp only [RepPath, RepTree, pathPtr_nil, pathPtr_cons, ptr_node, ptr_nil, addr_left,
            addr_right] at hn hpath hL hR hroot
          obtain ⟨hp, hS, hc⟩ := hpath
          have hpl := deref_lt hp
          have e1 : n ≠ p := by omega
          simp only [getParent, getLeft, getRight, setParent, setLeft, setRight, delete, modifyNode,
            deref_store, deref_free, deref_mk_root, pathPtr_nil, pathPtr_cons, pathDiff_nil,
            pathDiff_cons, addr_left, addr_right, diff_left, diff_right, ptr_node, ptr_nil,
            Option.map_some', andThen_some, ne_eq, not_true_eq_false, not_false_eq_true,
            reduceCtorEq, if_true, if_false, free_length, store_length, Option.some.injEq,
            hn, hnl, hp, hpl, e1, e1.symm]
          refine ⟨_, ⟨?_, ?_, ?_, ?_⟩, ?_, rfl⟩
          · exact hroot
          · simp [RepPath, RepTree, deref_store, deref_free, RepTree_store_iff,
              RepPath_store_iff, RepTree_free_iff, RepPath_free_iff, hn, hnl, hp, hpl, e1, e1.symm, hnd, hS, hc]
          · simp [RepPath, RepTree, deref_store, deref_free, RepTree_store_iff,
              RepPath_store_iff, RepTree_free_iff, RepPath_free_iff, hn, hnl, hp, hpl, e1, e1.symm, hnd, hS, hc]
          · simp only [Shape.addrs, pathAddrs, addr_left, addr_right, Frame.sibling,
              List.nodup_append, List.nodup_cons, List.mem_append, List.mem_cons,
              not_or, List.cons_append, List.append_assoc, List.disjoint_append_left,
              List.disjoint_append_right, List.disjoint_cons_left, List.disjoint_cons_right,
              List.nil_append, List.append_nil, List.not_mem_nil, not_false_eq_true, true_and,
              and_true, List.nodup_nil, List.disjoint_nil_left, List.disjoint_nil_right]
            try tauto
          all_goals simp
        | node ch C1 kc vc cb C2 =>
          simp only [Shape.addrs, pathAddrs, addr_left, addr_right, Frame.sibling,
            List.nodup_append, List.nodup_cons, List.mem_append, List.mem_cons,
            not_or, List.cons_append, List.append_assoc, List.disjoint_append_left,
            List.disjoint_append_right, List.disjoint_cons_left, List.disjoint_cons_right,
            List.nil_append, List.append_nil, List.not_mem_nil, not_false_eq_true, true_and,
            and_true, List.nodup_nil, List.disjoint_nil_left, List.disjoint_nil_right] at hnd
          simp only [RepPath, RepTree, pathPtr_nil, pathPtr_cons, ptr_node, ptr_nil, addr_left,
            addr_right] at hn hpath hL hR hroot
          obtain ⟨hp, hS, hc⟩ := hpath
          have hpl := deref_lt hp
          obtain ⟨hch, hC1, hC2⟩ := hL
          have hchl := deref_lt hch
          have e1 : n ≠ p := by omega
          have e2 : n ≠ ch := by omega
          have e3 : p ≠ ch := by omega
          simp only [getParent, getLeft, getRight, setParent, setLeft, setRight, delete, modifyNode,
            deref_store, deref_free, deref_mk_root, pathPtr_nil, pathPtr_cons, pathDiff_nil,
            pathDiff_cons, addr_left, addr_right, diff_left, diff_right, ptr_node, ptr_nil,
            Option.map_some', andThen_some, ne_eq, not_true_eq_false, not_false_eq_true,
            reduceCtorEq, if_true, if_false, free_length, store_length, Option.some.injEq,
            hn, hnl, hp, hpl, hch, hchl, e1, e1.symm, e2, e2.symm, e3, e3.symm]
          refine ⟨_, ⟨?_, ?_, ?_, ?_⟩, ?_, rfl⟩
          · exact hroot
          · simp [RepPath, RepTree, deref_store, deref_free, RepTree_store_iff,
              RepPath_store_iff, RepTree_free_iff, RepPath_free_iff, hn, hnl, hp, hpl, hch, hchl, e1, e1.symm, e2, e2.symm, e3, e3.symm, hnd, hS, hc, hC1, hC2]
          · simp [RepPath, RepTree, deref_store, deref_free, RepTree_store_iff,
              RepPath_store_iff, RepTree_free_iff, RepPath_free_iff, hn, hnl, hp, hpl, hch, hchl, e1, e1.symm, e2, e2.symm, e3, e3.symm, hnd, hS, hc, hC1, hC2]
          · simp only [Shape.addrs, pathAddrs, addr_left, addr_right, Frame.sibling,
              List.nodup_append, List.nodup_cons, List.mem_append, List.mem_cons,
              not_or, List.cons_append, List.append_assoc, List.disjoint_append_left,
              List.disjoint_append_right, List.disjoint_cons_left, List.disjoint_cons_right,
              List.nil_append, List.append_nil, List.not_mem_nil, not_false_eq_true, true_and,
              and_true, List.nodup_nil, List.disjoint_nil_left, List.disjoint_nil_right]
            try tauto
          all_goals simp
    | right p S kp vp pb =>
      rcases hLR with rfl | rfl
      · cases R with
        | nil =>
          simp only [Shape.addrs, pathAddrs, addr_left, addr_right, Frame.sibling,
            List.nodup_append, List.nodup_cons, List.mem_append, List.mem_cons,
            not_or, List.cons_append, List.append_assoc, List.disjoint_append_left,
            List.disjoint_append_right, List.disjoint_cons_left, List.disjoint_cons_right,
            List.nil_append, List.append_nil, List.not_mem_nil, not_false_eq_true, true_and,
            and_true, List.nodup_nil, List.disjoint_nil_left, List.disjoint_nil_right] at hnd
          simp only [RepPath, RepTree, pathPtr_nil, pathPtr_cons, ptr_node, ptr_nil, addr_left,
            addr_right] at hn hpath hL hR hroot
          obtain ⟨hp, hS, hc⟩ := hpath
          have hpl := deref_lt hp
          have e1 : n ≠ p := by omega
          have hSn : S.ptr ≠ some n := ptr_ne_of_not_mem (by tauto)
          have hSn2 : some n ≠ S.ptr := fun e => hSn e.symm
          simp only [getParent, getLeft, getRight, setParent, setLeft, setRight, delete, modifyNode,
            deref_store, deref_free, deref_mk_root, pathPtr_nil, pathPtr_cons, pathDiff_nil,
            pathDiff_cons, addr_left, addr_right, diff_left, diff_right, ptr_node, ptr_nil,
            Option.map_some', andThen_some, ne_eq, not_true_eq_false, not_false_eq_true,
            reduceCtorEq, if_true, if_false, free_length, store_length, Option.some.injEq,
            hn, hnl, hp, hpl, e1, e1.symm, hSn, hSn2]
          refine ⟨_, ⟨?_, ?_, ?_, ?_⟩, ?_, rfl⟩
          · exact hroot
          · simp [RepPath, RepTree, deref_store, deref_free, RepTree_store_iff,
              RepPath_store_iff, RepTree_free_iff, RepPath_free_iff, hn, hnl, hp, hpl, e1, e1.symm, hSn, hSn2, hnd, hS, hc]
          · simp [RepPath, RepTree, deref_store, deref_free, RepTree_store_iff,
              RepPath_store_iff, RepTree_free_iff, RepPath_free_iff, hn, hnl, hp, hpl, e1, e1.symm, hSn, hSn2, hnd, hS, hc]
          · simp only [Shape.addrs, pathAddrs, addr_left, addr_right, Frame.sibling,
              List.nodup_append, List.nodup_cons, List.mem_append, List.mem_cons,
              not_or, List.cons_append, List.append_assoc, List.disjoint_append_left,
              List.disjoint_append_right, List.disjoint_cons_left, List.disjoint_cons_right,
              List.nil_append, List.append_nil, List.not_mem_nil, not_false_eq_true, true_and,
              and_true, List.nodup_nil, List.disjoint_nil_left, List.disjoint_nil_right]
            try tauto
          all_goals simp
        | node ch C1 kc vc cb C2 =>
          simp only [Shape.addrs, pathAddrs, addr_left, addr_right, Frame.sibling,
            List.nodup_append, List.nodup_cons, List.mem_append, List.mem_cons,
            not_or, List.cons_append, List.append_assoc, List.disjoint_append_left,
            List.disjoint_append_right, List.disjoint_cons_left, List.disjoint_cons_right,
            List.nil_append, List.append_nil, List.not_mem_nil, not_false_eq_true, true_and,
            and_true, List.nodup_nil, List.disjoint_nil_left, List.disjoint_nil_right] at hnd
          simp only [RepPath, RepTree, pathPtr_nil, pathPtr_cons, ptr_node, ptr_nil, addr_left,
            addr_right] at hn hpath hL hR hroot
          obtain ⟨hp, hS, hc⟩ := hpath
          have hpl := deref_lt hp
          obtain ⟨hch, hC1, hC2⟩ := hR
          have hchl := deref_lt hch
          have e1 : n ≠ p := by omega
          have e2 : n ≠ ch := by omega
          have e3 : p ≠ ch := by omega
          have hSn : S.ptr ≠ some n := ptr_ne_of_not_mem (by tauto)
          have hSn2 : some n ≠ S.ptr := fun e => hSn e.symm
          simp only [getParent, getLeft, getRight, setParent, setLeft, setRight, delete, modifyNode,
            deref_store, deref_free, deref_mk_root, pathPtr_nil, pathPtr_cons, pathDiff_nil,
            pathDiff_cons, addr_left, addr_right, diff_left, diff_right, ptr_node, ptr_nil,
            Option.map_some', andThen_some, ne_eq, not_true_eq_false, not_false_eq_true,
            reduceCtorEq, if_true, if_false, free_length, store_length, Option.some.injEq,
            hn, hnl, hp, hpl, hch, hchl, e1, e1.symm, e2, e2.symm, e3, e3.symm, hSn, hSn2]
          refine ⟨_, ⟨?_, ?_, ?_, ?_⟩, ?_, rfl⟩
          · exact hroot
          · simp [RepPath, RepTree, deref_store, deref_free, RepTree_store_iff,
              RepPath_store_iff, RepTree_free_iff, RepPath_free_iff, hn, hnl, hp, hpl, hch, hchl, e1, e1.symm, e2, e2.symm, e3, e3.symm, hSn, hSn2, hnd, hS, hc, hC1, hC2]
          · simp [RepPath, RepTree, deref_store, deref_free, RepTree_store_iff,
              RepPath_store_iff, RepTree_free_iff, RepPath_free_iff, hn, hnl, hp, hpl, hch, hchl, e1, e1.symm, e2, e2.symm, e3, e3.symm, hSn, hSn2, hnd, hS, hc, hC1, hC2]
          · simp only [Shape.addrs, pathAddrs, addr_left, addr_right, Frame.sibling,
              List.nodup_append, List.nodup_cons, List.mem_append, List.mem_cons,
              not_or, List.cons_append, List.append_assoc, List.disjoint_append_left,
              List.disjoint_append_right, List.disjoint_cons_left, List.disjoint_cons_right,
              List.nil_append, List.append_nil, List.not_mem_nil, not_false_eq_true, true_and,
              and_true, List.nodup_nil, List.disjoint_nil_left, List.disjoint_nil_right]
            try tauto
          all_goals simp
      · cases L with
        | nil =>
          simp only [Shape.addrs, pathAddrs, addr_left, addr_right, Frame.sibling,
            List.nodup_append, List.nodup_cons, List.mem_append, List.mem_cons,
            not_or, List.cons_append, List.append_assoc, List.disjoint_append_left,
            List.disjoint_append_right, List.disjoint_cons_left, List.disjoint_cons_right,
            List.nil_append, List.append_nil, List.not_mem_nil, not_false_eq_true, true_and,
            and_true, List.nodup_nil, List.disjoint_nil_left, List.disjoint_nil_right] at hnd
          simp only [RepPath, RepTree, pathPtr_nil, pathPtr_cons, ptr_node, ptr_nil, addr_left,
            addr_right] at hn hpath hL hR hroot
          obtain ⟨hp, hS, hc⟩ := hpath
          have hpl := deref_lt hp
          have e1 : n ≠ p := by omega
          have hSn : S.ptr ≠ some n := ptr_ne_of_not_mem (by tauto)
          have hSn2 : some n ≠ S.ptr := fun e => hSn e.symm
          simp only [getParent, getLeft, getRight, setParent, setLeft, setRight, delete, modifyNode,
            deref_store, deref_free, deref_mk_root, pathPtr_nil, pathPtr_cons, pathDiff_nil,
            pathDiff_cons, addr_left, addr_right, diff_left, diff_right, ptr_node, ptr_nil,
            Option.map_some', andThen_some, ne_eq, not_true_eq_false, not_false_eq_true,
            reduceCtorEq, if_true, if_false, free_length, store_length, Option.some.injEq,
            hn, hnl, hp, hpl, e1, e1.symm, hSn, hSn2]
          refine ⟨_, ⟨?_, ?_, ?_, ?_⟩, ?_, rfl⟩
          · exact hroot
          · simp [RepPath, RepTree, deref_store, deref_free, RepTree_store_iff,
              RepPath_store_iff, RepTree_free_iff, RepPath_free_iff, hn, hnl, hp, hpl, e1, e1.symm, hSn, hSn2, hnd, hS, hc]
          · simp [RepPath, RepTree, deref_store, deref_free, RepTree_store_iff,
              RepPath_store_iff, RepTree_free_iff, RepPath_free_iff, hn, hnl, hp, hpl, e1, e1.symm, hSn, hSn2, hnd, hS, hc]
          · simp only [Shape.addrs, pathAddrs, addr_left, addr_right, Frame.sibling,
              List.nodup_append, List.nodup_cons, List.mem_append, List.mem_cons,
              not_or, List.cons_append, List.append_assoc, List.disjoint_append_left,
              List.disjoint_append_right, List.disjoint_cons_left, List.disjoint_cons_right,
              List.nil_append, List.append_nil, List.not_mem_nil, not_false_eq_true, true_and,
              and_true, List.nodup_nil, List.disjoint_nil_left, List.disjoint_nil_right]
            try tauto
          all_goals simp
        | node ch C1 kc vc cb C2 =>
          simp only [Shape.addrs, pathAddrs, addr_left, addr_right, Frame.sibling,
            List.nodup_append, List.nodup_cons, List.mem_append, List.mem_cons,
            not_or, List.cons_append, List.append_assoc, List.disjoint_append_left,
            List.disjoint_append_right, List.disjoint_cons_left, List.disjoint_cons_right,
            List.nil_append, List.append_nil, List.not_mem_nil, not_false_eq_true, true_and,
            and_true, List.nodup_nil, List.disjoint_nil_left, List.disjoint_nil_right] at hnd
          simp only [RepPath, RepTree, pathPtr_nil, pathPtr_cons, ptr_node, ptr_nil, addr_left,
            addr_right] at hn hpath hL hR hroot
          obtain ⟨hp, hS, hc⟩ := hpath
          have hpl := deref_lt hp
          obtain ⟨hch, hC1, hC2⟩ := hL
          have hchl := deref_lt hch
          have e1 : n ≠ p := by omega
          have e2 : n ≠ ch := by omega
          have e3 : p ≠ ch := by omega
          have hSn : S.ptr ≠ some n := ptr_ne_of_not_mem (by tauto)
          have hSn2 : some n ≠ S.ptr := fun e => hSn e.symm
          simp only [getParent, getLeft, getRight, setParent, setLeft, setRight, delete, modifyNode,
            deref_store, deref_free, deref_mk_root, pathPtr_nil, pathPtr_cons, pathDiff_nil,
            pathDiff_cons, addr_left, addr_right, diff_left, diff_right, ptr_node, ptr_nil,
            Option.map_some', andThen_some, ne_eq, not_true_eq_false, not_false_eq_true,
            reduceCtorEq, if_true, if_false, free_length, store_length, Option.some.injEq,
            hn, hnl, hp, hpl, hch, hchl, e1, e1.symm, e2, e2.symm, e3, e3.symm, hSn, hSn2]
          refine ⟨_, ⟨?_, ?_, ?_, ?_⟩, ?_, rfl⟩
          · exact hroot
          · simp [RepPath, RepTree, deref_store, deref_free, RepTree_store_iff,
              RepPath_store_iff, RepTree_free_iff, RepPath_free_iff, hn, hnl, hp, hpl, hch, hchl, e1, e1.symm, e2, e2.symm, e3, e3.symm, hSn, hSn2, hnd, hS, hc, hC1, hC2]
          · simp [RepPath, RepTree, deref_store, deref_free, RepTree_store_iff,
              RepPath_store_iff, RepTree_free_iff, RepPath_free_iff, hn, hnl, hp, hpl, hch, hchl, e1, e1.symm, e2, e2.symm, e3, e3.symm, hSn, hSn2, hnd, hS, hc, hC1, hC2]
          · simp only [Shape.addrs, pathAddrs, addr_left, addr_right, Frame.sibling,
              List.nodup_append, List.nodup_cons, List.mem_append, List.mem_cons,
              not_or, List.cons_append, List.append_assoc, List.disjoint_append_left,
              List.disjoint_append_right, List.disjoint_cons_left, List.disjoint_cons_right,
              List.nil_append, List.append_nil, List.not_mem_nil, not_false_eq_true, true_and,
              and_true, List.nodup_nil, List.disjoint_nil_left, List.disjoint_nil_right]
            try tauto
          all_goals simp

/-- The pointer work of `remove` after the optional swap, on a node with at
most one child: the node is released and its child, if any, takes its place;
`remove_fix` is then called at the former parent with the side the node was
on. -/
theorem splice_spec {t : AVLTree K V} {c : List (Frame K V)} {n : Nat} {L R : Shape K V}
    {kn : K} {vn : V} {nb : Int} (h : ModelsAt t c (node n L kn vn nb R))
    (hLR : L = nil ∨ R = nil) :
    ∃ t2, ModelsAt t2 c (if L.ptr = none then R else L) ∧ t2.mem.length = t.mem.length ∧
      (andThen (getParent t (some n)) fun p =>
       andThen (if p ≠ none then
                  andThen (getLeft t p) fun pl => some (if some n = pl then (1 : Int) else -1)
                else some 0) fun diff =>
       andThen (getLeft t (some n)) fun c =>
       andThen (if c = none then getRight t (some n) else some c) fun c =>
       andThen (delete t (some n)) fun t =>
       andThen (if p = none then some { t with root_ := c }
                else if diff = 1 then setLeft t p c
                else setRight t p c) fun t =>
       andThen (if c ≠ none then setParent t c p else some t) fun t =>
       AVLTree.remove_fix (t.mem.length + 1) t p diff)
      = AVLTree.remove_fix (t.mem.length + 1) t2 (pathPtr c) (pathDiff c) := by
  obtain ⟨t2, m2, l2, e2⟩ :=
    splice_gen (fun t p diff => AVLTree.remove_fix (t.mem.length + 1) t p diff) h hLR
  refine ⟨t2, m2, l2, ?_⟩
  rw [← l2]
  exact e2

end Splice

section NodeSwapCases
open Shape
variable {K V : Type}

/-! ## The swap with the predecessor -/

theorem pathAddrs_append (c1 c2 : List (Frame K V)) :
    pathAddrs (c1 ++ c2) = pathAddrs c1 ++ pathAddrs c2 := by
  induction c1 with
  | nil => rfl
  | cons f c1 ih => simp [pathAddrs, ih]

theorem pathRoot_append_cons (c1 : List (Frame K V)) (f : Frame K V) (c2 : List (Frame K V))
    (hole : Option Nat) : pathRoot (c1 ++ f :: c2) hole = pathRoot c2 (some f.addr) := by
  induction c1 generalizing hole with
  | nil => rfl
  | cons g c1 ih => simp [pathRoot, ih]

theorem pathPtr_append_cons (c1 : List (Frame K V)) (f : Frame K V) (c2 c3 : List (Frame K V)) :
    pathPtr (c1 ++ f :: c2) = pathPtr (c1 ++ f :: c3) := by
  cases c1 <;> rfl

theorem pathRoot_mem (f : Frame K V) (c : List (Frame K V)) (hole : Option Nat) :
    ∃ a ∈ pathAddrs (f :: c), pathRoot (f :: c) hole = some a := by
  induction c generalizing f hole with
  | nil => exact ⟨f.addr, by simp [pathAddrs], rfl⟩
  | cons g c ih =>
    obtain ⟨a, ha, e⟩ := ih g (some f.addr)
    exact ⟨a, by simp only [pathAddrs, List.mem_cons, List.mem_append] at ha ⊢; tauto, e⟩

/-- A path keeps its representation when the frames of its lower part keep
their cells and the upper part is replaced by a path with the same nearest
parent. -/
theorem RepPath_append {t t2 : BinarySearchTree K V} (mid rest rest2 : List (Frame K V))
    (hptr : pathPtr rest2 = pathPtr rest)
    (hmid : ∀ a ∈ pathAddrs mid, deref t2 (some a) = deref t (some a))
    (hrest : ∀ h2, RepPath t rest h2 → RepPath t2 rest2 h2) :
    ∀ hole, RepPath t (mid ++ rest) hole → RepPath t2 (mid ++ rest2) hole := by
  induction mid with
  | nil => intro hole h; exact hrest hole h
  | cons f mid ih =>
    intro hole h
    have hp : pathPtr (mid ++ rest2) = pathPtr (mid ++ rest) := by
      cases mid with
      | nil => exact hptr
      | cons g mid => rfl
    have ih2 := ih (fun a ha => hmid a (by simp [pathAddrs, ha]))
    cases f with
    | left a k v b r =>
      obtain ⟨h1, h2, h3⟩ := h
      refine ⟨?_, RepTree_congr h2 (fun x hx => hmid x (by simp [pathAddrs, Frame.sibling, hx])),
        ih2 _ h3⟩
      rw [hmid a (by simp [pathAddrs]),
        show pathPtr (mid.append rest2) = pathPtr (mid.append rest) from hp]
      exact h1
    | right a l k v b =>
      obtain ⟨h1, h2, h3⟩ := h
      refine ⟨?_, RepTree_congr h2 (fun x hx => hmid x (by simp [pathAddrs, Frame.sibling, hx])),
        ih2 _ h3⟩
      rw [hmid a (by simp [pathAddrs]),
        show pathPtr (mid.append rest2) = pathPtr (mid.append rest) from hp]
      exact h1

theorem RepPath_append_right {t : BinarySearchTree K V} (mid rest : List (Frame K V)) :
    ∀ hole, RepPath t (mid ++ rest) hole → ∃ h2, RepPath t rest h2 := by
  induction mid with
  | nil => intro hole h; exact ⟨hole, h⟩
  | cons f mid ih =>
    intro hole h
    cases f with
    | left a k v b r => exact ih _ h.2.2
    | right a l k v b => exact ih _ h.2.2

set_option maxHeartbeats 4000000 in
theorem nodeSwap_adjacent_nil_leaf {t : AVLTree K V} {n m r : Nat} {R1 R2 : Shape K V} {kn km kr : K} {vn vm vr : V}
    {nb mb rb : Int}
    (h : ModelsAt t (Frame.left n kn vn nb (node r R1 kr vr rb R2) :: [])
      (node m (nil) km vm mb nil)) :
    ∃ t2, AVLTree.nodeSwap t (some n) (some m) = some t2 ∧
      ModelsAt t2 (Frame.left m km vm (int8 nb) (node r R1 kr vr rb R2) :: [])
        (node n (nil) kn vn (int8 mb) nil) ∧
      t2.mem.length = t.mem.length := by
  obtain ⟨hroot, hpath, ⟨hm, hML, -⟩, hnd0⟩ := h
  have hnd := hnd0
  have hnd2 : (pathAddrs (Frame.left m km vm (int8 nb) (node r R1 kr vr rb R2) :: []) ++
      (node n (nil) kn vn (int8 mb) nil).addrs).Nodup := by
    refine (List.Perm.nodup_iff ?_).mp hnd0
    rw [List.perm_iff_count]; intro a
    simp [Shape.addrs, pathAddrs, pathAddrs_append, Frame.sibling, List.count_cons]; omega
  simp only [Shape.addrs, pathAddrs, pathAddrs_append, addr_left, addr_right, Frame.sibling,
    List.nodup_append, List.nodup_cons, List.mem_append, List.mem_cons,
    not_or, List.cons_append, List.append_assoc, List.disjoint_append_left,
    List.disjoint_append_right, List.disjoint_cons_left, List.disjoint_cons_right,
    List.nil_append, List.append_nil, List.not_mem_nil, not_false_eq_true, true_and,
    and_true, List.nodup_nil, List.disjoint_nil_left, List.disjoint_nil_right] at hnd
  simp only [RepPath, RepTree, pathPtr_nil, pathPtr_cons, ptr_node, ptr_nil, addr_left,
    addr_right] at hm hpath hML
  obtain ⟨hn, hR, hc⟩ := hpath
  obtain ⟨hr, hR1, hR2⟩ := hR
  have ltn := deref_lt hn
  have ltr := deref_lt hr
  have ltm := deref_lt hm
  have e1 : n ≠ r := by simp [hnd]
  have e2 : n ≠ m := by simp [hnd]
  have e3 : r ≠ m := by simp [hnd]
  simp only [pathRoot, addr_left, addr_right] at hroot
  simp [AVLTree.nodeSwap, BinarySearchTree.nodeSwap, getParent, getLeft, getRight, getBalance,
    setParent, setLeft, setRight, setBalance, modifyNode, deref_store,
    hn, ltn, hr, ltr, hm, ltm, e1, e1.symm, e2, e2.symm, e3, e3.symm, hroot]
  refine ⟨?_, ?_, ?_, hnd2⟩
  · simp [pathRoot]
  · simp [RepPath, RepTree, deref_store, RepTree_store_iff,
      RepPath_store_iff, pathRoot, hn, ltn, hr, ltr, hm, ltm, e1, e1.symm, e2, e2.symm, e3, e3.symm, hroot, hnd, hR1, hR2, hc]
  · simp [RepPath, RepTree, deref_store, RepTree_store_iff,
      RepPath_store_iff, pathRoot, hn, ltn, hr, ltr, hm, ltm, e1, e1.symm, e2, e2.symm, e3, e3.symm, hroot, hnd, hR1, hR2, hc]

set_option maxHeartbeats 4000000 in
theorem nodeSwap_adjacent_nil_node {t : AVLTree K V} {n m r : Nat} {R1 R2 : Shape K V} {kn km kr : K} {vn vm vr : V}
    {nb mb rb : Int}
    {x : Nat} {X1 X2 : Shape K V} {kx : K} {vx : V} {xb : Int}
    (h : ModelsAt t (Frame.left n kn vn nb (node r R1 kr vr rb R2) :: [])
      (node m (node x X1 kx vx xb X2) km vm mb nil)) :
    ∃ t2, AVLTree.nodeSwap t (some n) (some m) = some t2 ∧
      ModelsAt t2 (Frame.left m km vm (int8 nb) (node r R1 kr vr rb R2) :: [])
        (node n (node x X1 kx vx xb X2) kn vn (int8 mb) nil) ∧
      t2.mem.length = t.mem.length := by
  obtain ⟨hroot, hpath, ⟨hm, hML, -⟩, hnd0⟩ := h
  have hnd := hnd0
  have hnd2 : (pathAddrs (Frame.left m km vm (int8 nb) (node r R1 kr vr rb R2) :: []) ++
      (node n (node x X1 kx vx xb X2) kn vn (int8 mb) nil).addrs).Nodup := by
    refine (List.Perm.nodup_iff ?_).mp hnd0
    rw [List.perm_iff_count]; intro a
    simp [Shape.addrs, pathAddrs, pathAddrs_append, Frame.sibling, List.count_cons]; omega
  simp only [Shape.addrs, pathAddrs, pathAddrs_append, addr_left, addr_right, Frame.sibling,
    List.nodup_append, List.nodup_cons, List.mem_append, List.mem_cons,
    not_or, List.cons_append, List.append_assoc, List.disjoint_append_left,
    List.disjoint_append_right, List.disjoint_cons_left, List.disjoint_cons_right,
    List.nil_append, List.append_nil, List.not_mem_nil, not_false_eq_true, true_and,
    and_true, List.nodup_nil, List.disjoint_nil_left, List.disjoint_nil_right] at hnd
  simp only [RepPath, RepTree, pathPtr_nil, pathPtr_cons, ptr_node, ptr_nil, addr_left,
    addr_right] at hm hpath hML
  obtain ⟨hn, hR, hc⟩ := hpath
  obtain ⟨hr, hR1, hR2⟩ := hR
  obtain ⟨hx, hX1, hX2⟩ := hML
  have ltn := deref_lt hn
  have ltr := deref_lt hr
  have ltm := deref_lt hm
  have ltx := deref_lt hx
  have e1 : n ≠ r := by simp [hnd]
  have e2 : n ≠ m := by simp [hnd]
  have e3 : n ≠ x := by simp [hnd]
  have e4 : r ≠ m := by simp [hnd]
  have e5 : r ≠ x := by simp [hnd]
  have e6 : m ≠ x := by simp [hnd]
  simp only [pathRoot, addr_left, addr_right] at hroot
  simp [AVLTree.nodeSwap, BinarySearchTree.nodeSwap, getParent, getLeft, getRight, getBalance,
    setParent, setLeft, setRight, setBalance, modifyNode, deref_store,
    hn, ltn, hr, ltr, hm, ltm, hx, ltx, e1, e1.symm, e2, e2.symm, e3, e3.symm, e4, e4.symm, e5, e5.symm, e6, e6.symm, hroot]
  refine ⟨?_, ?_, ?_, hnd2⟩
  · simp [pathRoot]
  · simp [RepPath, RepTree, deref_store, RepTree_store_iff,
      RepPath_store_iff, pathRoot, hn, ltn, hr, ltr, hm, ltm, hx, ltx, e1, e1.symm, e2, e2.symm, e3, e3.symm, e4, e4.symm, e5, e5.symm, e6, e6.symm, hroot, hnd, hR1, hR2, hc, hX1, hX2]
  · simp [RepPath, RepTree, deref_store, RepTree_store_iff,
      RepPath_store_iff, pathRoot, hn, ltn, hr, ltr, hm, ltm, hx, ltx, e1, e1.symm, e2, e2.symm, e3, e3.symm, e4, e4.symm, e5, e5.symm, e6, e6.symm, hroot, hnd, hR1, hR2, hc, hX1, hX2]

set_option maxHeartbeats 4000000 in
theorem nodeSwap_adjacent_left_leaf {t : AVLTree K V} {n m r : Nat} {R1 R2 : Shape K V} {kn km kr : K} {vn vm vr : V}
    {nb mb rb : Int} {c : List (Frame K V)} {p : Nat} {kp : K} {vp : V} {pb : Int} {S : Shape K V}
    (h : ModelsAt t (Frame.left n kn vn nb (node r R1 kr vr rb R2) :: Frame.left p kp vp pb S :: c)
      (node m (nil) km vm mb nil)) :
    ∃ t2, AVLTree.nodeSwap t (some n) (some m) = some t2 ∧
      ModelsAt t2 (Frame.left m km vm (int8 nb) (node r R1 kr vr rb R2) :: Frame.left p kp vp pb S :: c)
        (node n (nil) kn vn (int8 mb) nil) ∧
      t2.mem.length = t.mem.length := by
  obtain ⟨hroot, hpath, ⟨hm, hML, -⟩, hnd0⟩ := h
  have hnd := hnd0
  have hnd2 : (pathAddrs (Frame.left m km vm (int8 nb) (node r R1 kr vr rb R2) :: Frame.left p kp vp pb S :: c) ++
      (node n (nil) kn vn (int8 mb) nil).addrs).Nodup := by
    refine (List.Perm.nodup_iff ?_).mp hnd0
    rw [List.perm_iff_count]; intro a
    simp [Shape.addrs, pathAddrs, pathAddrs_append, Frame.sibling, List.count_cons]; omega
  simp only [Shape.addrs, pathAddrs, pathAddrs_append, addr_left, addr_right, Frame.sibling,
    List.nodup_append, List.nodup_cons, List.mem_append, List.mem_cons,
    not_or, List.cons_append, List.append_assoc, List.disjoint_append_left,
    List.disjoint_append_right, List.disjoint_cons_left, List.disjoint_cons_right,
    List.nil_append, List.append_nil, List.not_mem_nil, not_false_eq_true, true_and,
    and_true, List.nodup_nil, List.disjoint_nil_left, List.disjoint_nil_right] at hnd
  simp only [RepPath, RepTree, pathPtr_nil, pathPtr_cons, ptr_node, ptr_nil, addr_left,
    addr_right] at hm hpath hML
  obtain ⟨hn, hR, hc⟩ := hpath
  obtain ⟨hr, hR1, hR2⟩ := hR
  obtain ⟨hp, hS, hc⟩ := hc
  have ltn := deref_lt hn
  have ltr := deref_lt hr
  have ltp := deref_lt hp
  have ltm := deref_lt hm
  have e1 : n ≠ r := by simp [hnd]
  have e2 : n ≠ p := by simp [hnd]
  have e3 : n ≠ m := by simp [hnd]
  have e4 : r ≠ p := by simp [hnd]
  have e5 : r ≠ m := by simp [hnd]
  have e6 : p ≠ m := by simp [hnd]
  have hrn : t.root_ ≠ some n := by
    obtain ⟨a, ha, e⟩ := pathRoot_mem (Frame.left p kp vp pb S) c (some n)
    simp only [pathRoot_append_cons, pathRoot, addr_left, addr_right] at hroot e
    rw [hroot, e]; simp only [pathAddrs, addr_left, addr_right, Frame.sibling, List.mem_cons,
      List.mem_append] at ha
    intro e2; simp only [Option.some.injEq] at e2; subst e2
    rcases ha with ha | ha | ha <;>
      exact absurd ha (by simp [hnd])
  have hrm : t.root_ ≠ some m := by
    obtain ⟨a, ha, e⟩ := pathRoot_mem (Frame.left p kp vp pb S) c (some n)
    simp only [pathRoot_append_cons, pathRoot, addr_left, addr_right] at hroot e
    rw [hroot, e]; simp only [pathAddrs, addr_left, addr_right, Frame.sibling, List.mem_cons,
      List.mem_append] at ha
    intro e2; simp only [Option.some.injEq] at e2; subst e2
    rcases ha with ha | ha | ha <;>
      first | exact absurd ha (by simp [hnd]) | exact absurd ha.symm (by simp [hnd])
  simp only [pathRoot_append_cons, pathRoot, addr_left, addr_right] at hroot
  simp [AVLTree.nodeSwap, BinarySearchTree.nodeSwap, getParent, getLeft, getRight, getBalance,
    setParent, setLeft, setRight, setBalance, modifyNode, deref_store,
    hn, ltn, hr, ltr, hp, ltp, hm, ltm, e1, e1.symm, e2, e2.symm, e3, e3.symm, e4, e4.symm, e5, e5.symm, e6, e6.symm, hrn, hrm]
  refine ⟨?_, ?_, ?_, hnd2⟩
  · simpa [pathRoot] using hroot
  · simp [RepPath, RepTree, deref_store, RepTree_store_iff,
      RepPath_store_iff, pathRoot, hn, ltn, hr, ltr, hp, ltp, hm, ltm, e1, e1.symm, e2, e2.symm, e3, e3.symm, e4, e4.symm, e5, e5.symm, e6, e6.symm, hrn, hrm, hnd, hR1, hR2, hc, hS]
  · simp [RepPath, RepTree, deref_store, RepTree_store_iff,
      RepPath_store_iff, pathRoot, hn, ltn, hr, ltr, hp, ltp, hm, ltm, e1, e1.symm, e2, e2.symm, e3, e3.symm, e4, e4.symm, e5, e5.symm, e6, e6.symm, hrn, hrm, hnd, hR1, hR2, hc, hS]

set_option maxHeartbeats 4000000 in
theorem nodeSwap_adjacent_left_node {t : AVLTree K V} {n m r : Nat} {R1 R2 : Shape K V} {kn km kr : K} {vn vm vr : V}
    {nb mb rb : Int} {c : List (Frame K V)} {p : Nat} {kp : K} {vp : V} {pb : Int} {S : Shape K V}
    {x : Nat} {X1 X2 : Shape K V} {kx : K} {vx : V} {xb : Int}
    (h : ModelsAt t (Frame.left n kn vn nb (node r R1 kr vr rb R2) :: Frame.left p kp vp pb S :: c)
      (node m (node x X1 kx vx xb X2) km vm mb nil)) :
    ∃ t2, AVLTree.nodeSwap t (some n) (some m) = some t2 ∧
      ModelsAt t2 (Frame.left m km vm (int8 nb) (node r R1 kr vr rb R2) :: Frame.left p kp vp pb S :: c)
        (node n (node x X1 kx vx xb X2) kn vn (int8 mb) nil) ∧
      t2.mem.length = t.mem.length := by
  obtain ⟨hroot, hpath, ⟨hm, hML, -⟩, hnd0⟩ := h
  have hnd := hnd0
  have hnd2 : (pathAddrs (Frame.left m km vm (int8 nb) (node r R1 kr vr rb R2) :: Frame.left p kp vp pb S :: c) ++
      (node n (node x X1 kx vx xb X2) kn vn (int8 mb) nil).addrs).Nodup := by
    refine (List.Perm.nodup_iff ?_).mp hnd0
    rw [List.perm_iff_count]; intro a
    simp [Shape.addrs, pathAddrs, pathAddrs_append, Frame.sibling, List.count_cons]; omega
  simp only [Shape.addrs, pathAddrs, pathAddrs_append, addr_left, addr_right, Frame.sibling,
    List.nodup_append, List.nodup_cons, List.mem_append, List.mem_cons,
    not_or, List.cons_append, List.append_assoc, List.disjoint_append_left,
    List.disjoint_append_right, List.disjoint_cons_left, List.disjoint_cons_right,
    List.nil_append, List.append_nil, List.not_mem_nil, not_false_eq_true, true_and,
    and_true, List.nodup_nil, List.disjoint_nil_left, List.disjoint_nil_right] at hnd
  simp only [RepPath, RepTree, pathPtr_nil, pathPtr_cons, ptr_node, ptr_nil, addr_left,
    addr_right] at hm hpath hML
  obtain ⟨hn, hR, hc⟩ := hpath
  obtain ⟨hr, hR1, hR2⟩ := hR
  obtain ⟨hp, hS, hc⟩ := hc
  obtain ⟨hx, hX1, hX2⟩ := hML
  have ltn := deref_lt hn
  have ltr := deref_lt hr
  have ltp := deref_lt hp
  have ltm := deref_lt hm
  have ltx := deref_lt hx
  have e1 : n ≠ r := by simp [hnd]
  have e2 : n ≠ p := by simp [hnd]
  have e3 : n ≠ m := by simp [hnd]
  have e4 : n ≠ x := by simp [hnd]
  have e5 : r ≠ p := by simp [hnd]
  have e6 : r ≠ m := by simp [hnd]
  have e7 : r ≠ x := by simp [hnd]
  have e8 : p ≠ m := by simp [hnd]
  have e9 : p ≠ x := by simp [hnd]
  have e10 : m ≠ x := by simp [hnd]
  have hrn : t.root_ ≠ some n := by
    obtain ⟨a, ha, e⟩ := pathRoot_mem (Frame.left p kp vp pb S) c (some n)
    simp only [pathRoot_append_cons, pathRoot, addr_left, addr_right] at hroot e
    rw [hroot, e]; simp only [pathAddrs, addr_left, addr_right, Frame.sibling, List.mem_cons,
      List.mem_append] at ha
    intro e2; simp only [Option.some.injEq] at e2; subst e2
    rcases ha with ha | ha | ha <;>
      exact absurd ha (by simp [hnd])
  have hrm : t.root_ ≠ some m := by
    obtain ⟨a, ha, e⟩ := pathRoot_mem (Frame.left p kp vp pb S) c (some n)
    simp only [pathRoot_append_cons, pathRoot, addr_left, addr_right] at hroot e
    rw [hroot, e]; simp only [pathAddrs, addr_left, addr_right, Frame.sibling, List.mem_cons,
      List.mem_append] at ha
    intro e2; simp only [Option.some.injEq] at e2; subst e2
    rcases ha with ha | ha | ha <;>
      first | exact absurd ha (by simp [hnd]) | exact absurd ha.symm (by simp [hnd])
  simp only [pathRoot_append_cons, pathRoot, addr_left, addr_right] at hroot
  simp [AVLTree.nodeSwap, BinarySearchTree.nodeSwap, getParent, getLeft, getRight, getBalance,
    setParent, setLeft, setRight, setBalance, modifyNode, deref_store,
    hn, ltn, hr, ltr, hp, ltp, hm, ltm, hx, ltx, e1, e1.symm, e2, e2.symm, e3, e3.symm, e4, e4.symm, e5, e5.symm, e6, e6.symm, e7, e7.symm, e8, e8.symm, e9, e9.symm, e10, e10.symm, hrn, hrm]
  refine ⟨?_, ?_, ?_, hnd2⟩
  · simpa [pathRoot] using hroot
  · simp [RepPath, RepTree, deref_store, RepTree_store_iff,
      RepPath_store_iff, pathRoot, hn, ltn, hr, ltr, hp, ltp, hm, ltm, hx, ltx, e1, e1.symm, e2, e2.symm, e3, e3.symm, e4, e4.symm, e5, e5.symm, e6, e6.symm, e7, e7.symm, e8, e8.symm, e9, e9.symm, e10, e10.symm, hrn, hrm, hnd, hR1, hR2, hc, hS, hX1, hX2]
  · simp [RepPath, RepTree, deref_store, RepTree_store_iff,
      RepPath_store_iff, pathRoot, hn, ltn, hr, ltr, hp, ltp, hm, ltm, hx, ltx, e1, e1.symm, e2, e2.symm, e3, e3.symm, e4, e4.symm, e5, e5.symm, e6, e6.symm, e7, e7.symm, e8, e8.symm, e9, e9.symm, e10, e10.symm, hrn, hrm, hnd, hR1, hR2, hc, hS, hX1, hX2]

set_option maxHeartbeats 4000000 in
theorem nodeSwap_adjacent_right_leaf {t : AVLTree K V} {n m r : Nat} {R1 R2 : Shape K V} {kn km kr : K} {vn vm vr : V}
    {nb mb rb : Int} {c : List (Frame K V)} {p : Nat} {kp : K} {vp : V} {pb : Int} {S : Shape K V}
    (h : ModelsAt t (Frame.left n kn vn nb (node r R1 kr vr rb R2) :: Frame.right p S kp vp pb :: c)
      (node m (nil) km vm mb nil)) :
    ∃ t2, AVLTree.nodeSwap t (some n) (some m) = some t2 ∧
      ModelsAt t2 (Frame.left m km vm (int8 nb) (node r R1 kr vr rb R2) :: Frame.right p S kp vp pb :: c)
        (node n (nil) kn vn (int8 mb) nil) ∧
      t2.mem.length = t.mem.length := by
  obtain ⟨hroot, hpath, ⟨hm, hML, -⟩, hnd0⟩ := h
  have hnd := hnd0
  have hnd2 : (pathAddrs (Frame.left m km vm (int8 nb) (node r R1 kr vr rb R2) :: Frame.right p S kp vp pb :: c) ++
      (node n (nil) kn vn (int8 mb) nil).addrs).Nodup := by
    refine (List.Perm.nodup_iff ?_).mp hnd0
    rw [List.perm_iff_count]; intro a
    simp [Shape.addrs, pathAddrs, pathAddrs_append, Frame.sibling, List.count_cons]; omega
  simp only [Shape.addrs, pathAddrs, pathAddrs_append, addr_left, addr_right, Frame.sibling,
    List.nodup_append, List.nodup_cons, List.mem_append, List.mem_cons,
    not_or, List.cons_append, List.append_assoc, List.disjoint_append_left,
    List.disjoint_append_right, List.disjoint_cons_left, List.disjoint_cons_right,
    List.nil_append, List.append_nil, List.not_mem_nil, not_false_eq_true, true_and,
    and_true, List.nodup_nil, List.disjoint_nil_left, List.disjoint_nil_right] at hnd
  simp only [RepPath, RepTree, pathPtr_nil, pathPtr_cons, ptr_node, ptr_nil, addr_left,
    addr_right] at hm hpath hML
  obtain ⟨hn, hR, hc⟩ := hpath
  obtain ⟨hr, hR1, hR2⟩ := hR
  obtain ⟨hp, hS, hc⟩ := hc
  have ltn := deref_lt hn
  have ltr := deref_lt hr
  have ltp := deref_lt hp
  have ltm := deref_lt hm
  have e1 : n ≠ r := by simp [hnd]
  have e2 : n ≠ p := by simp [hnd]
  have e3 : n ≠ m := by simp [hnd]
  have e4 : r ≠ p := by simp [hnd]
  have e5 : r ≠ m := by simp [hnd]
  have e6 : p ≠ m := by simp [hnd]
  have hSn : S.ptr ≠ some n := ptr_ne_of_not_mem (by simp [hnd])
  have hSn2 : some n ≠ S.ptr := fun e => hSn e.symm
  have hrn : t.root_ ≠ some n := by
    obtain ⟨a, ha, e⟩ := pathRoot_mem (Frame.right p S kp vp pb) c (some n)
    simp only [pathRoot_append_cons, pathRoot, addr_left, addr_right] at hroot e
    rw [hroot, e]; simp only [pathAddrs, addr_left, addr_right, Frame.sibling, List.mem_cons,
      List.mem_append] at ha
    intro e2; simp only [Option.some.injEq] at e2; subst e2
    rcases ha with ha | ha | ha <;>
      exact absurd ha (by simp [hnd])
  have hrm : t.root_ ≠ some m := by
    obtain ⟨a, ha, e⟩ := pathRoot_mem (Frame.right p S kp vp pb) c (some n)
    simp only [pathRoot_append_cons, pathRoot, addr_left, addr_right] at hroot e
    rw [hroot, e]; simp only [pathAddrs, addr_left, addr_right, Frame.sibling, List.mem_cons,
      List.mem_append] at ha
    intro e2; simp only [Option.some.injEq] at e2; subst e2
    rcases ha with ha | ha | ha <;>
      first | exact absurd ha (by simp [hnd]) | exact absurd ha.symm (by simp [hnd])
  simp only [pathRoot_append_cons, pathRoot, addr_left, addr_right] at hroot
  simp [AVLTree.nodeSwap, BinarySearchTree.nodeSwap, getParent, getLeft, getRight, getBalance,
    setParent, setLeft, setRight, setBalance, modifyNode, deref_store,
    hn, ltn, hr, ltr, hp, ltp, hm, ltm, e1, e1.symm, e2, e2.symm, e3, e3.symm, e4, e4.symm, e5, e5.symm, e6, e6.symm, hSn, hSn2, hrn, hrm]
  refine ⟨?_, ?_, ?_, hnd2⟩
  · simpa [pathRoot] using hroot
  · simp [RepPath, RepTree, deref_store, RepTree_store_iff,
      RepPath_store_iff, pathRoot, hn, ltn, hr, ltr, hp, ltp, hm, ltm, e1, e1.symm, e2, e2.symm, e3, e3.symm, e4, e4.symm, e5, e5.symm, e6, e6.symm, hSn, hSn2, hrn, hrm, hnd, hR1, hR2, hc, hS]
  · simp [RepPath, RepTree, deref_store, RepTree_store_iff,
      RepPath_store_iff, pathRoot, hn, ltn, hr, ltr, hp, ltp, hm, ltm, e1, e1.symm, e2, e2.symm, e3, e3.symm, e4, e4.symm, e5, e5.symm, e6, e6.symm, hSn, hSn2, hrn, hrm, hnd, hR1, hR2, hc, hS]

set_option maxHeartbeats 4000000 in
theorem nodeSwap_adjacent_right_node {t : AVLTree K V} {n m r : Nat} {R1 R2 : Shape K V} {kn km kr : K} {vn vm vr : V}
    {nb mb rb : Int} {c : List (Frame K V)} {p : Nat} {kp : K} {vp : V} {pb : Int} {S : Shape K V}
    {x : Nat} {X1 X2 : Shape K V} {kx : K} {vx : V} {xb : Int}
    (h : ModelsAt t (Frame.left n kn vn nb (node r R1 kr vr rb R2) :: Frame.right p S kp vp pb :: c)
      (node m (node x X1 kx vx xb X2) km vm mb nil)) :
    ∃ t2, AVLTree.nodeSwap t (some n) (some m) = some t2 ∧
      ModelsAt t2 (Frame.left m km vm (int8 nb) (node r R1 kr vr rb R2) :: Frame.right p S kp vp pb :: c)
        (node n (node x X1 kx vx xb X2) kn vn (int8 mb) nil) ∧
      t2.mem.length = t.mem.length := by
  obtain ⟨hroot, hpath, ⟨hm, hML, -⟩, hnd0⟩ := h
  have hnd := hnd0
  have hnd2 : (pathAddrs (Frame.left m km vm (int8 nb) (node r R1 kr vr rb R2) :: Frame.right p S kp vp pb :: c) ++
      (node n (node x X1 kx vx xb X2) kn vn (int8 mb) nil).addrs).Nodup := by
    refine (List.Perm.nodup_iff ?_).mp hnd0
    rw [List.perm_iff_count]; intro a
    simp [Shape.addrs, pathAddrs, pathAddrs_append, Frame.sibling, List.count_cons]; omega
  simp only [Shape.addrs, pathAddrs, pathAddrs_append, addr_left, addr_right, Frame.sibling,
    List.nodup_append, List.nodup_cons, List.mem_append, List.mem_cons,
    not_or, List.cons_append, List.append_assoc, List.disjoint_append_left,
    List.disjoint_append_right, List.disjoint_cons_left, List.disjoint_cons_right,
    List.nil_append, List.append_nil, List.not_mem_nil, not_false_eq_true, true_and,
    and_true, List.nodup_nil, List.disjoint_nil_left, List.disjoint_nil_right] at hnd
  simp only [RepPath, RepTree, pathPtr_nil, pathPtr_cons, ptr_node, ptr_nil, addr_left,
    addr_right] at hm hpath hML
  obtain ⟨hn, hR, hc⟩ := hpath
  obtain ⟨hr, hR1, hR2⟩ := hR
  obtain ⟨hp, hS, hc⟩ := hc
  obtain ⟨hx, hX1, hX2⟩ := hML
  have ltn := deref_lt hn
  have ltr := deref_lt hr
  have ltp := deref_lt hp
  have ltm := deref_lt hm
  have ltx := deref_lt hx
  have e1 : n ≠ r := by simp [hnd]
  have e2 : n ≠ p := by simp [hnd]
  have e3 : n ≠ m := by simp [hnd]
  have e4 : n ≠ x := by simp [hnd]
  have e5 : r ≠ p := by simp [hnd]
  have e6 : r ≠ m := by simp [hnd]
  have e7 : r ≠ x := by simp [hnd]
  have e8 : p ≠ m := by simp [hnd]
  have e9 : p ≠ x := by simp [hnd]
  have e10 : m ≠ x := by simp [hnd]
  have hSn : S.ptr ≠ some n := ptr_ne_of_not_mem (by simp [hnd])
  have hSn2 : some n ≠ S.ptr := fun e => hSn e.symm
  have hrn : t.root_ ≠ some n := by
    obtain ⟨a, ha, e⟩ := pathRoot_mem (Frame.right p S kp vp pb) c (some n)
    simp only [pathRoot_append_cons, pathRoot, addr_left, addr_right] at hroot e
    rw [hroot, e]; simp only [pathAddrs, addr_left, addr_right, Frame.sibling, List.mem_cons,
      List.mem_append] at ha
    intro e2; simp only [Option.some.injEq] at e2; subst e2
    rcases ha with ha | ha | ha <;>
      exact absurd ha (by simp [hnd])
  have hrm : t.root_ ≠ some m := by
    obtain ⟨a, ha, e⟩ := pathRoot_mem (Frame.right p S kp vp pb) c (some n)
    simp only [pathRoot_append_cons, pathRoot, addr_left, addr_right] at hroot e
    rw [hroot, e]; simp only [pathAddrs, addr_left, addr_right, Frame.sibling, List.mem_cons,
      List.mem_append] at ha
    intro e2; simp only [Option.some.injEq] at e2; subst e2
    rcases ha with ha | ha | ha <;>
      first | exact absurd ha (by simp [hnd]) | exact absurd ha.symm (by simp [hnd])
  simp only [pathRoot_append_cons, pathRoot, addr_left, addr_right] at hroot
  simp [AVLTree.nodeSwap, BinarySearchTree.nodeSwap, getParent, getLeft, getRight, getBalance,
    setParent, setLeft, setRight, setBalance, modifyNode, deref_store,
    hn, ltn, hr, ltr, hp, ltp, hm, ltm, hx, ltx, e1, e1.symm, e2, e2.symm, e3, e3.symm, e4, e4.symm, e5, e5.symm, e6, e6.symm, e7, e7.symm, e8, e8.symm, e9, e9.symm, e10, e10.symm, hSn, hSn2, hrn, hrm]
  refine ⟨?_, ?_, ?_, hnd2⟩
  · simpa [pathRoot] using hroot
  · simp [RepPath, RepTree, deref_store, RepTree_store_iff,
      RepPath_store_iff, pathRoot, hn, ltn, hr, ltr, hp, ltp, hm, ltm, hx, ltx, e1, e1.symm, e2, e2.symm, e3, e3.symm, e4, e4.symm, e5, e5.symm, e6, e6.symm, e7, e7.symm, e8, e8.symm, e9, e9.symm, e10, e10.symm, hSn, hSn2, hrn, hrm, hnd, hR1, hR2, hc, hS, hX1, hX2]
  · simp [RepPath, RepTree, deref_store, RepTree_store_iff,
      RepPath_store_iff, pathRoot, hn, ltn, hr, ltr, hp, ltp, hm, ltm, hx, ltx, e1, e1.symm, e2, e2.symm, e3, e3.symm, e4, e4.symm, e5, e5.symm, e6, e6.symm, e7, e7.symm, e8, e8.symm, e9, e9.symm, e10, e10.symm, hSn, hSn2, hrn, hrm, hnd, hR1, hR2, hc, hS, hX1, hX2]

set_option maxHeartbeats 4000000 in
theorem nodeSwap_near_nil_leaf {t : AVLTree K V} {n m r : Nat} {R1 R2 : Shape K V} {kn km kr : K} {vn vm vr : V}
    {nb mb rb : Int}
    {q : Nat} {lq : Shape K V} {kq : K} {vq : V} {bq : Int}
    (h : ModelsAt t (Frame.right q lq kq vq bq :: Frame.left n kn vn nb (node r R1 kr vr rb R2) :: [])
      (node m (nil) km vm mb nil)) :
    ∃ t2, AVLTree.nodeSwap t (some n) (some m) = some t2 ∧
      ModelsAt t2 (Frame.right q lq kq vq bq :: Frame.left m km vm (int8 nb) (node r R1 kr vr rb R2) :: [])
        (node n (nil) kn vn (int8 mb) nil) ∧
      t2.mem.length = t.mem.length := by
  obtain ⟨hroot, hpath, ⟨hm, hML, -⟩, hnd0⟩ := h
  have hnd := hnd0
  have hnd2 : (pathAddrs (Frame.right q lq kq vq bq :: Frame.left m km vm (int8 nb) (node r R1 kr vr rb R2) :: []) ++
      (node n (nil) kn vn (int8 mb) nil).addrs).Nodup := by
    refine (List.Perm.nodup_iff ?_).mp hnd0
    rw [List.perm_iff_count]; intro a
    simp [Shape.addrs, pathAddrs, pathAddrs_append, Frame.sibling, List.count_cons]; omega
  simp only [Shape.addrs, pathAddrs, pathAddrs_append, addr_left, addr_right, Frame.sibling,
    List.nodup_append, List.nodup_cons, List.mem_append, List.mem_cons,
    not_or, List.cons_append, List.append_assoc, List.disjoint_append_left,
    List.disjoint_append_right, List.disjoint_cons_left, List.disjoint_cons_right,
    List.nil_append, List.append_nil, List.not_mem_nil, not_false_eq_true, true_and,
    and_true, List.nodup_nil, List.disjoint_nil_left, List.disjoint_nil_right] at hnd
  simp only [RepPath, RepTree, pathPtr_nil, pathPtr_cons, ptr_node, ptr_nil, addr_left,
    addr_right] at hm hpath hML
  obtain ⟨hq, hlq, hn, hR, hc⟩ := hpath
  obtain ⟨hr, hR1, hR2⟩ := hR
  have ltq := deref_lt hq
  have ltn := deref_lt hn
  have ltr := deref_lt hr
  have ltm := deref_lt hm
  have e1 : q ≠ n := by simp [hnd]
  have e2 : q ≠ r := by simp [hnd]
  have e3 : q ≠ m := by simp [hnd]
  have e4 : n ≠ r := by simp [hnd]
  have e5 : n ≠ m := by simp [hnd]
  have e6 : r ≠ m := by simp [hnd]
  have hlqm : lq.ptr ≠ some m := ptr_ne_of_not_mem (by simp [hnd])
  have hlqm2 : some m ≠ lq.ptr := fun e => hlqm e.symm
  simp only [pathRoot, addr_left, addr_right] at hroot
  simp [AVLTree.nodeSwap, BinarySearchTree.nodeSwap, getParent, getLeft, getRight, getBalance,
    setParent, setLeft, setRight, setBalance, modifyNode, deref_store,
    hq, ltq, hn, ltn, hr, ltr, hm, ltm, e1, e1.symm, e2, e2.symm, e3, e3.symm, e4, e4.symm, e5, e5.symm, e6, e6.symm, hlqm, hlqm2, hroot]
  refine ⟨?_, ?_, ?_, hnd2⟩
  · simp [pathRoot]
  · simp [RepPath, RepTree, deref_store, RepTree_store_iff,
      RepPath_store_iff, pathRoot, hq, ltq, hn, ltn, hr, ltr, hm, ltm, e1, e1.symm, e2, e2.symm, e3, e3.symm, e4, e4.symm, e5, e5.symm, e6, e6.symm, hlqm, hlqm2, hroot, hnd, hR1, hR2, hc, hlq]
  · simp [RepPath, RepTree, deref_store, RepTree_store_iff,
      RepPath_store_iff, pathRoot, hq, ltq, hn, ltn, hr, ltr, hm, ltm, e1, e1.symm, e2, e2.symm, e3, e3.symm, e4, e4.symm, e5, e5.symm, e6, e6.symm, hlqm, hlqm2, hroot, hnd, hR1, hR2, hc, hlq]

set_option maxHeartbeats 4000000 in
theorem nodeSwap_near_nil_node {t : AVLTree K V} {n m r : Nat} {R1 R2 : Shape K V} {kn km kr : K} {vn vm vr : V}
    {nb mb rb : Int}
    {x : Nat} {X1 X2 : Shape K V} {kx : K} {vx : V} {xb : Int}
    {q : Nat} {lq : Shape K V} {kq : K} {vq : V} {bq : Int}
    (h : ModelsAt t (Frame.right q lq kq vq bq :: Frame.left n kn vn nb (node r R1 kr vr rb R2) :: [])
      (node m (node x X1 kx vx xb X2) km vm mb nil)) :
    ∃ t2, AVLTree.nodeSwap t (some n) (some m) = some t2 ∧
      ModelsAt t2 (Frame.right q lq kq vq bq :: Frame.left m km vm (int8 nb) (node r R1 kr vr rb R2) :: [])
        (node n (node x X1 kx vx xb X2) kn vn (int8 mb) nil) ∧
      t2.mem.length = t.mem.length := by
  obtain ⟨hroot, hpath, ⟨hm, hML, -⟩, hnd0⟩ := h
  have hnd := hnd0
  have hnd2 : (pathAddrs (Frame.right q lq kq vq bq :: Frame.left m km vm (int8 nb) (node r R1 kr vr rb R2) :: []) ++
      (node n (node x X1 kx vx xb X2) kn vn (int8 mb) nil).addrs).Nodup := by
    refine (List.Perm.nodup_iff ?_).mp hnd0
    rw [List.perm_iff_count]; intro a
    simp [Shape.addrs, pathAddrs, pathAddrs_append, Frame.sibling, List.count_cons]; omega
  simp only [Shape.addrs, pathAddrs, pathAddrs_append, addr_left, addr_right, Frame.sibling,
    List.nodup_append, List.nodup_cons, List.mem_append, List.mem_cons,
    not_or, List.cons_append, List.append_assoc, List.disjoint_append_left,
    List.disjoint_append_right, List.disjoint_cons_left, List.disjoint_cons_right,
    List.nil_append, List.append_nil, List.not_mem_nil, not_false_eq_true, true_and,
    and_true, List.nodup_nil, List.disjoint_nil_left, List.disjoint_nil_right] at hnd
  simp only [RepPath, RepTree, pathPtr_nil, pathPtr_cons, ptr_node, ptr_nil, addr_left,
    addr_right] at hm hpath hML
  obtain ⟨hq, hlq, hn, hR, hc⟩ := hpath
  obtain ⟨hr, hR1, hR2⟩ := hR
  obtain ⟨hx, hX1, hX2⟩ := hML
  have ltq := deref_lt hq
  have ltn := deref_lt hn
  have ltr := deref_lt hr
  have ltm := deref_lt hm
  have ltx := deref_lt hx
  have e1 : q ≠ n := by simp [hnd]
  have e2 : q ≠ r := by simp [hnd]
  have e3 : q ≠ m := by simp [hnd]
  have e4 : q ≠ x := by simp [hnd]
  have e5 : n ≠ r := by simp [hnd]
  have e6 : n ≠ m := by simp [hnd]
  have e7 : n ≠ x := by simp [hnd]
  have e8 : r ≠ m := by simp [hnd]
  have e9 : r ≠ x := by simp [hnd]
  have e10 : m ≠ x := by simp [hnd]
  have hlqm : lq.ptr ≠ some m := ptr_ne_of_not_mem (by simp [hnd])
  have hlqm2 : some m ≠ lq.ptr := fun e => hlqm e.symm
  simp only [pathRoot, addr_left, addr_right] at hroot
  simp [AVLTree.nodeSwap, BinarySearchTree.nodeSwap, getParent, getLeft, getRight, getBalance,
    setParent, setLeft, setRight, setBalance, modifyNode, deref_store,
    hq, ltq, hn, ltn, hr, ltr, hm, ltm, hx, ltx, e1, e1.symm, e2, e2.symm, e3, e3.symm, e4, e4.symm, e5, e5.symm, e6, e6.symm, e7, e7.symm, e8, e8.symm, e9, e9.symm, e10, e10.symm, hlqm, hlqm2, hroot]
  refine ⟨?_, ?_, ?_, hnd2⟩
  · simp [pathRoot]
  · simp [RepPath, RepTree, deref_store, RepTree_store_iff,
      RepPath_store_iff, pathRoot, hq, ltq, hn, ltn, hr, ltr, hm, ltm, hx, ltx, e1, e1.symm, e2, e2.symm, e3, e3.symm, e4, e4.symm, e5, e5.symm, e6, e6.symm, e7, e7.symm, e8, e8.symm, e9, e9.symm, e10, e10.symm, hlqm, hlqm2, hroot, hnd, hR1, hR2, hc, hlq, hX1, hX2]
  · simp [RepPath, RepTree, deref_store, RepTree_store_iff,
      RepPath_store_iff, pathRoot, hq, ltq, hn, ltn, hr, ltr, hm, ltm, hx, ltx, e1, e1.symm, e2, e2.symm, e3, e3.symm, e4, e4.symm, e5, e5.symm, e6, e6.symm, e7, e7.symm, e8, e8.symm, e9, e9.symm, e10, e10.symm, hlqm, hlqm2, hroot, hnd, hR1, hR2, hc, hlq, hX1, hX2]

set_option maxHeartbeats 4000000 in
theorem nodeSwap_near_left_leaf {t : AVLTree K V} {n m r : Nat} {R1 R2 : Shape K V} {kn km kr : K} {vn vm vr : V}
    {nb mb rb : Int} {c : List (Frame K V)} {p : Nat} {kp : K} {vp : V} {pb : Int} {S : Shape K V}
    {q : Nat} {lq : Shape K V} {kq : K} {vq : V} {bq : Int}
    (h : ModelsAt t (Frame.right q lq kq vq bq :: Frame.left n kn vn nb (node r R1 kr vr rb R2) :: Frame.left p kp vp pb S :: c)
      (node m (nil) km vm mb nil)) :
    ∃ t2, AVLTree.nodeSwap t (some n) (some m) = some t2 ∧
      ModelsAt t2 (Frame.right q lq kq vq bq :: Frame.left m km vm (int8 nb) (node r R1 kr vr rb R2) :: Frame.left p kp vp pb S :: c)
        (node n (nil) kn vn (int8 mb) nil) ∧
      t2.mem.length = t.mem.length := by
  obtain ⟨hroot, hpath, ⟨hm, hML, -⟩, hnd0⟩ := h
  have hnd := hnd0
  have hnd2 : (pathAddrs (Frame.right q lq kq vq bq :: Frame.left m km vm (int8 nb) (node r R1 kr vr rb R2) :: Frame.left p kp vp pb S :: c) ++
      (node n (nil) kn vn (int8 mb) nil).addrs).Nodup := by
    refine (List.Perm.nodup_iff ?_).mp hnd0
    rw [List.perm_iff_count]; intro a
    simp [Shape.addrs, pathAddrs, pathAddrs_append, Frame.sibling, List.count_cons]; omega
  simp only [Shape.addrs, pathAddrs, pathAddrs_append, addr_left, addr_right, Frame.sibling,
    List.nodup_append, List.nodup_cons, List.mem_append, List.mem_cons,
    not_or, List.cons_append, List.append_assoc, List.disjoint_append_left,
    List.disjoint_append_right, List.disjoint_cons_left, List.disjoint_cons_right,
    List.nil_append, List.append_nil, List.not_mem_nil, not_false_eq_true, true_and,
    and_true, List.nodup_nil, List.disjoint_nil_left, List.disjoint_nil_right] at hnd
  simp only [RepPath, RepTree, pathPtr_nil, pathPtr_cons, ptr_node, ptr_nil, addr_left,
    addr_right] at hm hpath hML
  obtain ⟨hq, hlq, hn, hR, hc⟩ := hpath
  obtain ⟨hr, hR1, hR2⟩ := hR
  obtain ⟨hp, hS, hc⟩ := hc
  have ltq := deref_lt hq
  have ltn := deref_lt hn
  have ltr := deref_lt hr
  have ltp := deref_lt hp
  have ltm := deref_lt hm
  have e1 : q ≠ n := by simp [hnd]
  have e2 : q ≠ r := by simp [hnd]
  have e3 : q ≠ p := by simp [hnd]
  have e4 : q ≠ m := by simp [hnd]
  have e5 : n ≠ r := by simp [hnd]
  have e6 : n ≠ p := by simp [hnd]
  have e7 : n ≠ m := by simp [hnd]
  have e8 : r ≠ p := by simp [hnd]
  have e9 : r ≠ m := by simp [hnd]
  have e10 : p ≠ m := by simp [hnd]
  have hlqm : lq.ptr ≠ some m := ptr_ne_of_not_mem (by simp [hnd])
  have hlqm2 : some m ≠ lq.ptr := fun e => hlqm e.symm
  have hrn : t.root_ ≠ some n := by
    obtain ⟨a, ha, e⟩ := pathRoot_mem (Frame.left p kp vp pb S) c (some n)
    simp only [pathRoot_append_cons, pathRoot, addr_left, addr_right] at hroot e
    rw [hroot, e]; simp only [pathAddrs, addr_left, addr_right, Frame.sibling, List.mem_cons,
      List.mem_append] at ha
    intro e2; simp only [Option.some.injEq] at e2; subst e2
    rcases ha with ha | ha | ha <;>
      exact absurd ha (by simp [hnd])
  have hrm : t.root_ ≠ some m := by
    obtain ⟨a, ha, e⟩ := pathRoot_mem (Frame.left p kp vp pb S) c (some n)
    simp only [pathRoot_append_cons, pathRoot, addr_left, addr_right] at hroot e
    rw [hroot, e]; simp only [pathAddrs, addr_left, addr_right, Frame.sibling, List.mem_cons,
      List.mem_append] at ha
    intro e2; simp only [Option.some.injEq] at e2; subst e2
    rcases ha with ha | ha | ha <;>
      first | exact absurd ha (by simp [hnd]) | exact absurd ha.symm (by simp [hnd])
  simp only [pathRoot_append_cons, pathRoot, addr_left, addr_right] at hroot
  simp [AVLTree.nodeSwap, BinarySearchTree.nodeSwap, getParent, getLeft, getRight, getBalance,
    setParent, setLeft, setRight, setBalance, modifyNode, deref_store,
    hq, ltq, hn, ltn, hr, ltr, hp, ltp, hm, ltm, e1, e1.symm, e2, e2.symm, e3, e3.symm, e4, e4.symm, e5, e5.symm, e6, e6.symm, e7, e7.symm, e8, e8.symm, e9, e9.symm, e10, e10.symm, hlqm, hlqm2, hrn, hrm]
  refine ⟨?_, ?_, ?_, hnd2⟩
  · simpa [pathRoot] using hroot
  · simp [RepPath, RepTree, deref_store, RepTree_store_iff,
      RepPath_store_iff, pathRoot, hq, ltq, hn, ltn, hr, ltr, hp, ltp, hm, ltm, e1, e1.symm, e2, e2.symm, e3, e3.symm, e4, e4.symm, e5, e5.symm, e6, e6.symm, e7, e7.symm, e8, e8.symm, e9, e9.symm, e10, e10.symm, hlqm, hlqm2, hrn, hrm, hnd, hR1, hR2, hc, hlq, hS]
  · simp [RepPath, RepTree, deref_store, RepTree_store_iff,
      RepPath_store_iff, pathRoot, hq, ltq, hn, ltn, hr, ltr, hp, ltp, hm, ltm, e1, e1.symm, e2, e2.symm, e3, e3.symm, e4, e4.symm, e5, e5.symm, e6, e6.symm, e7, e7.symm, e8, e8.symm, e9, e9.symm, e10, e10.symm, hlqm, hlqm2, hrn, hrm, hnd, hR1, hR2, hc, hlq, hS]

set_option maxHeartbeats 4000000 in
theorem nodeSwap_near_left_node {t : AVLTree K V} {n m r : Nat} {R1 R2 : Shape K V} {kn km kr : K} {vn vm vr : V}
    {nb mb rb : Int} {c : List (Frame K V)} {p : Nat} {kp : K} {vp : V} {pb : Int} {S : Shape K V}
    {x : Nat} {X1 X2 : Shape K V} {kx : K} {vx : V} {xb : Int}
    {q : Nat} {lq : Shape K V} {kq : K} {vq : V} {bq : Int}
    (h : ModelsAt t (Frame.right q lq kq vq bq :: Frame.left n kn vn nb (node r R1 kr vr rb R2) :: Frame.left p kp vp pb S :: c)
      (node m (node x X1 kx vx xb X2) km vm mb nil)) :
    ∃ t2, AVLTree.nodeSwap t (some n) (some m) = some t2 ∧
      ModelsAt t2 (Frame.right q lq kq vq bq :: Frame.left m km vm (int8 nb) (node r R1 kr vr rb R2) :: Frame.left p kp vp pb S :: c)
        (node n (node x X1 kx vx xb X2) kn vn (int8 mb) nil) ∧
      t2.mem.length = t.mem.length := by
  obtain ⟨hroot, hpath, ⟨hm, hML, -⟩, hnd0⟩ := h
  have hnd := hnd0
  have hnd2 : (pathAddrs (Frame.right q lq kq vq bq :: Frame.left m km vm (int8 nb) (node r R1 kr vr rb R2) :: Frame.left p kp vp pb S :: c) ++
      (node n (node x X1 kx vx xb X2) kn vn (int8 mb) nil).addrs).Nodup := by
    refine (List.Perm.nodup_iff ?_).mp hnd0
    rw [List.perm_iff_count]; intro a
    simp [Shape.addrs, pathAddrs, pathAddrs_append, Frame.sibling, List.count_cons]; omega
  simp only [Shape.addrs, pathAddrs, pathAddrs_append, addr_left, addr_right, Frame.sibling,
    List.nodup_append, List.nodup_cons, List.mem_append, List.mem_cons,
    not_or, List.cons_append, List.append_assoc, List.disjoint_append_left,
    List.disjoint_append_right, List.disjoint_cons_left, List.disjoint_cons_right,
    List.nil_append, List.append_nil, List.not_mem_nil, not_false_eq_true, true_and,
    and_true, List.nodup_nil, List.disjoint_nil_left, List.disjoint_nil_right] at hnd
  simp only [RepPath, RepTree, pathPtr_nil, pathPtr_cons, ptr_node, ptr_nil, addr_left,
    addr_right] at hm hpath hML
  obtain ⟨hq, hlq, hn, hR, hc⟩ := hpath
  obtain ⟨hr, hR1, hR2⟩ := hR
  obtain ⟨hp, hS, hc⟩ := hc
  obtain ⟨hx, hX1, hX2⟩ := hML
  have ltq := deref_lt hq
  have ltn := deref_lt hn
  have ltr := deref_lt hr
  have ltp := deref_lt hp
  have ltm := deref_lt hm
  have ltx := deref_lt hx
  have e1 : q ≠ n := by simp [hnd]
  have e2 : q ≠ r := by simp [hnd]
  have e3 : q ≠ p := by simp [hnd]
  have e4 : q ≠ m := by simp [hnd]
  have e5 : q ≠ x := by simp [hnd]
  have e6 : n ≠ r := by simp [hnd]
  have e7 : n ≠ p := by simp [hnd]
  have e8 : n ≠ m := by simp [hnd]
  have e9 : n ≠ x := by simp [hnd]
  have e10 : r ≠ p := by simp [hnd]
  have e11 : r ≠ m := by simp [hnd]
  have e12 : r ≠ x := by simp [hnd]
  have e13 : p ≠ m := by simp [hnd]
  have e14 : p ≠ x := by simp [hnd]
  have e15 : m ≠ x := by simp [hnd]
  have hlqm : lq.ptr ≠ some m := ptr_ne_of_not_mem (by simp [hnd])
  have hlqm2 : some m ≠ lq.ptr := fun e => hlqm e.symm
  have hrn : t.root_ ≠ some n := by
    obtain ⟨a, ha, e⟩ := pathRoot_mem (Frame.left p kp vp pb S) c (some n)
    simp only [pathRoot_append_cons, pathRoot, addr_left, addr_right] at hroot e
    rw [hroot, e]; simp only [pathAddrs, addr_left, addr_right, Frame.sibling, List.mem_cons,
      List.mem_append] at ha
    intro e2; simp only [Option.some.injEq] at e2; subst e2
    rcases ha with ha | ha | ha <;>
      exact absurd ha (by simp [hnd])
  have hrm : t.root_ ≠ some m := by
    obtain ⟨a, ha, e⟩ := pathRoot_mem (Frame.left p kp vp pb S) c (some n)
    simp only [pathRoot_append_cons, pathRoot, addr_left, addr_right] at hroot e
    rw [hroot, e]; simp only [pathAddrs, addr_left, addr_right, Frame.sibling, List.mem_cons,
      List.mem_append] at ha
    intro e2; simp only [Option.some.injEq] at e2; subst e2
    rcases ha with ha | ha | ha <;>
      first | exact absurd ha (by simp [hnd]) | exact absurd ha.symm (by simp [hnd])
  simp only [pathRoot_append_cons, pathRoot, addr_left, addr_right] at hroot
  simp [AVLTree.nodeSwap, BinarySearchTree.nodeSwap, getParent, getLeft, getRight, getBalance,
    setParent, setLeft, setRight, setBalance, modifyNode, deref_store,
    hq, ltq, hn, ltn, hr, ltr, hp, ltp, hm, ltm, hx, ltx, e1, e1.symm, e2, e2.symm, e3, e3.symm, e4, e4.symm, e5, e5.symm, e6, e6.symm, e7, e7.symm, e8, e8.symm, e9, e9.symm, e10, e10.symm, e11, e11.symm, e12, e12.symm, e13, e13.symm, e14, e14.symm, e15, e15.symm, hlqm, hlqm2, hrn, hrm]
  refine ⟨?_, ?_, ?_, hnd2⟩
  · simpa [pathRoot] using hroot
  · simp [RepPath, RepTree, deref_store, RepTree_store_iff,
      RepPath_store_iff, pathRoot, hq, ltq, hn, ltn, hr, ltr, hp, ltp, hm, ltm, hx, ltx, e1, e1.symm, e2, e2.symm, e3, e3.symm, e4, e4.symm, e5, e5.symm, e6, e6.symm, e7, e7.symm, e8, e8.symm, e9, e9.symm, e10, e10.symm, e11, e11.symm, e12, e12.symm, e13, e13.symm, e14, e14.symm, e15, e15.symm, hlqm, hlqm2, hrn, hrm, hnd, hR1, hR2, hc, hlq, hS, hX1, hX2]
  · simp [RepPath, RepTree, deref_store, RepTree_store_iff,
      RepPath_store_iff, pathRoot, hq, ltq, hn, ltn, hr, ltr, hp, ltp, hm, ltm, hx, ltx, e1, e1.symm, e2, e2.symm, e3, e3.symm, e4, e4.symm, e5, e5.symm, e6, e6.symm, e7, e7.symm, e8, e8.symm, e9, e9.symm, e10, e10.symm, e11, e11.symm, e12, e12.symm, e13, e13.symm, e14, e14.symm, e15, e15.symm, hlqm, hlqm2, hrn, hrm, hnd, hR1, hR2, hc, hlq, hS, hX1, hX2]

set_option maxHeartbeats 4000000 in
theorem nodeSwap_near_right_leaf {t : AVLTree K V} {n m r : Nat} {R1 R2 : Shape K V} {kn km kr : K} {vn vm vr : V}
    {nb mb rb : Int} {c : List (Frame K V)} {p : Nat} {kp : K} {vp : V} {pb : Int} {S : Shape K V}
    {q : Nat} {lq : Shape K V} {kq : K} {vq : V} {bq : Int}
    (h : ModelsAt t (Frame.right q lq kq vq bq :: Frame.left n kn vn nb (node r R1 kr vr rb R2) :: Frame.right p S kp vp pb :: c)
      (node m (nil) km vm mb nil)) :
    ∃ t2, AVLTree.nodeSwap t (some n) (some m) = some t2 ∧
      ModelsAt t2 (Frame.right q lq kq vq bq :: Frame.left m km vm (int8 nb) (node r R1 kr vr rb R2) :: Frame.right p S kp vp pb :: c)
        (node n (nil) kn vn (int8 mb) nil) ∧
      t2.mem.length = t.mem.length := by
  obtain ⟨hroot, hpath, ⟨hm, hML, -⟩, hnd0⟩ := h
  have hnd := hnd0
  have hnd2 : (pathAddrs (Frame.right q lq kq vq bq :: Frame.left m km vm (int8 nb) (node r R1 kr vr rb R2) :: Frame.right p S kp vp pb :: c) ++
      (node n (nil) kn vn (int8 mb) nil).addrs).Nodup := by
    refine (List.Perm.nodup_iff ?_).mp hnd0
    rw [List.perm_iff_count]; intro a
    simp [Shape.addrs, pathAddrs, pathAddrs_append, Frame.sibling, List.count_cons]; omega
  simp only [Shape.addrs, pathAddrs, pathAddrs_append, addr_left, addr_right, Frame.sibling,
    List.nodup_append, List.nodup_cons, List.mem_append, List.mem_cons,
    not_or, List.cons_append, List.append_assoc, List.disjoint_append_left,
    List.disjoint_append_right, List.disjoint_cons_left, List.disjoint_cons_right,
    List.nil_append, List.append_nil, List.not_mem_nil, not_false_eq_true, true_and,
    and_true, List.nodup_nil, List.disjoint_nil_left, List.disjoint_nil_right] at hnd
  simp only [RepPath, RepTree, pathPtr_nil, pathPtr_cons, ptr_node, ptr_nil, addr_left,
    addr_right] at hm hpath hML
  obtain ⟨hq, hlq, hn, hR, hc⟩ := hpath
  obtain ⟨hr, hR1, hR2⟩ := hR
  obtain ⟨hp, hS, hc⟩ := hc
  have ltq := deref_lt hq
  have ltn := deref_lt hn
  have ltr := deref_lt hr
  have ltp := deref_lt hp
  have ltm := deref_lt hm
  have e1 : q ≠ n := by simp [hnd]
  have e2 : q ≠ r := by simp [hnd]
  have e3 : q ≠ p := by simp [hnd]
  have e4 : q ≠ m := by simp [hnd]
  have e5 : n ≠ r := by simp [hnd]
  have e6 : n ≠ p := by simp [hnd]
  have e7 : n ≠ m := by simp [hnd]
  have e8 : r ≠ p := by simp [hnd]
  have e9 : r ≠ m := by simp [hnd]
  have e10 : p ≠ m := by simp [hnd]
  have hSn : S.ptr ≠ some n := ptr_ne_of_not_mem (by simp [hnd])
  have hSn2 : some n ≠ S.ptr := fun e => hSn e.symm
  have hlqm : lq.ptr ≠ some m := ptr_ne_of_not_mem (by simp [hnd])
  have hlqm2 : some m ≠ lq.ptr := fun e => hlqm e.symm
  have hrn : t.root_ ≠ some n := by
    obtain ⟨a, ha, e⟩ := pathRoot_mem (Frame.right p S kp vp pb) c (some n)
    simp only [pathRoot_append_cons, pathRoot, addr_left, addr_right] at hroot e
    rw [hroot, e]; simp only [pathAddrs, addr_left, addr_right, Frame.sibling, List.mem_cons,
      List.mem_append] at ha
    intro e2; simp only [Option.some.injEq] at e2; subst e2
    rcases ha with ha | ha | ha <;>
      exact absurd ha (by simp [hnd])
  have hrm : t.root_ ≠ some m := by
    obtain ⟨a, ha, e⟩ := pathRoot_mem (Frame.right p S kp vp pb) c (some n)
    simp only [pathRoot_append_cons, pathRoot, addr_left, addr_right] at hroot e
    rw [hroot, e]; simp only [pathAddrs, addr_left, addr_right, Frame.sibling, List.mem_cons,
      List.mem_append] at ha
    intro e2; simp only [Option.some.injEq] at e2; subst e2
    rcases ha with ha | ha | ha <;>
      first | exact absurd ha (by simp [hnd]) | exact absurd ha.symm (by simp [hnd])
  simp only [pathRoot_append_cons, pathRoot, addr_left, addr_right] at hroot
  simp [AVLTree.nodeSwap, BinarySearchTree.nodeSwap, getParent, getLeft, getRight, getBalance,
    setParent, setLeft, setRight, setBalance, modifyNode, deref_store,
    hq, ltq, hn, ltn, hr, ltr, hp, ltp, hm, ltm, e1, e1.symm, e2, e2.symm, e3, e3.symm, e4, e4.symm, e5, e5.symm, e6, e6.symm, e7, e7.symm, e8, e8.symm, e9, e9.symm, e10, e10.symm, hSn, hSn2, hlqm, hlqm2, hrn, hrm]
  refine ⟨?_, ?_, ?_, hnd2⟩
  · simpa [pathRoot] using hroot
  · simp [RepPath, RepTree, deref_store, RepTree_store_iff,
      RepPath_store_iff, pathRoot, hq, ltq, hn, ltn, hr, ltr, hp, ltp, hm, ltm, e1, e1.symm, e2, e2.symm, e3, e3.symm, e4, e4.symm, e5, e5.symm, e6, e6.symm, e7, e7.symm, e8, e8.symm, e9, e9.symm, e10, e10.symm, hSn, hSn2, hlqm, hlqm2, hrn, hrm, hnd, hR1, hR2, hc, hlq, hS]
  · simp [RepPath, RepTree, deref_store, RepTree_store_iff,
      RepPath_store_iff, pathRoot, hq, ltq, hn, ltn, hr, ltr, hp, ltp, hm, ltm, e1, e1.symm, e2, e2.symm, e3, e3.symm, e4, e4.symm, e5, e5.symm, e6, e6.symm, e7, e7.symm, e8, e8.symm, e9, e9.symm, e10, e10.symm, hSn, hSn2, hlqm, hlqm2, hrn, hrm, hnd, hR1, hR2, hc, hlq, hS]

set_option maxHeartbeats 4000000 in
theorem nodeSwap_near_right_node {t : AVLTree K V} {n m r : Nat} {R1 R2 : Shape K V} {kn km kr : K} {vn vm vr : V}
    {nb mb rb : Int} {c : List (Frame K V)} {p : Nat} {kp : K} {vp : V} {pb : Int} {S : Shape K V}
    {x : Nat} {X1 X2 : Shape K V} {kx : K} {vx : V} {xb : Int}
    {q : Nat} {lq : Shape K V} {kq : K} {vq : V} {bq : Int}
    (h : ModelsAt t (Frame.right q lq kq vq bq :: Frame.left n kn vn nb (node r R1 kr vr rb R2) :: Frame.right p S kp vp pb :: c)
      (node m (node x X1 kx vx xb X2) km vm mb nil)) :
    ∃ t2, AVLTree.nodeSwap t (some n) (some m) = some t2 ∧
      ModelsAt t2 (Frame.right q lq kq vq bq :: Frame.left m km vm (int8 nb) (node r R1 kr vr rb R2) :: Frame.right p S kp vp pb :: c)
        (node n (node x X1 kx vx xb X2) kn vn (int8 mb) nil) ∧
      t2.mem.length = t.mem.length := by
  obtain ⟨hroot, hpath, ⟨hm, hML, -⟩, hnd0⟩ := h
  have hnd := hnd0
  have hnd2 : (pathAddrs (Frame.right q lq kq vq bq :: Frame.left m km vm (int8 nb) (node r R1 kr vr rb R2) :: Frame.right p S kp vp pb :: c) ++
      (node n (node x X1 kx vx xb X2) kn vn (int8 mb) nil).addrs).Nodup := by
    refine (List.Perm.nodup_iff ?_).mp hnd0
    rw [List.perm_iff_count]; intro a
    simp [Shape.addrs, pathAddrs, pathAddrs_append, Frame.sibling, List.count_cons]; omega
  simp only [Shape.addrs, pathAddrs, pathAddrs_append, addr_left, addr_right, Frame.sibling,
    List.nodup_append, List.nodup_cons, List.mem_append, List.mem_cons,
    not_or, List.cons_append, List.append_assoc, List.disjoint_append_left,
    List.disjoint_append_right, List.disjoint_cons_left, List.disjoint_cons_right,
    List.nil_append, List.append_nil, List.not_mem_nil, not_false_eq_true, true_and,
    and_true, List.nodup_nil, List.disjoint_nil_left, List.disjoint_nil_right] at hnd
  simp only [RepPath, RepTree, pathPtr_nil, pathPtr_cons, ptr_node, ptr_nil, addr_left,
    addr_right] at hm hpath hML
  obtain ⟨hq, hlq, hn, hR, hc⟩ := hpath
  obtain ⟨hr, hR1, hR2⟩ := hR
  obtain ⟨hp, hS, hc⟩ := hc
  obtain ⟨hx, hX1, hX2⟩ := hML
  have ltq := deref_lt hq
  have ltn := deref_lt hn
  have ltr := deref_lt hr
  have ltp := deref_lt hp
  have ltm := deref_lt hm
  have ltx := deref_lt hx
  have e1 : q ≠ n := by simp [hnd]
  have e2 : q ≠ r := by simp [hnd]
  have e3 : q ≠ p := by simp [hnd]
  have e4 : q ≠ m := by simp [hnd]
  have e5 : q ≠ x := by simp [hnd]
  have e6 : n ≠ r := by simp [hnd]
  have e7 : n ≠ p := by simp [hnd]
  have e8 : n ≠ m := by simp [hnd]
  have e9 : n ≠ x := by simp [hnd]
  have e10 : r ≠ p := by simp [hnd]
  have e11 : r ≠ m := by simp [hnd]
  have e12 : r ≠ x := by simp [hnd]
  have e13 : p ≠ m := by simp [hnd]
  have e14 : p ≠ x := by simp [hnd]
  have e15 : m ≠ x := by simp [hnd]
  have hSn : S.ptr ≠ some n := ptr_ne_of_not_mem (by simp [hnd])
  have hSn2 : some n ≠ S.ptr := fun e => hSn e.symm
  have hlqm : lq.ptr ≠ some m := ptr_ne_of_not_mem (by simp [hnd])
  have hlqm2 : some m ≠ lq.ptr := fun e => hlqm e.symm
  have hrn : t.root_ ≠ some n := by
    obtain ⟨a, ha, e⟩ := pathRoot_mem (Frame.right p S kp vp pb) c (some n)
    simp only [pathRoot_append_cons, pathRoot, addr_left, addr_right] at hroot e
    rw [hroot, e]; simp only [pathAddrs, addr_left, addr_right, Frame.sibling, List.mem_cons,
      List.mem_append] at ha
    intro e2; simp only [Option.some.injEq] at e2; subst e2
    rcases ha with ha | ha | ha <;>
      exact absurd ha (by simp [hnd])
  have hrm : t.root_ ≠ some m := by
    obtain ⟨a, ha, e⟩ := pathRoot_mem (Frame.right p S kp vp pb) c (some n)
    simp only [pathRoot_append_cons, pathRoot, addr_left, addr_right] at hroot e
    rw [hroot, e]; simp only [pathAddrs, addr_left, addr_right, Frame.sibling, List.mem_cons,
      List.mem_append] at ha
    intro e2; simp only [Option.some.injEq] at e2; subst e2
    rcases ha with ha | ha | ha <;>
      first | exact absurd ha (by simp [hnd]) | exact absurd ha.symm (by simp [hnd])
  simp only [pathRoot_append_cons, pathRoot, addr_left, addr_right] at hroot
  simp [AVLTree.nodeSwap, BinarySearchTree.nodeSwap, getParent, getLeft, getRight, getBalance,
    setParent, setLeft, setRight, setBalance, modifyNode, deref_store,
    hq, ltq, hn, ltn, hr, ltr, hp, ltp, hm, ltm, hx, ltx, e1, e1.symm, e2, e2.symm, e3, e3.symm, e4, e4.symm, e5, e5.symm, e6, e6.symm, e7, e7.symm, e8, e8.symm, e9, e9.symm, e10, e10.symm, e11, e11.symm, e12, e12.symm, e13, e13.symm, e14, e14.symm, e15, e15.symm, hSn, hSn2, hlqm, hlqm2, hrn, hrm]
  refine ⟨?_, ?_, ?_, hnd2⟩
  · simpa [pathRoot] using hroot
  · simp [RepPath, RepTree, deref_store, RepTree_store_iff,
      RepPath_store_iff, pathRoot, hq, ltq, hn, ltn, hr, ltr, hp, ltp, hm, ltm, hx, ltx, e1, e1.symm, e2, e2.symm, e3, e3.symm, e4, e4.symm, e5, e5.symm, e6, e6.symm, e7, e7.symm, e8, e8.symm, e9, e9.symm, e10, e10.symm, e11, e11.symm, e12, e12.symm, e13, e13.symm, e14, e14.symm, e15, e15.symm, hSn, hSn2, hlqm, hlqm2, hrn, hrm, hnd, hR1, hR2, hc, hlq, hS, hX1, hX2]
  · simp [RepPath, RepTree, deref_store, RepTree_store_iff,
      RepPath_store_iff, pathRoot, hq, ltq, hn, ltn, hr, ltr, hp, ltp, hm, ltm, hx, ltx, e1, e1.symm, e2, e2.symm, e3, e3.symm, e4, e4.symm, e5, e5.symm, e6, e6.symm, e7, e7.symm, e8, e8.symm, e9, e9.symm, e10, e10.symm, e11, e11.symm, e12, e12.symm, e13, e13.symm, e14, e14.symm, e15, e15.symm, hSn, hSn2, hlqm, hlqm2, hrn, hrm, hnd, hR1, hR2, hc, hlq, hS, hX1, hX2]

set_option maxHeartbeats 4000000 in
theorem nodeSwap_far_nil_leaf {t : AVLTree K V} {n m r : Nat} {R1 R2 : Shape K V} {kn km kr : K} {vn vm vr : V}
    {nb mb rb : Int}
    {q : Nat} {lq : Shape K V} {kq : K} {vq : V} {bq : Int}
    {mid : List (Frame K V)} {ql : Nat} {ll : Shape K V} {kl : K} {vl : V} {bl : Int}
    (h : ModelsAt t (Frame.right q lq kq vq bq :: (mid ++ Frame.right ql ll kl vl bl :: Frame.left n kn vn nb (node r R1 kr vr rb R2) :: []))
      (node m (nil) km vm mb nil)) :
    ∃ t2, AVLTree.nodeSwap t (some n) (some m) = some t2 ∧
      ModelsAt t2 (Frame.right q lq kq vq bq :: (mid ++ Frame.right ql ll kl vl bl :: Frame.left m km vm (int8 nb) (node r R1 kr vr rb R2) :: []))
        (node n (nil) kn vn (int8 mb) nil) ∧
      t2.mem.length = t.mem.length := by
  obtain ⟨hroot, hpath, ⟨hm, hML, -⟩, hnd0⟩ := h
  have hnd := hnd0
  have hnd2 : (pathAddrs (Frame.right q lq kq vq bq :: (mid ++ Frame.right ql ll kl vl bl :: Frame.left m km vm (int8 nb) (node r R1 kr vr rb R2) :: [])) ++
      (node n (nil) kn vn (int8 mb) nil).addrs).Nodup := by
    refine (List.Perm.nodup_iff ?_).mp hnd0
    rw [List.perm_iff_count]; intro a
    simp [Shape.addrs, pathAddrs, pathAddrs_append, Frame.sibling, List.count_cons]; omega
  simp only [Shape.addrs, pathAddrs, pathAddrs_append, addr_left, addr_right, Frame.sibling,
    List.nodup_append, List.nodup_cons, List.mem_append, List.mem_cons,
    not_or, List.cons_append, List.append_assoc, List.disjoint_append_left,
    List.disjoint_append_right, List.disjoint_cons_left, List.disjoint_cons_right,
    List.nil_append, List.append_nil, List.not_mem_nil, not_false_eq_true, true_and,
    and_true, List.nodup_nil, List.disjoint_nil_left, List.disjoint_nil_right] at hnd
  simp only [RepPath, RepTree, pathPtr_nil, pathPtr_cons, ptr_node, ptr_nil, addr_left,
    addr_right] at hm hML
  obtain ⟨hq, hlq, hmid⟩ := hpath
  obtain ⟨h2, hrest⟩ := RepPath_append_right _ _ _ hmid
  simp only [RepPath, RepTree, pathPtr_nil, pathPtr_cons, ptr_node, ptr_nil, addr_left,
    addr_right] at hrest hq
  obtain ⟨hql, hll, hn, hR, hc⟩ := hrest
  obtain ⟨hr, hR1, hR2⟩ := hR
  have ltq := deref_lt hq
  have ltql := deref_lt hql
  have ltn := deref_lt hn
  have ltr := deref_lt hr
  have ltm := deref_lt hm
  have e1 : q ≠ ql := by simp [hnd]
  have e2 : q ≠ n := by simp [hnd]
  have e3 : q ≠ r := by simp [hnd]
  have e4 : q ≠ m := by simp [hnd]
  have e5 : ql ≠ n := by simp [hnd]
  have e6 : ql ≠ r := by simp [hnd]
  have e7 : ql ≠ m := by simp [hnd]
  have e8 : n ≠ r := by simp [hnd]
  have e9 : n ≠ m := by simp [hnd]
  have e10 : r ≠ m := by simp [hnd]
  have hlqm : lq.ptr ≠ some m := ptr_ne_of_not_mem (by simp [hnd])
  have hlqm2 : some m ≠ lq.ptr := fun e => hlqm e.symm
  simp only [pathRoot_append_cons, pathRoot, addr_left, addr_right] at hroot
  simp [AVLTree.nodeSwap, BinarySearchTree.nodeSwap, getParent, getLeft, getRight, getBalance,
    setParent, setLeft, setRight, setBalance, modifyNode, deref_store,
    hq, ltq, hql, ltql, hn, ltn, hr, ltr, hm, ltm, e1, e1.symm, e2, e2.symm, e3, e3.symm, e4, e4.symm, e5, e5.symm, e6, e6.symm, e7, e7.symm, e8, e8.symm, e9, e9.symm, e10, e10.symm, hlqm, hlqm2, hroot]
  refine ⟨?_, ?_, ?_, hnd2⟩
  · simp [pathRoot, pathRoot_append_cons]
  · simp only [RepPath, ptr_node]
    refine ⟨?_, ?_, ?_⟩
    · have hpp : pathPtr (mid ++ Frame.right ql ll kl vl bl ::
          Frame.left m km vm (int8 nb) (node r R1 kr vr rb R2) :: []) =
          pathPtr (mid ++ Frame.right ql ll kl vl bl ::
          Frame.left n kn vn nb (node r R1 kr vr rb R2) :: []) :=
        pathPtr_append_cons _ _ _ _
      simp [deref_store, hpp, hq, ltq, hql, ltql, hn, ltn, hr, ltr, hm, ltm, e1, e1.symm, e2, e2.symm, e3, e3.symm, e4, e4.symm, e5, e5.symm, e6, e6.symm, e7, e7.symm, e8, e8.symm, e9, e9.symm, e10, e10.symm, hlqm, hlqm2, hroot]
    · simp [RepTree_store_iff, hnd, hlq]
    · refine RepPath_append mid
        (Frame.right ql ll kl vl bl :: Frame.left n kn vn nb (node r R1 kr vr rb R2) :: [])
        (Frame.right ql ll kl vl bl ::
          Frame.left m km vm (int8 nb) (node r R1 kr vr rb R2) :: [])
        rfl ?_ ?_ _ hmid
      · intro a ha
        have : a ≠ q := by rintro rfl; simp [hnd] at ha
        have : a ≠ ql := by rintro rfl; simp [hnd] at ha
        have : a ≠ n := by rintro rfl; simp [hnd] at ha
        have : a ≠ r := by rintro rfl; simp [hnd] at ha
        have : a ≠ m := by rintro rfl; simp [hnd] at ha
        simp [deref_store, *]
      · intro h3 hrest3
        simp only [RepPath, RepTree, pathPtr_nil, pathPtr_cons, ptr_node, ptr_nil, addr_left,
          addr_right] at hrest3 ⊢
        have hh : h3 = h2 := by
          have := hrest3.1.symm.trans hql
          simpa using this
        subst hh
        simp [RepPath, RepTree, deref_store, RepTree_store_iff,
      RepPath_store_iff, pathRoot, hq, ltq, hql, ltql, hn, ltn, hr, ltr, hm, ltm, e1, e1.symm, e2, e2.symm, e3, e3.symm, e4, e4.symm, e5, e5.symm, e6, e6.symm, e7, e7.symm, e8, e8.symm, e9, e9.symm, e10, e10.symm, hlqm, hlqm2, hroot, hnd, hR1, hR2, hc, hlq, hll]
  · simp [RepPath, RepTree, deref_store, RepTree_store_iff,
      RepPath_store_iff, pathRoot, hq, ltq, hql, ltql, hn, ltn, hr, ltr, hm, ltm, e1, e1.symm, e2, e2.symm, e3, e3.symm, e4, e4.symm, e5, e5.symm, e6, e6.symm, e7, e7.symm, e8, e8.symm, e9, e9.symm, e10, e10.symm, hlqm, hlqm2, hroot, hnd, hR1, hR2, hc, hlq, hll]

set_option maxHeartbeats 4000000 in
theorem nodeSwap_far_nil_node {t : AVLTree K V} {n m r : Nat} {R1 R2 : Shape K V} {kn km kr : K} {vn vm vr : V}
    {nb mb rb : Int}
    {x : Nat} {X1 X2 : Shape K V} {kx : K} {vx : V} {xb : Int}
    {q : Nat} {lq : Shape K V} {kq : K} {vq : V} {bq : Int}
    {mid : List (Frame K V)} {ql : Nat} {ll : Shape K V} {kl : K} {vl : V} {bl : Int}
    (h : ModelsAt t (Frame.right q lq kq vq bq :: (mid ++ Frame.right ql ll kl vl bl :: Frame.left n kn vn nb (node r R1 kr vr rb R2) :: []))
      (node m (node x X1 kx vx xb X2) km vm mb nil)) :
    ∃ t2, AVLTree.nodeSwap t (some n) (some m) = some t2 ∧
      ModelsAt t2 (Frame.right q lq kq vq bq :: (mid ++ Frame.right ql ll kl vl bl :: Frame.left m km vm (int8 nb) (node r R1 kr vr rb R2) :: []))
        (node n (node x X1 kx vx xb X2) kn vn (int8 mb) nil) ∧
      t2.mem.length = t.mem.length := by
  obtain ⟨hroot, hpath, ⟨hm, hML, -⟩, hnd0⟩ := h
  have hnd := hnd0
  have hnd2 : (pathAddrs (Frame.right q lq kq vq bq :: (mid ++ Frame.right ql ll kl vl bl :: Frame.left m km vm (int8 nb) (node r R1 kr vr rb R2) :: [])) ++
      (node n (node x X1 kx vx xb X2) kn vn (int8 mb) nil).addrs).Nodup := by
    refine (List.Perm.nodup_iff ?_).mp hnd0
    rw [List.perm_iff_count]; intro a
    simp [Shape.addrs, pathAddrs, pathAddrs_append, Frame.sibling, List.count_cons]; omega
  simp only [Shape.addrs, pathAddrs, pathAddrs_append, addr_left, addr_right, Frame.sibling,
    List.nodup_append, List.nodup_cons, List.mem_append, List.mem_cons,
    not_or, List.cons_append, List.append_assoc, List.disjoint_append_left,
    List.disjoint_append_right, List.disjoint_cons_left, List.disjoint_cons_right,
    List.nil_append, List.append_nil, List.not_mem_nil, not_false_eq_true, true_and,
    and_true, List.nodup_nil, List.disjoint_nil_left, List.disjoint_nil_right] at hnd
  simp only [RepPath, RepTree, pathPtr_nil, pathPtr_cons, ptr_node, ptr_nil, addr_left,
    addr_right] at hm hML
  obtain ⟨hq, hlq, hmid⟩ := hpath
  obtain ⟨h2, hrest⟩ := RepPath_append_right _ _ _ hmid
  simp only [RepPath, RepTree, pathPtr_nil, pathPtr_cons, ptr_node, ptr_nil, addr_left,
    addr_right] at hrest hq
  obtain ⟨hql, hll, hn, hR, hc⟩ := hrest
  obtain ⟨hr, hR1, hR2⟩ := hR
  obtain ⟨hx, hX1, hX2⟩ := hML
  have ltq := deref_lt hq
  have ltql := deref_lt hql
  have ltn := deref_lt hn
  have ltr := deref_lt hr
  have ltm := deref_lt hm
  have ltx := deref_lt hx
  have e1 : q ≠ ql := by simp [hnd]
  have e2 : q ≠ n := by simp [hnd]
  have e3 : q ≠ r := by simp [hnd]
  have e4 : q ≠ m := by simp [hnd]
  have e5 : q ≠ x := by simp [hnd]
  have e6 : ql ≠ n := by simp [hnd]
  have e7 : ql ≠ r := by simp [hnd]
  have e8 : ql ≠ m := by simp [hnd]
  have e9 : ql ≠ x := by simp [hnd]
  have e10 : n ≠ r := by simp [hnd]
  have e11 : n ≠ m := by simp [hnd]
  have e12 : n ≠ x := by simp [hnd]
  have e13 : r ≠ m := by simp [hnd]
  have e14 : r ≠ x := by simp [hnd]
  have e15 : m ≠ x := by simp [hnd]
  have hlqm : lq.ptr ≠ some m := ptr_ne_of_not_mem (by simp [hnd])
  have hlqm2 : some m ≠ lq.ptr := fun e => hlqm e.symm
  simp only [pathRoot_append_cons, pathRoot, addr_left, addr_right] at hroot
  simp [AVLTree.nodeSwap, BinarySearchTree.nodeSwap, getParent, getLeft, getRight, getBalance,
    setParent, setLeft, setRight, setBalance, modifyNode, deref_store,
    hq, ltq, hql, ltql, hn, ltn, hr, ltr, hm, ltm, hx, ltx, e1, e1.symm, e2, e2.symm, e3, e3.symm, e4, e4.symm, e5, e5.symm, e6, e6.symm, e7, e7.symm, e8, e8.symm, e9, e9.symm, e10, e10.symm, e11, e11.symm, e12, e12.symm, e13, e13.symm, e14, e14.symm, e15, e15.symm, hlqm, hlqm2, hroot]
  refine ⟨?_, ?_, ?_, hnd2⟩
  · simp [pathRoot, pathRoot_append_cons]
  · simp only [RepPath, ptr_node]
    refine ⟨?_, ?_, ?_⟩
    · have hpp : pathPtr (mid ++ Frame.right ql ll kl vl bl ::
          Frame.left m km vm (int8 nb) (node r R1 kr vr rb R2) :: []) =
          pathPtr (mid ++ Frame.right ql ll kl vl bl ::
          Frame.left n kn vn nb (node r R1 kr vr rb R2) :: []) :=
        pathPtr_append_cons _ _ _ _
      simp [deref_store, hpp, hq, ltq, hql, ltql, hn, ltn, hr, ltr, hm, ltm, hx, ltx, e1, e1.symm, e2, e2.symm, e3, e3.symm, e4, e4.symm, e5, e5.symm, e6, e6.symm, e7, e7.symm, e8, e8.symm, e9, e9.symm, e10, e10.symm, e11, e11.symm, e12, e12.symm, e13, e13.symm, e14, e14.symm, e15, e15.symm, hlqm, hlqm2, hroot]
    · simp [RepTree_store_iff, hnd, hlq]
    · refine RepPath_append mid
        (Frame.right ql ll kl vl bl :: Frame.left n kn vn nb (node r R1 kr vr rb R2) :: [])
        (Frame.right ql ll kl vl bl ::
          Frame.left m km vm (int8 nb) (node r R1 kr vr rb R2) :: [])
        rfl ?_ ?_ _ hmid
      · intro a ha
        have : a ≠ q := by rintro rfl; simp [hnd] at ha
        have : a ≠ ql := by rintro rfl; simp [hnd] at ha
        have : a ≠ n := by rintro rfl; simp [hnd] at ha
        have : a ≠ r := by rintro rfl; simp [hnd] at ha
        have : a ≠ m := by rintro rfl; simp [hnd] at ha
        have : a ≠ x := by rintro rfl; simp [hnd] at ha
        simp [deref_store, *]
      · intro h3 hrest3
        simp only [RepPath, RepTree, pathPtr_nil, pathPtr_cons, ptr_node, ptr_nil, addr_left,
          addr_right] at hrest3 ⊢
        have hh : h3 = h2 := by
          have := hrest3.1.symm.trans hql
          simpa using this
        subst hh
        simp [RepPath, RepTree, deref_store, RepTree_store_iff,
      RepPath_store_iff, pathRoot, hq, ltq, hql, ltql, hn, ltn, hr, ltr, hm, ltm, hx, ltx, e1, e1.symm, e2, e2.symm, e3, e3.symm, e4, e4.symm, e5, e5.symm, e6, e6.symm, e7, e7.symm, e8, e8.symm, e9, e9.symm, e10, e10.symm, e11, e11.symm, e12, e12.symm, e13, e13.symm, e14, e14.symm, e15, e15.symm, hlqm, hlqm2, hroot, hnd, hR1, hR2, hc, hlq, hll, hX1, hX2]
  · simp [RepPath, RepTree, deref_store, RepTree_store_iff,
      RepPath_store_iff, pathRoot, hq, ltq, hql, ltql, hn, ltn, hr, ltr, hm, ltm, hx, ltx, e1, e1.symm, e2, e2.symm, e3, e3.symm, e4, e4.symm, e5, e5.symm, e6, e6.symm, e7, e7.symm, e8, e8.symm, e9, e9.symm, e10, e10.symm, e11, e11.symm, e12, e12.symm, e13, e13.symm, e14, e14.symm, e15, e15.symm, hlqm, hlqm2, hroot, hnd, hR1, hR2, hc, hlq, hll, hX1, hX2]

set_option maxHeartbeats 4000000 in
theorem nodeSwap_far_left_leaf {t : AVLTree K V} {n m r : Nat} {R1 R2 : Shape K V} {kn km kr : K} {vn vm vr : V}
    {nb mb rb : Int} {c : List (Frame K V)} {p : Nat} {kp : K} {vp : V} {pb : Int} {S : Shape K V}
    {q : Nat} {lq : Shape K V} {kq : K} {vq : V} {bq : Int}
    {mid : List (Frame K V)} {ql : Nat} {ll : Shape K V} {kl : K} {vl : V} {bl : Int}
    (h : ModelsAt t (Frame.right q lq kq vq bq :: (mid ++ Frame.right ql ll kl vl bl :: Frame.left n kn vn nb (node r R1 kr vr rb R2) :: Frame.left p kp vp pb S :: c))
      (node m (nil) km vm mb nil)) :
    ∃ t2, AVLTree.nodeSwap t (some n) (some m) = some t2 ∧
      ModelsAt t2 (Frame.right q lq kq vq bq :: (mid ++ Frame.right ql ll kl vl bl :: Frame.left m km vm (int8 nb) (node r R1 kr vr rb R2) :: Frame.left p kp vp pb S :: c))
        (node n (nil) kn vn (int8 mb) nil) ∧
      t2.mem.length = t.mem.length := by
  obtain ⟨hroot, hpath, ⟨hm, hML, -⟩, hnd0⟩ := h
  have hnd := hnd0
  have hnd2 : (pathAddrs (Frame.right q lq kq vq bq :: (mid ++ Frame.right ql ll kl vl bl :: Frame.left m km vm (int8 nb) (node r R1 kr vr rb R2) :: Frame.left p kp vp pb S :: c)) ++
      (node n (nil) kn vn (int8 mb) nil).addrs).Nodup := by
    refine (List.Perm.nodup_iff ?_).mp hnd0
    rw [List.perm_iff_count]; intro a
    simp [Shape.addrs, pathAddrs, pathAddrs_append, Frame.sibling, List.count_cons]; omega
  simp only [Shape.addrs, pathAddrs, pathAddrs_append, addr_left, addr_right, Frame.sibling,
    List.nodup_append, List.nodup_cons, List.mem_append, List.mem_cons,
    not_or, List.cons_append, List.append_assoc, List.disjoint_append_left,
    List.disjoint_append_right, List.disjoint_cons_left, List.disjoint_cons_right,
    List.nil_append, List.append_nil, List.not_mem_nil, not_false_eq_true, true_and,
    and_true, List.nodup_nil, List.disjoint_nil_left, List.disjoint_nil_right] at hnd
  simp only [RepPath, RepTree, pathPtr_nil, pathPtr_cons, ptr_node, ptr_nil, addr_left,
    addr_right] at hm hML
  obtain ⟨hq, hlq, hmid⟩ := hpath
  obtain ⟨h2, hrest⟩ := RepPath_append_right _ _ _ hmid
  simp only [RepPath, RepTree, pathPtr_nil, pathPtr_cons, ptr_node, ptr_nil, addr_left,
    addr_right] at hrest hq
  obtain ⟨hql, hll, hn, hR, hc⟩ := hrest
  obtain ⟨hr, hR1, hR2⟩ := hR
  obtain ⟨hp, hS, hc⟩ := hc
  have ltq := deref_lt hq
  have ltql := deref_lt hql
  have ltn := deref_lt hn
  have ltr := deref_lt hr
  have ltp := deref_lt hp
  have ltm := deref_lt hm
  have e1 : q ≠ ql := by simp [hnd]
  have e2 : q ≠ n := by simp [hnd]
  have e3 : q ≠ r := by simp [hnd]
  have e4 : q ≠ p := by simp [hnd]
  have e5 : q ≠ m := by simp [hnd]
  have e6 : ql ≠ n := by simp [hnd]
  have e7 : ql ≠ r := by simp [hnd]
  have e8 : ql ≠ p := by simp [hnd]
  have e9 : ql ≠ m := by simp [hnd]
  have e10 : n ≠ r := by simp [hnd]
  have e11 : n ≠ p := by simp [hnd]
  have e12 : n ≠ m := by simp [hnd]
  have e13 : r ≠ p := by simp [hnd]
  have e14 : r ≠ m := by simp [hnd]
  have e15 : p ≠ m := by simp [hnd]
  have hlqm : lq.ptr ≠ some m := ptr_ne_of_not_mem (by simp [hnd])
  have hlqm2 : some m ≠ lq.ptr := fun e => hlqm e.symm
  have hrn : t.root_ ≠ some n := by
    obtain ⟨a, ha, e⟩ := pathRoot_mem (Frame.left p kp vp pb S) c (some n)
    simp only [pathRoot_append_cons, pathRoot, addr_left, addr_right] at hroot e
    rw [hroot, e]; simp only [pathAddrs, addr_left, addr_right, Frame.sibling, List.mem_cons,
      List.mem_append] at ha
    intro e2; simp only [Option.some.injEq] at e2; subst e2
    rcases ha with ha | ha | ha <;>
      exact absurd ha (by simp [hnd])
  have hrm : t.root_ ≠ some m := by
    obtain ⟨a, ha, e⟩ := pathRoot_mem (Frame.left p kp vp pb S) c (some n)
    simp only [pathRoot_append_cons, pathRoot, addr_left, addr_right] at hroot e
    rw [hroot, e]; simp only [pathAddrs, addr_left, addr_right, Frame.sibling, List.mem_cons,
      List.mem_append] at ha
    intro e2; simp only [Option.some.injEq] at e2; subst e2
    rcases ha with ha | ha | ha <;>
      first | exact absurd ha (by simp [hnd]) | exact absurd ha.symm (by simp [hnd])
  simp only [pathRoot_append_cons, pathRoot, addr_left, addr_right] at hroot
  simp [AVLTree.nodeSwap, BinarySearchTree.nodeSwap, getParent, getLeft, getRight, getBalance,
    setParent, setLeft, setRight, setBalance, modifyNode, deref_store,
    hq, ltq, hql, ltql, hn, ltn, hr, ltr, hp, ltp, hm, ltm, e1, e1.symm, e2, e2.symm, e3, e3.symm, e4, e4.symm, e5, e5.symm, e6, e6.symm, e7, e7.symm, e8, e8.symm, e9, e9.symm, e10, e10.symm, e11, e11.symm, e12, e12.symm, e13, e13.symm, e14, e14.symm, e15, e15.symm, hlqm, hlqm2, hrn, hrm]
  refine ⟨?_, ?_, ?_, hnd2⟩
  · simpa [pathRoot, pathRoot_append_cons] using hroot
  · simp only [RepPath, ptr_node]
    refine ⟨?_, ?_, ?_⟩
    · have hpp : pathPtr (mid ++ Frame.right ql ll kl vl bl ::
          Frame.left m km vm (int8 nb) (node r R1 kr vr rb R2) :: Frame.left p kp vp pb S :: c) =
          pathPtr (mid ++ Frame.right ql ll kl vl bl ::
          Frame.left n kn vn nb (node r R1 kr vr rb R2) :: Frame.left p kp vp pb S :: c) :=
        pathPtr_append_cons _ _ _ _
      simp [deref_store, hpp, hq, ltq, hql, ltql, hn, ltn, hr, ltr, hp, ltp, hm, ltm, e1, e1.symm, e2, e2.symm, e3, e3.symm, e4, e4.symm, e5, e5.symm, e6, e6.symm, e7, e7.symm, e8, e8.symm, e9, e9.symm, e10, e10.symm, e11, e11.symm, e12, e12.symm, e13, e13.symm, e14, e14.symm, e15, e15.symm, hlqm, hlqm2, hrn, hrm]
    · simp [RepTree_store_iff, hnd, hlq]
    · refine RepPath_append mid
        (Frame.right ql ll kl vl bl :: Frame.left n kn vn nb (node r R1 kr vr rb R2) :: Frame.left p kp vp pb S :: c)
        (Frame.right ql ll kl vl bl ::
          Frame.left m km vm (int8 nb) (node r R1 kr vr rb R2) :: Frame.left p kp vp pb S :: c)
        rfl ?_ ?_ _ hmid
      · intro a ha
        have : a ≠ q := by rintro rfl; simp [hnd] at ha
        have : a ≠ ql := by rintro rfl; simp [hnd] at ha
        have : a ≠ n := by rintro rfl; simp [hnd] at ha
        have : a ≠ r := by rintro rfl; simp [hnd] at ha
        have : a ≠ p := by rintro rfl; simp [hnd] at ha
        have : a ≠ m := by rintro rfl; simp [hnd] at ha
        simp [deref_store, *]
      · intro h3 hrest3
        simp only [RepPath, RepTree, pathPtr_nil, pathPtr_cons, ptr_node, ptr_nil, addr_left,
          addr_right] at hrest3 ⊢
        have hh : h3 = h2 := by
          have := hrest3.1.symm.trans hql
          simpa using this
        subst hh
        simp [RepPath, RepTree, deref_store, RepTree_store_iff,
      RepPath_store_iff, pathRoot, hq, ltq, hql, ltql, hn, ltn, hr, ltr, hp, ltp, hm, ltm, e1, e1.symm, e2, e2.symm, e3, e3.symm, e4, e4.symm, e5, e5.symm, e6, e6.symm, e7, e7.symm, e8, e8.symm, e9, e9.symm, e10, e10.symm, e11, e11.symm, e12, e12.symm, e13, e13.symm, e14, e14.symm, e15, e15.symm, hlqm, hlqm2, hrn, hrm, hnd, hR1, hR2, hc, hlq, hll, hS]
  · simp [RepPath, RepTree, deref_store, RepTree_store_iff,
      RepPath_store_iff, pathRoot, hq, ltq, hql, ltql, hn, ltn, hr, ltr, hp, ltp, hm, ltm, e1, e1.symm, e2, e2.symm, e3, e3.symm, e4, e4.symm, e5, e5.symm, e6, e6.symm, e7, e7.symm, e8, e8.symm, e9, e9.symm, e10, e10.symm, e11, e11.symm, e12, e12.symm, e13, e13.symm, e14, e14.symm, e15, e15.symm, hlqm, hlqm2, hrn, hrm, hnd, hR1, hR2, hc, hlq, hll, hS]

set_option maxHeartbeats 4000000 in
theorem nodeSwap_far_left_node {t : AVLTree K V} {n m r : Nat} {R1 R2 : Shape K V} {kn km kr : K} {vn vm vr : V}
    {nb mb rb : Int} {c : List (Frame K V)} {p : Nat} {kp : K} {vp : V} {pb : Int} {S : Shape K V}
    {x : Nat} {X1 X2 : Shape K V} {kx : K} {vx : V} {xb : Int}
    {q : Nat} {lq : Shape K V} {kq : K} {vq : V} {bq : Int}
    {mid : List (Frame K V)} {ql : Nat} {ll : Shape K V} {kl : K} {vl : V} {bl : Int}
    (h : ModelsAt t (Frame.right q lq kq vq bq :: (mid ++ Frame.right ql ll kl vl bl :: Frame.left n kn vn nb (node r R1 kr vr rb R2) :: Frame.left p kp vp pb S :: c))
      (node m (node x X1 kx vx xb X2) km vm mb nil)) :
    ∃ t2, AVLTree.nodeSwap t (some n) (some m) = some t2 ∧
      ModelsAt t2 (Frame.right q lq kq vq bq :: (mid ++ Frame.right ql ll kl vl bl :: Frame.left m km vm (int8 nb) (node r R1 kr vr rb R2) :: Frame.left p kp vp pb S :: c))
        (node n (node x X1 kx vx xb X2) kn vn (int8 mb) nil) ∧
      t2.mem.length = t.mem.length := by
  obtain ⟨hroot, hpath, ⟨hm, hML, -⟩, hnd0⟩ := h
  have hnd := hnd0
  have hnd2 : (pathAddrs (Frame.right q lq kq vq bq :: (mid ++ Frame.right ql ll kl vl bl :: Frame.left m km vm (int8 nb) (node r R1 kr vr rb R2) :: Frame.left p kp vp pb S :: c)) ++
      (node n (node x X1 kx vx xb X2) kn vn (int8 mb) nil).addrs).Nodup := by
    refine (List.Perm.nodup_iff ?_).mp hnd0
    rw [List.perm_iff_count]; intro a
    simp [Shape.addrs, pathAddrs, pathAddrs_append, Frame.sibling, List.count_cons]; omega
  simp only [Shape.addrs, pathAddrs, pathAddrs_append, addr_left, addr_right, Frame.sibling,
    List.nodup_append, List.nodup_cons, List.mem_append, List.mem_cons,
    not_or, List.cons_append, List.append_assoc, List.disjoint_append_left,
    List.disjoint_append_right, List.disjoint_cons_left, List.disjoint_cons_right,
    List.nil_append, List.append_nil, List.not_mem_nil, not_false_eq_true, true_and,
    and_true, List.nodup_nil, List.disjoint_nil_left, List.disjoint_nil_right] at hnd
  simp only [RepPath, RepTree, pathPtr_nil, pathPtr_cons, ptr_node, ptr_nil, addr_left,
    addr_right] at hm hML
  obtain ⟨hq, hlq, hmid⟩ := hpath
  obtain ⟨h2, hrest⟩ := RepPath_append_right _ _ _ hmid
  simp only [RepPath, RepTree, pathPtr_nil, pathPtr_cons, ptr_node, ptr_nil, addr_left,
    addr_right] at hrest hq
  obtain ⟨hql, hll, hn, hR, hc⟩ := hrest
  obtain ⟨hr, hR1, hR2⟩ := hR
  obtain ⟨hp, hS, hc⟩ := hc
  obtain ⟨hx, hX1, hX2⟩ := hML
  have ltq := deref_lt hq
  have ltql := deref_lt hql
  have ltn := deref_lt hn
  have ltr := deref_lt hr
  have ltp := deref_lt hp
  have ltm := deref_lt hm
  have ltx := deref_lt hx
  have e1 : q ≠ ql := by simp [hnd]
  have e2 : q ≠ n := by simp [hnd]
  have e3 : q ≠ r := by simp [hnd]
  have e4 : q ≠ p := by simp [hnd]
  have e5 : q ≠ m := by simp [hnd]
  have e6 : q ≠ x := by simp [hnd]
  have e7 : ql ≠ n := by simp [hnd]
  have e8 : ql ≠ r := by simp [hnd]
  have e9 : ql ≠ p := by simp [hnd]
  have e10 : ql ≠ m := by simp [hnd]
  have e11 : ql ≠ x := by simp [hnd]
  have e12 : n ≠ r := by simp [hnd]
  have e13 : n ≠ p := by simp [hnd]
  have e14 : n ≠ m := by simp [hnd]
  have e15 : n ≠ x := by simp [hnd]
  have e16 : r ≠ p := by simp [hnd]
  have e17 : r ≠ m := by simp [hnd]
  have e18 : r ≠ x := by simp [hnd]
  have e19 : p ≠ m := by simp [hnd]
  have e20 : p ≠ x := by simp [hnd]
  have e21 : m ≠ x := by simp [hnd]
  have hlqm : lq.ptr ≠ some m := ptr_ne_of_not_mem (by simp [hnd])
  have hlqm2 : some m ≠ lq.ptr := fun e => hlqm e.symm
  have hrn : t.root_ ≠ some n := by
    obtain ⟨a, ha, e⟩ := pathRoot_mem (Frame.left p kp vp pb S) c (some n)
    simp only [pathRoot_append_cons, pathRoot, addr_left, addr_right] at hroot e
    rw [hroot, e]; simp only [pathAddrs, addr_left, addr_right, Frame.sibling, List.mem_cons,
      List.mem_append] at ha
    intro e2; simp only [Option.some.injEq] at e2; subst e2
    rcases ha with ha | ha | ha <;>
      exact absurd ha (by simp [hnd])
  have hrm : t.root_ ≠ some m := by
    obtain ⟨a, ha, e⟩ := pathRoot_mem (Frame.left p kp vp pb S) c (some n)
    simp only [pathRoot_append_cons, pathRoot, addr_left, addr_right] at hroot e
    rw [hroot, e]; simp only [pathAddrs, addr_left, addr_right, Frame.sibling, List.mem_cons,
      List.mem_append] at ha
    intro e2; simp only [Option.some.injEq] at e2; subst e2
    rcases ha with ha | ha | ha <;>
      first | exact absurd ha (by simp [hnd]) | exact absurd ha.symm (by simp [hnd])
  simp only [pathRoot_append_cons, pathRoot, addr_left, addr_right] at hroot
  simp [AVLTree.nodeSwap, BinarySearchTree.nodeSwap, getParent, getLeft, getRight, getBalance,
    setParent, setLeft, setRight, setBalance, modifyNode, deref_store,
    hq, ltq, hql, ltql, hn, ltn, hr, ltr, hp, ltp, hm, ltm, hx, ltx, e1, e1.symm, e2, e2.symm, e3, e3.symm, e4, e4.symm, e5, e5.symm, e6, e6.symm, e7, e7.symm, e8, e8.symm, e9, e9.symm, e10, e10.symm, e11, e11.symm, e12, e12.symm, e13, e13.symm, e14, e14.symm, e15, e15.symm, e16, e16.symm, e17, e17.symm, e18, e18.symm, e19, e19.symm, e20, e20.symm, e21, e21.symm, hlqm, hlqm2, hrn, hrm]
  refine ⟨?_, ?_, ?_, hnd2⟩
  · simpa [pathRoot, pathRoot_append_cons] using hroot
  · simp only [RepPath, ptr_node]
    refine ⟨?_, ?_, ?_⟩
    · have hpp : pathPtr (mid ++ Frame.right ql ll kl vl bl ::
          Frame.left m km vm (int8 nb) (node r R1 kr vr rb R2) :: Frame.left p kp vp pb S :: c) =
          pathPtr (mid ++ Frame.right ql ll kl vl bl ::
          Frame.left n kn vn nb (node r R1 kr vr rb R2) :: Frame.left p kp vp pb S :: c) :=
        pathPtr_append_cons _ _ _ _
      simp [deref_store, hpp, hq, ltq, hql, ltql, hn, ltn, hr, ltr, hp, ltp, hm, ltm, hx, ltx, e1, e1.symm, e2, e2.symm, e3, e3.symm, e4, e4.symm, e5, e5.symm, e6, e6.symm, e7, e7.symm, e8, e8.symm, e9, e9.symm, e10, e10.symm, e11, e11.symm, e12, e12.symm, e13, e13.symm, e14, e14.symm, e15, e15.symm, e16, e16.symm, e17, e17.symm, e18, e18.symm, e19, e19.symm, e20, e20.symm, e21, e21.symm, hlqm, hlqm2, hrn, hrm]
    · simp [RepTree_store_iff, hnd, hlq]
    · refine RepPath_append mid
        (Frame.right ql ll kl vl bl :: Frame.left n kn vn nb (node r R1 kr vr rb R2) :: Frame.left p kp vp pb S :: c)
        (Frame.right ql ll kl vl bl ::
          Frame.left m km vm (int8 nb) (node r R1 kr vr rb R2) :: Frame.left p kp vp pb S :: c)
        rfl ?_ ?_ _ hmid
      · intro a ha
        have : a ≠ q := by rintro rfl; simp [hnd] at ha
        have : a ≠ ql := by rintro rfl; simp [hnd] at ha
        have : a ≠ n := by rintro rfl; simp [hnd] at ha
        have : a ≠ r := by rintro rfl; simp [hnd] at ha
        have : a ≠ p := by rintro rfl; simp [hnd] at ha
        have : a ≠ m := by rintro rfl; simp [hnd] at ha
        have : a ≠ x := by rintro rfl; simp [hnd] at ha
        simp [deref_store, *]
      · intro h3 hrest3
        simp only [RepPath, RepTree, pathPtr_nil, pathPtr_cons, ptr_node, ptr_nil, addr_left,
          addr_right] at hrest3 ⊢
        have hh : h3 = h2 := by
          have := hrest3.1.symm.trans hql
          simpa using this
        subst hh
        simp [RepPath, RepTree, deref_store, RepTree_store_iff,
      RepPath_store_iff, pathRoot, hq, ltq, hql, ltql, hn, ltn, hr, ltr, hp, ltp, hm, ltm, hx, ltx, e1, e1.symm, e2, e2.symm, e3, e3.symm, e4, e4.symm, e5, e5.symm, e6, e6.symm, e7, e7.symm, e8, e8.symm, e9, e9.symm, e10, e10.symm, e11, e11.symm, e12, e12.symm, e13, e13.symm, e14, e14.symm, e15, e15.symm, e16, e16.symm, e17, e17.symm, e18, e18.symm, e19, e19.symm, e20, e20.symm, e21, e21.symm, hlqm, hlqm2, hrn, hrm, hnd, hR1, hR2, hc, hlq, hll, hS, hX1, hX2]
  · simp [RepPath, RepTree, deref_store, RepTree_store_iff,
      RepPath_store_iff, pathRoot, hq, ltq, hql, ltql, hn, ltn, hr, ltr, hp, ltp, hm, ltm, hx, ltx, e1, e1.symm, e2, e2.symm, e3, e3.symm, e4, e4.symm, e5, e5.symm, e6, e6.symm, e7, e7.symm, e8, e8.symm, e9, e9.symm, e10, e10.symm, e11, e11.symm, e12, e12.symm, e13, e13.symm, e14, e14.symm, e15, e15.symm, e16, e16.symm, e17, e17.symm, e18, e18.symm, e19, e19.symm, e20, e20.symm, e21, e21.symm, hlqm, hlqm2, hrn, hrm, hnd, hR1, hR2, hc, hlq, hll, hS, hX1, hX2]

set_option maxHeartbeats 4000000 in
theorem nodeSwap_far_right_leaf {t : AVLTree K V} {n m r : Nat} {R1 R2 : Shape K V} {kn km kr : K} {vn vm vr : V}
    {nb mb rb : Int} {c : List (Frame K V)} {p : Nat} {kp : K} {vp : V} {pb : Int} {S : Shape K V}
    {q : Nat} {lq : Shape K V} {kq : K} {vq : V} {bq : Int}
    {mid : List (Frame K V)} {ql : Nat} {ll : Shape K V} {kl : K} {vl : V} {bl : Int}
    (h : ModelsAt t (Frame.right q lq kq vq bq :: (mid ++ Frame.right ql ll kl vl bl :: Frame.left n kn vn nb (node r R1 kr vr rb R2) :: Frame.right p S kp vp pb :: c))
      (node m (nil) km vm mb nil)) :
    ∃ t2, AVLTree.nodeSwap t (some n) (some m) = some t2 ∧
      ModelsAt t2 (Frame.right q lq kq vq bq :: (mid ++ Frame.right ql ll kl vl bl :: Frame.left m km vm (int8 nb) (node r R1 kr vr rb R2) :: Frame.right p S kp vp pb :: c))
        (node n (nil) kn vn (int8 mb) nil) ∧
      t2.mem.length = t.mem.length := by
  obtain ⟨hroot, hpath, ⟨hm, hML, -⟩, hnd0⟩ := h
  have hnd := hnd0
  have hnd2 : (pathAddrs (Frame.right q lq kq vq bq :: (mid ++ Frame.right ql ll kl vl bl :: Frame.left m km vm (int8 nb) (node r R1 kr vr rb R2) :: Frame.right p S kp vp pb :: c)) ++
      (node n (nil) kn vn (int8 mb) nil).addrs).Nodup := by
    refine (List.Perm.nodup_iff ?_).mp hnd0
    rw [List.perm_iff_count]; intro a
    simp [Shape.addrs, pathAddrs, pathAddrs_append, Frame.sibling, List.count_cons]; omega
  simp only [Shape.addrs, pathAddrs, pathAddrs_append, addr_left, addr_right, Frame.sibling,
    List.nodup_append, List.nodup_cons, List.mem_append, List.mem_cons,
    not_or, List.cons_append, List.append_assoc, List.disjoint_append_left,
    List.disjoint_append_right, List.disjoint_cons_left, List.disjoint_cons_right,
    List.nil_append, List.append_nil, List.not_mem_nil, not_false_eq_true, true_and,
    and_true, List.nodup_nil, List.disjoint_nil_left, List.disjoint_nil_right] at hnd
  simp only [RepPath, RepTree, pathPtr_nil, pathPtr_cons, ptr_node, ptr_nil, addr_left,
    addr_right] at hm hML
  obtain ⟨hq, hlq, hmid⟩ := hpath
  obtain ⟨h2, hrest⟩ := RepPath_append_right _ _ _ hmid
  simp only [RepPath, RepTree, pathPtr_nil, pathPtr_cons, ptr_node, ptr_nil, addr_left,
    addr_right] at hrest hq
  obtain ⟨hql, hll, hn, hR, hc⟩ := hrest
  obtain ⟨hr, hR1, hR2⟩ := hR
  obtain ⟨hp, hS, hc⟩ := hc
  have ltq := deref_lt hq
  have ltql := deref_lt hql
  have ltn := deref_lt hn
  have ltr := deref_lt hr
  have ltp := deref_lt hp
  have ltm := deref_lt hm
  have e1 : q ≠ ql := by simp [hnd]
  have e2 : q ≠ n := by simp [hnd]
  have e3 : q ≠ r := by simp [hnd]
  have e4 : q ≠ p := by simp [hnd]
  have e5 : q ≠ m := by simp [hnd]
  have e6 : ql ≠ n := by simp [hnd]
  have e7 : ql ≠ r := by simp [hnd]
  have e8 : ql ≠ p := by simp [hnd]
  have e9 : ql ≠ m := by simp [hnd]
  have e10 : n ≠ r := by simp [hnd]
  have e11 : n ≠ p := by simp [hnd]
  have e12 : n ≠ m := by simp [hnd]
  have e13 : r ≠ p := by simp [hnd]
  have e14 : r ≠ m := by simp [hnd]
  have e15 : p ≠ m := by simp [hnd]
  have hSn : S.ptr ≠ some n := ptr_ne_of_not_mem (by simp [hnd])
  have hSn2 : some n ≠ S.ptr := fun e => hSn e.symm
  have hlqm : lq.ptr ≠ some m := ptr_ne_of_not_mem (by simp [hnd])
  have hlqm2 : some m ≠ lq.ptr := fun e => hlqm e.symm
  have hrn : t.root_ ≠ some n := by
    obtain ⟨a, ha, e⟩ := pathRoot_mem (Frame.right p S kp vp pb) c (some n)
    simp only [pathRoot_append_cons, pathRoot, addr_left, addr_right] at hroot e
    rw [hroot, e]; simp only [pathAddrs, addr_left, addr_right, Frame.sibling, List.mem_cons,
      List.mem_append] at ha
    intro e2; simp only [Option.some.injEq] at e2; subst e2
    rcases ha with ha | ha | ha <;>
      exact absurd ha (by simp [hnd])
  have hrm : t.root_ ≠ some m := by
    obtain ⟨a, ha, e⟩ := pathRoot_mem (Frame.right p S kp vp pb) c (some n)
    simp only [pathRoot_append_cons, pathRoot, addr_left, addr_right] at hroot e
    rw [hroot, e]; simp only [pathAddrs, addr_left, addr_right, Frame.sibling, List.mem_cons,
      List.mem_append] at ha
    intro e2; simp only [Option.some.injEq] at e2; subst e2
    rcases ha with ha | ha | ha <;>
      first | exact absurd ha (by simp [hnd]) | exact absurd ha.symm (by simp [hnd])
  simp only [pathRoot_append_cons, pathRoot, addr_left, addr_right] at hroot
  simp [AVLTree.nodeSwap, BinarySearchTree.nodeSwap, getParent, getLeft, getRight, getBalance,
    setParent, setLeft, setRight, setBalance, modifyNode, deref_store,
    hq, ltq, hql, ltql, hn, ltn, hr, ltr, hp, ltp, hm, ltm, e1, e1.symm, e2, e2.symm, e3, e3.symm, e4, e4.symm, e5, e5.symm, e6, e6.symm, e7, e7.symm, e8, e8.symm, e9, e9.symm, e10, e10.symm, e11, e11.symm, e12, e12.symm, e13, e13.symm, e14, e14.symm, e15, e15.symm, hSn, hSn2, hlqm, hlqm2, hrn, hrm]
  refine ⟨?_, ?_, ?_, hnd2⟩
  · simpa [pathRoot, pathRoot_append_cons] using hroot
  · simp only [RepPath, ptr_node]
    refine ⟨?_, ?_, ?_⟩
    · have hpp : pathPtr (mid ++ Frame.right ql ll kl vl bl ::
          Frame.left m km vm (int8 nb) (node r R1 kr vr rb R2) :: Frame.right p S kp vp pb :: c) =
          pathPtr (mid ++ Frame.right ql ll kl vl bl ::
          Frame.left n kn vn nb (node r R1 kr vr rb R2) :: Frame.right p S kp vp pb :: c) :=
        pathPtr_append_cons _ _ _ _
      simp [deref_store, hpp, hq, ltq, hql, ltql, hn, ltn, hr, ltr, hp, ltp, hm, ltm, e1, e1.symm, e2, e2.symm, e3, e3.symm, e4, e4.symm, e5, e5.symm, e6, e6.symm, e7, e7.symm, e8, e8.symm, e9, e9.symm, e10, e10.symm, e11, e11.symm, e12, e12.symm, e13, e13.symm, e14, e14.symm, e15, e15.symm, hSn, hSn2, hlqm, hlqm2, hrn, hrm]
    · simp [RepTree_store_iff, hnd, hlq]
    · refine RepPath_append mid
        (Frame.right ql ll kl vl bl :: Frame.left n kn vn nb (node r R1 kr vr rb R2) :: Frame.right p S kp vp pb :: c)
        (Frame.right ql ll kl vl bl ::
          Frame.left m km vm (int8 nb) (node r R1 kr vr rb R2) :: Frame.right p S kp vp pb :: c)
        rfl ?_ ?_ _ hmid
      · intro a ha
        have : a ≠ q := by rintro rfl; simp [hnd] at ha
        have : a ≠ ql := by rintro rfl; simp [hnd] at ha
        have : a ≠ n := by rintro rfl; simp [hnd] at ha
        have : a ≠ r := by rintro rfl; simp [hnd] at ha
        have : a ≠ p := by rintro rfl; simp [hnd] at ha
        have : a ≠ m := by rintro rfl; simp [hnd] at ha
        simp [deref_store, *]
      · intro h3 hrest3
        simp only [RepPath, RepTree, pathPtr_nil, pathPtr_cons, ptr_node, ptr_nil, addr_left,
          addr_right] at hrest3 ⊢
        have hh : h3 = h2 := by
          have := hrest3.1.symm.trans hql
          simpa using this
        subst hh
        simp [RepPath, RepTree, deref_store, RepTree_store_iff,
      RepPath_store_iff, pathRoot, hq, ltq, hql, ltql, hn, ltn, hr, ltr, hp, ltp, hm, ltm, e1, e1.symm, e2, e2.symm, e3, e3.symm, e4, e4.symm, e5, e5.symm, e6, e6.symm, e7, e7.symm, e8, e8.symm, e9, e9.symm, e10, e10.symm, e11, e11.symm, e12, e12.symm, e13, e13.symm, e14, e14.symm, e15, e15.symm, hSn, hSn2, hlqm, hlqm2, hrn, hrm, hnd, hR1, hR2, hc, hlq, hll, hS]
  · simp [RepPath, RepTree, deref_store, RepTree_store_iff,
      RepPath_store_iff, pathRoot, hq, ltq, hql, ltql, hn, ltn, hr, ltr, hp, ltp, hm, ltm, e1, e1.symm, e2, e2.symm, e3, e3.symm, e4, e4.symm, e5, e5.symm, e6, e6.symm, e7, e7.symm, e8, e8.symm, e9, e9.symm, e10, e10.symm, e11, e11.symm, e12, e12.symm, e13, e13.symm, e14, e14.symm, e15, e15.symm, hSn, hSn2, hlqm, hlqm2, hrn, hrm, hnd, hR1, hR2, hc, hlq, hll, hS]

set_option maxHeartbeats 4000000 in
theorem nodeSwap_far_right_node {t : AVLTree K V} {n m r : Nat} {R1 R2 : Shape K V} {kn km kr : K} {vn vm vr : V}
    {nb mb rb : Int} {c : List (Frame K V)} {p : Nat} {kp : K} {vp : V} {pb : Int} {S : Shape K V}
    {x : Nat} {X1 X2 : Shape K V} {kx : K} {vx : V} {xb : Int}
    {q : Nat} {lq : Shape K V} {kq : K} {vq : V} {bq : Int}
    {mid : List (Frame K V)} {ql : Nat} {ll : Shape K V} {kl : K} {vl : V} {bl : Int}
    (h : ModelsAt t (Frame.right q lq kq vq bq :: (mid ++ Frame.right ql ll kl vl bl :: Frame.left n kn vn nb (node r R1 kr vr rb R2) :: Frame.right p S kp vp pb :: c))
      (node m (node x X1 kx vx xb X2) km vm mb nil)) :
    ∃ t2, AVLTree.nodeSwap t (some n) (some m) = some t2 ∧
      ModelsAt t2 (Frame.right q lq kq vq bq :: (mid ++ Frame.right ql ll kl vl bl :: Frame.left m km vm (int8 nb) (node r R1 kr vr rb R2) :: Frame.right p S kp vp pb :: c))
        (node n (node x X1 kx vx xb X2) kn vn (int8 mb) nil) ∧
      t2.mem.length = t.mem.length := by
  obtain ⟨hroot, hpath, ⟨hm, hML, -⟩, hnd0⟩ := h
  have hnd := hnd0
  have hnd2 : (pathAddrs (Frame.right q lq kq vq bq :: (mid ++ Frame.right ql ll kl vl bl :: Frame.left m km vm (int8 nb) (node r R1 kr vr rb R2) :: Frame.right p S kp vp pb :: c)) ++
      (node n (node x X1 kx vx xb X2) kn vn (int8 mb) nil).addrs).Nodup := by
    refine (List.Perm.nodup_iff ?_).mp hnd0
    rw [List.perm_iff_count]; intro a
    simp [Shape.addrs, pathAddrs, pathAddrs_append, Frame.sibling, List.count_cons]; omega
  simp only [Shape.addrs, pathAddrs, pathAddrs_append, addr_left, addr_right, Frame.sibling,
    List.nodup_append, List.nodup_cons, List.mem_append, List.mem_cons,
    not_or, List.cons_append, List.append_assoc, List.disjoint_append_left,
    List.disjoint_append_right, List.disjoint_cons_left, List.disjoint_cons_right,
    List.nil_append, List.append_nil, List.not_mem_nil, not_false_eq_true, true_and,
    and_true, List.nodup_nil, List.disjoint_nil_left, List.disjoint_nil_right] at hnd
  simp only [RepPath, RepTree, pathPtr_nil, pathPtr_cons, ptr_node, ptr_nil, addr_left,
    addr_right] at hm hML
  obtain ⟨hq, hlq, hmid⟩ := hpath
  obtain ⟨h2, hrest⟩ := RepPath_append_right _ _ _ hmid
  simp only [RepPath, RepTree, pathPtr_nil, pathPtr_cons, ptr_node, ptr_nil, addr_left,
    addr_right] at hrest hq
  obtain ⟨hql, hll, hn, hR, hc⟩ := hrest
  obtain ⟨hr, hR1, hR2⟩ := hR
  obtain ⟨hp, hS, hc⟩ := hc
  obtain ⟨hx, hX1, hX2⟩ := hML
  have ltq := deref_lt hq
  have ltql := deref_lt hql
  have ltn := deref_lt hn
  have ltr := deref_lt hr
  have ltp := deref_lt hp
  have ltm := deref_lt hm
  have ltx := deref_lt hx
  have e1 : q ≠ ql := by simp [hnd]
  have e2 : q ≠ n := by simp [hnd]
  have e3 : q ≠ r := by simp [hnd]
  have e4 : q ≠ p := by simp [hnd]
  have e5 : q ≠ m := by simp [hnd]
  have e6 : q ≠ x := by simp [hnd]
  have e7 : ql ≠ n := by simp [hnd]
  have e8 : ql ≠ r := by simp [hnd]
  have e9 : ql ≠ p := by simp [hnd]
  have e10 : ql ≠ m := by simp [hnd]
  have e11 : ql ≠ x := by simp [hnd]
  have e12 : n ≠ r := by simp [hnd]
  have e13 : n ≠ p := by simp [hnd]
  have e14 : n ≠ m := by simp [hnd]
  have e15 : n ≠ x := by simp [hnd]
  have e16 : r ≠ p := by simp [hnd]
  have e17 : r ≠ m := by simp [hnd]
  have e18 : r ≠ x := by simp [hnd]
  have e19 : p ≠ m := by simp [hnd]
  have e20 : p ≠ x := by simp [hnd]
  have e21 : m ≠ x := by simp [hnd]
  have hSn : S.ptr ≠ some n := ptr_ne_of_not_mem (by simp [hnd])
  have hSn2 : some n ≠ S.ptr := fun e => hSn e.symm
  have hlqm : lq.ptr ≠ some m := ptr_ne_of_not_mem (by simp [hnd])
  have hlqm2 : some m ≠ lq.ptr := fun e => hlqm e.symm
  have hrn : t.root_ ≠ some n := by
    obtain ⟨a, ha, e⟩ := pathRoot_mem (Frame.right p S kp vp pb) c (some n)
    simp only [pathRoot_append_cons, pathRoot, addr_left, addr_right] at hroot e
    rw [hroot, e]; simp only [pathAddrs, addr_left, addr_right, Frame.sibling, List.mem_cons,
      List.mem_append] at ha
    intro e2; simp only [Option.some.injEq] at e2; subst e2
    rcases ha with ha | ha | ha <;>
      exact absurd ha (by simp [hnd])
  have hrm : t.root_ ≠ some m := by
    obtain ⟨a, ha, e⟩ := pathRoot_mem (Frame.right p S kp vp pb) c (some n)
    simp only [pathRoot_append_cons, pathRoot, addr_left, addr_right] at hroot e
    rw [hroot, e]; simp only [pathAddrs, addr_left, addr_right, Frame.sibling, List.mem_cons,
      List.mem_append] at ha
    intro e2; simp only [Option.some.injEq] at e2; subst e2
    rcases ha with ha | ha | ha <;>
      first | exact absurd ha (by simp [hnd]) | exact absurd ha.symm (by simp [hnd])
  simp only [pathRoot_append_cons, pathRoot, addr_left, addr_right] at hroot
  simp [AVLTree.nodeSwap, BinarySearchTree.nodeSwap, getParent, getLeft, getRight, getBalance,
    setParent, setLeft, setRight, setBalance, modifyNode, deref_store,
    hq, ltq, hql, ltql, hn, ltn, hr, ltr, hp, ltp, hm, ltm, hx, ltx, e1, e1.symm, e2, e2.symm, e3, e3.symm, e4, e4.symm, e5, e5.symm, e6, e6.symm, e7, e7.symm, e8, e8.symm, e9, e9.symm, e10, e10.symm, e11, e11.symm, e12, e12.symm, e13, e13.symm, e14, e14.symm, e15, e15.symm, e16, e16.symm, e17, e17.symm, e18, e18.symm, e19, e19.symm, e20, e20.symm, e21, e21.symm, hSn, hSn2, hlqm, hlqm2, hrn, hrm]
  refine ⟨?_, ?_, ?_, hnd2⟩
  · simpa [pathRoot, pathRoot_append_cons] using hroot
  · simp only [RepPath, ptr_node]
    refine ⟨?_, ?_, ?_⟩
    · have hpp : pathPtr (mid ++ Frame.right ql ll kl vl bl ::
          Frame.left m km vm (int8 nb) (node r R1 kr vr rb R2) :: Frame.right p S kp vp pb :: c) =
          pathPtr (mid ++ Frame.right ql ll kl vl bl ::
          Frame.left n kn vn nb (node r R1 kr vr rb R2) :: Frame.right p S kp vp pb :: c) :=
        pathPtr_append_cons _ _ _ _
      simp [deref_store, hpp, hq, ltq, hql, ltql, hn, ltn, hr, ltr, hp, ltp, hm, ltm, hx, ltx, e1, e1.symm, e2, e2.symm, e3, e3.symm, e4, e4.symm, e5, e5.symm, e6, e6.symm, e7, e7.symm, e8, e8.symm, e9, e9.symm, e10, e10.symm, e11, e11.symm, e12, e12.symm, e13, e13.symm, e14, e14.symm, e15, e15.symm, e16, e16.symm, e17, e17.symm, e18, e18.symm, e19, e19.symm, e20, e20.symm, e21, e21.symm, hSn, hSn2, hlqm, hlqm2, hrn, hrm]
    · simp [RepTree_store_iff, hnd, hlq]
    · refine RepPath_append mid
        (Frame.right ql ll kl vl bl :: Frame.left n kn vn nb (node r R1 kr vr rb R2) :: Frame.right p S kp vp pb :: c)
        (Frame.right ql ll kl vl bl ::
          Frame.left m km vm (int8 nb) (node r R1 kr vr rb R2) :: Frame.right p S kp vp pb :: c)
        rfl ?_ ?_ _ hmid
      · intro a ha
        have : a ≠ q := by rintro rfl; simp [hnd] at ha
        have : a ≠ ql := by rintro rfl; simp [hnd] at ha
        have : a ≠ n := by rintro rfl; simp [hnd] at ha
        have : a ≠ r := by rintro rfl; simp [hnd] at ha
        have : a ≠ p := by rintro rfl; simp [hnd] at ha
        have : a ≠ m := by rintro rfl; simp [hnd] at ha
        have : a ≠ x := by rintro rfl; simp [hnd] at ha
        simp [deref_store, *]
      · intro h3 hrest3
        simp only [RepPath, RepTree, pathPtr_nil, pathPtr_cons, ptr_node, ptr_nil, addr_left,
          addr_right] at hrest3 ⊢
        have hh : h3 = h2 := by
          have := hrest3.1.symm.trans hql
          simpa using this
        subst hh
        simp [RepPath, RepTree, deref_store, RepTree_store_iff,
      RepPath_store_iff, pathRoot, hq, ltq, hql, ltql, hn, ltn, hr, ltr, hp, ltp, hm, ltm, hx, ltx, e1, e1.symm, e2, e2.symm, e3, e3.symm, e4, e4.symm, e5, e5.symm, e6, e6.symm, e7, e7.symm, e8, e8.symm, e9, e9.symm, e10, e10.symm, e11, e11.symm, e12, e12.symm, e13, e13.symm, e14, e14.symm, e15, e15.symm, e16, e16.symm, e17, e17.symm, e18, e18.symm, e19, e19.symm, e20, e20.symm, e21, e21.symm, hSn, hSn2, hlqm, hlqm2, hrn, hrm, hnd, hR1, hR2, hc, hlq, hll, hS, hX1, hX2]
  · simp [RepPath, RepTree, deref_store, RepTree_store_iff,
      RepPath_store_iff, pathRoot, hq, ltq, hql, ltql, hn, ltn, hr, ltr, hp, ltp, hm, ltm, hx, ltx, e1, e1.symm, e2, e2.symm, e3, e3.symm, e4, e4.symm, e5, e5.symm, e6, e6.symm, e7, e7.symm, e8, e8.symm, e9, e9.symm, e10, e10.symm, e11, e11.symm, e12, e12.symm, e13, e13.symm, e14, e14.symm, e15, e15.symm, e16, e16.symm, e17, e17.symm, e18, e18.symm, e19, e19.symm, e20, e20.symm, e21, e21.symm, hSn, hSn2, hlqm, hlqm2, hrn, hrm, hnd, hR1, hR2, hc, hlq, hll, hS, hX1, hX2]

end NodeSwapCases

section NodeSwapRefinement
open Shape
variable {K V : Type}

theorem plug_append (c1 c2 : List (Frame K V)) (s : Shape K V) :
    plug (c1 ++ c2) s = plug c2 (plug c1 s) := by
  induction c1 generalizing s with
  | nil => rfl
  | cons f c1 ih => simp [plug, ih]

theorem modelsAt_append {t : BinarySearchTree K V} (c1 c2 : List (Frame K V)) (s : Shape K V) :
    ModelsAt t (c1 ++ c2) s ↔ ModelsAt t c2 (plug c1 s) := by
  rw [← models_plug, ← models_plug, plug_append]

/-- The swap of `remove`: the node `n` with two children changes places with
its in-order predecessor `m`, the last node on the path down the right links
of the left subtree of `n`; the two balance factors stay with the places. -/
theorem nodeSwap_spec {t : AVLTree K V} {c cm : List (Frame K V)} {n m : Nat}
    {ML R : Shape K V} {kn km : K} {vn vm : V} {nb mb : Int}
    (hcm : ∀ f ∈ cm, ∃ a l k v b, f = Frame.right a l k v b) (hR : R ≠ nil)
    (h : ModelsAt t (cm ++ Frame.left n kn vn nb R :: c) (node m ML km vm mb nil)) :
    ∃ t2, AVLTree.nodeSwap t (some n) (some m) = some t2 ∧
      ModelsAt t2 (cm ++ Frame.left m km vm (int8 nb) R :: c) (node n ML kn vn (int8 mb) nil) ∧
      t2.mem.length = t.mem.length := by
  cases R with
  | nil => exact absurd rfl hR
  | node r R1 kr vr rb R2 =>
    cases cm with
    | nil =>
      simp only [List.nil_append] at h ⊢
      cases c with
      | nil => cases ML with
        | nil => exact nodeSwap_adjacent_nil_leaf h
        | node x X1 kx vx xb X2 => exact nodeSwap_adjacent_nil_node h
      | cons f c => cases f with
        | left p kp vp pb S => cases ML with
          | nil => exact nodeSwap_adjacent_left_leaf h
          | node x X1 kx vx xb X2 => exact nodeSwap_adjacent_left_node h
        | right p S kp vp pb => cases ML with
          | nil => exact nodeSwap_adjacent_right_leaf h
          | node x X1 kx vx xb X2 => exact nodeSwap_adjacent_right_node h
    | cons fq cm =>
      obtain ⟨q, lq, kq, vq, bq, rfl⟩ := hcm fq (by simp)
      rcases List.eq_nil_or_concat cm with rfl | ⟨mid, fl, rfl⟩
      · simp only [List.nil_append, List.cons_append] at h ⊢
        cases c with
        | nil => cases ML with
          | nil => exact nodeSwap_near_nil_leaf h
          | node x X1 kx vx xb X2 => exact nodeSwap_near_nil_node h
        | cons f c => cases f with
          | left p kp vp pb S => cases ML with
            | nil => exact nodeSwap_near_left_leaf h
            | node x X1 kx vx xb X2 => exact nodeSwap_near_left_node h
          | right p S kp vp pb => cases ML with
            | nil => exact nodeSwap_near_right_leaf h
            | node x X1 kx vx xb X2 => exact nodeSwap_near_right_node h
      · obtain ⟨ql, ll, kl, vl, bl, rfl⟩ := hcm fl (by simp)
        simp only [List.concat_eq_append, List.cons_append, List.append_assoc,
          List.singleton_append] at h ⊢
        cases c with
        | nil => cases ML with
          | nil => exact nodeSwap_far_nil_leaf h
          | node x X1 kx vx xb X2 => exact nodeSwap_far_nil_node h
        | cons f c => cases f with
          | left p kp vp pb S => cases ML with
            | nil => exact nodeSwap_far_left_leaf h
            | node x X1 kx vx xb X2 => exact nodeSwap_far_left_node h
          | right p S kp vp pb => cases ML with
            | nil => exact nodeSwap_far_right_leaf h
            | node x X1 kx vx xb X2 => exact nodeSwap_far_right_node h

end NodeSwapRefinement

section RemoveRefinement
open Shape
variable {K V : Type}

/-! ## Refinement of `remove` -/

/-- Refinement of `AVLTree::remove`: where `Shape.remove` gives a tree, the
heap call returns and the heap then holds that tree. -/
theorem remove_spec [LinearOrder K] {t : AVLTree K V} {T T2 : Shape K V} (key : K)
    (h : Models t T) (hT : Shape.remove T key = some T2) :
    ∃ t2, AVLTree.remove t key = some t2 ∧ Models t2 T2 := by
  have hfind := internalFind_spec key h
  rw [← descend_ptr key T []] at hfind
  have hplug := descend_plug key T []
  unfold Shape.remove at hT
  unfold AVLTree.remove
  rw [hfind]
  rcases hd : descend key [] T with ⟨c, s⟩
  rw [hd] at hplug hT
  simp only at hplug
  have hm : ModelsAt t c s := by
    rw [← models_plug, hplug]; exact h
  cases s with
  | nil =>
    simp only [Option.some.injEq] at hT
    subst hT
    exact ⟨t, by simp, h⟩
  | node n L kn vn nb R =>
    have r1 := getLeft_focus hm
    have r2 := getRight_focus hm
    simp only [ptr_node, andThen_some, reduceCtorEq, if_false, r1, r2]
    cases L with
    | nil =>
      simp only at hT
      obtain ⟨t2, m2, l2, e2⟩ := splice_spec hm (Or.inl rfl)
      simp only [ptr_nil, if_true] at m2
      have hfu : c.length < t.mem.length + 1 := by
        have := path_length_le m2; omega
      obtain ⟨t3, e3, m3, l3⟩ := remove_fix_spec c _ t2 _ T2 m2 hfu hT
      refine ⟨t3, ?_, m3⟩
      simp only [ptr_nil, ne_eq, not_true_eq_false, if_false, andThen_some, Bool.false_eq_true]
      rw [e2]; exact e3
    | node al ll kl vl bl rl =>
      cases R with
      | nil =>
        simp only at hT
        obtain ⟨t2, m2, l2, e2⟩ := splice_spec hm (Or.inr rfl)
        simp only [ptr_node, reduceCtorEq, if_false] at m2
        have hfu : c.length < t.mem.length + 1 := by
          have := path_length_le m2; omega
        obtain ⟨t3, e3, m3, l3⟩ := remove_fix_spec c _ t2 _ T2 m2 hfu hT
        refine ⟨t3, ?_, m3⟩
        simp only [ptr_node, ptr_nil, ne_eq, not_true_eq_false, reduceCtorEq, not_false_eq_true,
          if_true, if_false, andThen_some, decide_False, Bool.false_eq_true]
        rw [e2]; exact e3
      | node ar lr kr vr br rr =>
        simp only at hT
        obtain ⟨cm, m, ML, km, vm, mb, hdr, hall⟩ :=
          descendRight_shape (node al ll kl vl bl rl) [] (by simp)
        have hdp := descendRight_plug (node al ll kl vl bl rl) []
        rw [hdr] at hdp hT
        simp only [List.append_nil, plug] at hdp
        simp only [List.append_nil] at hT
        have hpred : BinarySearchTree.predecessor t (some n) = some (some m) := by
          have hrep : RepTree t (some n) (node al ll kl vl bl rl) := hm.2.2.1.2.1
          have hh : (node al ll kl vl bl rl).height ≤ t.mem.length + 1 := by
            have h1 := path_length_le hm
            have h2 := height_le_size (node al ll kl vl bl rl)
            simp only [Shape.size] at h1 h2 ⊢
            omega
          have := predecessor_descend_spec (node al ll kl vl bl rl) (some n) _ [] hrep
            (by simp) hh
          rw [hdr] at this
          simpa [BinarySearchTree.predecessor, r1] using this
        have hm2 : ModelsAt t (cm ++ Frame.left n kn vn nb (node ar lr kr vr br rr) :: c)
            (node m ML km vm mb nil) := by
          rw [modelsAt_append, hdp]
          exact modelsAt_left.mp hm
        obtain ⟨t1, e1, m1, l1⟩ := nodeSwap_spec hall (by simp) hm2
        obtain ⟨t2, m2, l2, e2⟩ := splice_spec m1 (Or.inr rfl)
        have hfu : (cm ++ Frame.left m km vm (int8 nb) (node ar lr kr vr br rr) :: c).length
            < t1.mem.length + 1 := by
          have := path_length_le m2; omega
        have hT2 : Shape.remove_fix
            (cm ++ Frame.left m km vm (int8 nb) (node ar lr kr vr br rr) :: c)
            (if ML.ptr = none then nil else ML) = some T2 := hT
        obtain ⟨t3, e3, m3, l3⟩ := remove_fix_spec _ _ t2 _ T2 m2 hfu hT2
        refine ⟨t3, ?_, m3⟩
        simp only [ptr_node, ne_eq, reduceCtorEq, not_false_eq_true, if_true, andThen_some,
          decide_True, hpred, e1]
        rw [e2]; exact e3

end RemoveRefinement

section RemoveStep
open Shape
variable {K V : Type}

/-! ## `remove_fix` keeps the entries and restores the balance factors -/

theorem toList_remove_step (diff : Int) (N s2 : Shape K V) (cont : Bool)
    (h : remove_step diff N = some (s2, cont)) : toList s2 = toList N := by
  cases N with
  | nil => simp [remove_step] at h
  | node n L kn vn nb R =>
    simp only [remove_step] at h
    by_cases h1 : nb + diff = -2
    · rw [if_pos h1] at h
      cases L with
      | nil => simp at h
      | node c A kc vc cb B =>
        simp only at h
        by_cases z1 : cb = -1
        · rw [if_pos z1] at h
          simp only [Option.some.injEq, Prod.mk.injEq] at h; rw [← h.1]; simp [toList]
        rw [if_neg z1] at h
        by_cases z2 : cb = 0
        · rw [if_pos z2] at h
          simp only [Option.some.injEq, Prod.mk.injEq] at h; rw [← h.1]; simp [toList]
        rw [if_neg z2] at h
        by_cases z3 : cb = 1
        · rw [if_pos z3] at h
          cases B with
          | nil => simp at h
          | node g B1 kg vg gb B2 =>
            simp only at h
            split_ifs at h <;>
              (simp only [Option.some.injEq, Prod.mk.injEq] at h; rw [← h.1]; simp [toList])
        · rw [if_neg z3] at h
          simp only [Option.some.injEq, Prod.mk.injEq] at h; rw [← h.1]
    rw [if_neg h1] at h
    by_cases h2 : nb + diff = 2
    · rw [if_pos h2] at h
      cases R with
      | nil => simp at h
      | node c A kc vc cb B =>
        simp only at h
        by_cases z1 : cb = 1
        · rw [if_pos z1] at h
          simp only [Option.some.injEq, Prod.mk.injEq] at h; rw [← h.1]; simp [toList]
        rw [if_neg z1] at h
        by_cases z2 : cb = 0
        · rw [if_pos z2] at h
          simp only [Option.some.injEq, Prod.mk.injEq] at h; rw [← h.1]; simp [toList]
        rw [if_neg z2] at h
        by_cases z3 : cb = -1
        · rw [if_pos z3] at h
          cases A with
          | nil => simp at h
          | node g A1 kg vg gb A2 =>
            simp only at h
            split_ifs at h <;>
              (simp only [Option.some.injEq, Prod.mk.injEq] at h; rw [← h.1]; simp [toList])
        · rw [if_neg z3] at h
          simp only [Option.some.injEq, Prod.mk.injEq] at h; rw [← h.1]
    rw [if_neg h2] at h
    split_ifs at h <;>
      (simp only [Option.some.injEq, Prod.mk.injEq] at h; rw [← h.1]) <;> rfl

theorem toList_remove_fix (c : List (Frame K V)) :
    ∀ (s T2 : Shape K V), Shape.remove_fix c s = some T2 → toList T2 = toList (plug c s) := by
  induction c with
  | nil => intro s T2 h; simp only [Shape.remove_fix, Option.some.injEq] at h; rw [← h]; rfl
  | cons f c ih =>
    intro s T2 h
    simp only [Shape.remove_fix] at h
    cases hstep : remove_step f.diff (f.fill s) with
    | none => simp [hstep] at h
    | some res =>
      obtain ⟨s2, cont⟩ := res
      have hl := toList_remove_step _ _ _ _ hstep
      cases cont with
      | true =>
        simp only [hstep] at h
        rw [ih s2 T2 h, toList_plug, hl, plug, toList_plug]
      | false =>
        simp only [hstep, Option.some.injEq] at h
        rw [← h, toList_plug, hl, plug, toList_plug]

/-- One round of `remove_fix` at a node one of whose subtrees has become one
lower: the node's stored balance `nb` was right before, so the height
difference is now `nb + diff`.  The round succeeds and gives a subtree with
correct balance factors, one lower than the node was before when the fix-up
goes on and as high as before when it stops. -/
theorem balanced_remove_step (diff : Int) (n : Nat) (L R : Shape K V) (kn : K) (vn : V)
    (nb : Int) (H : Nat) (hd : diff = 1 ∨ diff = -1)
    (hL : balanced L) (hR : balanced R) (hnb1 : -1 ≤ nb) (hnb2 : nb ≤ 1)
    (hact : (height R : Int) - (height L : Int) = nb + diff)
    (hH : (diff = 1 → H = max (height L + 1) (height R) + 1) ∧
      (diff = -1 → H = max (height L) (height R + 1) + 1)) :
    ∃ s2 cont, remove_step diff (node n L kn vn nb R) = some (s2, cont) ∧ balanced s2 ∧
      (height s2 : Int) = if cont = true then (H : Int) - 1 else (H : Int) := by
  simp only [remove_step]
  by_cases hs2 : nb + diff = -2
  · rw [if_pos hs2]
    cases L with
    | nil => simp only [Shape.height] at hact; omega
    | node c A kc vc cb B =>
      obtain ⟨hc1, hc2, hc3, hA, hB⟩ := hL
      simp only [Shape.height] at hact hc1
      simp only []
      by_cases hz : cb = -1
      · rw [if_pos hz]
        refine ⟨_, _, rfl, ⟨?_, by omega, by omega, hA, ⟨?_, by omega, by omega, hB, hR⟩⟩, ?_⟩ <;>
          (rcases hd with rfl | rfl <;>
            first
            | (have hh := hH.1 rfl
               simp only [Shape.height, if_true, Bool.false_eq_true, if_false] at hh ⊢
               omega)
            | (have hh := hH.2 rfl
               simp only [Shape.height, if_true, Bool.false_eq_true, if_false] at hh ⊢
               omega))
      rw [if_neg hz]
      by_cases hz0 : cb = 0
      · rw [if_pos hz0]
        refine ⟨_, _, rfl, ⟨?_, by omega, by omega, hA, ⟨?_, by omega, by omega, hB, hR⟩⟩, ?_⟩ <;>
          (rcases hd with rfl | rfl <;>
            first
            | (have hh := hH.1 rfl
               simp only [Shape.height, if_true, Bool.false_eq_true, if_false] at hh ⊢
               omega)
            | (have hh := hH.2 rfl
               simp only [Shape.height, if_true, Bool.false_eq_true, if_false] at hh ⊢
               omega))
      rw [if_neg hz0]
      have hz1 : cb = 1 := by omega
      rw [if_pos hz1]
      cases B with
      | nil => simp only [Shape.height] at hc1; omega
      | node g B1 kg vg gb B2 =>
        obtain ⟨hg1, hg2, hg3, hB1, hB2⟩ := hB
        simp only [Shape.height] at hact hc1 hg1
        simp only []
        by_cases q1 : gb = 1
        · rw [if_pos q1]
          refine ⟨_, _, rfl, ⟨?_, by omega, by omega, ⟨?_, by omega, by omega, hA, hB1⟩, ⟨?_, by omega, by omega, hB2, hR⟩⟩, ?_⟩ <;>
          (rcases hd with rfl | rfl <;>
            first
            | (have hh := hH.1 rfl
               simp only [Shape.height, if_true, Bool.false_eq_true, if_false] at hh ⊢
               omega)
            | (have hh := hH.2 rfl
               simp only [Shape.height, if_true, Bool.false_eq_true, if_false] at hh ⊢
               omega))
        rw [if_neg q1]
        by_cases q2 : gb = 0
        · rw [if_pos q2]
          refine ⟨_, _, rfl, ⟨?_, by omega, by omega, ⟨?_, by omega, by omega, hA, hB1⟩, ⟨?_, by omega, by omega, hB2, hR⟩⟩, ?_⟩ <;>
          (rcases hd with rfl | rfl <;>
            first
            | (have hh := hH.1 rfl
               simp only [Shape.height, if_true, Bool.false_eq_true, if_false] at hh ⊢
               omega)
            | (have hh := hH.2 rfl
               simp only [Shape.height, if_true, Bool.false_eq_true, if_false] at hh ⊢
               omega))
        rw [if_neg q2]
        have q3 : gb = -1 := by omega
        rw [if_pos q3]
        refine ⟨_, _, rfl, ⟨?_, by omega, by omega, ⟨?_, by omega, by omega, hA, hB1⟩, ⟨?_, by omega, by omega, hB2, hR⟩⟩, ?_⟩ <;>
          (rcases hd with rfl | rfl <;>
            first
            | (have hh := hH.1 rfl
               simp only [Shape.height, if_true, Bool.false_eq_true, if_false] at hh ⊢
               omega)
            | (have hh := hH.2 rfl
               simp only [Shape.height, if_true, Bool.false_eq_true, if_false] at hh ⊢
               omega))
  rw [if_neg hs2]
  by_cases hs2 : nb + diff = 2
  · rw [if_pos hs2]
    cases R with
    | nil => simp only [Shape.height] at hact; omega
    | node c A kc vc cb B =>
      obtain ⟨hc1, hc2, hc3, hA, hB⟩ := hR
      simp only [Shape.height] at hact hc1
      simp only []
      by_cases hz : cb = 1
      · rw [if_pos hz]
        refine ⟨_, _, rfl, ⟨?_, by omega, by omega, ⟨?_, by omega, by omega, hL, hA⟩, hB⟩, ?_⟩ <;>
          (rcases hd with rfl | rfl <;>
            first
            | (have hh := hH.1 rfl
               simp only [Shape.height, if_true, Bool.false_eq_true, if_false] at hh ⊢
               omega)
            | (have hh := hH.2 rfl
               simp only [Shape.height, if_true, Bool.false_eq_true, if_false] at hh ⊢
               omega))
      rw [if_neg hz]
      by_cases hz0 : cb = 0
      · rw [if_pos hz0]
        refine ⟨_, _, rfl, ⟨?_, by omega, by omega, ⟨?_, by omega, by omega, hL, hA⟩, hB⟩, ?_⟩ <;>
          (rcases hd with rfl | rfl <;>
            first
            | (have hh := hH.1 rfl
               simp only [Shape.height, if_true, Bool.false_eq_true, if_false] at hh ⊢
               omega)
            | (have hh := hH.2 rfl
               simp only [Shape.height, if_true, Bool.false_eq_true, if_false] at hh ⊢
               omega))
      rw [if_neg hz0]
      have hz1 : cb = -1 := by omega
      rw [if_pos hz1]
      cases A with
      | nil => simp only [Shape.height] at hc1; omega
      | node g A1 kg vg gb A2 =>
        obtain ⟨hg1, hg2, hg3, hA1, hA2⟩ := hA
        simp only [Shape.height] at hact hc1 hg1
        simp only []
        by_cases q1 : gb = -1
        · rw [if_pos q1]
          refine ⟨_, _, rfl, ⟨?_, by omega, by omega, ⟨?_, by omega, by omega, hL, hA1⟩, ⟨?_, by omega, by omega, hA2, hB⟩⟩, ?_⟩ <;>
          (rcases hd with rfl | rfl <;>
            first
            | (have hh := hH.1 rfl
               simp only [Shape.height, if_true, Bool.false_eq_true, if_false] at hh ⊢
               omega)
            | (have hh := hH.2 rfl
               simp only [Shape.height, if_true, Bool.false_eq_true, if_false] at hh ⊢
               omega))
        rw [if_neg q1]
        by_cases q2 : gb = 0
        · rw [if_pos q2]
          refine ⟨_, _, rfl, ⟨?_, by omega, by omega, ⟨?_, by omega, by omega, hL, hA1⟩, ⟨?_, by omega, by omega, hA2, hB⟩⟩, ?_⟩ <;>
          (rcases hd with rfl | rfl <;>
            first
            | (have hh := hH.1 rfl
               simp only [Shape.height, if_true, Bool.false_eq_true, if_false] at hh ⊢
               omega)
            | (have hh := hH.2 rfl
               simp only [Shape.height, if_true, Bool.false_eq_true, if_false] at hh ⊢
               omega))
        rw [if_neg q2]
        have q3 : gb = 1 := by omega
        rw [if_pos q3]
        refine ⟨_, _, rfl, ⟨?_, by omega, by omega, ⟨?_, by omega, by omega, hL, hA1⟩, ⟨?_, by omega, by omega, hA2, hB⟩⟩, ?_⟩ <;>
          (rcases hd with rfl | rfl <;>
            first
            | (have hh := hH.1 rfl
               simp only [Shape.height, if_true, Bool.false_eq_true, if_false] at hh ⊢
               omega)
            | (have hh := hH.2 rfl
               simp only [Shape.height, if_true, Bool.false_eq_true, if_false] at hh ⊢
               omega))
  rw [if_neg hs2]
  by_cases hs3 : nb + diff = -1
  · rw [if_pos hs3]
    refine ⟨_, _, rfl, ⟨?_, by omega, by omega, hL, hR⟩, ?_⟩ <;>
          (rcases hd with rfl | rfl <;>
            first
            | (have hh := hH.1 rfl
               simp only [Shape.height, if_true, Bool.false_eq_true, if_false] at hh ⊢
               omega)
            | (have hh := hH.2 rfl
               simp only [Shape.height, if_true, Bool.false_eq_true, if_false] at hh ⊢
               omega))
  rw [if_neg hs3]
  by_cases hs4 : nb + diff = 1
  · rw [if_pos hs4]
    refine ⟨_, _, rfl, ⟨?_, by omega, by omega, hL, hR⟩, ?_⟩ <;>
          (rcases hd with rfl | rfl <;>
            first
            | (have hh := hH.1 rfl
               simp only [Shape.height, if_true, Bool.false_eq_true, if_false] at hh ⊢
               omega)
            | (have hh := hH.2 rfl
               simp only [Shape.height, if_true, Bool.false_eq_true, if_false] at hh ⊢
               omega))
  rw [if_neg hs4]
  have hs5 : nb + diff = 0 := by omega
  rw [if_pos hs5]
  refine ⟨_, _, rfl, ⟨?_, by omega, by omega, hL, hR⟩, ?_⟩ <;>
          (rcases hd with rfl | rfl <;>
            first
            | (have hh := hH.1 rfl
               simp only [Shape.height, if_true, Bool.false_eq_true, if_false] at hh ⊢
               omega)
            | (have hh := hH.2 rfl
               simp only [Shape.height, if_true, Bool.false_eq_true, if_false] at hh ⊢
               omega))

end RemoveStep

section RemoveBalance
open Shape
variable {K V : Type}

/-! ## `remove` on the represented tree -/

theorem balanced_remove_fix (c : List (Frame K V)) :
    ∀ (s : Shape K V) (h : Nat), pathBalanced c h → balanced s → height s + 1 = h →
      ∃ T2, Shape.remove_fix c s = some T2 ∧ balanced T2 := by
  induction c with
  | nil => intro s h _ hs _; exact ⟨s, rfl, hs⟩
  | cons f c ih =>
    intro s h hc hs hh
    cases f with
    | left n kn vn nb R =>
      obtain ⟨hb1, hb2, hb3, hR, hc2⟩ := hc
      obtain ⟨s2, cont, e, hs2, hh2⟩ := balanced_remove_step 1 n s R kn vn nb
        (max h R.height + 1) (Or.inl rfl) hs hR hb2 hb3 (by omega)
        ⟨fun _ => by omega, fun hx => by omega⟩
      simp only [Shape.remove_fix, Frame.fill, Frame.diff, e]
      cases cont with
      | true =>
        simp only [if_true] at hh2
        exact ih s2 _ hc2 hs2 (by omega)
      | false =>
        simp only [Bool.false_eq_true, if_false] at hh2
        refine ⟨_, rfl, (balanced_plug c s2).mpr ⟨hs2, ?_⟩⟩
        have : s2.height = max h R.height + 1 := by omega
        rw [this]; exact hc2
    | right n L kn vn nb =>
      obtain ⟨hb1, hb2, hb3, hL, hc2⟩ := hc
      obtain ⟨s2, cont, e, hs2, hh2⟩ := balanced_remove_step (-1) n L s kn vn nb
        (max L.height h + 1) (Or.inr rfl) hL hs hb2 hb3 (by omega)
        ⟨fun hx => by omega, fun _ => by omega⟩
      simp only [Shape.remove_fix, Frame.fill, Frame.diff, e]
      cases cont with
      | true =>
        simp only [if_true] at hh2
        exact ih s2 _ hc2 hs2 (by omega)
      | false =>
        simp only [Bool.false_eq_true, if_false] at hh2
        refine ⟨_, rfl, (balanced_plug c s2).mpr ⟨hs2, ?_⟩⟩
        have : s2.height = max L.height h + 1 := by omega
        rw [this]; exact hc2

theorem pathBalanced_append (c1 c2 : List (Frame K V)) (h : Nat) :
    pathBalanced (c1 ++ c2) h ↔ pathBalanced c1 h ∧ pathBalanced c2 (pathHeight c1 h) := by
  induction c1 generalizing h with
  | nil => simp [pathBalanced, pathHeight]
  | cons f c1 ih =>
    cases f with
    | left a k v b r =>
      show pathBalanced (Frame.left a k v b r :: (c1 ++ c2)) h ↔ _
      simp only [pathBalanced, pathHeight, Frame.sibling]
      rw [ih]; tauto
    | right a l k v b =>
      show pathBalanced (Frame.right a l k v b :: (c1 ++ c2)) h ↔ _
      simp only [pathBalanced, pathHeight, Frame.sibling]
      rw [ih, max_comm h l.height]; tauto

/-- The AVL invariant on the balance factors is kept by `remove`, which never
fails on a tree with correct balance factors. -/
theorem balanced_remove [LinearOrder K] (T : Shape K V) (key : K) (h : balanced T) :
    ∃ T2, Shape.remove T key = some T2 ∧ balanced T2 := by
  unfold Shape.remove
  have hplug := descend_plug key T []
  rcases hd : descend key [] T with ⟨c, s⟩
  rw [hd] at hplug
  simp only [plug] at hplug
  have h0 := h
  rw [← hplug, balanced_plug] at h
  obtain ⟨hs, hc⟩ := h
  cases s with
  | nil => exact ⟨T, rfl, h0⟩
  | node n L kn vn nb R =>
    obtain ⟨hb1, hb2, hb3, hL, hR⟩ := hs
    simp only [Shape.height] at hc hb1
    cases L with
    | nil =>
      simp only [Shape.height] at hc hb1
      exact balanced_remove_fix c R _ hc hR (by omega)
    | node al ll kl vl bl rl =>
      cases R with
      | nil =>
        simp only [Shape.height] at hc hb1 ⊢
        exact balanced_remove_fix c _ _ hc hL (by simp only [Shape.height]; omega)
      | node ar lr kr vr br rr =>
        obtain ⟨cm, m, ML, km, vm, mb, hdr, -⟩ :=
          descendRight_shape (node al ll kl vl bl rl) [] (by simp)
        have hdp := descendRight_plug (node al ll kl vl bl rl) []
        rw [hdr] at hdp
        simp only [List.append_nil, plug] at hdp
        simp only [hdr, List.append_nil]
        have hL2 := hL
        rw [← hdp, balanced_plug] at hL2
        obtain ⟨⟨hm1, hm2, hm3, hML, -⟩, hcm⟩ := hL2
        have hhp : pathHeight cm (node m ML km vm mb nil).height
            = (node al ll kl vl bl rl).height := by
          rw [← height_plug, hdp]
        simp only [Shape.height] at hm1
        have hi : int8 nb = nb := int8_of_small (by omega) (by omega)
        have hchild : (if ML.ptr = none then (nil : Shape K V) else ML) = ML := by
          cases ML <;> simp
        rw [hchild]
        refine balanced_remove_fix _ ML (node m ML km vm mb nil).height ?_ hML ?_
        · rw [pathBalanced_append, hhp]
          refine ⟨hcm, ?_, by omega, by omega, hR, hc⟩
          rw [hi]; exact hb1
        · simp only [Shape.height]; omega

end RemoveBalance

section RemoveEntries
open Shape
variable {K V : Type}

/-! ## Entries after `remove` -/

theorem pathBefore_append (c1 c2 : List (Frame K V)) :
    pathBefore (c1 ++ c2) = pathBefore c2 ++ pathBefore c1 := by
  induction c1 with
  | nil => simp [pathBefore]
  | cons f c1 ih =>
    cases f with
    | left a k v b r =>
      show pathBefore (Frame.left a k v b r :: (c1 ++ c2)) = _
      simp only [pathBefore, ih]
    | right a l k v b =>
      show pathBefore (Frame.right a l k v b :: (c1 ++ c2)) = _
      simp only [pathBefore, ih, List.append_assoc]

theorem pathAfter_append (c1 c2 : List (Frame K V)) :
    pathAfter (c1 ++ c2) = pathAfter c1 ++ pathAfter c2 := by
  induction c1 with
  | nil => simp [pathAfter]
  | cons f c1 ih =>
    cases f with
    | left a k v b r =>
      show pathAfter (Frame.left a k v b r :: (c1 ++ c2)) = _
      simp only [pathAfter, ih, List.append_assoc]
    | right a l k v b =>
      show pathAfter (Frame.right a l k v b :: (c1 ++ c2)) = _
      simp only [pathAfter, ih]

theorem pathAfter_right (cm : List (Frame K V))
    (h : ∀ f ∈ cm, ∃ a l k v b, f = Frame.right a l k v b) : pathAfter cm = [] := by
  induction cm with
  | nil => rfl
  | cons f cm ih =>
    obtain ⟨a, l, k, v, b, rfl⟩ := h f (by simp)
    simp only [pathAfter]
    exact ih (fun g hg => h g (by simp [hg]))

/-- The entries after `remove` of a key found by the search: the entry at the
node found is taken out, everything else stays in place. -/
theorem toList_remove_found [LinearOrder K] (T T2 : Shape K V) (key : K)
    (h : Shape.remove T key = some T2) (hf : locate key T ≠ none) :
    ∃ l1 l2 v, toList T = l1 ++ (key, v) :: l2 ∧ toList T2 = l1 ++ l2 := by
  unfold Shape.remove at h
  have hplug := descend_plug key T []
  have hptr := descend_ptr key T []
  have hkey := descend_key key T []
  rcases hd : descend key [] T with ⟨c, s⟩
  rw [hd] at hplug hptr h hkey
  simp only [plug] at hplug hptr h hkey
  cases s with
  | nil => exact absurd hptr.symm hf
  | node n L kn vn nb R =>
    have hk : kn = key := hkey n L R kn vn nb rfl
    subst hk
    have hT : toList T = pathBefore c ++ (toList L ++ (kn, vn) :: toList R) ++ pathAfter c := by
      rw [← hplug, toList_plug]; rfl
    cases L with
    | nil =>
      simp only at h
      refine ⟨pathBefore c, toList R ++ pathAfter c, vn, ?_, ?_⟩
      · rw [hT]; simp [toList]
      · rw [toList_remove_fix c R T2 h, toList_plug]; simp
    | node al ll kl vl bl rl =>
      cases R with
      | nil =>
        simp only at h
        refine ⟨pathBefore c ++ toList (node al ll kl vl bl rl), pathAfter c, vn, ?_, ?_⟩
        · rw [hT]; simp [toList]
        · rw [toList_remove_fix c _ T2 h, toList_plug]
      | node ar lr kr vr br rr =>
        simp only at h
        obtain ⟨cm, m, ML, km, vm, mb, hdr, hall⟩ :=
          descendRight_shape (node al ll kl vl bl rl) [] (by simp)
        have hdp := descendRight_plug (node al ll kl vl bl rl) []
        rw [hdr] at hdp h
        simp only [List.append_nil, plug] at hdp h
        have hchild : (if ML.ptr = none then (nil : Shape K V) else ML) = ML := by
          cases ML <;> simp
        rw [hchild] at h
        have hL : toList (node al ll kl vl bl rl)
            = pathBefore cm ++ (toList ML ++ [(km, vm)]) := by
          rw [← hdp, toList_plug, pathAfter_right cm hall]; simp [toList]
        refine ⟨pathBefore c ++ toList (node al ll kl vl bl rl),
          toList (node ar lr kr vr br rr) ++ pathAfter c, vn, ?_, ?_⟩
        · rw [hT]; simp
        · rw [toList_remove_fix _ ML T2 h, toList_plug, pathBefore_append, pathAfter_append,
            pathAfter_right cm hall, hL]
          simp [pathBefore, pathAfter]

/-! ## Searching a tree in binary-search order -/

theorem locate_some_mem [LinearOrder K] (key : K) (s : Shape K V) (a : Nat)
    (h : locate key s = some a) : key ∈ keys s := by
  induction s with
  | nil => simp [locate] at h
  | node b l k v bb r ihl ihr =>
    have hk : keys (node b l k v bb r) = keys l ++ k :: keys r := by simp [keys, toList]
    rw [hk]
    simp only [locate] at h
    split_ifs at h with h1 h2
    · simp [ihl h]
    · simp [h2]
    · simp [ihr h]

theorem locate_of_mem [LinearOrder K] (key : K) (s : Shape K V) (ho : ordered s)
    (h : key ∈ keys s) : locate key s ≠ none := by
  induction s with
  | nil => simp [keys, toList] at h
  | node b l k v bb r ihl ihr =>
    have hk : keys (node b l k v bb r) = keys l ++ k :: keys r := by simp [keys, toList]
    rw [hk] at h
    obtain ⟨ho1, ho2, hl, hr⟩ := ho
    simp only [locate]
    simp only [List.mem_append, List.mem_cons] at h
    split_ifs with h1 h2
    · rcases h with h | h | h
      · exact ihl hl h
      · exact absurd h1 (by rw [h]; exact lt_irrefl _)
      · exact absurd (lt_trans (ho2 key h) h1) (lt_irrefl _)
    · simp
    · rcases h with h | h | h
      · exact absurd (ho1 key h) h1
      · exact absurd h h2
      · exact ihr hr h

/-- In a tree in binary-search order the search finds a cell exactly when the
key occurs in the tree. -/
theorem locate_eq_none_iff [LinearOrder K] (key : K) (s : Shape K V) (ho : ordered s) :
    locate key s = none ↔ key ∉ keys s := by
  constructor
  · intro h hm; exact locate_of_mem key s ho hm h
  · intro h
    cases hl : locate key s with
    | none => rfl
    | some a => exact absurd (locate_some_mem key s a hl) h

/-- The cell the search finds carries the key, and in a tree in binary-search
order its value is the one paired with the key in the in-order sequence. -/
theorem locate_cell [LinearOrder K] {t : BinarySearchTree K V} (key : K) (s : Shape K V)
    (a : Nat) :
    ∀ (par : Option Nat), RepTree t par s → locate key s = some a →
      ∃ nd, deref t (some a) = some nd ∧ nd.key = key ∧ (key, nd.value) ∈ toList s := by
  induction s with
  | nil => intro par _ h; simp [locate] at h
  | node b l k v bb r ihl ihr =>
    intro par hrep h
    obtain ⟨h1, h2, h3⟩ := hrep
    simp only [locate] at h
    split_ifs at h with c1 c2
    · obtain ⟨nd, e1, e2, e3⟩ := ihl _ h2 h
      exact ⟨nd, e1, e2, by simp [toList, e3]⟩
    · simp only [Option.some.injEq] at h
      subst h
      exact ⟨_, h1, c2.symm, by simp [toList, c2]⟩
    · obtain ⟨nd, e1, e2, e3⟩ := ihr _ h3 h
      exact ⟨nd, e1, e2, by simp [toList, e3]⟩

/-- In a sorted sequence of entries a key is paired with one value only. -/
theorem entry_unique [LinearOrder K] (l : List (K × V))
    (h : (l.map Prod.fst).Pairwise (· < ·)) (k : K) (v1 v2 : V)
    (h1 : (k, v1) ∈ l) (h2 : (k, v2) ∈ l) : v1 = v2 := by
  induction l with
  | nil => simp at h1
  | cons e l ih =>
    simp only [List.map_cons, List.pairwise_cons] at h
    simp only [List.mem_cons] at h1 h2
    have hne : ∀ v, (k, v) ∈ l → e.1 ≠ k := fun v hv => ne_of_lt
      (h.1 k (List.mem_map.mpr ⟨(k, v), hv, rfl⟩))
    rcases h1 with h1 | h1 <;> rcases h2 with h2 | h2
    · rw [← h1] at h2; exact (Prod.mk.inj h2).2.symm
    · exact absurd (by rw [← h1]) (hne v2 h2)
    · exact absurd (by rw [← h2]) (hne v1 h1)
    · exact ih h.2 h1 h2

/-! ## The entries as a sorted sequence -/

theorem eraseEntry_sorted [LinearOrder K] (key : K) (l1 l2 : List (K × V)) (v : V)
    (h : ((l1 ++ (key, v) :: l2).map Prod.fst).Pairwise (· < ·)) :
    eraseEntry key (l1 ++ (key, v) :: l2) = l1 ++ l2 := by
  simp only [List.map_append, List.map_cons, List.pairwise_append, List.pairwise_cons,
    List.mem_map, List.mem_cons] at h
  obtain ⟨-, ⟨h2, -⟩, h3⟩ := h
  have e1 : l1.filter (fun e => decide (e.1 ≠ key)) = l1 := by
    rw [List.filter_eq_self]
    intro e he
    have := h3 e.1 ⟨e, he, rfl⟩ key (Or.inl rfl)
    simpa using ne_of_lt this
  have e2 : l2.filter (fun e => decide (e.1 ≠ key)) = l2 := by
    rw [List.filter_eq_self]
    intro e he
    have := h2 e.1 ⟨e, he, rfl⟩
    simpa using (ne_of_lt this).symm
  simp only [decide_not] at e1 e2
  simp [eraseEntry, List.filter_append, List.filter_cons, e1, e2]

theorem eraseEntry_absent [DecidableEq K] (key : K) (l : List (K × V))
    (h : key ∉ l.map Prod.fst) : eraseEntry key l = l := by
  unfold eraseEntry
  rw [List.filter_eq_self]
  intro e he
  have : e.1 ≠ key := fun e2 => h (List.mem_map.mpr ⟨e, he, e2⟩)
  simpa using this

/-- The entries after `remove` on a tree in binary-search order: the in-order
sequence without the entry for the key. -/
theorem toList_remove [LinearOrder K] (T T2 : Shape K V) (key : K) (ho : ordered T)
    (h : Shape.remove T key = some T2) : toList T2 = eraseEntry key (toList T) := by
  by_cases hf : locate key T = none
  · have hT : T2 = T := by
      unfold Shape.remove at h
      have hptr := descend_ptr key T []
      rcases hd : descend key [] T with ⟨c, s⟩
      rw [hd] at hptr h
      simp only at hptr h
      cases s with
      | nil => simpa using h.symm
      | node n L kn vn nb R => rw [hf] at hptr; simp at hptr
    rw [hT, eraseEntry_absent]
    exact (locate_eq_none_iff key T ho).mp hf
  · obtain ⟨l1, l2, v, e1, e2⟩ := toList_remove_found T T2 key h hf
    rw [e2, e1, eraseEntry_sorted]
    have := (ordered_iff_sorted T).mp ho
    unfold keys at this
    rwa [e1] at this

/-- Binary-search order is kept by `remove`. -/
theorem ordered_remove [LinearOrder K] (T T2 : Shape K V) (key : K) (ho : ordered T)
    (h : Shape.remove T key = some T2) : ordered T2 := by
  rw [ordered_iff_sorted]
  unfold keys
  rw [toList_remove T T2 key ho h]
  have := (ordered_iff_sorted T).mp ho
  unfold keys at this
  unfold eraseEntry
  rw [List.pairwise_map] at this ⊢
  exact this.sublist (List.filter_sublist _)

theorem size_eq_length (s : Shape K V) : s.size = (toList s).length := by
  induction s with
  | nil => rfl
  | node a l k v b r ihl ihr => simp [Shape.size, toList, ihl, ihr]; omega

end RemoveEntries

section Support
open Shape
variable {K V : Type}

/-! ## Entries after `insert` -/

theorem self_mem_insertEntry [LinearOrder K] (k : K) (v : V) (l : List (K × V)) :
    (k, v) ∈ insertEntry k v l := by
  induction l with
  | nil => simp [insertEntry]
  | cons e l ih =>
    obtain ⟨k2, v2⟩ := e
    simp only [insertEntry]
    split_ifs <;> simp [ih]

/-- Insertion of an absent key into a sorted sequence of entries puts the new
entry between the smaller and the larger keys and moves nothing else. -/
theorem insertEntry_absent [LinearOrder K] (k : K) (v : V) (l : List (K × V))
    (hs : (l.map Prod.fst).Pairwise (· < ·)) (hk : k ∉ l.map Prod.fst) :
    ∃ l1 l2, l = l1 ++ l2 ∧ insertEntry k v l = l1 ++ (k, v) :: l2 ∧
      (∀ e ∈ l1, e.1 < k) ∧ (∀ e ∈ l2, k < e.1) := by
  induction l with
  | nil => exact ⟨[], [], rfl, rfl, by simp, by simp⟩
  | cons e l ih =>
    obtain ⟨k2, v2⟩ := e
    simp only [List.map_cons, List.pairwise_cons, List.mem_cons, not_or] at hs hk
    simp only [insertEntry]
    by_cases h1 : k < k2
    · refine ⟨[], (k2, v2) :: l, rfl, by simp [h1], by simp, ?_⟩
      intro e he
      simp only [List.mem_cons] at he
      rcases he with rfl | he
      · exact h1
      · exact lt_trans h1 (hs.1 e.1 (List.mem_map.mpr ⟨e, he, rfl⟩))
    · have h2 : ¬ k = k2 := hk.1
      obtain ⟨l1, l2, e1, e2, e3, e4⟩ := ih hs.2 hk.2
      refine ⟨(k2, v2) :: l1, l2, by simp [e1], by simp [h1, h2, e2], ?_, e4⟩
      intro e he
      simp only [List.mem_cons] at he
      rcases he with rfl | he
      · exact lt_of_le_of_ne (not_lt.mp h1) (Ne.symm h2)
      · exact e3 e he

/-! ## `insert` of a key that is present -/

/-- On the way to a node that carries the key, `insert_helper` only calls
`setValue` on that node. -/
theorem insert_helper_found [LinearOrder K] {t : AVLTree K V} (k : K) (v : V) (a : Nat)
    (s : Shape K V) :
    ∀ (par : Option Nat) (fuel : Nat), RepTree t par s → s.height ≤ fuel →
      locate k s = some a →
      ∃ nd, deref t (some a) = some nd ∧ nd.key = k ∧
        AVLTree.insert_helper (k, v) fuel t s.ptr = some (store t a { nd with value := v }) := by
  induction s with
  | nil => intro par fuel _ _ h; simp [locate] at h
  | node b l k2 v2 bb r ihl ihr =>
    intro par fuel h hf hloc
    cases fuel with
    | zero => simp [Shape.height] at hf
    | succ fuel =>
      simp only [Shape.height, Nat.add_le_add_iff_right, max_le_iff] at hf
      obtain ⟨h1, h2, h3⟩ := h
      simp only [locate] at hloc
      simp only [ptr_node, AVLTree.insert_helper, getKey, getLeft, getRight, h1,
        Option.map_some', andThen_some]
      by_cases hlt : k < k2
      · simp only [hlt, if_true] at hloc ⊢
        have hl : l.ptr ≠ none := by
          cases l with
          | nil => simp [locate] at hloc
          | node _ _ _ _ _ _ => simp
        simp only [hl, if_false]
        exact ihl _ fuel h2 hf.1 hloc
      · by_cases heq : k = k2
        · subst heq
          simp only [lt_irrefl, if_true, if_false, Option.some.injEq] at hloc ⊢
          subst hloc
          exact ⟨_, h1, rfl, by simp [setValue, modifyNode, h1]⟩
        · simp only [hlt, heq, if_false] at hloc ⊢
          have hr : r.ptr ≠ none := by
            cases r with
            | nil => simp [locate] at hloc
            | node _ _ _ _ _ _ => simp
          simp only [hr, if_false]
          exact ihr _ fuel h3 hf.2 hloc

/-- The call `insert` with a key that is present only overwrites the value of
the cell found by the search. -/
theorem insert_found [LinearOrder K] {t : AVLTree K V} {T : Shape K V} (k : K) (v : V)
    (a : Nat) (h : Models t T) (hloc : locate k T = some a) :
    ∃ nd, deref t (some a) = some nd ∧ nd.key = k ∧
      AVLTree.insert t (k, v) = some (store t a { nd with value := v }) := by
  cases T with
  | nil => simp [locate] at hloc
  | node b l k2 v2 bb r =>
    have hroot := h.1
    simp only [ptr_node] at hroot
    have hs : (node b l k2 v2 bb r).height ≤ t.mem.length + 1 :=
      le_trans (height_le_size _) (le_trans (models_size_le h) (Nat.le_succ _))
    obtain ⟨nd, e1, e2, e3⟩ := insert_helper_found k v a _ none _ h.2.1 hs hloc
    refine ⟨nd, e1, e2, ?_⟩
    simp only [AVLTree.insert, hroot, reduceCtorEq, if_false]
    simpa using e3

/-! ## `remove` of a key that is absent -/

theorem remove_not_found [LinearOrder K] {t : AVLTree K V} {T : Shape K V} (k : K)
    (h : Models t T) (hloc : locate k T = none) : AVLTree.remove t k = some t := by
  simp [AVLTree.remove, internalFind_spec k h, hloc]

theorem locate_none_of_absent [LinearOrder K] (k : K) (T : Shape K V) (h : k ∉ keys T) :
    locate k T = none := by
  cases hl : locate k T with
  | none => rfl
  | some a => exact absurd (locate_some_mem k T a hl) h

/-! ## The search on a valid heap -/

/-- On a heap that holds a tree in binary-search order, the search for a key
of the tree ends at a cell that carries the key. -/
theorem find_present [LinearOrder K] {t : BinarySearchTree K V} {T : Shape K V} (k : K)
    (h : Models t T) (ho : ordered T) (hk : k ∈ keys T) :
    ∃ a nd, BinarySearchTree.internalFind t k = some (some a) ∧
      deref t (some a) = some nd ∧ nd.key = k ∧ (k, nd.value) ∈ toList T := by
  cases hl : locate k T with
  | none => exact absurd hl (locate_of_mem k T ho hk)
  | some a =>
    obtain ⟨nd, e1, e2, e3⟩ := locate_cell k T a none h.2.1 hl
    exact ⟨a, nd, by rw [internalFind_spec k h, hl], e1, e2, e3⟩

theorem size_insert_absent [LinearOrder K] (fresh : Nat) (T : Shape K V) (k : K) (v : V)
    (ho : ordered T) (hk : k ∉ keys T) : (Shape.insert fresh T (k, v)).size = T.size + 1 := by
  obtain ⟨l1, l2, e1, e2, -, -⟩ := insertEntry_absent k v (toList T)
    ((ordered_iff_sorted T).mp ho) hk
  rw [size_eq_length, size_eq_length, toList_insert fresh T (k, v) ho, e2, e1]
  simp only [List.length_append, List.length_cons]
  omega

/-- Insertion of a present key into a sorted sequence of entries keeps the
keys and their number. -/
theorem keys_insertEntry_present [LinearOrder K] (k : K) (v : V) (l : List (K × V))
    (hs : (l.map Prod.fst).Pairwise (· < ·)) (hk : k ∈ l.map Prod.fst) :
    (insertEntry k v l).map Prod.fst = l.map Prod.fst := by
  induction l with
  | nil => simp at hk
  | cons e l ih =>
    obtain ⟨k2, v2⟩ := e
    simp only [List.map_cons, List.pairwise_cons, List.mem_cons] at hs hk
    simp only [insertEntry]
    by_cases h1 : k < k2
    · rcases hk with hk | hk
      · exact absurd h1 (by rw [hk]; exact lt_irrefl _)
      · exact absurd (lt_trans h1 (hs.1 k hk)) (lt_irrefl _)
    · by_cases h2 : k = k2
      · simp [h2]
      · rcases hk with hk | hk
        · exact absurd hk h2
        · simp [h1, h2, ih hs.2 hk]

theorem mem_eraseEntry [DecidableEq K] (k : K) (l : List (K × V)) :
    k ∉ (eraseEntry k l).map Prod.fst := by
  simp [eraseEntry]

end Support

section Contract
open Shape
variable {K V : Type}

/-! ## The sample tree and validity of the results -/

theorem empty_tree_valid [LinearOrder K] :
    ValidAVL (BinarySearchTree.empty_tree : BinarySearchTree K V) Shape.nil :=
  ⟨⟨rfl, trivial, List.nodup_nil⟩, trivial, trivial⟩

theorem sampleTree_valid : ValidAVL sampleTree sampleShape := by
  refine ⟨⟨rfl, ⟨rfl, ⟨rfl, trivial, trivial⟩, rfl, ⟨rfl, trivial, trivial⟩, trivial⟩, by decide⟩,
    ?_, ?_⟩
  · simp [sampleShape, ordered, keys, toList]
  · simp [sampleShape, balanced, height]

theorem sampleTree_reachable : Reachable sampleTree :=
  Reachable.insert _ (25, 250) _
    (Reachable.insert _ (30, 300) _
      (Reachable.insert _ (10, 100) _
        (Reachable.insert _ (20, 200) _ Reachable.empty rfl) rfl) rfl) rfl

/-- A returning `insert` on a valid AVL tree leaves a valid AVL tree. -/
theorem insert_valid [LinearOrder K] {t : AVLTree K V} {T : Shape K V} (h : ValidAVL t T)
    (new_item : K × V) :
    ∃ t2, AVLTree.insert t new_item = some t2 ∧
      ValidAVL t2 (Shape.insert t.mem.length T new_item) := by
  obtain ⟨t2, e, m⟩ := insert_spec new_item h.1
  exact ⟨t2, e, m, ordered_insert _ T new_item h.2.1, balanced_insert _ T new_item h.2.2⟩

/-- The call `remove` on a valid AVL tree returns and leaves a valid AVL tree. -/
theorem remove_valid [LinearOrder K] {t : AVLTree K V} {T : Shape K V} (h : ValidAVL t T)
    (key : K) :
    ∃ t2 T2, AVLTree.remove t key = some t2 ∧ Shape.remove T key = some T2 ∧ ValidAVL t2 T2 := by
  obtain ⟨T2, e, b⟩ := balanced_remove T key h.2.2
  obtain ⟨t2, e2, m⟩ := remove_spec key h.1 e
  exact ⟨t2, T2, e2, e, m, ordered_remove T T2 key h.2.1 e, b⟩

/-! ## The contract of the public operations -/

/-- C1: on an AVL tree whose keys are in binary-search order and whose stored
balance factors are the height differences height(right) - height(left), all
in {-1, 0, 1}, the call `insert` returns for every key and value, the stored
balance factor of every node of the resulting tree is again the height
difference and lies in {-1, 0, 1}, and `isBalanced()` returns true. -/
theorem insert_restores_balance [LinearOrder K] (t : AVLTree K V) (T : Shape K V)
    (h : ValidAVL t T) (new_item : K × V) :
    ∃ t2 T2, AVLTree.insert t new_item = some t2 ∧ Models t2 T2 ∧ T2.balanced ∧
      BinarySearchTree.isBalanced t2 = some true := by
  obtain ⟨t2, e, m⟩ := insert_spec new_item h.1
  have b := balanced_insert t.mem.length T new_item h.2.2
  exact ⟨t2, _, e, m, b, isBalanced_of_balanced m b⟩

theorem insert_restores_balance_witness :
    ValidAVL sampleTree sampleShape ∧
      ∃ t2 T2, AVLTree.insert sampleTree (27, 270) = some t2 ∧ Models t2 T2 ∧ T2.balanced ∧
        BinarySearchTree.isBalanced t2 = some true :=
  ⟨sampleTree_valid, insert_restores_balance sampleTree sampleShape sampleTree_valid (27, 270)⟩

/-- C2: on an AVL tree whose keys are in binary-search order and whose stored
balance factors are the height differences, all in {-1, 0, 1}, the call
`remove` returns for every key, present or absent, the stored balance factor
of every remaining node is again the height difference and lies in
{-1, 0, 1}, and `isBalanced()` returns true. -/
theorem remove_restores_balance [LinearOrder K] (t : AVLTree K V) (T : Shape K V)
    (h : ValidAVL t T) (key : K) :
    ∃ t2 T2, AVLTree.remove t key = some t2 ∧ Models t2 T2 ∧ T2.balanced ∧
      BinarySearchTree.isBalanced t2 = some true := by
  obtain ⟨T2, e, b⟩ := balanced_remove T key h.2.2
  obtain ⟨t2, e2, m⟩ := remove_spec key h.1 e
  exact ⟨t2, T2, e2, m, b, isBalanced_of_balanced m b⟩

theorem remove_restores_balance_witness :
    ValidAVL sampleTree sampleShape ∧
      ∃ t2 T2, AVLTree.remove sampleTree 10 = some t2 ∧ Models t2 T2 ∧ T2.balanced ∧
        BinarySearchTree.isBalanced t2 = some true :=
  ⟨sampleTree_valid, remove_restores_balance sampleTree sampleShape sampleTree_valid 10⟩

/-- C3: every state reachable from the empty tree by calls of `insert` and
`remove` holds a tree whose keys are in binary-search order, so that the
in-order sequence of its keys is strictly ascending; in every such state
`insert` and `remove` return, so the sequences of calls are not cut short. -/
theorem reachable_ordered [LinearOrder K] (t : AVLTree K V) (h : Reachable t) :
    ∃ T, Models t T ∧ T.ordered ∧ T.keys.Pairwise (· < ·) ∧
      (∀ new_item : K × V, ∃ t2, AVLTree.insert t new_item = some t2) ∧
      (∀ key : K, ∃ t2, AVLTree.remove t key = some t2) := by
  have hv : ∃ T, ValidAVL t T := by
    induction h with
    | empty => exact ⟨Shape.nil, empty_tree_valid⟩
    | insert t new_item t2 _ e ih =>
      obtain ⟨T, hT⟩ := ih
      obtain ⟨t3, e3, v3⟩ := insert_valid hT new_item
      rw [e] at e3
      cases e3
      exact ⟨_, v3⟩
    | remove t key t2 _ e ih =>
      obtain ⟨T, hT⟩ := ih
      obtain ⟨t3, T3, e3, -, v3⟩ := remove_valid hT key
      rw [e] at e3
      cases e3
      exact ⟨_, v3⟩
  obtain ⟨T, hT⟩ := hv
  refine ⟨T, hT.1, hT.2.1, (ordered_iff_sorted T).mp hT.2.1, ?_, ?_⟩
  · intro new_item
    obtain ⟨t2, e, -⟩ := insert_valid hT new_item
    exact ⟨t2, e⟩
  · intro key
    obtain ⟨t2, -, e, -⟩ := remove_valid hT key
    exact ⟨t2, e⟩

theorem reachable_ordered_witness :
    Reachable sampleTree ∧
      ∃ T, Models sampleTree T ∧ T.ordered ∧ T.keys.Pairwise (· < ·) ∧
        (∀ new_item : Nat × Nat, ∃ t2, AVLTree.insert sampleTree new_item = some t2) ∧
        (∀ key : Nat, ∃ t2, AVLTree.remove sampleTree key = some t2) :=
  ⟨sampleTree_reachable, reachable_ordered sampleTree sampleTree_reachable⟩

/-- C4: on a valid AVL tree, after `insert(k, v)` the call `find(k)` returns an
iterator that is not the end sentinel and points at a node with key `k` and
value `v`, whether `k` was absent or present before. -/
theorem find_after_insert [LinearOrder K] (t : AVLTree K V) (T : Shape K V)
    (h : ValidAVL t T) (k : K) (v : V) :
    ∃ t2 a nd, AVLTree.insert t (k, v) = some t2 ∧
      BinarySearchTree.find t2 k = some (some a) ∧ some a ≠ BinarySearchTree.end_ t2 ∧
      deref t2 (some a) = some nd ∧ nd.key = k ∧ nd.value = v := by
  obtain ⟨t2, e, m, o, -⟩ := insert_valid h (k, v)
  have hl := toList_insert t.mem.length T (k, v) h.2.1
  have hm : (k, v) ∈ toList (Shape.insert t.mem.length T (k, v)) := by
    rw [hl]; exact self_mem_insertEntry k v _
  have hk : k ∈ keys (Shape.insert t.mem.length T (k, v)) :=
    List.mem_map.mpr ⟨(k, v), hm, rfl⟩
  obtain ⟨a, nd, e1, e2, e3, e4⟩ := find_present k m o hk
  refine ⟨t2, a, nd, e, e1, by simp [BinarySearchTree.end_], e2, e3, ?_⟩
  exact entry_unique _ ((ordered_iff_sorted _).mp o) k _ _ e4 hm

theorem find_after_insert_witness :
    ValidAVL sampleTree sampleShape ∧
      ∃ t2 a nd, AVLTree.insert sampleTree (30, 999) = some t2 ∧
        BinarySearchTree.find t2 30 = some (some a) ∧ some a ≠ BinarySearchTree.end_ t2 ∧
        deref t2 (some a) = some nd ∧ nd.key = 30 ∧ nd.value = 999 :=
  ⟨sampleTree_valid, find_after_insert sampleTree sampleShape sampleTree_valid 30 999⟩

/-- C5: on a valid AVL tree, `insert(k, v2)` with a key `k` that is present
only replaces the value stored with `k`: the resulting state is the old state
with the value field of the one cell that carries `k` overwritten, so no cell
is added, no link, key or balance factor changes and no fix-up or rotation
takes effect; the tree then held has the same keys in the same order and the
same number of nodes. -/
theorem insert_present_overwrites [LinearOrder K] (t : AVLTree K V) (T : Shape K V)
    (h : ValidAVL t T) (k : K) (v2 : V) (hk : k ∈ T.keys) :
    ∃ a nd T2, deref t (some a) = some nd ∧ nd.key = k ∧
      AVLTree.insert t (k, v2) = some (store t a { nd with value := v2 }) ∧
      Models (store t a { nd with value := v2 }) T2 ∧ T2.keys = T.keys ∧ T2.size = T.size ∧
      T2.toList = insertEntry k v2 T.toList := by
  cases hl : locate k T with
  | none => exact absurd hl (locate_of_mem k T h.2.1 hk)
  | some a =>
    obtain ⟨nd, e1, e2, e3⟩ := insert_found k v2 a h.1 hl
    obtain ⟨t2, e4, m⟩ := insert_spec (k, v2) h.1
    rw [e3] at e4
    cases e4
    have hT := toList_insert t.mem.length T (k, v2) h.2.1
    have hkeys : keys (Shape.insert t.mem.length T (k, v2)) = keys T := by
      unfold keys
      rw [hT]
      exact keys_insertEntry_present k v2 _ ((ordered_iff_sorted T).mp h.2.1) hk
    refine ⟨a, nd, _, e1, e2, e3, m, hkeys, ?_, hT⟩
    have := congrArg List.length hkeys
    simpa [keys, ← size_eq_length] using this

theorem insert_present_overwrites_witness :
    ValidAVL sampleTree sampleShape ∧ 25 ∈ sampleShape.keys ∧
      ∃ a nd T2, deref sampleTree (some a) = some nd ∧ nd.key = 25 ∧
        AVLTree.insert sampleTree (25, 7) = some (store sampleTree a { nd with value := 7 }) ∧
        Models (store sampleTree a { nd with value := 7 }) T2 ∧ T2.keys = sampleShape.keys ∧
        T2.size = sampleShape.size ∧ T2.toList = insertEntry 25 7 sampleShape.toList :=
  ⟨sampleTree_valid, by decide,
    insert_present_overwrites sampleTree sampleShape sampleTree_valid 25 7 (by decide)⟩

/-- C6: on a valid AVL tree, `remove(k)` of a key `k` that is present returns
and leaves a valid AVL tree in which `find(k)` is the end sentinel, the number
of nodes is one less, and the in-order sequence of (key, value) pairs is the
old sequence with the one entry for `k` deleted and all other entries kept,
wherever the node of `k` was and however many children it had. -/
theorem remove_present [LinearOrder K] (t : AVLTree K V) (T : Shape K V)
    (h : ValidAVL t T) (k : K) (hk : k ∈ T.keys) :
    ∃ t2 T2, AVLTree.remove t k = some t2 ∧ ValidAVL t2 T2 ∧
      BinarySearchTree.find t2 k = some (BinarySearchTree.end_ t2) ∧
      T2.size + 1 = T.size ∧ T2.toList = eraseEntry k T.toList ∧
      ∃ l1 l2 v, T.toList = l1 ++ (k, v) :: l2 ∧ T2.toList = l1 ++ l2 := by
  obtain ⟨t2, T2, e, eT, v⟩ := remove_valid h k
  have hE := toList_remove T T2 k h.2.1 eT
  obtain ⟨l1, l2, w, d1, d2⟩ := toList_remove_found T T2 k eT (locate_of_mem k T h.2.1 hk)
  refine ⟨t2, T2, e, v, ?_, ?_, hE, l1, l2, w, d1, d2⟩
  · have hno : k ∉ keys T2 := by
      unfold keys; rw [hE]; exact mem_eraseEntry k _
    show BinarySearchTree.internalFind t2 k = some none
    rw [internalFind_spec k v.1, locate_none_of_absent k T2 hno]
  · rw [size_eq_length, size_eq_length, d1, d2]
    simp only [List.length_append, List.length_cons]
    omega

theorem remove_present_witness :
    ValidAVL sampleTree sampleShape ∧ 20 ∈ sampleShape.keys ∧
      ∃ t2 T2, AVLTree.remove sampleTree 20 = some t2 ∧ ValidAVL t2 T2 ∧
        BinarySearchTree.find t2 20 = some (BinarySearchTree.end_ t2) ∧
        T2.size + 1 = sampleShape.size ∧ T2.toList = eraseEntry 20 sampleShape.toList ∧
        ∃ l1 l2 v, sampleShape.toList = l1 ++ (20, v) :: l2 ∧ T2.toList = l1 ++ l2 :=
  ⟨sampleTree_valid, by decide,
    remove_present sampleTree sampleShape sampleTree_valid 20 (by decide)⟩

/-- C7: on a valid AVL tree, `remove(k)` of a key `k` that is not present
returns and leaves the state as it was: the same cells with the same links,
keys, values and balance factors, and the same root; the empty tree is the
case of a tree without keys. -/
theorem remove_absent_unchanged [LinearOrder K] (t : AVLTree K V) (T : Shape K V)
    (h : ValidAVL t T) (k : K) (hk : k ∉ T.keys) : AVLTree.remove t k = some t :=
  remove_not_found k h.1 (locate_none_of_absent k T hk)

theorem remove_absent_unchanged_witness :
    (ValidAVL sampleTree sampleShape ∧ 15 ∉ sampleShape.keys ∧
      AVLTree.remove sampleTree 15 = some sampleTree) ∧
    (ValidAVL (BinarySearchTree.empty_tree : AVLTree Nat Nat) Shape.nil ∧
      5 ∉ (Shape.nil : Shape Nat Nat).keys ∧
      AVLTree.remove (BinarySearchTree.empty_tree : AVLTree Nat Nat) 5
        = some BinarySearchTree.empty_tree) :=
  ⟨⟨sampleTree_valid, by decide,
      remove_absent_unchanged sampleTree sampleShape sampleTree_valid 15 (by decide)⟩,
    ⟨empty_tree_valid, by decide,
      remove_absent_unchanged BinarySearchTree.empty_tree Shape.nil empty_tree_valid 5
        (by decide)⟩⟩

/-- C8: on a valid AVL tree, `insert(k, v)` with a key `k` that is not present
returns and leaves a valid AVL tree with one node more, whose in-order
sequence of (key, value) pairs is the old sequence with `(k, v)` put in at its
sorted position: all old entries stay, in their order and with their values,
the smaller keys before the new entry and the larger keys after it. -/
theorem insert_absent_adds_entry [LinearOrder K] (t : AVLTree K V) (T : Shape K V)
    (h : ValidAVL t T) (k : K) (v : V) (hk : k ∉ T.keys) :
    ∃ t2 T2, AVLTree.insert t (k, v) = some t2 ∧ ValidAVL t2 T2 ∧ T2.size = T.size + 1 ∧
      T2.toList = insertEntry k v T.toList ∧
      ∃ l1 l2, T.toList = l1 ++ l2 ∧ T2.toList = l1 ++ (k, v) :: l2 ∧
        (∀ e ∈ l1, e.1 < k) ∧ (∀ e ∈ l2, k < e.1) := by
  obtain ⟨t2, e, hv⟩ := insert_valid h (k, v)
  have hT := toList_insert t.mem.length T (k, v) h.2.1
  obtain ⟨l1, l2, e1, e2, e3, e4⟩ := insertEntry_absent k v (toList T)
    ((ordered_iff_sorted T).mp h.2.1) hk
  exact ⟨t2, _, e, hv, size_insert_absent _ T k v h.2.1 hk, hT, l1, l2, e1, by rw [hT, e2],
    e3, e4⟩

theorem insert_absent_adds_entry_witness :
    ValidAVL sampleTree sampleShape ∧ 27 ∉ sampleShape.keys ∧
      ∃ t2 T2, AVLTree.insert sampleTree (27, 270) = some t2 ∧ ValidAVL t2 T2 ∧
        T2.size = sampleShape.size + 1 ∧ T2.toList = insertEntry 27 270 sampleShape.toList ∧
        ∃ l1 l2, sampleShape.toList = l1 ++ l2 ∧ T2.toList = l1 ++ (27, 270) :: l2 ∧
          (∀ e ∈ l1, e.1 < 27) ∧ (∀ e ∈ l2, 27 < e.1) :=
  ⟨sampleTree_valid, by decide,
    insert_absent_adds_entry sampleTree sampleShape sampleTree_valid 27 270 (by decide)⟩

/-- C9: on a tree whose keys are in binary-search order, `find(k)` returns: an
iterator at a node whose key is `k`, not the end sentinel, when some node
carries `k`, and the end sentinel when no node carries `k`.  The call takes
the state and gives back the iterator only, the state stays as it is. -/
theorem find_correct [LinearOrder K] (t : BinarySearchTree K V) (T : Shape K V)
    (h : Models t T) (ho : T.ordered) (k : K) :
    (k ∈ T.keys → ∃ a nd, BinarySearchTree.find t k = some (some a) ∧
        some a ≠ BinarySearchTree.end_ t ∧ deref t (some a) = some nd ∧ nd.key = k) ∧
    (k ∉ T.keys → BinarySearchTree.find t k = some (BinarySearchTree.end_ t)) := by
  constructor
  · intro hk
    obtain ⟨a, nd, e1, e2, e3, -⟩ := find_present k h ho hk
    exact ⟨a, nd, e1, by simp [BinarySearchTree.end_], e2, e3⟩
  · intro hk
    show BinarySearchTree.internalFind t k = some none
    rw [internalFind_spec k h, locate_none_of_absent k T hk]

theorem find_correct_witness :
    Models sampleTree sampleShape ∧ sampleShape.ordered ∧
      (25 ∈ sampleShape.keys → ∃ a nd, BinarySearchTree.find sampleTree 25 = some (some a) ∧
          some a ≠ BinarySearchTree.end_ sampleTree ∧ deref sampleTree (some a) = some nd ∧
          nd.key = 25) ∧
      (25 ∉ sampleShape.keys →
        BinarySearchTree.find sampleTree 25 = some (BinarySearchTree.end_ sampleTree)) :=
  ⟨sampleTree_valid.1, sampleTree_valid.2.1,
    find_correct sampleTree sampleShape sampleTree_valid.1 sampleTree_valid.2.1 25⟩

/-- C10: on a tree whose keys are in binary-search order, `operator[]` (the
failing accessor) returns for every key; it throws the exception
`std::out_of_range("Invalid key")` exactly when the key is absent, and when
the key is present it yields the value stored with the key.  The call takes
the state and gives back the value or the exception only. -/
theorem operator_index_correct [LinearOrder K] (t : BinarySearchTree K V) (T : Shape K V)
    (h : Models t T) (ho : T.ordered) (k : K) :
    (BinarySearchTree.operator_index t k
        = some (Except.error (Exception.out_of_range "Invalid key")) ↔ k ∉ T.keys) ∧
    (∀ v, (k, v) ∈ T.toList → BinarySearchTree.operator_index t k = some (Except.ok v)) := by
  have hpres : ∀ v, (k, v) ∈ T.toList →
      BinarySearchTree.operator_index t k = some (Except.ok v) := by
    intro v hv
    obtain ⟨a, nd, e1, e2, e3, e4⟩ := find_present k h ho (List.mem_map.mpr ⟨(k, v), hv, rfl⟩)
    have hval : nd.value = v := entry_unique _ ((ordered_iff_sorted T).mp ho) k _ _ e4 hv
    simp [BinarySearchTree.operator_index, e1, getValue, e2, hval]
  refine ⟨⟨?_, ?_⟩, hpres⟩
  · intro he hk
    obtain ⟨e, he1, he2⟩ := List.mem_map.mp hk
    obtain ⟨k2, v⟩ := e
    simp only at he2
    subst he2
    rw [hpres v he1] at he
    simp at he
  · intro hk
    simp [BinarySearchTree.operator_index, internalFind_spec k h,
      locate_none_of_absent k T hk]

theorem operator_index_correct_witness :
    Models sampleTree sampleShape ∧ sampleShape.ordered ∧
      (BinarySearchTree.operator_index sampleTree 15
          = some (Except.error (Exception.out_of_range "Invalid key")) ↔
        15 ∉ sampleShape.keys) ∧
      (∀ v, (15, v) ∈ sampleShape.toList →
        BinarySearchTree.operator_index sampleTree 15 = some (Except.ok v)) :=
  ⟨sampleTree_valid.1, sampleTree_valid.2.1,
    operator_index_correct sampleTree sampleShape sampleTree_valid.1 sampleTree_valid.2.1 15⟩

end Contract

section HeightCheck
open Shape
variable {K V : Type}

/-! ## The height check -/

/-- On a tree that is not height-balanced at some node the helper returns the
sentinel -1. -/
theorem isBalanced_helper_of_not_heightBalanced (s : Shape K V) (h : ¬ heightBalanced s) :
    Shape.isBalanced_helper s = -1 := by
  induction s with
  | nil => exact absurd trivial h
  | node a l k v b r ihl ihr =>
    simp only [Shape.isBalanced_helper]
    by_cases hl : heightBalanced l
    · by_cases hr : heightBalanced r
      · rw [isBalanced_helper_of_heightBalanced l hl, isBalanced_helper_of_heightBalanced r hr]
        have hd : ¬ ((height l : Int) - (height r : Int) ≤ 1 ∧
            (height r : Int) - (height l : Int) ≤ 1) := fun hd => h ⟨hd.1, hd.2, hl, hr⟩
        split_ifs <;> first | rfl | omega
      · simp [ihr hr]
    · simp [ihl hl]

/-- The states reachable from the empty tree are valid AVL trees. -/
theorem reachable_valid [LinearOrder K] {t : AVLTree K V} (h : Reachable t) :
    ∃ T, ValidAVL t T := by
  induction h with
  | empty => exact ⟨Shape.nil, empty_tree_valid⟩
  | insert t new_item t2 _ e ih =>
    obtain ⟨T, hT⟩ := ih
    obtain ⟨t3, e3, v3⟩ := insert_valid hT new_item
    rw [e] at e3
    cases e3
    exact ⟨_, v3⟩
  | remove t key t2 _ e ih =>
    obtain ⟨T, hT⟩ := ih
    obtain ⟨t3, T3, e3, -, v3⟩ := remove_valid hT key
    rw [e] at e3
    cases e3
    exact ⟨_, v3⟩

/-- C17: on every heap that holds a binary tree, whatever its balance factors,
`isBalanced()` returns, and it returns true exactly when at every node the
heights of the two subtrees differ by at most one; on every subtree the helper
returns the height (0 for an empty subtree, 1 + the larger child height
otherwise) when that holds at every node of the subtree, and -1 otherwise. -/
theorem isBalanced_correct (t : BinarySearchTree K V) (T : Shape K V) (h : Models t T) :
    (BinarySearchTree.isBalanced t = some true ↔ heightBalanced T) ∧
    (BinarySearchTree.isBalanced t = some false ↔ ¬ heightBalanced T) ∧
    ∀ (s : Shape K V) (par : Option Nat) (fuel : Nat), RepTree t par s → s.height ≤ fuel →
      (heightBalanced s →
        BinarySearchTree.isBalanced_helper t fuel s.ptr = some (height s : Int)) ∧
      (¬ heightBalanced s → BinarySearchTree.isBalanced_helper t fuel s.ptr = some (-1)) := by
  have hs := isBalanced_spec h
  refine ⟨?_, ?_, ?_⟩
  · by_cases hb : heightBalanced T
    · rw [hs, isBalanced_helper_of_heightBalanced T hb]
      simp only [hb, iff_true]
      have : ((height T : Int) ≠ -1) := by omega
      simp [this]
    · rw [hs, isBalanced_helper_of_not_heightBalanced T hb]
      simp [hb]
  · by_cases hb : heightBalanced T
    · rw [hs, isBalanced_helper_of_heightBalanced T hb]
      have : ((height T : Int) ≠ -1) := by omega
      simp [hb, this]
    · rw [hs, isBalanced_helper_of_not_heightBalanced T hb]
      simp [hb]
  · intro s par fuel hr hf
    have e := isBalanced_helper_spec s par fuel hr hf
    exact ⟨fun hb => by rw [e, isBalanced_helper_of_heightBalanced s hb],
      fun hb => by rw [e, isBalanced_helper_of_not_heightBalanced s hb]⟩

theorem isBalanced_correct_witness :
    Models sampleTree sampleShape ∧
    (BinarySearchTree.isBalanced sampleTree = some true ↔ heightBalanced sampleShape) ∧
    (BinarySearchTree.isBalanced sampleTree = some false ↔ ¬ heightBalanced sampleShape) ∧
    ∀ (s : Shape Nat Nat) (par : Option Nat) (fuel : Nat), RepTree sampleTree par s →
      s.height ≤ fuel →
      (heightBalanced s →
        BinarySearchTree.isBalanced_helper sampleTree fuel s.ptr = some (height s : Int)) ∧
      (¬ heightBalanced s →
        BinarySearchTree.isBalanced_helper sampleTree fuel s.ptr = some (-1)) :=
  ⟨sampleTree_valid.1, isBalanced_correct sampleTree sampleShape sampleTree_valid.1⟩

/-! ## The height of an AVL tree -/

/-- A height-balanced tree of height `h` has at least `fib (h + 2) - 1`
nodes. -/
theorem fib_height_le_size (s : Shape K V) (h : heightBalanced s) :
    Nat.fib (height s + 2) ≤ size s + 1 := by
  induction s with
  | nil => simp [Shape.height, Shape.size]
  | node a l k v b r ihl ihr =>
    obtain ⟨h1, h2, h3, h4⟩ := h
    have il := ihl h3
    have ir := ihr h4
    simp only [Shape.height, Shape.size]
    rcases le_total (height l) (height r) with hle | hle
    · rw [max_eq_right hle]
      have hm : Nat.fib (height r + 1) ≤ Nat.fib (height l + 2) := Nat.fib_mono (by omega)
      have e : Nat.fib (height r + 1 + 2) = Nat.fib (height r + 1) + Nat.fib (height r + 2) :=
        Nat.fib_add_two
      omega
    · rw [max_eq_left hle]
      have hm : Nat.fib (height l + 1) ≤ Nat.fib (height r + 2) := Nat.fib_mono (by omega)
      have e : Nat.fib (height l + 1 + 2) = Nat.fib (height l + 1) + Nat.fib (height l + 2) :=
        Nat.fib_add_two
      omega

/-- The powers of the golden ratio are bounded by the Fibonacci numbers two
places further on. -/
theorem goldenRatio_pow_le_fib (n : Nat) : goldenRatio ^ n ≤ (Nat.fib (n + 2) : ℝ) := by
  cases n with
  | zero => simp
  | succ n =>
    have h1 := fib_golden_exp' n
    have h2 : goldenRatio ≤ 2 := le_of_lt gold_lt_two
    have h3 : (0 : ℝ) ≤ (Nat.fib (n + 1) : ℝ) := Nat.cast_nonneg _
    have h4 : (Nat.fib (n + 1 + 2) : ℝ) = (Nat.fib (n + 1) : ℝ) + (Nat.fib (n + 2) : ℝ) := by
      rw [show n + 1 + 2 = (n + 1) + 2 from rfl, Nat.fib_add_two]; push_cast; ring
    have h5 : (Nat.fib (n + 2) : ℝ) = (Nat.fib n : ℝ) + (Nat.fib (n + 1) : ℝ) := by
      rw [Nat.fib_add_two]; push_cast; ring
    rw [← h1, h4, h5]
    nlinarith

/-- C12: every state reachable from the empty tree by calls of `insert` and
`remove` holds a tree with `n` nodes and height `h` (counted in nodes, 0 for
the empty tree) such that `Fib(h+2) ≤ n + 1`, that is `n ≥ Fib(h+2) - 1`; hence the golden ratio to the
power `h` is below `n + 2`, that is `h ≤ log_φ (n + 2)`. -/
theorem reachable_height_bound [LinearOrder K] (t : AVLTree K V) (h : Reachable t) :
    ∃ T, Models t T ∧ Nat.fib (T.height + 2) ≤ T.size + 1 ∧
      goldenRatio ^ T.height < (T.size : ℝ) + 2 ∧
      (T.height : ℝ) ≤ Real.logb goldenRatio ((T.size : ℝ) + 2) := by
  obtain ⟨T, hT⟩ := reachable_valid h
  have hf := fib_height_le_size T (heightBalanced_of_balanced T hT.2.2)
  have hg : goldenRatio ^ T.height < (T.size : ℝ) + 2 := by
    have h1 := goldenRatio_pow_le_fib T.height
    have h2 : (Nat.fib (T.height + 2) : ℝ) ≤ ((T.size + 1 : Nat) : ℝ) := Nat.cast_le.mpr hf
    push_cast at h2
    linarith
  refine ⟨T, hT.1, hf, hg, ?_⟩
  rw [Real.le_logb_iff_rpow_le one_lt_gold (by positivity), Real.rpow_natCast]
  exact le_of_lt hg

theorem reachable_height_bound_witness :
    Reachable sampleTree ∧
    ∃ T, Models sampleTree T ∧ Nat.fib (T.height + 2) ≤ T.size + 1 ∧
      goldenRatio ^ T.height < (T.size : ℝ) + 2 ∧
      (T.height : ℝ) ≤ Real.logb goldenRatio ((T.size : ℝ) + 2) :=
  ⟨sampleTree_reachable, reachable_height_bound sampleTree sampleTree_reachable⟩

end HeightCheck

section PathLength
open EqualPaths

/-! ## The path-length check -/

theorem leafDepths_ne_nil (root : Node) (h : root ≠ Node.nullptr) : leafDepths root ≠ [] := by
  induction root with
  | nullptr => exact absurd rfl h
  | node l k r ihl ihr =>
    simp only [leafDepths]
    split_ifs with hc
    · simp
    · simp only [ne_eq, List.map_eq_nil_iff, List.append_eq_nil, not_and]
      intro h1 h2
      by_cases hl : l = Node.nullptr
      · exact ihr (fun hr => hc ⟨hl, hr⟩) h2
      · exact ihl hl h1

/-- What `path_len` returns: 0 on the empty tree and on no other, the common
length of the root-to-leaf paths when they are all equal, and -1 when two of
them differ. -/
theorem path_len_spec (root : Node) :
    (root = Node.nullptr → path_len root = 0) ∧
    (root ≠ Node.nullptr →
      (∃ d : Nat, 1 ≤ d ∧ path_len root = (d : Int) ∧ ∀ x ∈ leafDepths root, x = d) ∨
      (path_len root = -1 ∧ ∃ x ∈ leafDepths root, ∃ y ∈ leafDepths root, x ≠ y)) := by
  induction root with
  | nullptr => exact ⟨fun _ => rfl, fun h => absurd rfl h⟩
  | node l k r ihl ihr =>
    refine ⟨fun h => (by cases h), fun _ => ?_⟩
    by_cases hl : l = Node.nullptr
    · subst hl
      by_cases hr : r = Node.nullptr
      · subst hr
        exact Or.inl ⟨1, le_refl _, by simp [path_len], by simp [leafDepths]⟩
      · rcases ihr.2 hr with ⟨d, hd1, hd2, hd3⟩ | ⟨hd1, x, hx, y, hy, hxy⟩
        · left
          refine ⟨d + 1, by omega, ?_, ?_⟩
          · have : ¬ ((d : Int) = -1) := by omega
            simp [path_len, hd2, this]
          · intro x hx
            simp only [leafDepths, hr, and_false, if_false, List.nil_append, List.mem_map] at hx
            obtain ⟨y, hy, rfl⟩ := hx
            rw [hd3 y hy]
        · right
          refine ⟨by simp [path_len, hd1], x + 1, ?_, y + 1, ?_, by omega⟩
          · simp only [leafDepths, hr, and_false, if_false, List.nil_append, List.mem_map]
            exact ⟨x, hx, rfl⟩
          · simp only [leafDepths, hr, and_false, if_false, List.nil_append, List.mem_map]
            exact ⟨y, hy, rfl⟩
    · have hdep : leafDepths (Node.node l k r)
          = (leafDepths l ++ leafDepths r).map (· + 1) := by
        simp [leafDepths, hl]
      rw [hdep]
      rcases ihl.2 hl with ⟨d, hd1, hd2, hd3⟩ | ⟨hd1, x, hx, y, hy, hxy⟩
      · by_cases hr : r = Node.nullptr
        · subst hr
          left
          refine ⟨d + 1, by omega, ?_, ?_⟩
          · have h1 : ¬ ((d : Int) = -1) := by omega
            have h2 : ¬ ((d : Int) = 0) := by omega
            simp [path_len, hd2, h1, h2]
          · intro x hx
            simp only [leafDepths, List.append_nil, List.mem_map] at hx
            obtain ⟨y, hy, rfl⟩ := hx
            rw [hd3 y hy]
        · rcases ihr.2 hr with ⟨e, he1, he2, he3⟩ | ⟨he1, x, hx, y, hy, hxy⟩
          · by_cases hde : d = e
            · subst hde
              left
              refine ⟨d + 1, by omega, ?_, ?_⟩
              · have h1 : ¬ ((d : Int) = -1) := by omega
                have h2 : ¬ ((d : Int) = 0) := by omega
                simp [path_len, hd2, he2, h1, h2]
              · intro x hx
                simp only [List.mem_map, List.mem_append] at hx
                obtain ⟨y, hy | hy, rfl⟩ := hx
                · rw [hd3 y hy]
                · rw [he3 y hy]
            · right
              have h1 : ¬ ((d : Int) = -1) := by omega
              have h2 : ¬ ((d : Int) = 0) := by omega
              have h3 : ¬ ((e : Int) = -1) := by omega
              have h4 : ¬ ((e : Int) = 0) := by omega
              have h5 : ¬ ((d : Int) = (e : Int)) := by omega
              obtain ⟨x, hx⟩ : ∃ x, x ∈ leafDepths l :=
                List.exists_mem_of_ne_nil _ (leafDepths_ne_nil l hl)
              obtain ⟨y, hy⟩ : ∃ y, y ∈ leafDepths r :=
                List.exists_mem_of_ne_nil _ (leafDepths_ne_nil r hr)
              refine ⟨by simp [path_len, hd2, he2, h1, h2, h3, h4, h5], x + 1, ?_, y + 1, ?_, ?_⟩
              · simp only [List.mem_map, List.mem_append]
                exact ⟨x, Or.inl hx, rfl⟩
              · simp only [List.mem_map, List.mem_append]
                exact ⟨y, Or.inr hy, rfl⟩
              · rw [hd3 x hx, he3 y hy]; omega
          · right
            refine ⟨by simp [path_len, he1], x + 1, ?_, y + 1, ?_, by omega⟩
            · simp only [List.mem_map, List.mem_append]
              exact ⟨x, Or.inr hx, rfl⟩
            · simp only [List.mem_map, List.mem_append]
              exact ⟨y, Or.inr hy, rfl⟩
      · right
        refine ⟨by simp [path_len, hd1], x + 1, ?_, y + 1, ?_, by omega⟩
        · simp only [List.mem_map, List.mem_append]
          exact ⟨x, Or.inl hx, rfl⟩
        · simp only [List.mem_map, List.mem_append]
          exact ⟨y, Or.inl hy, rfl⟩

/-- C18: for every binary tree, `equalPaths(root)` returns true exactly when
all root-to-leaf paths have the same length; it returns true for the empty
tree and for a single node; `path_len` returns the common path length in
nodes when the paths are equal (0 for the empty tree) and -1 otherwise. -/
theorem equalPaths_correct (root : Node) :
    (equalPaths root = true ↔
      ∀ x ∈ leafDepths root, ∀ y ∈ leafDepths root, x = y) ∧
    equalPaths Node.nullptr = true ∧
    (∀ k : Int, equalPaths (Node.node Node.nullptr k Node.nullptr) = true) ∧
    ((∀ x ∈ leafDepths root, ∀ y ∈ leafDepths root, x = y) →
      ∀ d ∈ leafDepths root, path_len root = (d : Int)) ∧
    (¬ (∀ x ∈ leafDepths root, ∀ y ∈ leafDepths root, x = y) → path_len root = -1) ∧
    path_len Node.nullptr = 0 := by
  have key : (path_len root ≠ -1 ↔ ∀ x ∈ leafDepths root, ∀ y ∈ leafDepths root, x = y) ∧
      ((∀ x ∈ leafDepths root, ∀ y ∈ leafDepths root, x = y) →
        ∀ d ∈ leafDepths root, path_len root = (d : Int)) := by
    by_cases hn : root = Node.nullptr
    · subst hn
      simp [path_len, leafDepths]
    · rcases (path_len_spec root).2 hn with ⟨d, hd1, hd2, hd3⟩ | ⟨hd1, x, hx, y, hy, hxy⟩
      · refine ⟨⟨fun _ x hx y hy => by rw [hd3 x hx, hd3 y hy], fun _ => by rw [hd2]; omega⟩,
          fun _ x hx => by rw [hd2, hd3 x hx]⟩
      · refine ⟨⟨fun h => absurd hd1 h, fun h => absurd (h x hx y hy) hxy⟩,
          fun h => absurd (h x hx y hy) hxy⟩
  refine ⟨?_, by decide, fun k => by simp [equalPaths, path_len], key.2, ?_, rfl⟩
  · simp only [equalPaths, decide_eq_true_eq]
    exact key.1
  · intro h
    by_contra h2
    exact h (key.1.mp h2)

end PathLength

section Clear
open Shape
variable {K V : Type}

/-! ## `clear` and `empty` -/

/-- Refinement of `clear_helper`: on a heap that holds the subtree the call
returns, every cell of the subtree is released and no other cell changes. -/
theorem clear_helper_spec (s : Shape K V) :
    ∀ (par : Option Nat) (fuel : Nat) (t : BinarySearchTree K V),
      RepTree t par s → s.addrs.Nodup → s.height ≤ fuel →
      ∃ t2, BinarySearchTree.clear_helper fuel t s.ptr = some t2 ∧ t2.root_ = t.root_ ∧
        ∀ x, deref t2 (some x) = if x ∈ s.addrs then none else deref t (some x) := by
  induction s with
  | nil =>
    intro par fuel t _ _ _
    exact ⟨t, by cases fuel <;> rfl, rfl, fun x => by simp [Shape.addrs]⟩
  | node a l k v b r ihl ihr =>
    intro par fuel t h hnd hf
    cases fuel with
    | zero => simp [Shape.height] at hf
    | succ fuel =>
      simp only [Shape.height, Nat.add_le_add_iff_right, max_le_iff] at hf
      obtain ⟨h1, h2, h3⟩ := h
      simp only [Shape.addrs, List.nodup_cons, List.mem_append, not_or,
        List.nodup_append] at hnd
      obtain ⟨⟨hal, har⟩, hl, hr, hdis⟩ := hnd
      obtain ⟨t1, e1, r1, d1⟩ := ihl (some a) fuel t h2 hl hf.1
      have ha1 : deref t1 (some a) = some ⟨k, v, par, l.ptr, r.ptr, b⟩ := by
        rw [d1, if_neg hal]; exact h1
      have h3b : RepTree t1 (some a) r :=
        RepTree_congr h3 (fun x hx => by
          rw [d1, if_neg (fun hxl => hdis hxl hx)])
      obtain ⟨t2, e2, r2, d2⟩ := ihr (some a) fuel t1 h3b hr hf.2
      have ha2 : deref t2 (some a) = some ⟨k, v, par, l.ptr, r.ptr, b⟩ := by
        rw [d2, if_neg har]; exact ha1
      refine ⟨free t2 a, ?_, ?_, ?_⟩
      · simp [BinarySearchTree.clear_helper, getLeft, getRight, h1, ha1, e1, e2, delete, ha2]
      · simp [r1, r2]
      · intro x
        rw [deref_free, d2, d1]
        simp only [Shape.addrs, List.mem_cons, List.mem_append]
        by_cases hxa : x = a
        · simp [hxa]
        · by_cases hxr : x ∈ r.addrs
          · simp [hxa, hxr]
          · by_cases hxl : x ∈ l.addrs
            · simp [hxa, hxr, hxl]
            · simp [hxa, hxr, hxl]

/-- Refinement of `clear`: the call returns, every node is released and the
root pointer is null. -/
theorem clear_spec {t : BinarySearchTree K V} {T : Shape K V} (h : Models t T) :
    ∃ t2, BinarySearchTree.clear t = some t2 ∧ t2.root_ = none ∧
      ∀ a ∈ T.addrs, deref t2 (some a) = none := by
  obtain ⟨t1, e1, -, d1⟩ := clear_helper_spec T none t.mem.length t h.2.1 h.2.2
    (le_trans (height_le_size _) (models_size_le h))
  refine ⟨{ t1 with root_ := none }, ?_, rfl, ?_⟩
  · simp [BinarySearchTree.clear, h.1, e1]
  · intro a ha
    rw [deref_set_root, d1, if_pos ha]

theorem toList_insert_helper_ne_nil [LinearOrder K] (fresh : Nat) (item : K × V)
    (s : Shape K V) :
    ∀ (c : List (Frame K V)), s ≠ nil → toList (insert_helper fresh item c s) ≠ [] := by
  induction s with
  | nil => intro c hs; exact absurd rfl hs
  | node a l k v b r ihl ihr =>
    intro c _
    simp only [insert_helper]
    by_cases hlt : item.1 < k
    · rw [if_pos hlt]
      by_cases hn : l.ptr = none
      · rw [if_pos hn]
        split_ifs <;> simp [toList_insert_fix, toList_plug, toList]
      · rw [if_neg hn]
        exact ihl _ (fun e => hn ((ptr_eq_none_iff l).mpr e))
    · rw [if_neg hlt]
      by_cases heq : item.1 = k
      · rw [if_pos heq]
        simp [toList_plug, toList]
      · rw [if_neg heq]
        by_cases hn : r.ptr = none
        · rw [if_pos hn]
          split_ifs <;> simp [toList_insert_fix, toList_plug, toList]
        · rw [if_neg hn]
          exact ihr _ (fun e => hn ((ptr_eq_none_iff r).mpr e))

/-- The tree after `insert` has a node. -/
theorem insert_ne_nil [LinearOrder K] (fresh : Nat) (T : Shape K V) (item : K × V) :
    (Shape.insert fresh T item).ptr ≠ none := by
  cases T with
  | nil => simp [Shape.insert]
  | node a l k v b r =>
    intro hp
    have hnil := (ptr_eq_none_iff _).mp hp
    have := toList_insert_helper_ne_nil fresh item (node a l k v b r) [] (by simp)
    simp only [Shape.insert] at hnil
    rw [hnil] at this
    exact this rfl

/-- C16: on every heap that holds a tree, `clear()` returns and leaves the
empty tree: all nodes are released, `empty()` returns true, `begin()` equals
`end()` and `find(k)` is the end sentinel for every key; `empty()` returns
true exactly when the tree holds no node, and it returns false after every
`insert`. -/
theorem clear_leaves_empty [LinearOrder K] (t : BinarySearchTree K V) (T : Shape K V)
    (h : Models t T) :
    (∃ t2, BinarySearchTree.clear t = some t2 ∧ Models t2 Shape.nil ∧
      BinarySearchTree.empty t2 = true ∧
      BinarySearchTree.begin t2 = some (BinarySearchTree.end_ t2) ∧
      (∀ k : K, BinarySearchTree.find t2 k = some (BinarySearchTree.end_ t2)) ∧
      (∀ a ∈ T.addrs, deref t2 (some a) = none)) ∧
    (BinarySearchTree.empty t = true ↔ T.size = 0) ∧
    (∀ new_item : K × V, ∃ t3, AVLTree.insert t new_item = some t3 ∧
      BinarySearchTree.empty t3 = false) := by
  refine ⟨?_, ?_, ?_⟩
  · obtain ⟨t2, e, hr, hd⟩ := clear_spec h
    refine ⟨t2, e, ⟨hr, trivial, List.nodup_nil⟩, by simp [BinarySearchTree.empty, hr],
      by simp [BinarySearchTree.begin, BinarySearchTree.getSmallestNode, hr,
        BinarySearchTree.end_], ?_, hd⟩
    intro k
    show BinarySearchTree.internalFind t2 k = some none
    unfold BinarySearchTree.internalFind
    rw [hr]
    cases t2.mem.length <;> rfl
  · cases T with
    | nil => simp [BinarySearchTree.empty, h.1, Shape.size]
    | node a l k v b r => simp [BinarySearchTree.empty, h.1, Shape.size]
  · intro new_item
    obtain ⟨t3, e, m⟩ := insert_spec new_item h
    refine ⟨t3, e, ?_⟩
    have := insert_ne_nil t.mem.length T new_item
    simp [BinarySearchTree.empty, m.1, this]

theorem clear_leaves_empty_witness :
    Models sampleTree sampleShape ∧
    ((∃ t2, BinarySearchTree.clear sampleTree = some t2 ∧ Models t2 Shape.nil ∧
      BinarySearchTree.empty t2 = true ∧
      BinarySearchTree.begin t2 = some (BinarySearchTree.end_ t2) ∧
      (∀ k : Nat, BinarySearchTree.find t2 k = some (BinarySearchTree.end_ t2)) ∧
      (∀ a ∈ sampleShape.addrs, deref t2 (some a) = none)) ∧
    (BinarySearchTree.empty sampleTree = true ↔ sampleShape.size = 0) ∧
    (∀ new_item : Nat × Nat, ∃ t3, AVLTree.insert sampleTree new_item = some t3 ∧
      BinarySearchTree.empty t3 = false)) :=
  ⟨sampleTree_valid.1, clear_leaves_empty sampleTree sampleShape sampleTree_valid.1⟩

end Clear

section Links
open Shape
variable {K V : Type}

/-! ## Link consistency -/

/-- Where `remove_step` has no result, `remove_fix` dereferences a null
pointer and does not return. -/
theorem remove_fix_step_none {t : AVLTree K V} {c : List (Frame K V)} {n : Nat}
    {L R : Shape K V} {kn : K} {vn : V} {nb : Int} {diff : Int}
    (h : ModelsAt t c (node n L kn vn nb R))
    (hs : remove_step diff (node n L kn vn nb R) = none) (fuel : Nat) :
    AVLTree.remove_fix (fuel + 1) t (some n) diff = none := by
  have r1 := getParent_focus h
  have r2 := ndiff_focus h
  have r3 := getBalance_focus h
  have r4 := getLeft_focus h
  have r5 := getRight_focus h
  simp only [AVLTree.remove_fix, reduceCtorEq, if_false, r1, r2, r3, andThen_some]
  simp only [remove_step] at hs
  by_cases hs2 : nb + diff = -2
  · simp only [hs2, if_true] at hs ⊢
    cases L with
    | nil => simp [r4, getBalance]
    | node c A kc vc cb B =>
      have hc := modelsAt_left.mp h
      have r6 := getBalance_focus hc
      have r7 := getRight_focus hc
      simp only [r4, r6, ptr_node, andThen_some] at hs ⊢
      by_cases hz : cb = -1
      · simp [hz] at hs
      simp only [hz, if_false] at hs ⊢
      by_cases hz0 : cb = 0
      · simp [hz0] at hs
      simp only [hz0, if_false] at hs ⊢
      by_cases hz1 : cb = 1
      · simp only [hz1, if_true] at hs ⊢
        cases B with
        | nil => simp [r7, AVLTree.rotate_left, getLeft]
        | node g B1 kg vg gb B2 =>
          by_cases g1 : gb = 1
          · simp [g1] at hs
          by_cases g0 : gb = 0
          · simp [g0] at hs
          by_cases gm : gb = -1
          · simp [gm] at hs
          · simp [g1, g0, gm] at hs
      · simp [hz1] at hs
  simp only [hs2, if_false] at hs ⊢
  by_cases hs3 : nb + diff = 2
  · simp only [hs3, if_true] at hs ⊢
    cases R with
    | nil => simp [r5, getBalance]
    | node c A kc vc cb B =>
      have hc := modelsAt_right.mp h
      have r6 := getBalance_focus hc
      have r7 := getLeft_focus hc
      simp only [r5, r6, ptr_node, andThen_some] at hs ⊢
      by_cases hz : cb = 1
      · simp [hz] at hs
      simp only [hz, if_false] at hs ⊢
      by_cases hz0 : cb = 0
      · simp [hz0] at hs
      simp only [hz0, if_false] at hs ⊢
      by_cases hz1 : cb = -1
      · simp only [hz1, if_true] at hs ⊢
        cases A with
        | nil => simp [r7, AVLTree.rotate_right, getRight]
        | node g A1 kg vg gb A2 =>
          by_cases g1 : gb = 1
          · simp [g1] at hs
          by_cases g0 : gb = 0
          · simp [g0] at hs
          by_cases gm : gb = -1
          · simp [gm] at hs
          · simp [g1, g0, gm] at hs
      · simp [hz1] at hs
  simp only [hs3, if_false] at hs
  by_cases g1 : nb + diff = -1
  · simp [g1] at hs
  by_cases g0 : nb + diff = 1
  · simp [g0] at hs
  by_cases gm : nb + diff = 0
  · simp [gm] at hs
  · simp [g1, g0, gm] at hs

/-- Where `Shape.remove_fix` has no result, `remove_fix` does not return. -/
theorem remove_fix_none (c : List (Frame K V)) :
    ∀ (fuel : Nat) (t : AVLTree K V) (s : Shape K V),
      ModelsAt t c s → Shape.remove_fix c s = none →
      AVLTree.remove_fix fuel t (pathPtr c) (pathDiff c) = none := by
  induction c with
  | nil => intro fuel t s _ hs; simp [Shape.remove_fix] at hs
  | cons f c ih =>
    intro fuel t s h hs
    cases fuel with
    | zero => rfl
    | succ fuel =>
      have hN := (modelsAt_cons f c s).mp h
      simp only [Shape.remove_fix] at hs
      have hfill : ∃ L R kn vn nb, f.fill s = node f.addr L kn vn nb R := by
        cases f <;> exact ⟨_, _, _, _, _, rfl⟩
      obtain ⟨L, R, kn, vn, nb, hfe⟩ := hfill
      rw [hfe] at hN hs
      cases hstep : remove_step f.diff (node f.addr L kn vn nb R) with
      | none =>
        simp only [pathPtr, pathDiff]
        exact remove_fix_step_none hN hstep fuel
      | some res =>
        obtain ⟨s2, cont⟩ := res
        obtain ⟨t1, m1, l1, e1⟩ := remove_fix_step hN hstep fuel
        simp only [pathPtr, pathDiff, e1]
        cases cont with
        | true =>
          simp only [hstep] at hs
          simpa using ih fuel t1 s2 m1 hs
        | false => simp [hstep] at hs

/-- Where `Shape.remove` has no result, `remove` does not return. -/
theorem remove_none [LinearOrder K] {t : AVLTree K V} {T : Shape K V} (key : K)
    (h : Models t T) (hT : Shape.remove T key = none) : AVLTree.remove t key = none := by
  have hfind := internalFind_spec key h
  rw [← descend_ptr key T []] at hfind
  have hplug := descend_plug key T []
  unfold Shape.remove at hT
  unfold AVLTree.remove
  rw [hfind]
  rcases hd : descend key [] T with ⟨c, s⟩
  rw [hd] at hplug hT
  simp only at hplug
  have hm : ModelsAt t c s := by
    rw [← models_plug, hplug]; exact h
  cases s with
  | nil => simp at hT
  | node n L kn vn nb R =>
    have r1 := getLeft_focus hm
    have r2 := getRight_focus hm
    simp only [ptr_node, andThen_some, reduceCtorEq, if_false, r1, r2]
    cases L with
    | nil =>
      simp only at hT
      obtain ⟨t2, m2, l2, e2⟩ := splice_spec hm (Or.inl rfl)
      simp only [ptr_nil, if_true] at m2
      have e3 := remove_fix_none c (t.mem.length + 1) t2 _ m2 hT
      simp only [ptr_nil, ne_eq, not_true_eq_false, if_false, andThen_some, Bool.false_eq_true]
      rw [e2]; exact e3
    | node al ll kl vl bl rl =>
      cases R with
      | nil =>
        simp only at hT
        obtain ⟨t2, m2, l2, e2⟩ := splice_spec hm (Or.inr rfl)
        simp only [ptr_node, reduceCtorEq, if_false] at m2
        have e3 := remove_fix_none c (t.mem.length + 1) t2 _ m2 hT
        simp only [ptr_node, ptr_nil, ne_eq, not_true_eq_false, reduceCtorEq, not_false_eq_true,
          if_true, if_false, andThen_some, decide_False, Bool.false_eq_true]
        rw [e2]; exact e3
      | node ar lr kr vr br rr =>
        simp only at hT
        obtain ⟨cm, m, ML, km, vm, mb, hdr, hall⟩ :=
          descendRight_shape (node al ll kl vl bl rl) [] (by simp)
        have hdp := descendRight_plug (node al ll kl vl bl rl) []
        rw [hdr] at hdp hT
        simp only [List.append_nil, plug] at hdp
        simp only [List.append_nil] at hT
        have hpred : BinarySearchTree.predecessor t (some n) = some (some m) := by
          have hrep : RepTree t (some n) (node al ll kl vl bl rl) := hm.2.2.1.2.1
          have hh : (node al ll kl vl bl rl).height ≤ t.mem.length + 1 := by
            have h1 := path_length_le hm
            have h2 := height_le_size (node al ll kl vl bl rl)
            simp only [Shape.size] at h1 h2 ⊢
            omega
          have := predecessor_descend_spec (node al ll kl vl bl rl) (some n) _ [] hrep
            (by simp) hh
          rw [hdr] at this
          simpa [BinarySearchTree.predecessor, r1] using this
        have hm2 : ModelsAt t (cm ++ Frame.left n kn vn nb (node ar lr kr vr br rr) :: c)
            (node m ML km vm mb nil) := by
          rw [modelsAt_append, hdp]
          exact modelsAt_left.mp hm
        obtain ⟨t1, e1, m1, l1⟩ := nodeSwap_spec hall (by simp) hm2
        obtain ⟨t2, m2, l2, e2⟩ := splice_spec m1 (Or.inr rfl)
        have hT2 : Shape.remove_fix
            (cm ++ Frame.left m km vm (int8 nb) (node ar lr kr vr br rr) :: c)
            (if ML.ptr = none then nil else ML) = none := hT
        have e3 := remove_fix_none _ (t1.mem.length + 1) t2 _ m2 hT2
        simp only [ptr_node, ne_eq, reduceCtorEq, not_false_eq_true, if_true, andThen_some,
          decide_True, hpred, e1]
        rw [e2]; exact e3

/-- C19: parent/child link consistency is kept by `insert` and `remove`.  On a
heap whose cells form a binary tree with consistent parent links (every child
has its parent as parent link, the root has none, the nodes are those below
the root), `insert` returns and the cells again form such a tree; whenever
`remove` returns the cells again form such a tree, and it returns on every
tree with correct balance factors. -/
theorem links_preserved [LinearOrder K] (t : AVLTree K V) (T : Shape K V) (h : Models t T) :
    (∀ new_item : K × V, ∃ t2 T2, AVLTree.insert t new_item = some t2 ∧ Models t2 T2) ∧
    (∀ (key : K) (t2 : AVLTree K V), AVLTree.remove t key = some t2 → ∃ T2, Models t2 T2) ∧
    (T.balanced → ∀ key : K, ∃ t2 T2, AVLTree.remove t key = some t2 ∧ Models t2 T2) := by
  refine ⟨?_, ?_, ?_⟩
  · intro new_item
    obtain ⟨t2, e, m⟩ := insert_spec new_item h
    exact ⟨t2, _, e, m⟩
  · intro key t2 e
    cases hT : Shape.remove T key with
    | none => rw [remove_none key h hT] at e; cases e
    | some T2 =>
      obtain ⟨t3, e3, m3⟩ := remove_spec key h hT
      rw [e] at e3
      cases e3
      exact ⟨T2, m3⟩
  · intro hb key
    obtain ⟨T2, e, -⟩ := balanced_remove T key hb
    obtain ⟨t2, e2, m⟩ := remove_spec key h e
    exact ⟨t2, T2, e2, m⟩

theorem links_preserved_witness :
    Models sampleTree sampleShape ∧
    (∀ new_item : Nat × Nat, ∃ t2 T2,
      AVLTree.insert sampleTree new_item = some t2 ∧ Models t2 T2) ∧
    (∀ (key : Nat) (t2 : AVLTree Nat Nat), AVLTree.remove sampleTree key = some t2 →
      ∃ T2, Models t2 T2) ∧
    (sampleShape.balanced → ∀ key : Nat, ∃ t2 T2,
      AVLTree.remove sampleTree key = some t2 ∧ Models t2 T2) :=
  ⟨sampleTree_valid.1, links_preserved sampleTree sampleShape sampleTree_valid.1⟩

end Links

section Iteration
open Shape
variable {K V : Type}

/-! ## The nodes in order -/

theorem cells_plug (c : List (Frame K V)) (s : Shape K V) :
    cells (plug c s) = pathBeforeCells c ++ cells s ++ pathAfterCells c := by
  induction c generalizing s with
  | nil => simp [plug, pathBeforeCells, pathAfterCells]
  | cons f c ih =>
    cases f <;> simp [plug, ih, Frame.fill, cells, pathBeforeCells, pathAfterCells]

theorem toList_eq_cells (s : Shape K V) : toList s = (cells s).map Prod.snd := by
  induction s with
  | nil => rfl
  | node a l k v b r ihl ihr => simp [toList, cells, ihl, ihr]

theorem cells_addrs_perm (s : Shape K V) : ((cells s).map Prod.fst).Perm s.addrs := by
  induction s with
  | nil => exact List.Perm.refl _
  | node a l k v b r ihl ihr =>
    simp only [cells, List.map_append, List.map_cons, Shape.addrs]
    exact List.perm_middle.trans ((ihl.append ihr).cons a)

theorem cells_eq_nil_iff (s : Shape K V) : cells s = [] ↔ s = nil := by
  cases s <;> simp [cells]

theorem pathBeforeCells_append (c1 c2 : List (Frame K V)) :
    pathBeforeCells (c1 ++ c2) = pathBeforeCells c2 ++ pathBeforeCells c1 := by
  induction c1 with
  | nil => simp [pathBeforeCells]
  | cons f c1 ih =>
    cases f with
    | left a k v b r =>
      show pathBeforeCells (Frame.left a k v b r :: (c1 ++ c2)) = _
      simp only [pathBeforeCells, ih]
    | right a l k v b =>
      show pathBeforeCells (Frame.right a l k v b :: (c1 ++ c2)) = _
      simp only [pathBeforeCells, ih, List.append_assoc]

theorem pathAfterCells_append (c1 c2 : List (Frame K V)) :
    pathAfterCells (c1 ++ c2) = pathAfterCells c1 ++ pathAfterCells c2 := by
  induction c1 with
  | nil => simp [pathAfterCells]
  | cons f c1 ih =>
    cases f with
    | left a k v b r =>
      show pathAfterCells (Frame.left a k v b r :: (c1 ++ c2)) = _
      simp only [pathAfterCells, ih, List.append_assoc]
    | right a l k v b =>
      show pathAfterCells (Frame.right a l k v b :: (c1 ++ c2)) = _
      simp only [pathAfterCells, ih]

/-- Every place in the in-order sequence is the place of a node of the tree:
the nodes before it are those before the node, the nodes after it are the
right subtree of the node followed by what comes after on the path. -/
theorem cells_position (T : Shape K V) :
    ∀ (pre post : List (Nat × (K × V))) (a : Nat) (k : K) (v : V),
      cells T = pre ++ (a, (k, v)) :: post →
      ∃ c l b r, plug c (node a l k v b r) = T ∧ pathBeforeCells c ++ cells l = pre ∧
        cells r ++ pathAfterCells c = post := by
  induction T with
  | nil => intro pre post a k v h; simp [cells] at h
  | node x l kx vx bx r ihl ihr =>
    intro pre post a k v h
    simp only [cells] at h
    rcases List.append_eq_append_iff.mp h with ⟨m, hm1, hm2⟩ | ⟨m, hm1, hm2⟩
    · cases m with
      | nil =>
        simp only [List.nil_append, List.cons.injEq, Prod.mk.injEq] at hm2
        obtain ⟨⟨rfl, rfl, rfl⟩, rfl⟩ := hm2
        exact ⟨[], l, bx, r, rfl, by simp [pathBeforeCells, hm1],
          by simp [pathAfterCells]⟩
      | cons e m =>
        simp only [List.cons_append, List.cons.injEq] at hm2
        obtain ⟨rfl, hm2⟩ := hm2
        obtain ⟨c, l2, b2, r2, e1, e2, e3⟩ := ihr m post a k v hm2
        refine ⟨c ++ [Frame.right x l kx vx bx], l2, b2, r2, ?_, ?_, ?_⟩
        · rw [plug_append, e1]; rfl
        · rw [pathBeforeCells_append, hm1, ← e2]
          simp [pathBeforeCells]
        · rw [pathAfterCells_append, ← e3]
          simp [pathAfterCells]
    · cases m with
      | nil =>
        simp only [List.nil_append, List.cons.injEq, Prod.mk.injEq] at hm2
        obtain ⟨⟨rfl, rfl, rfl⟩, rfl⟩ := hm2
        exact ⟨[], l, bx, r, rfl, by simp [pathBeforeCells, hm1],
          by simp [pathAfterCells]⟩
      | cons e m =>
        simp only [List.cons_append, List.cons.injEq] at hm2
        obtain ⟨rfl, hm2⟩ := hm2
        obtain ⟨c, l2, b2, r2, e1, e2, e3⟩ := ihl pre m a k v hm1
        refine ⟨c ++ [Frame.left x kx vx bx r], l2, b2, r2, ?_, ?_, ?_⟩
        · rw [plug_append, e1]; rfl
        · rw [pathBeforeCells_append, ← e2]
          simp [pathBeforeCells]
        · rw [pathAfterCells_append, hm2, ← e3]
          simp [pathAfterCells]

/-! ## Refinement of `successor` and `getSmallestNode` -/

/-- Refinement of the first loop of `successor`: it ends at the first node of
the subtree in order. -/
theorem successor_descend_spec {t : BinarySearchTree K V} (s : Shape K V) :
    ∀ (par : Option Nat) (fuel : Nat), RepTree t par s → s ≠ nil → s.height ≤ fuel →
      BinarySearchTree.successor_descend t fuel s.ptr
        = some ((cells s).head?.map Prod.fst) := by
  induction s with
  | nil => intro par fuel _ hs; exact absurd rfl hs
  | node a l k v b r ihl _ =>
    intro par fuel h _ hf
    cases fuel with
    | zero => simp [Shape.height] at hf
    | succ fuel =>
      simp only [Shape.height, Nat.add_le_add_iff_right, max_le_iff] at hf
      obtain ⟨h1, h2, h3⟩ := h
      cases l with
      | nil => simp [BinarySearchTree.successor_descend, getLeft, h1, cells]
      | node a2 l2 k2 v2 b2 r2 =>
        have := ihl (some a) fuel h2 (by simp) hf.1
        simp only [ptr_node] at this
        simp [BinarySearchTree.successor_descend, getLeft, h1, this, cells]

/-- Refinement of the loop of `getSmallestNode`. -/
theorem getSmallestNode_loop_spec {t : BinarySearchTree K V} (s : Shape K V) :
    ∀ (par : Option Nat) (fuel : Nat), RepTree t par s → s ≠ nil → s.height ≤ fuel →
      BinarySearchTree.getSmallestNode_loop t fuel s.ptr
        = some ((cells s).head?.map Prod.fst) := by
  induction s with
  | nil => intro par fuel _ hs; exact absurd rfl hs
  | node a l k v b r ihl _ =>
    intro par fuel h _ hf
    cases fuel with
    | zero => simp [Shape.height] at hf
    | succ fuel =>
      simp only [Shape.height, Nat.add_le_add_iff_right, max_le_iff] at hf
      obtain ⟨h1, h2, h3⟩ := h
      cases l with
      | nil => simp [BinarySearchTree.getSmallestNode_loop, getLeft, h1, cells]
      | node a2 l2 k2 v2 b2 r2 =>
        have := ihl (some a) fuel h2 (by simp) hf.1
        simp only [ptr_node] at this
        simp [BinarySearchTree.getSmallestNode_loop, getLeft, h1, this, cells]

/-- Refinement of the second loop of `successor`: it goes up as long as the
node is a right child and ends at the first node that comes after the path's
open slot in order, or at null. -/
theorem successor_ascend_spec {t : BinarySearchTree K V} (c : List (Frame K V)) :
    ∀ (fuel : Nat) (a : Nat) (l r : Shape K V) (k : K) (v : V) (b : Int),
      ModelsAt t c (node a l k v b r) → c.length < fuel →
      BinarySearchTree.successor_ascend t fuel (some a)
        = some ((pathAfterCells c).head?.map Prod.fst) := by
  induction c with
  | nil =>
    intro fuel a l r k v b h hf
    cases fuel with
    | zero => simp at hf
    | succ fuel =>
      simp [BinarySearchTree.successor_ascend, getParent_focus h, pathAfterCells]
  | cons f c ih =>
    intro fuel a l r k v b h hf
    cases fuel with
    | zero => simp at hf
    | succ fuel =>
      have hf2 : c.length < fuel := by simpa using hf
      have r1 := getParent_focus h
      cases f with
      | left g kg vg bg R =>
        have hg := modelsAt_left.mpr h
        have r2 := getRight_focus hg
        have hne : some a ≠ R.ptr := fun e => modelsAt_right_ne_left hg e.symm
        simp [BinarySearchTree.successor_ascend, r1, r2, hne, pathAfterCells]
      | right g L kg vg bg =>
        have hg := modelsAt_right.mpr h
        have r2 := getRight_focus hg
        have := ih fuel g L _ kg vg bg hg hf2
        simp [BinarySearchTree.successor_ascend, r1, r2, this, pathAfterCells]

/-- Refinement of `successor`: the node that comes next in order, or null
after the last node. -/
theorem successor_spec {t : BinarySearchTree K V} {c : List (Frame K V)} {a : Nat}
    {l r : Shape K V} {k : K} {v : V} {b : Int} (h : ModelsAt t c (node a l k v b r)) :
    BinarySearchTree.successor t (some a)
      = some ((cells r ++ pathAfterCells c).head?.map Prod.fst) := by
  have r1 := getRight_focus h
  have hlen := path_length_le h
  cases r with
  | nil =>
    have := successor_ascend_spec c (t.mem.length + 1) a l nil k v b h (by omega)
    simp [BinarySearchTree.successor, r1, this, cells]
  | node a2 l2 k2 v2 b2 r2 =>
    have hrep : RepTree t (some a) (node a2 l2 k2 v2 b2 r2) := h.2.2.1.2.2
    have hh : (node a2 l2 k2 v2 b2 r2).height ≤ t.mem.length + 1 := by
      have h2 := height_le_size (node a2 l2 k2 v2 b2 r2)
      simp only [Shape.size] at hlen h2 ⊢
      omega
    have := successor_descend_spec (node a2 l2 k2 v2 b2 r2) (some a) _ hrep (by simp) hh
    simp only [ptr_node] at this
    have hne : cells (node a2 l2 k2 v2 b2 r2) ≠ [] := by simp [cells]
    simp [BinarySearchTree.successor, r1, this, List.head?_append_of_ne_nil _ hne]

/-- Refinement of `begin`: the first node in order, or null on the empty
tree. -/
theorem begin_spec {t : BinarySearchTree K V} {T : Shape K V} (h : Models t T) :
    BinarySearchTree.begin t = some ((cells T).head?.map Prod.fst) := by
  cases T with
  | nil =>
    have := h.1
    simp only [ptr_nil] at this
    simp [BinarySearchTree.begin, BinarySearchTree.getSmallestNode, this, cells]
  | node a l k v b r =>
    have hr := h.1
    simp only [ptr_node] at hr
    have hh : (node a l k v b r).height ≤ t.mem.length + 1 :=
      le_trans (height_le_size _) (le_trans (models_size_le h) (Nat.le_succ _))
    have := getSmallestNode_loop_spec (node a l k v b r) none _ h.2.1 (by simp) hh
    simp only [ptr_node] at this
    simp [BinarySearchTree.begin, BinarySearchTree.getSmallestNode, hr, this]

/-! ## The iteration -/

/-- The loop of the iteration, started at any node of the tree, visits that
node and all nodes after it in order and then ends. -/
theorem loop_spec {t : BinarySearchTree K V} {T : Shape K V} (h : Models t T) :
    ∀ (rest pre : List (Nat × (K × V))) (fuel : Nat), cells T = pre ++ rest →
      rest.length < fuel →
      iterator.loop t fuel (rest.head?.map Prod.fst) = some rest := by
  intro rest
  induction rest with
  | nil =>
    intro pre fuel _ hf
    cases fuel with
    | zero => simp at hf
    | succ fuel => simp [iterator.loop, iterator.operator_ne, BinarySearchTree.end_]
  | cons e rest ih =>
    intro pre fuel hc hf
    obtain ⟨a, k, v⟩ := e
    cases fuel with
    | zero => simp at hf
    | succ fuel =>
      have hf2 : rest.length < fuel := by simpa using hf
      obtain ⟨c, l, b, r, e1, e2, e3⟩ := cells_position T pre rest a k v hc
      have hm : ModelsAt t c (node a l k v b r) := by
        rw [← models_plug, e1]; exact h
      have hs := successor_spec hm
      rw [e3] at hs
      have hd := modelsAt_deref hm
      have hnext := ih (pre ++ [(a, (k, v))]) fuel (by simp [hc]) hf2
      simp [iterator.loop, iterator.operator_ne, BinarySearchTree.end_, iterator.operator_star,
        BinarySearchTree.getItem, hd, iterator.operator_inc, hs, hnext]

/-- Refinement of the iteration from `begin()` to `end()`: it visits the nodes
of the tree in order. -/
theorem traverse_spec {t : BinarySearchTree K V} {T : Shape K V} (h : Models t T) :
    iterator.traverse t = some (cells T) := by
  have hl : (cells T).length < t.mem.length + 1 := by
    have h1 := models_size_le h
    have h2 : (cells T).length = T.size := by
      rw [size_eq_length, toList_eq_cells, List.length_map]
    omega
  simp [iterator.traverse, begin_spec h, loop_spec h (cells T) [] _ rfl hl]

/-- C11: on a heap that holds a tree with consistent links whose keys are in
binary-search order, the iteration that starts at `begin()` and applies
`operator++` until the iterator equals `end()` comes to an end; it visits
every node of the tree exactly once, reads the entries in the in-order
sequence and so in strictly ascending key order; `begin()` stands at the node
with the smallest key, and `begin()` equals `end()` exactly when the tree has
no node. -/
theorem iterator_visits_in_order [LinearOrder K] (t : BinarySearchTree K V) (T : Shape K V)
    (h : Models t T) (ho : T.ordered) :
    ∃ visited b, iterator.traverse t = some visited ∧
      visited.map Prod.snd = T.toList ∧
      (visited.map Prod.fst).Perm T.addrs ∧ (visited.map Prod.fst).Nodup ∧
      (visited.map (fun e => e.2.1)).Pairwise (· < ·) ∧
      BinarySearchTree.begin t = some b ∧ b = visited.head?.map Prod.fst ∧
      (∀ e ∈ visited.head?, ∀ k ∈ T.keys, e.2.1 ≤ k) ∧
      (iterator.operator_eq b (BinarySearchTree.end_ t) = true ↔ T.size = 0) := by
  have hsorted : ((cells T).map (fun e => e.2.1)).Pairwise (· < ·) := by
    have := (ordered_iff_sorted T).mp ho
    unfold keys at this
    rw [toList_eq_cells, List.map_map] at this
    exact this
  refine ⟨cells T, (cells T).head?.map Prod.fst, traverse_spec h, (toList_eq_cells T).symm,
    cells_addrs_perm T, (cells_addrs_perm T).nodup_iff.mpr h.2.2, hsorted, begin_spec h, rfl,
    ?_, ?_⟩
  · intro e he k hk
    unfold keys at hk
    rw [toList_eq_cells, List.map_map] at hk
    cases hc : cells T with
    | nil => rw [hc] at hk; simp at hk
    | cons e2 rest =>
      rw [hc] at he hk hsorted
      simp only [List.head?_cons, Option.mem_def, Option.some.injEq] at he
      subst he
      simp only [List.map_cons, List.pairwise_cons, List.mem_cons, Function.comp] at hsorted hk
      rcases hk with rfl | hk
      · exact le_refl _
      · exact le_of_lt (hsorted.1 k hk)
  · cases T with
    | nil => simp [iterator.operator_eq, BinarySearchTree.end_, cells, Shape.size]
    | node a l k v b r =>
      have hne : cells (node a l k v b r) ≠ [] := by simp [cells]
      cases hc : cells (node a l k v b r) with
      | nil => exact absurd hc hne
      | cons e rest => simp [iterator.operator_eq, BinarySearchTree.end_, Shape.size]

theorem iterator_visits_in_order_witness :
    Models sampleTree sampleShape ∧ sampleShape.ordered ∧
    ∃ visited b, iterator.traverse sampleTree = some visited ∧
      visited.map Prod.snd = sampleShape.toList ∧
      (visited.map Prod.fst).Perm sampleShape.addrs ∧ (visited.map Prod.fst).Nodup ∧
      (visited.map (fun e => e.2.1)).Pairwise (· < ·) ∧
      BinarySearchTree.begin sampleTree = some b ∧ b = visited.head?.map Prod.fst ∧
      (∀ e ∈ visited.head?, ∀ k ∈ sampleShape.keys, e.2.1 ≤ k) ∧
      (iterator.operator_eq b (BinarySearchTree.end_ sampleTree) = true ↔
        sampleShape.size = 0) :=
  ⟨sampleTree_valid.1, sampleTree_valid.2.1,
    iterator_visits_in_order sampleTree sampleShape sampleTree_valid.1 sampleTree_valid.2.1⟩

end Iteration

section ScenarioD
open Shape
variable {K V : Type}

/-! ## Sequences of insertions -/

theorem mem_keys_insertEntry [LinearOrder K] (k : K) (v : V) (l : List (K × V)) (x : K) :
    x ∈ (insertEntry k v l).map Prod.fst ↔ x = k ∨ x ∈ l.map Prod.fst := by
  induction l with
  | nil => simp [insertEntry]
  | cons e l ih =>
    obtain ⟨k2, v2⟩ := e
    simp only [insertEntry]
    split_ifs with h1 h2
    · simp
    · subst h2; simp
    · simp only [List.map_cons, List.mem_cons, ih]
      tauto

/-- A sequence of calls of `insert` on a valid AVL tree returns a valid AVL
tree whose keys are the old keys and the inserted keys. -/
theorem insertAll_valid [LinearOrder K] (items : List (K × V)) :
    ∀ (t t2 : AVLTree K V) (T : Shape K V), ValidAVL t T → insertAll t items = some t2 →
      ∃ T2, ValidAVL t2 T2 ∧ ∀ x, x ∈ T2.keys ↔ x ∈ T.keys ∨ x ∈ items.map Prod.fst := by
  induction items with
  | nil =>
    intro t t2 T h e
    simp only [insertAll, Option.some.injEq] at e
    subst e
    exact ⟨T, h, by simp⟩
  | cons item items ih =>
    intro t t2 T h e
    obtain ⟨t1, e1, v1⟩ := insert_valid h item
    simp only [insertAll, e1, andThen_some] at e
    obtain ⟨T2, v2, hk⟩ := ih t1 t2 _ v1 e
    refine ⟨T2, v2, fun x => ?_⟩
    rw [hk x]
    unfold keys
    rw [toList_insert _ T item h.2.1, mem_keys_insertEntry]
    simp only [List.map_cons, List.mem_cons]
    tauto

/-- A strictly ascending list of keys is determined by its members. -/
theorem keys_eq_of_mem_iff [LinearOrder K] (l1 l2 : List K) (h1 : l1.Pairwise (· < ·))
    (h2 : l2.Pairwise (· < ·)) (h : ∀ x, x ∈ l1 ↔ x ∈ l2) : l1 = l2 := by
  have n1 : l1.Nodup := h1.imp (fun hab => ne_of_lt hab)
  have n2 : l2.Nodup := h2.imp (fun hab => ne_of_lt hab)
  exact List.eq_of_perm_of_sorted ((List.perm_ext_iff_of_nodup n1 n2).mpr h) h1 h2

/-- A tree with one key is a leaf. -/
theorem leaf_of_keys_singleton (s : Shape K V) (k : K) (h : keys s = [k]) :
    ∃ a v b, s = node a nil k v b nil := by
  cases s with
  | nil => simp [keys, toList] at h
  | node a l k2 v b r =>
    have hk : keys l ++ k2 :: keys r = [k] := by simpa [keys, toList] using h
    have hl : keys l = [] := by
      cases hkl : keys l with
      | nil => rfl
      | cons x rest => rw [hkl] at hk; simp at hk
    rw [hl] at hk
    simp only [List.nil_append, List.cons.injEq] at hk
    obtain ⟨rfl, hr⟩ := hk
    have e1 : l = nil := by
      cases l with
      | nil => rfl
      | node _ _ _ _ _ _ => simp [keys, toList] at hl
    have e2 : r = nil := by
      cases r with
      | nil => rfl
      | node _ _ _ _ _ _ => simp [keys, toList] at hr
    subst e1 e2
    exact ⟨a, v, b, rfl⟩

theorem nil_of_keys_nil (s : Shape K V) (h : keys s = []) : s = nil := by
  cases s with
  | nil => rfl
  | node _ _ _ _ _ _ => simp [keys, toList] at h

/-- A tree with two keys is a node with one leaf below it, on the right of
the smaller key or on the left of the larger key. -/
theorem two_keys_shape (s : Shape K V) (k1 k2 : K) (h : keys s = [k1, k2]) :
    (∃ x y v1 v2 b1 b2, s = node x nil k1 v1 b1 (node y nil k2 v2 b2 nil)) ∨
    (∃ x y v1 v2 b1 b2, s = node y (node x nil k1 v1 b1 nil) k2 v2 b2 nil) := by
  cases s with
  | nil => simp [keys, toList] at h
  | node a l k v b r =>
    have hk : keys l ++ k :: keys r = [k1, k2] := by simpa [keys, toList] using h
    cases hkl : keys l with
    | nil =>
      rw [hkl] at hk
      simp only [List.nil_append, List.cons.injEq] at hk
      obtain ⟨rfl, hr⟩ := hk
      obtain ⟨y, v2, b2, rfl⟩ := leaf_of_keys_singleton r k2 hr
      have := nil_of_keys_nil l hkl
      subst this
      exact Or.inl ⟨a, y, v, v2, b, b2, rfl⟩
    | cons x rest =>
      rw [hkl] at hk
      cases rest with
      | nil =>
        simp only [List.singleton_append, List.cons.injEq] at hk
        obtain ⟨rfl, rfl, hr⟩ := hk
        obtain ⟨x2, v1, b1, rfl⟩ := leaf_of_keys_singleton l x hkl
        have := nil_of_keys_nil r hr
        subst this
        exact Or.inr ⟨x2, a, v1, v, b1, b, rfl⟩
      | cons y rest2 =>
        cases rest2 <;> simp at hk

/-- The cell of a node of the tree carries the node's key and value. -/
theorem cells_deref {t : BinarySearchTree K V} (s : Shape K V) (a : Nat) (k : K) (v : V) :
    ∀ (par : Option Nat), RepTree t par s → (a, (k, v)) ∈ cells s →
      getKey t (some a) = some k ∧ getValue t (some a) = some v := by
  induction s with
  | nil => intro par _ h; simp [cells] at h
  | node x l kx vx bx r ihl ihr =>
    intro par hrep h
    obtain ⟨h1, h2, h3⟩ := hrep
    simp only [cells, List.mem_append, List.mem_cons, Prod.mk.injEq] at h
    rcases h with h | ⟨rfl, rfl, rfl⟩ | h
    · exact ihl _ h2 h
    · simp [getKey, getValue, h1]
    · exact ihr _ h3 h

/-- Scenario D on the represented tree: in a tree with the keys 1 to 5 and
key 3 at the root, the predecessor of the root is the node with key 2, and
`remove(3)` leaves that node at the root with the node of key 1 as its left
child and the old right subtree as its right subtree. -/
theorem remove_root_of_five (a : Nat) (L R : Shape Nat V) (v : V) (b : Int)
    (hb : balanced (node a L 3 v b R)) (hL : keys L = [1, 2]) (hR : keys R = [4, 5]) :
    ∃ x y v1 v2, (descendRight [] L).2.ptr = some y ∧ (y, (2, v2)) ∈ cells L ∧
      Shape.remove (node a L 3 v b R) 3
        = some (node y (node x nil 1 v1 0 nil) 2 v2 1 R) := by
  have hhR : height R = 2 := by
    rcases two_keys_shape R 4 5 hR with ⟨x, y, v1, v2, b1, b2, rfl⟩ | ⟨x, y, v1, v2, b1, b2, rfl⟩ <;>
      simp [Shape.height]
  rcases two_keys_shape L 1 2 hL with ⟨x, y, v1, v2, b1, b2, rfl⟩ | ⟨x, y, v1, v2, b1, b2, rfl⟩
  · simp only [balanced, Shape.height, hhR] at hb
    obtain ⟨hb0, -, -, ⟨hb1, -, -, -, hb2, -⟩, -⟩ := hb
    have e0 : b = 0 := by simpa using hb0
    have e1 : b1 = 1 := by simpa using hb1
    have e2 : b2 = 0 := by simpa using hb2
    subst e0 e1 e2
    refine ⟨x, y, v1, v2, by simp [descendRight], by simp [cells], ?_⟩
    cases R with
    | nil => simp [Shape.height] at hhR
    | node ar lr kr vr br rr =>
      simp [Shape.remove, descend, descendRight, Shape.remove_fix, remove_step, plug,
        Frame.fill, Frame.diff]
  · simp only [balanced, Shape.height, hhR] at hb
    obtain ⟨hb0, -, -, ⟨hb2, -, -, ⟨hb1, -⟩, -⟩, -⟩ := hb
    have e0 : b = 0 := by simpa using hb0
    have e1 : b1 = 0 := by simpa using hb1
    have e2 : b2 = -1 := by simpa using hb2
    subst e0 e1 e2
    refine ⟨x, y, v1, v2, by simp [descendRight], by simp [cells], ?_⟩
    cases R with
    | nil => simp [Shape.height] at hhR
    | node ar lr kr vr br rr =>
      simp [Shape.remove, descend, descendRight, Shape.remove_fix, remove_step, plug,
        Frame.fill, Frame.diff]

/-- C15: for every order in which the keys 1, 2, 3, 4, 5 are inserted into an
empty AVL tree that leaves key 3 at the root, `remove(3)` finds the root with
two children, takes its in-order predecessor, the node with key 2, and swaps
the two before unlinking: the call returns a valid AVL tree with exactly the
keys 1, 2, 4, 5 in ascending order, in which the node that carried key 2 now
is the root. -/
theorem scenario_D_remove_root (order : List (Nat × V)) (t : AVLTree Nat V)
    (hperm : (order.map Prod.fst).Perm [1, 2, 3, 4, 5])
    (hins : insertAll BinarySearchTree.empty_tree order = some t)
    (hroot : getKey t t.root_ = some 3) :
    ∃ n m l r t2 T2,
      BinarySearchTree.internalFind t 3 = some (some n) ∧ t.root_ = some n ∧
      getLeft t (some n) = some (some l) ∧ getRight t (some n) = some (some r) ∧
      BinarySearchTree.predecessor t (some n) = some (some m) ∧ getKey t (some m) = some 2 ∧
      AVLTree.remove t 3 = some t2 ∧ ValidAVL t2 T2 ∧ T2.keys = [1, 2, 4, 5] ∧
      t2.root_ = some m ∧ getKey t2 (some m) = some 2 := by
  obtain ⟨T, hv, hk⟩ := insertAll_valid order _ t Shape.nil empty_tree_valid hins
  have hkeys : T.keys = [1, 2, 3, 4, 5] := by
    apply keys_eq_of_mem_iff _ _ ((ordered_iff_sorted T).mp hv.2.1) (by decide)
    intro x
    rw [hk x, hperm.mem_iff]
    simp [keys, toList]
  cases T with
  | nil => simp [keys, toList] at hkeys
  | node a L k v b R =>
    have hd := hv.1.2.1.1
    have hr := hv.1.1
    simp only [ptr_node] at hr
    have hk3 : k = 3 := by
      rw [hr] at hroot
      simpa [getKey, hd] using hroot
    subst hk3
    obtain ⟨ho1, ho2, -, -⟩ := hv.2.1
    have hsplit : keys L ++ 3 :: keys R = [1, 2, 3, 4, 5] := by
      simpa [keys, toList] using hkeys
    have hLR : keys L = [1, 2] ∧ keys R = [4, 5] := by
      rcases hkl : keys L with _ | ⟨x, _ | ⟨y, _ | ⟨z, rest⟩⟩⟩
      · rw [hkl] at hsplit; simp at hsplit
      · rw [hkl] at hsplit; simp at hsplit
      · rw [hkl] at hsplit
        simp only [List.cons_append, List.nil_append, List.cons.injEq] at hsplit
        obtain ⟨rfl, rfl, -, h4⟩ := hsplit
        exact ⟨rfl, h4⟩
      · rw [hkl] at hsplit
        simp only [List.cons_append, List.cons.injEq] at hsplit
        obtain ⟨-, -, rfl, -⟩ := hsplit
        exact absurd (ho1 3 (by rw [hkl]; simp)) (lt_irrefl _)
    obtain ⟨x, y, v1, v2, hpd, hmem, hrem⟩ := remove_root_of_five a L R v b hv.2.2 hLR.1 hLR.2
    obtain ⟨t2, e2, m2⟩ := remove_spec 3 hv.1 hrem
    have hLn : L ≠ nil := fun e => by rw [e] at hLR; simp [keys, toList] at hLR
    have hRn : R ≠ nil := fun e => by rw [e] at hLR; simp [keys, toList] at hLR
    obtain ⟨l, hl⟩ : ∃ l, L.ptr = some l := by
      cases L with
      | nil => exact absurd rfl hLn
      | node l _ _ _ _ _ => exact ⟨l, rfl⟩
    obtain ⟨r, hrr⟩ : ∃ r, R.ptr = some r := by
      cases R with
      | nil => exact absurd rfl hRn
      | node r _ _ _ _ _ => exact ⟨r, rfl⟩
    have hpred : BinarySearchTree.predecessor t (some a) = some (some y) := by
      have hrep : RepTree t (some a) L := hv.1.2.1.2.1
      have hh : L.height ≤ t.mem.length + 1 := by
        have h1 := models_size_le hv.1
        have h2 := height_le_size L
        simp only [Shape.size] at h1
        omega
      have := predecessor_descend_spec L (some a) _ [] hrep hLn hh
      rw [hpd, hl] at this
      simp [BinarySearchTree.predecessor, getLeft, hd, hl, this]
    have hkey2 : getKey t (some y) = some 2 :=
      (cells_deref L y 2 v2 _ hv.1.2.1.2.1 hmem).1
    refine ⟨a, y, l, r, t2, _, ?_, hr, by simp [getLeft, hd, hl], by simp [getRight, hd, hrr],
      hpred, hkey2, e2, ⟨m2, ordered_remove _ _ 3 hv.2.1 hrem, ?_⟩, ?_, m2.1, ?_⟩
    · rw [internalFind_spec 3 hv.1]; simp [locate]
    · obtain ⟨T3, e3, b3⟩ := balanced_remove (node a L 3 v b R) 3 hv.2.2
      rw [hrem] at e3
      cases e3
      exact b3
    · simp [keys, toList] at hLR ⊢
      exact hLR.2
    · simp [getKey, m2.2.1.1]

theorem scenario_D_remove_root_witness :
    ([((3 : Nat), (30 : Nat)), (2, 20), (4, 40), (1, 10), (5, 50)].map Prod.fst).Perm
        [1, 2, 3, 4, 5] ∧
    insertAll BinarySearchTree.empty_tree [(3, 30), (2, 20), (4, 40), (1, 10), (5, 50)]
      = some scenarioTree ∧
    getKey scenarioTree scenarioTree.root_ = some 3 ∧
    ∃ n m l r t2 T2,
      BinarySearchTree.internalFind scenarioTree 3 = some (some n) ∧
      scenarioTree.root_ = some n ∧
      getLeft scenarioTree (some n) = some (some l) ∧
      getRight scenarioTree (some n) = some (some r) ∧
      BinarySearchTree.predecessor scenarioTree (some n) = some (some m) ∧
      getKey scenarioTree (some m) = some 2 ∧
      AVLTree.remove scenarioTree 3 = some t2 ∧ ValidAVL t2 T2 ∧ T2.keys = [1, 2, 4, 5] ∧
      t2.root_ = some m ∧ getKey t2 (some m) = some 2 :=
  ⟨by decide, by decide, by decide,
    scenario_D_remove_root [(3, 30), (2, 20), (4, 40), (1, 10), (5, 50)] scenarioTree
      (by decide) (by decide) (by decide)⟩

end ScenarioD

section TracedInsert
open Shape
variable {K V : Type}

/-! ## The record of the rotation steps does not change what `insert` does -/

theorem map_andThen {α β γ : Type} (f : β → γ) (x : Option α) (g : α → Option β) :
    Option.map f (andThen x g) = andThen x (fun a => Option.map f (g a)) := by
  cases x <;> rfl

theorem andThen_pure {α : Type} (x : Option α) : andThen x (fun a => some a) = x := by
  cases x <;> rfl

/-- Without the record `insert_fix_traced` is `insert_fix`. -/
theorem insert_fix_traced_fst :
    ∀ (fuel : Nat) (t : AVLTree K V) (p n : Option Nat),
      (AVLTree.insert_fix_traced fuel t p n).map Prod.fst = AVLTree.insert_fix fuel t p n := by
  intro fuel
  induction fuel with
  | zero => intro t p n; rfl
  | succ fuel ih =>
    intro t p n
    simp only [AVLTree.insert_fix_traced, AVLTree.insert_fix, map_andThen,
      apply_ite (Option.map Prod.fst), Option.map_some', ih, andThen_pure]

/-- Without the record `insert_helper_traced` is `insert_helper`. -/
theorem insert_helper_traced_fst [LinearOrder K] (new_item : K × V) :
    ∀ (fuel : Nat) (t : AVLTree K V) (node : Option Nat),
      (AVLTree.insert_helper_traced new_item fuel t node).map Prod.fst
        = AVLTree.insert_helper new_item fuel t node := by
  intro fuel
  induction fuel with
  | zero => intro t node; rfl
  | succ fuel ih =>
    intro t node
    simp only [AVLTree.insert_helper_traced, AVLTree.insert_helper, map_andThen,
      apply_ite (Option.map Prod.fst), Option.map_some', ih, andThen_pure,
      insert_fix_traced_fst]

/-- Without the record `insert_traced` is `insert`. -/
theorem insert_traced_fst [LinearOrder K] (t : AVLTree K V) (new_item : K × V) :
    (AVLTree.insert_traced t new_item).map Prod.fst = AVLTree.insert t new_item := by
  simp only [AVLTree.insert_traced, AVLTree.insert, apply_ite (Option.map Prod.fst),
    Option.map_some', insert_helper_traced_fst]

/-! ## Refinement of the recorded `insert` -/

/-- Refinement of `insert_fix_traced`: the call returns, the heap then holds
the tree computed by `Shape.insert_fix`, and the record is the one computed by
`Shape.insert_fix_trace`. -/
theorem insert_fix_traced_spec (c : List (Frame K V)) :
    ∀ (fuel : Nat) (t : AVLTree K V) (p n : Nat) (A B : Shape K V) (kp : K) (vp : V) (pb : Int),
      ModelsAt t c (node p A kp vp pb B) →
      ((pb = -1 ∧ A.ptr = some n) ∨ (pb = 1 ∧ B.ptr = some n)) →
      c.length < fuel →
      ∃ t2, AVLTree.insert_fix_traced fuel t (some p) (some n)
          = some (t2, Shape.insert_fix_trace c (node p A kp vp pb B)) ∧
        Models t2 (Shape.insert_fix c (node p A kp vp pb B)) ∧
        t2.mem.length = t.mem.length := by
  induction c with
  | nil =>
    intro fuel t p n A B kp vp pb h _ hf
    cases fuel with
    | zero => simp at hf
    | succ fuel =>
      refine ⟨t, ?_, (modelsAt_nil _).mp h, rfl⟩
      simp [AVLTree.insert_fix_traced, Shape.insert_fix_trace, getParent_focus h, pathPtr]
  | cons f c ih =>
    intro fuel t p n A B kp vp pb h hn hf
    cases fuel with
    | zero => simp at hf
    | succ fuel =>
      have hf2 : c.length < fuel := by simpa using hf
      cases f with
      | left g kg vg bg R =>
        have hg := modelsAt_left.mpr h
        have r1 := getParent_focus h
        have r2 := getLeft_focus hg
        have r3 := getBalance_focus hg
        obtain ⟨t1, e1, m1, l1⟩ := setBalance_spec (bg - 1) hg
        have r4 := getBalance_focus m1
        have r5 := getBalance_focus (modelsAt_left.mp m1)
        simp only [AVLTree.insert_fix_traced, Shape.insert_fix, Shape.insert_fix_trace, r1, r2, r3, e1, r4, r5, andThen_some,
          pathPtr, Frame.addr, ptr_node, reduceCtorEq, if_false, if_true, if_true]
        by_cases h0 : int8 (bg - 1) = 0
        · simp only [h0, if_true]
          exact ⟨t1, rfl, (models_plug _ _).mpr (h0 ▸ m1), l1⟩
        simp only [h0, if_false]
        by_cases h1 : int8 (bg - 1) = -1
        · rw [h1] at m1
          obtain ⟨t2, e2, m2, l2⟩ := ih fuel t1 g p _ _ kg vg _ m1 (Or.inl ⟨rfl, rfl⟩) hf2
          simp only [h1, e2, if_true]
          exact ⟨t2, rfl, m2, l2.trans l1⟩
        simp only [h1, if_false]
        by_cases h2 : int8 (bg - 1) = -2
        · simp only [h2, if_true]
          rw [h2] at m1
          by_cases hpb : pb = -1
          · subst hpb
            obtain ⟨t2, e2, m2, l2⟩ := rotate_right_spec m1
            obtain ⟨t3, e3, m3, l3⟩ := setBalance_spec 0 m2
            obtain ⟨t4, e4, m4, l4⟩ := setBalance_right_spec 0 m3
            simp only [e2, e3, e4, andThen_some, if_true, int8_zero] at m4 ⊢
            exact ⟨t4, rfl, (models_plug _ _).mpr m4, by omega⟩
          · have hB : pb = 1 ∧ B.ptr = some n := hn.resolve_left (fun hx => hpb hx.1)
            obtain ⟨hpb1, hBn⟩ := hB
            cases B with
            | nil => simp at hBn
            | node n2 B1 kn vn nb B2 =>
              simp only [ptr_node, Option.some.injEq] at hBn
              subst hBn
              obtain ⟨t2, e2, m2, l2⟩ := rotate_left_spec (modelsAt_left.mp m1)
              obtain ⟨t3, e3, m3, l3⟩ := rotate_right_spec (modelsAt_left.mpr m2)
              have r6 := getBalance_focus m3
              simp only [hpb, e2, e3, r6, andThen_some, if_false]
              by_cases hn1 : nb = -1
              · obtain ⟨t4, e4, m4, l4⟩ := setBalance_left_spec 0 m3
                obtain ⟨t5, e5, m5, l5⟩ := setBalance_right_spec (1) m4
                obtain ⟨t6, e6, m6, l6⟩ := setBalance_spec 0 m5
                simp only [hn1, e4, e5, e6, andThen_some, if_true, int8_zero, int8_one,
                  int8_neg_one] at m6 ⊢
                exact ⟨t6, rfl, (models_plug _ _).mpr m6, by omega⟩
              simp only [hn1, if_false]
              by_cases hn2 : nb = 0
              · obtain ⟨t4, e4, m4, l4⟩ := setBalance_left_spec 0 m3
                obtain ⟨t5, e5, m5, l5⟩ := setBalance_right_spec 0 m4
                obtain ⟨t6, e6, m6, l6⟩ := setBalance_spec 0 m5
                simp only [hn2, e4, e5, e6, andThen_some, if_true, int8_zero, int8_one,
                  int8_neg_one] at m6 ⊢
                exact ⟨t6, rfl, (models_plug _ _).mpr m6, by omega⟩
              simp only [hn2, if_false]
              by_cases hn3 : nb = 1
              · obtain ⟨t4, e4, m4, l4⟩ := setBalance_left_spec (-1) m3
                obtain ⟨t5, e5, m5, l5⟩ := setBalance_right_spec 0 m4
                obtain ⟨t6, e6, m6, l6⟩ := setBalance_spec 0 m5
                simp only [hn3, e4, e5, e6, andThen_some, if_true, int8_zero, int8_one,
                  int8_neg_one] at m6 ⊢
                exact ⟨t6, rfl, (models_plug _ _).mpr m6, by omega⟩
              · obtain ⟨t6, e6, m6, l6⟩ := setBalance_spec 0 m3
                simp only [hn3, e6, andThen_some, if_false, int8_zero] at m6 ⊢
                exact ⟨t6, rfl, (models_plug _ _).mpr m6, by omega⟩
        · simp only [h2, if_false]
          exact ⟨t1, rfl, (models_plug _ _).mpr m1, l1⟩
      | right g R kg vg bg =>
        have hg := modelsAt_right.mpr h
        have r1 := getParent_focus h
        have r2 := getLeft_focus hg
        have hne : some p ≠ R.ptr := fun e => modelsAt_left_ne_right hg e.symm
        have r3 := getBalance_focus hg
        obtain ⟨t1, e1, m1, l1⟩ := setBalance_spec (bg + 1) hg
        have r4 := getBalance_focus m1
        have r5 := getBalance_focus (modelsAt_right.mp m1)
        simp only [AVLTree.insert_fix_traced, Shape.insert_fix, Shape.insert_fix_trace, r1, r2, r3, e1, r4, r5, andThen_some,
          pathPtr, Frame.addr, ptr_node, reduceCtorEq, if_false, if_true, hne]
        by_cases h0 : int8 (bg + 1) = 0
        · simp only [h0, if_true]
          exact ⟨t1, rfl, (models_plug _ _).mpr (h0 ▸ m1), l1⟩
        simp only [h0, if_false]
        by_cases h1 : int8 (bg + 1) = 1
        · rw [h1] at m1
          obtain ⟨t2, e2, m2, l2⟩ := ih fuel t1 g p _ _ kg vg _ m1 (Or.inr ⟨rfl, rfl⟩) hf2
          simp only [h1, e2, if_true]
          exact ⟨t2, rfl, m2, l2.trans l1⟩
        simp only [h1, if_false]
        by_cases h2 : int8 (bg + 1) = 2
        · simp only [h2, if_true]
          rw [h2] at m1
          by_cases hpb : pb = 1
          · subst hpb
            obtain ⟨t2, e2, m2, l2⟩ := rotate_left_spec m1
            obtain ⟨t3, e3, m3, l3⟩ := setBalance_spec 0 m2
            obtain ⟨t4, e4, m4, l4⟩ := setBalance_left_spec 0 m3
            simp only [e2, e3, e4, andThen_some, if_true, int8_zero] at m4 ⊢
            exact ⟨t4, rfl, (models_plug _ _).mpr m4, by omega⟩
          · have hB : pb = -1 ∧ A.ptr = some n := hn.resolve_right (fun hx => hpb hx.1)
            obtain ⟨hpb1, hBn⟩ := hB
            cases A with
            | nil => simp at hBn
            | node n2 A1 kn vn nb A2 =>
              simp only [ptr_node, Option.some.injEq] at hBn
              subst hBn
              obtain ⟨t2, e2, m2, l2⟩ := rotate_right_spec (modelsAt_right.mp m1)
              obtain ⟨t3, e3, m3, l3⟩ := rotate_left_spec (modelsAt_right.mpr m2)
              have r6 := getBalance_focus m3
              simp only [hpb, e2, e3, r6, andThen_some, if_false]
              by_cases hn1 : nb = 1
              · obtain ⟨t4, e4, m4, l4⟩ := setBalance_right_spec 0 m3
                obtain ⟨t5, e5, m5, l5⟩ := setBalance_left_spec (-1) m4
                obtain ⟨t6, e6, m6, l6⟩ := setBalance_spec 0 m5
                simp only [hn1, e4, e5, e6, andThen_some, if_true, int8_zero, int8_one,
                  int8_neg_one] at m6 ⊢
                exact ⟨t6, rfl, (models_plug _ _).mpr m6, by omega⟩
              simp only [hn1, if_false]
              by_cases hn2 : nb = 0
              · obtain ⟨t4, e4, m4, l4⟩ := setBalance_right_spec 0 m3
                obtain ⟨t5, e5, m5, l5⟩ := setBalance_left_spec 0 m4
                obtain ⟨t6, e6, m6, l6⟩ := setBalance_spec 0 m5
                simp only [hn2, e4, e5, e6, andThen_some, if_true, int8_zero, int8_one,
                  int8_neg_one] at m6 ⊢
                exact ⟨t6, rfl, (models_plug _ _).mpr m6, by omega⟩
              simp only [hn2, if_false]
              by_cases hn3 : nb = -1
              · obtain ⟨t4, e4, m4, l4⟩ := setBalance_right_spec (1) m3
                obtain ⟨t5, e5, m5, l5⟩ := setBalance_left_spec 0 m4
                obtain ⟨t6, e6, m6, l6⟩ := setBalance_spec 0 m5
                simp only [hn3, e4, e5, e6, andThen_some, if_true, int8_zero, int8_one,
                  int8_neg_one] at m6 ⊢
                exact ⟨t6, rfl, (models_plug _ _).mpr m6, by omega⟩
              · obtain ⟨t6, e6, m6, l6⟩ := setBalance_spec 0 m3
                simp only [hn3, e6, andThen_some, if_false, int8_zero] at m6 ⊢
                exact ⟨t6, rfl, (models_plug _ _).mpr m6, by omega⟩
        · simp only [h2, if_false]
          exact ⟨t1, rfl, (models_plug _ _).mpr m1, l1⟩

/-- Refinement of `insert_helper_traced`. -/
theorem insert_helper_traced_spec [LinearOrder K] (item : K × V) (s : Shape K V) :
    ∀ (c : List (Frame K V)) (fuel : Nat) (t : AVLTree K V),
      ModelsAt t c s → s ≠ nil → s.height ≤ fuel →
      ∃ t2, AVLTree.insert_helper_traced item fuel t s.ptr
          = some (t2, Shape.insert_helper_trace t.mem.length item c s) ∧
        Models t2 (Shape.insert_helper t.mem.length item c s) := by
  induction s with
  | nil => intro c fuel t _ hs; exact absurd rfl hs
  | node a l k v b r ihl ihr =>
    intro c fuel t h _ hf
    cases fuel with
    | zero => simp [Shape.height] at hf
    | succ fuel =>
      simp only [Shape.height, Nat.add_le_add_iff_right, max_le_iff] at hf
      have r1 := getKey_focus h
      have r2 := getLeft_focus h
      have r3 := getRight_focus h
      simp only [AVLTree.insert_helper_traced, Shape.insert_helper, Shape.insert_helper_trace, ptr_node, r1, r2, r3, andThen_some]
      by_cases hlt : item.1 < k
      · simp only [hlt, if_true]
        cases l with
        | nil =>
          obtain ⟨t1, e1, m1, l1⟩ := attach_left_spec item.1 item.2 h
          have r4 := getBalance_focus m1
          simp only [ptr_nil, if_true, new_AVLNode_snd, e1, r4, andThen_some]
          by_cases hb : b = 0
          · subst hb
            obtain ⟨t2, e2, m2, l2⟩ := setBalance_spec (-1) m1
            simp only [int8_neg_one] at m2
            have hfu : c.length < t2.mem.length + 1 := by
              have := path_length_le m2; omega
            obtain ⟨t3, e3, m3, l3⟩ := insert_fix_traced_spec c _ t2 a t.mem.length _ _ k v _ m2
              (Or.inl ⟨rfl, rfl⟩) hfu
            simp only [ne_eq, not_true_eq_false, if_false, e2, andThen_some, e3]
            exact ⟨t3, rfl, m3⟩
          · obtain ⟨t2, e2, m2, l2⟩ := setBalance_spec 0 m1
            simp only [int8_zero] at m2
            simp only [ne_eq, hb, not_false_eq_true, if_true, e2]
            exact ⟨t2, rfl, (models_plug _ _).mpr m2⟩
        | node a2 l2 k2 v2 b2 r2 =>
          simp only [ptr_node, reduceCtorEq, if_false]
          exact ihl _ fuel t (modelsAt_left.mp h) (by simp) hf.1
      · simp only [hlt, if_false]
        by_cases heq : item.1 = k
        · obtain ⟨t2, e2, m2, l2⟩ := setValue_spec item.2 h
          simp only [heq, if_true, e2] at m2 ⊢
          exact ⟨t2, by simp [← heq, e2], (models_plug _ _).mpr m2⟩
        · simp only [heq, if_false]
          cases r with
          | nil =>
            obtain ⟨t1, e1, m1, l1⟩ := attach_right_spec item.1 item.2 h
            have r4 := getBalance_focus m1
            simp only [ptr_nil, if_true, new_AVLNode_snd, e1, r4, andThen_some]
            by_cases hb : b = 0
            · subst hb
              obtain ⟨t2, e2, m2, l2⟩ := setBalance_spec 1 m1
              simp only [int8_one] at m2
              have hfu : c.length < t2.mem.length + 1 := by
                have := path_length_le m2; omega
              obtain ⟨t3, e3, m3, l3⟩ := insert_fix_traced_spec c _ t2 a t.mem.length _ _ k v _ m2
                (Or.inr ⟨rfl, rfl⟩) hfu
              simp only [ne_eq, not_true_eq_false, if_false, e2, andThen_some, e3]
              exact ⟨t3, rfl, m3⟩
            · obtain ⟨t2, e2, m2, l2⟩ := setBalance_spec 0 m1
              simp only [int8_zero] at m2
              simp only [ne_eq, hb, not_false_eq_true, if_true, e2]
              exact ⟨t2, rfl, (models_plug _ _).mpr m2⟩
          | node a2 l2 k2 v2 b2 r2 =>
            simp only [ptr_node, reduceCtorEq, if_false]
            exact ihr _ fuel t (modelsAt_right.mp h) (by simp) hf.2

/-- Refinement of `insert_traced`: on a heap that holds the tree `T` the call
returns, the heap then holds the tree `Shape.insert` computes, and the record
is the one `Shape.insert_trace` computes. -/
theorem insert_traced_spec [LinearOrder K] {t : AVLTree K V} {T : Shape K V} (item : K × V)
    (h : Models t T) :
    ∃ t2, AVLTree.insert_traced t item = some (t2, Shape.insert_trace t.mem.length T item) ∧
      Models t2 (Shape.insert t.mem.length T item) := by
  cases T with
  | nil =>
    obtain ⟨hroot, -, -⟩ := h
    simp only [ptr_nil] at hroot
    refine ⟨_, by simp [AVLTree.insert_traced, Shape.insert_trace, hroot, new_AVLNode]; rfl, ?_⟩
    refine ⟨rfl, ⟨?_, trivial, trivial⟩, by simp [Shape.addrs]⟩
    simp [deref]
  | node a l k v b r =>
    have hroot := h.1
    simp only [ptr_node] at hroot
    have hs : (node a l k v b r).height ≤ t.mem.length + 1 :=
      le_trans (height_le_size _) (le_trans (models_size_le h) (Nat.le_succ _))
    obtain ⟨t2, e2, m2⟩ := insert_helper_traced_spec item (node a l k v b r) [] _ t
      ((modelsAt_nil _).mpr h) (by simp) hs
    refine ⟨t2, ?_, m2⟩
    simp only [AVLTree.insert_traced, Shape.insert_trace, hroot, reduceCtorEq, if_false]
    simpa using e2

end TracedInsert

section RotationStep
open Shape
variable {K V : Type}

/-! ## The rotation step of `insert` -/

/-- The rotation steps of `insert_fix` on a tree with correct balance factors:
there is none, or there is one, at a node `g`, and then the subtree that takes
the place of the subtree `sOld` at `g` has the height of `sOld`, and the path
above `g` is as it was. -/
theorem insert_fix_rotation (c : List (Frame K V)) :
    ∀ (sOld0 : Shape K V) (p : Nat) (A B : Shape K V) (kp : K) (vp : V) (pb : Int),
      pathBalanced c (height sOld0) → balanced (node p A kp vp pb B) →
      height (node p A kp vp pb B) = height sOld0 + 1 → pb ≠ 0 →
      insert_fix_trace c (node p A kp vp pb B) = [] ∨
      ∃ g cUp sOld sNew, insert_fix_trace c (node p A kp vp pb B) = [some g] ∧
        plug c sOld0 = plug cUp sOld ∧ sOld.ptr = some g ∧
        insert_fix c (node p A kp vp pb B) = plug cUp sNew ∧ height sNew = height sOld := by
  induction c with
  | nil => intro _ _ _ _ _ _ _ _ _ _ _; left; rfl
  | cons f c ih =>
    intro sOld0 p A B kp vp pb hc hs hh hpb
    cases f with
    | left g kg vg bg S =>
      obtain ⟨hb1, hb2, hb3, hS, hc2⟩ := hc
      obtain ⟨hs1, hs2, hs3, hA, hB⟩ := hs
      simp only [Shape.height] at hh
      have hi : int8 (bg - 1) = bg - 1 := int8_of_small (by omega) (by omega)
      simp only [insert_fix, insert_fix_trace, hi]
      by_cases h0 : bg - 1 = 0
      · left; rw [if_pos h0]
      simp only [h0, if_false]
      by_cases h1 : bg - 1 = -1
      · simp only [h1, if_true]
        have hbal : balanced (node g (node p A kp vp pb B) kg vg (-1) S) := by
          refine ⟨?_, by omega, by omega, ⟨hs1, hs2, hs3, hA, hB⟩, hS⟩
          simp only [Shape.height]; omega
        have hht : height (node g (node p A kp vp pb B) kg vg (-1) S) = height ((node g sOld0 kg vg bg S)) + 1 := by
          simp only [Shape.height]; omega
        rcases ih ((node g sOld0 kg vg bg S)) g _ _ kg vg (-1) hc2 hbal hht (by omega) with
          e | ⟨g2, cUp, sOld, sNew, e1, e2, e3, e4, e5⟩
        · left; exact e
        · right; exact ⟨g2, cUp, sOld, sNew, e1, e2, e3, e4, e5⟩
      simp only [h1, if_false]
      have h2 : bg - 1 = -2 := by omega
      simp only [h2, if_true]
      right
      by_cases hz : pb = -1
      · refine ⟨g, c, (node g sOld0 kg vg bg S), (node p A kp vp 0 (node g B kg vg 0 S)), rfl, rfl, rfl, by simp [hz], ?_⟩
        simp only [Shape.height]; omega
      · cases B with
        | nil => simp only [Shape.height] at hh hs1; omega
        | node n B1 kn vn nb B2 =>
          obtain ⟨hn1, hn2, hn3, hB1, hB2⟩ := hB
          simp only [Shape.height] at hh hs1 hn1
          by_cases q1 : nb = -1
          · refine ⟨g, c, (node g sOld0 kg vg bg S), (node n (node p A kp vp 0 B1) kn vn 0 (node g B2 kg vg 1 S)), rfl, rfl, rfl, by simp [hz, q1], ?_⟩
            simp only [Shape.height]; omega
          by_cases q2 : nb = 0
          · refine ⟨g, c, (node g sOld0 kg vg bg S), (node n (node p A kp vp 0 B1) kn vn 0 (node g B2 kg vg 0 S)), rfl, rfl, rfl, by simp [hz, q1, q2], ?_⟩
            simp only [Shape.height]; omega
          have q3 : nb = 1 := by omega
          refine ⟨g, c, (node g sOld0 kg vg bg S), (node n (node p A kp vp (-1) B1) kn vn 0 (node g B2 kg vg 0 S)), rfl, rfl, rfl, by simp [hz, q3], ?_⟩
          simp only [Shape.height]; omega
    | right g S kg vg bg =>
      obtain ⟨hb1, hb2, hb3, hS, hc2⟩ := hc
      obtain ⟨hs1, hs2, hs3, hA, hB⟩ := hs
      simp only [Shape.height] at hh
      have hi : int8 (bg + 1) = bg + 1 := int8_of_small (by omega) (by omega)
      simp only [insert_fix, insert_fix_trace, hi]
      by_cases h0 : bg + 1 = 0
      · left; rw [if_pos h0]
      simp only [h0, if_false]
      by_cases h1 : bg + 1 = 1
      · simp only [h1, if_true]
        have hbal : balanced (node g S kg vg (1) (node p A kp vp pb B)) := by
          refine ⟨?_, by omega, by omega, hS, ⟨hs1, hs2, hs3, hA, hB⟩⟩
          simp only [Shape.height]; omega
        have hht : height (node g S kg vg (1) (node p A kp vp pb B)) = height ((node g S kg vg bg sOld0)) + 1 := by
          simp only [Shape.height]; omega
        rcases ih ((node g S kg vg bg sOld0)) g _ _ kg vg (1) hc2 hbal hht (by omega) with
          e | ⟨g2, cUp, sOld, sNew, e1, e2, e3, e4, e5⟩
        · left; exact e
        · right; exact ⟨g2, cUp, sOld, sNew, e1, e2, e3, e4, e5⟩
      simp only [h1, if_false]
      have h2 : bg + 1 = 2 := by omega
      simp only [h2, if_true]
      right
      by_cases hz : pb = 1
      · refine ⟨g, c, (node g S kg vg bg sOld0), (node p (node g S kg vg 0 A) kp vp 0 B), rfl, rfl, rfl, by simp [hz], ?_⟩
        simp only [Shape.height]; omega
      · cases A with
        | nil => simp only [Shape.height] at hh hs1; omega
        | node n A1 kn vn nb A2 =>
          obtain ⟨hn1, hn2, hn3, hA1, hA2⟩ := hA
          simp only [Shape.height] at hh hs1 hn1
          by_cases q1 : nb = 1
          · refine ⟨g, c, (node g S kg vg bg sOld0), (node n (node g S kg vg (-1) A1) kn vn 0 (node p A2 kp vp 0 B)), rfl, rfl, rfl, by simp [hz, q1], ?_⟩
            simp only [Shape.height]; omega
          by_cases q2 : nb = 0
          · refine ⟨g, c, (node g S kg vg bg sOld0), (node n (node g S kg vg 0 A1) kn vn 0 (node p A2 kp vp 0 B)), rfl, rfl, rfl, by simp [hz, q1, q2], ?_⟩
            simp only [Shape.height]; omega
          have q3 : nb = -1 := by omega
          refine ⟨g, c, (node g S kg vg bg sOld0), (node n (node g S kg vg 0 A1) kn vn 0 (node p A2 kp vp 1 B)), rfl, rfl, rfl, by simp [hz, q3], ?_⟩
          simp only [Shape.height]; omega

/-- The rotation steps of `insert_helper` on a tree with correct balance
factors: none or one, and the one leaves the height at its place and the path
above it as they were. -/
theorem insert_helper_rotation [LinearOrder K] (fresh : Nat) (item : K × V) (s : Shape K V) :
    ∀ (c : List (Frame K V)), s ≠ nil → balanced s → pathBalanced c (height s) →
      insert_helper_trace fresh item c s = [] ∨
      ∃ g cUp sOld sNew, insert_helper_trace fresh item c s = [some g] ∧
        plug c s = plug cUp sOld ∧ sOld.ptr = some g ∧
        insert_helper fresh item c s = plug cUp sNew ∧ height sNew = height sOld := by
  induction s with
  | nil => intro c hs; exact absurd rfl hs
  | node a l k v b r ihl ihr =>
    intro c _ hs hc
    obtain ⟨hb1, hb2, hb3, hl, hr⟩ := hs
    simp only [insert_helper, insert_helper_trace]
    by_cases hlt : item.1 < k
    · simp only [hlt, if_true]
      by_cases hn : l.ptr = none
      · simp only [hn, if_true]
        have hl0 : l = nil := (ptr_eq_none_iff l).mp hn
        subst hl0
        simp only [Shape.height] at hb1
        by_cases hb : b = 0
        · subst hb
          simp only [ne_eq, not_true_eq_false, if_false]
          refine insert_fix_rotation c (node a nil k v 0 r) a _ _ k v (-1) hc ?_ ?_ (by decide)
          · refine ⟨?_, by omega, by omega, ⟨?_, by omega, by omega, trivial, trivial⟩, hr⟩ <;>
              simp only [Shape.height] <;> omega
          · simp only [Shape.height]; omega
        · left; simp [hb]
      · simp only [hn, if_false]
        exact ihl _ (fun e => hn ((ptr_eq_none_iff l).mpr e)) hl ⟨hb1, hb2, hb3, hr, hc⟩
    · simp only [hlt, if_false]
      by_cases heq : item.1 = k
      · left; simp [heq]
      · simp only [heq, if_false]
        by_cases hn : r.ptr = none
        · simp only [hn, if_true]
          have hr0 : r = nil := (ptr_eq_none_iff r).mp hn
          subst hr0
          simp only [Shape.height] at hb1
          by_cases hb : b = 0
          · subst hb
            simp only [ne_eq, not_true_eq_false, if_false]
            refine insert_fix_rotation c (node a l k v 0 nil) a _ _ k v 1 hc ?_ ?_ (by decide)
            · refine ⟨?_, by omega, by omega, hl, ⟨?_, by omega, by omega, trivial, trivial⟩⟩ <;>
                simp only [Shape.height] <;> omega
            · simp only [Shape.height]; omega
          · left; simp [hb]
        · simp only [hn, if_false]
          exact ihr _ (fun e => hn ((ptr_eq_none_iff r).mpr e)) hr ⟨hb1, hb2, hb3, hl, hc⟩

/-- The rotation steps of `insert` on a tree with correct balance factors. -/
theorem insert_rotation [LinearOrder K] (fresh : Nat) (T : Shape K V) (item : K × V)
    (h : balanced T) :
    insert_trace fresh T item = [] ∨
    ∃ g cUp sOld sNew, insert_trace fresh T item = [some g] ∧ T = plug cUp sOld ∧
      sOld.ptr = some g ∧ Shape.insert fresh T item = plug cUp sNew ∧
      height sNew = height sOld := by
  cases T with
  | nil => left; rfl
  | node a l k v b r => exact insert_helper_rotation fresh item _ [] (by simp) h trivial

/-- C20: on a valid AVL tree `insert` performs at most one rotation step (one
single or one double rotation), namely when the balance of a node `g` on the
way up is driven to -2 or 2; the subtree that then stands in the place of the
subtree at `g` has the height that subtree had before the insert, and the path
above that place, with all its balance factors, is as it was before. -/
theorem insert_rotates_once [LinearOrder K] (t : AVLTree K V) (T : Shape K V)
    (h : ValidAVL t T) (new_item : K × V) :
    ∃ t2 T2 steps, AVLTree.insert_traced t new_item = some (t2, steps) ∧
      AVLTree.insert t new_item = some t2 ∧ Models t2 T2 ∧ steps.length ≤ 1 ∧
      ∀ g ∈ steps, steps = [g] ∧
        ∃ n cUp sOld sNew, g = some n ∧ T = plug cUp sOld ∧ sOld.ptr = some n ∧
          T2 = plug cUp sNew ∧ height sNew = height sOld := by
  obtain ⟨t2, e, m⟩ := insert_traced_spec new_item h.1
  have he : AVLTree.insert t new_item = some t2 := by
    rw [← insert_traced_fst, e]; rfl
  refine ⟨t2, _, _, e, he, m, ?_, ?_⟩
  · rcases insert_rotation t.mem.length T new_item h.2.2 with e0 | ⟨g, _, _, _, e1, -⟩
    · rw [e0]; simp
    · rw [e1]; simp
  · intro g hg
    rcases insert_rotation t.mem.length T new_item h.2.2 with
      e0 | ⟨n, cUp, sOld, sNew, e1, e2, e3, e4, e5⟩
    · rw [e0] at hg; simp at hg
    · rw [e1] at hg ⊢
      simp only [List.mem_singleton] at hg
      subst hg
      exact ⟨rfl, n, cUp, sOld, sNew, rfl, e2, e3, e4, e5⟩

theorem insert_rotates_once_witness :
    ValidAVL sampleTree sampleShape ∧
    (AVLTree.insert_traced sampleTree (27, 270)).map Prod.snd = some [some 2] ∧
    ∃ t2 T2 steps, AVLTree.insert_traced sampleTree (27, 270) = some (t2, steps) ∧
      AVLTree.insert sampleTree (27, 270) = some t2 ∧ Models t2 T2 ∧ steps.length ≤ 1 ∧
      ∀ g ∈ steps, steps = [g] ∧
        ∃ n cUp sOld sNew, g = some n ∧ sampleShape = plug cUp sOld ∧ sOld.ptr = some n ∧
          T2 = plug cUp sNew ∧ height sNew = height sOld :=
  ⟨sampleTree_valid, by decide, insert_rotates_once sampleTree sampleShape sampleTree_valid (27, 270)⟩

end RotationStep

section Scenarios
open Shape
variable {K V : Type}

/-! ## The scenarios with three and with seven keys -/

/-- C13: the calls `insert` with the keys 1, 2, 3, 4, 5, 6, 7 in this order on
an empty AVL tree return and leave the perfectly balanced tree of height 3:
key 4 at the root, its children 2 and 6, the leaves 1, 3, 5, 7, and every
balance factor 0, whatever the values are. -/
theorem scenario_A_perfect_tree (v1 v2 v3 v4 v5 v6 v7 : V) :
    ∃ t, insertAll (BinarySearchTree.empty_tree : AVLTree Nat V)
        [(1, v1), (2, v2), (3, v3), (4, v4), (5, v5), (6, v6), (7, v7)] = some t ∧
      Models t
        (node 3
          (node 1 (node 0 nil 1 v1 0 nil) 2 v2 0 (node 2 nil 3 v3 0 nil))
          4 v4 0
          (node 5 (node 4 nil 5 v5 0 nil) 6 v6 0 (node 6 nil 7 v7 0 nil))) ∧
      height
        (node 3
          (node 1 (node 0 nil 1 v1 0 nil) 2 v2 0 (node 2 nil 3 v3 0 nil))
          4 v4 0
          (node 5 (node 4 nil 5 v5 0 nil) 6 v6 0 (node 6 nil 7 v7 0 nil))) = 3 := by
  have s1 : AVLTree.insert
        (BinarySearchTree.empty_tree : AVLTree Nat V)
        (1, v1) =
      some ⟨[some ⟨1, v1, none, none, none, 0⟩],
       some 0⟩ := rfl
  have s2 : AVLTree.insert
        (⟨[some ⟨1, v1, none, none, none, 0⟩],
         some 0⟩ : AVLTree Nat V)
        (2, v2) =
      some ⟨[some ⟨1, v1, none, none, some 1, 1⟩,
        some ⟨2, v2, some 0, none, none, 0⟩],
       some 0⟩ := rfl
  have s3 : AVLTree.insert
        (⟨[some ⟨1, v1, none, none, some 1, 1⟩,
          some ⟨2, v2, some 0, none, none, 0⟩],
         some 0⟩ : AVLTree Nat V)
        (3, v3) =
      some ⟨[some ⟨1, v1, some 1, none, none, 0⟩,
        some ⟨2, v2, none, some 0, some 2, 0⟩,
        some ⟨3, v3, some 1, none, none, 0⟩],
       some 1⟩ := rfl
  have s4 : AVLTree.insert
        (⟨[some ⟨1, v1, some 1, none, none, 0⟩,
          some ⟨2, v2, none, some 0, some 2, 0⟩,
          some ⟨3, v3, some 1, none, none, 0⟩],
         some 1⟩ : AVLTree Nat V)
        (4, v4) =
      some ⟨[some ⟨1, v1, some 1, none, none, 0⟩,
        some ⟨2, v2, none, some 0, some 2, 1⟩,
        some ⟨3, v3, some 1, none, some 3, 1⟩,
        some ⟨4, v4, some 2, none, none, 0⟩],
       some 1⟩ := rfl
  have s5 : AVLTree.insert
        (⟨[some ⟨1, v1, some 1, none, none, 0⟩,
          some ⟨2, v2, none, some 0, some 2, 1⟩,
          some ⟨3, v3, some 1, none, some 3, 1⟩,
          some ⟨4, v4, some 2, none, none, 0⟩],
         some 1⟩ : AVLTree Nat V)
        (5, v5) =
      some ⟨[some ⟨1, v1, some 1, none, none, 0⟩,
        some ⟨2, v2, none, some 0, some 3, 1⟩,
        some ⟨3, v3, some 3, none, none, 0⟩,
        some ⟨4, v4, some 1, some 2, some 4, 0⟩,
        some ⟨5, v5, some 3, none, none, 0⟩],
       some 1⟩ := rfl
  have s6 : AVLTree.insert
        (⟨[some ⟨1, v1, some 1, none, none, 0⟩,
          some ⟨2, v2, none, some 0, some 3, 1⟩,
          some ⟨3, v3, some 3, none, none, 0⟩,
          some ⟨4, v4, some 1, some 2, some 4, 0⟩,
          some ⟨5, v5, some 3, none, none, 0⟩],
         some 1⟩ : AVLTree Nat V)
        (6, v6) =
      some ⟨[some ⟨1, v1, some 1, none, none, 0⟩,
        some ⟨2, v2, some 3, some 0, some 2, 0⟩,
        some ⟨3, v3, some 1, none, none, 0⟩,
        some ⟨4, v4, none, some 1, some 4, 0⟩,
        some ⟨5, v5, some 3, none, some 5, 1⟩,
        some ⟨6, v6, some 4, none, none, 0⟩],
       some 3⟩ := rfl
  have s7 : AVLTree.insert
        (⟨[some ⟨1, v1, some 1, none, none, 0⟩,
          some ⟨2, v2, some 3, some 0, some 2, 0⟩,
          some ⟨3, v3, some 1, none, none, 0⟩,
          some ⟨4, v4, none, some 1, some 4, 0⟩,
          some ⟨5, v5, some 3, none, some 5, 1⟩,
          some ⟨6, v6, some 4, none, none, 0⟩],
         some 3⟩ : AVLTree Nat V)
        (7, v7) =
      some ⟨[some ⟨1, v1, some 1, none, none, 0⟩,
        some ⟨2, v2, some 3, some 0, some 2, 0⟩,
        some ⟨3, v3, some 1, none, none, 0⟩,
        some ⟨4, v4, none, some 1, some 5, 0⟩,
        some ⟨5, v5, some 5, none, none, 0⟩,
        some ⟨6, v6, some 3, some 4, some 6, 0⟩,
        some ⟨7, v7, some 5, none, none, 0⟩],
       some 3⟩ := rfl
  refine ⟨⟨[some ⟨1, v1, some 1, none, none, 0⟩,
            some ⟨2, v2, some 3, some 0, some 2, 0⟩,
            some ⟨3, v3, some 1, none, none, 0⟩,
            some ⟨4, v4, none, some 1, some 5, 0⟩,
            some ⟨5, v5, some 5, none, none, 0⟩,
            some ⟨6, v6, some 3, some 4, some 6, 0⟩,
            some ⟨7, v7, some 5, none, none, 0⟩],
           some 3⟩,
    ?_, ⟨rfl, ?_, by simp [Shape.addrs]⟩, rfl⟩
  · simp only [insertAll, s1, s2, s3, s4, s5, s6, s7, andThen_some]
  · simp [RepTree, deref]

/-- The three calls of `insert` on the empty tree return, and the heap then
holds the tree the three insertions compute. -/
theorem insertAll_three [LinearOrder K] (k1 k2 k3 : K) (v1 v2 v3 : V) :
    ∃ t a2 a3, insertAll (BinarySearchTree.empty_tree : AVLTree K V)
        [(k1, v1), (k2, v2), (k3, v3)] = some t ∧
      Models t (Shape.insert a3 (Shape.insert a2 (Shape.insert 0 nil (k1, v1)) (k2, v2))
        (k3, v3)) := by
  obtain ⟨t1, e1, m1⟩ := insert_spec (k1, v1) (empty_tree_valid (K := K) (V := V)).1
  obtain ⟨t2, e2, m2⟩ := insert_spec (k2, v2) m1
  obtain ⟨t3, e3, m3⟩ := insert_spec (k3, v3) m2
  exact ⟨t3, _, _, by simp [insertAll, e1, e2, e3], m3⟩

theorem three_keys_123 [LinearOrder K] (k1 k2 k3 : K) (v1 v2 v3 : V) (a2 a3 : Nat)
    (h1 : k1 < k2) (h2 : k2 < k3) :
    Shape.insert a3 (Shape.insert a2 (Shape.insert 0 nil (k1, v1)) (k2, v2)) (k3, v3) =
      node a2 (node 0 nil k1 v1 0 nil) k2 v2 0 (node a3 nil k3 v3 0 nil) := by
  have h3 := lt_trans h1 h2
  have n1 := not_lt_of_gt h1
  have n2 := not_lt_of_gt h2
  have n3 := not_lt_of_gt h3
  have e1 := ne_of_gt h1
  have e2 := ne_of_gt h2
  have e3 := ne_of_gt h3
  have f1 := ne_of_lt h1
  have f2 := ne_of_lt h2
  have f3 := ne_of_lt h3
  simp [Shape.insert, Shape.insert_helper, Shape.insert_fix, plug, h1, h2, h3, n1, n2, n3,
    e1, e2, e3, f1, f2, f3]

theorem three_keys_132 [LinearOrder K] (k1 k2 k3 : K) (v1 v2 v3 : V) (a2 a3 : Nat)
    (h1 : k1 < k3) (h2 : k3 < k2) :
    Shape.insert a3 (Shape.insert a2 (Shape.insert 0 nil (k1, v1)) (k2, v2)) (k3, v3) =
      node a3 (node 0 nil k1 v1 0 nil) k3 v3 0 (node a2 nil k2 v2 0 nil) := by
  have h3 := lt_trans h1 h2
  have n1 := not_lt_of_gt h1
  have n2 := not_lt_of_gt h2
  have n3 := not_lt_of_gt h3
  have e1 := ne_of_gt h1
  have e2 := ne_of_gt h2
  have e3 := ne_of_gt h3
  have f1 := ne_of_lt h1
  have f2 := ne_of_lt h2
  have f3 := ne_of_lt h3
  simp [Shape.insert, Shape.insert_helper, Shape.insert_fix, plug, h1, h2, h3, n1, n2, n3,
    e1, e2, e3, f1, f2, f3]

theorem three_keys_213 [LinearOrder K] (k1 k2 k3 : K) (v1 v2 v3 : V) (a2 a3 : Nat)
    (h1 : k2 < k1) (h2 : k1 < k3) :
    Shape.insert a3 (Shape.insert a2 (Shape.insert 0 nil (k1, v1)) (k2, v2)) (k3, v3) =
      node 0 (node a2 nil k2 v2 0 nil) k1 v1 0 (node a3 nil k3 v3 0 nil) := by
  have h3 := lt_trans h1 h2
  have n1 := not_lt_of_gt h1
  have n2 := not_lt_of_gt h2
  have n3 := not_lt_of_gt h3
  have e1 := ne_of_gt h1
  have e2 := ne_of_gt h2
  have e3 := ne_of_gt h3
  have f1 := ne_of_lt h1
  have f2 := ne_of_lt h2
  have f3 := ne_of_lt h3
  simp [Shape.insert, Shape.insert_helper, Shape.insert_fix, plug, h1, h2, h3, n1, n2, n3,
    e1, e2, e3, f1, f2, f3]

theorem three_keys_231 [LinearOrder K] (k1 k2 k3 : K) (v1 v2 v3 : V) (a2 a3 : Nat)
    (h1 : k2 < k3) (h2 : k3 < k1) :
    Shape.insert a3 (Shape.insert a2 (Shape.insert 0 nil (k1, v1)) (k2, v2)) (k3, v3) =
      node a3 (node a2 nil k2 v2 0 nil) k3 v3 0 (node 0 nil k1 v1 0 nil) := by
  have h3 := lt_trans h1 h2
  have n1 := not_lt_of_gt h1
  have n2 := not_lt_of_gt h2
  have n3 := not_lt_of_gt h3
  have e1 := ne_of_gt h1
  have e2 := ne_of_gt h2
  have e3 := ne_of_gt h3
  have f1 := ne_of_lt h1
  have f2 := ne_of_lt h2
  have f3 := ne_of_lt h3
  simp [Shape.insert, Shape.insert_helper, Shape.insert_fix, plug, h1, h2, h3, n1, n2, n3,
    e1, e2, e3, f1, f2, f3]

theorem three_keys_312 [LinearOrder K] (k1 k2 k3 : K) (v1 v2 v3 : V) (a2 a3 : Nat)
    (h1 : k3 < k1) (h2 : k1 < k2) :
    Shape.insert a3 (Shape.insert a2 (Shape.insert 0 nil (k1, v1)) (k2, v2)) (k3, v3) =
      node 0 (node a3 nil k3 v3 0 nil) k1 v1 0 (node a2 nil k2 v2 0 nil) := by
  have h3 := lt_trans h1 h2
  have n1 := not_lt_of_gt h1
  have n2 := not_lt_of_gt h2
  have n3 := not_lt_of_gt h3
  have e1 := ne_of_gt h1
  have e2 := ne_of_gt h2
  have e3 := ne_of_gt h3
  have f1 := ne_of_lt h1
  have f2 := ne_of_lt h2
  have f3 := ne_of_lt h3
  simp [Shape.insert, Shape.insert_helper, Shape.insert_fix, plug, h1, h2, h3, n1, n2, n3,
    e1, e2, e3, f1, f2, f3]

theorem three_keys_321 [LinearOrder K] (k1 k2 k3 : K) (v1 v2 v3 : V) (a2 a3 : Nat)
    (h1 : k3 < k2) (h2 : k2 < k1) :
    Shape.insert a3 (Shape.insert a2 (Shape.insert 0 nil (k1, v1)) (k2, v2)) (k3, v3) =
      node a2 (node a3 nil k3 v3 0 nil) k2 v2 0 (node 0 nil k1 v1 0 nil) := by
  have h3 := lt_trans h1 h2
  have n1 := not_lt_of_gt h1
  have n2 := not_lt_of_gt h2
  have n3 := not_lt_of_gt h3
  have e1 := ne_of_gt h1
  have e2 := ne_of_gt h2
  have e3 := ne_of_gt h3
  have f1 := ne_of_lt h1
  have f2 := ne_of_lt h2
  have f3 := ne_of_lt h3
  simp [Shape.insert, Shape.insert_helper, Shape.insert_fix, plug, h1, h2, h3, n1, n2, n3,
    e1, e2, e3, f1, f2, f3]

/-- C14: for three distinct keys, the three calls of `insert` on the empty
tree in any order return and leave the tree with the median key at the root,
the smallest key as its left child, the largest as its right child, and the
three balance factors 0. -/
theorem three_keys_median_root [LinearOrder K] (k1 k2 k3 : K) (v1 v2 v3 : V)
    (h12 : k1 ≠ k2) (h13 : k1 ≠ k3) (h23 : k2 ≠ k3) :
    ∃ t a l r lo mid hi vlo vmid vhi,
      insertAll (BinarySearchTree.empty_tree : AVLTree K V)
        [(k1, v1), (k2, v2), (k3, v3)] = some t ∧
      Models t (node a (node l nil lo vlo 0 nil) mid vmid 0 (node r nil hi vhi 0 nil)) ∧
      lo < mid ∧ mid < hi ∧
      [(lo, vlo), (mid, vmid), (hi, vhi)].Perm [(k1, v1), (k2, v2), (k3, v3)] := by
  obtain ⟨t, a2, a3, e, m⟩ := insertAll_three k1 k2 k3 v1 v2 v3
  rcases lt_or_gt_of_ne h12 with c12 | c12 <;> rcases lt_or_gt_of_ne h13 with c13 | c13 <;>
    rcases lt_or_gt_of_ne h23 with c23 | c23
  · rw [three_keys_123 k1 k2 k3 v1 v2 v3 a2 a3 c12 c23] at m
    exact ⟨t, _, _, _, _, _, _, _, _, _, e, m, c12, c23,
      List.Perm.refl _⟩
  · rw [three_keys_132 k1 k2 k3 v1 v2 v3 a2 a3 c13 c23] at m
    exact ⟨t, _, _, _, _, _, _, _, _, _, e, m, c13, c23,
      (List.Perm.swap (k2, v2) (k3, v3) []).cons (k1, v1)⟩
  · exact absurd (lt_trans (lt_trans c12 c23) c13) (lt_irrefl _)
  · rw [three_keys_312 k1 k2 k3 v1 v2 v3 a2 a3 c13 c12] at m
    exact ⟨t, _, _, _, _, _, _, _, _, _, e, m, c13, c12,
      (List.Perm.swap (k1, v1) (k3, v3) [(k2, v2)]).trans
        ((List.Perm.swap (k2, v2) (k3, v3) []).cons (k1, v1))⟩
  · rw [three_keys_213 k1 k2 k3 v1 v2 v3 a2 a3 c12 c13] at m
    exact ⟨t, _, _, _, _, _, _, _, _, _, e, m, c12, c13,
      List.Perm.swap (k1, v1) (k2, v2) [(k3, v3)]⟩
  · exact absurd (lt_trans (lt_trans c12 c13) c23) (lt_irrefl _)
  · rw [three_keys_231 k1 k2 k3 v1 v2 v3 a2 a3 c23 c13] at m
    exact ⟨t, _, _, _, _, _, _, _, _, _, e, m, c23, c13,
      ((List.Perm.swap (k1, v1) (k3, v3) []).cons (k2, v2)).trans
        (List.Perm.swap (k1, v1) (k2, v2) [(k3, v3)])⟩
  · rw [three_keys_321 k1 k2 k3 v1 v2 v3 a2 a3 c23 c12] at m
    exact ⟨t, _, _, _, _, _, _, _, _, _, e, m, c23, c12,
      List.reverse_perm [(k1, v1), (k2, v2), (k3, v3)]⟩

theorem three_keys_median_root_witness :
    ((3 : Nat) ≠ 2 ∧ (3 : Nat) ≠ 1 ∧ (2 : Nat) ≠ 1 ∧
      ∃ t a l r lo mid hi vlo vmid vhi,
        insertAll (BinarySearchTree.empty_tree : AVLTree Nat Nat)
          [(3, 30), (2, 20), (1, 10)] = some t ∧
        Models t (node a (node l nil lo vlo 0 nil) mid vmid 0 (node r nil hi vhi 0 nil)) ∧
        lo < mid ∧ mid < hi ∧
        [(lo, vlo), (mid, vmid), (hi, vhi)].Perm [(3, 30), (2, 20), (1, 10)]) ∧
    ((1 : Nat) ≠ 3 ∧ (1 : Nat) ≠ 2 ∧ (3 : Nat) ≠ 2 ∧
      ∃ t a l r lo mid hi vlo vmid vhi,
        insertAll (BinarySearchTree.empty_tree : AVLTree Nat Nat)
          [(1, 10), (3, 30), (2, 20)] = some t ∧
        Models t (node a (node l nil lo vlo 0 nil) mid vmid 0 (node r nil hi vhi 0 nil)) ∧
        lo < mid ∧ mid < hi ∧
        [(lo, vlo), (mid, vmid), (hi, vhi)].Perm [(1, 10), (3, 30), (2, 20)]) :=
  ⟨⟨by decide, by decide, by decide,
      three_keys_median_root 3 2 1 30 20 10 (by decide) (by decide) (by decide)⟩,
    ⟨by decide, by decide, by decide,
      three_keys_median_root 1 3 2 10 30 20 (by decide) (by decide) (by decide)⟩⟩

end Scenarios

section RotationOrder
open Shape
variable {K V : Type}

/-! ## Rotations on any node of a tree -/

/-- Every node of the tree is the top of a subtree below some path. -/
theorem addr_position (T : Shape K V) (a : Nat) (h : a ∈ T.addrs) :
    ∃ c l k v b r, plug c (node a l k v b r) = T := by
  have hm : a ∈ (cells T).map Prod.fst := (cells_addrs_perm T).mem_iff.mpr h
  obtain ⟨e, he, rfl⟩ := List.mem_map.mp hm
  obtain ⟨a, k, v⟩ := e
  obtain ⟨pre, post, hsplit⟩ := List.append_of_mem he
  obtain ⟨c, l, b, r, e1, -, -⟩ := cells_position T pre post a k v hsplit
  exact ⟨c, l, k, v, b, r, e1⟩

/-- The child slot of the parent, or the root slot, after a change of the
subtree in focus. -/
theorem parent_slot {t t2 : BinarySearchTree K V} {c : List (Frame K V)} {y x : Nat}
    {L R L2 R2 : Shape K V} {k k2 : K} {v v2 : V} {b b2 : Int}
    (h : ModelsAt t c (node y L k v b R)) (h2 : ModelsAt t2 c (node x L2 k2 v2 b2 R2)) :
    (getParent t (some y) = some none → t2.root_ = some x) ∧
    (∀ p, getParent t (some y) = some (some p) →
      (getLeft t (some p) = some (some y) → getLeft t2 (some p) = some (some x)) ∧
      (getRight t (some p) = some (some y) → getRight t2 (some p) = some (some x))) := by
  have r1 := getParent_focus h
  cases c with
  | nil =>
    refine ⟨fun _ => h2.1, fun p hp => ?_⟩
    rw [r1] at hp
    simp [pathPtr] at hp
  | cons f c =>
    refine ⟨fun hp => by rw [r1] at hp; simp [pathPtr] at hp, fun p hp => ?_⟩
    rw [r1] at hp
    simp only [pathPtr_cons, Option.some.injEq] at hp
    subst hp
    cases f with
    | left g kg vg bg S =>
      have hg := modelsAt_left.mpr h
      have hg2 := modelsAt_left.mpr h2
      refine ⟨fun _ => by simpa using getLeft_focus hg2, fun hr => ?_⟩
      have := getRight_focus hg
      simp only [addr_left] at hr
      rw [this] at hr
      exact absurd (Option.some.inj hr) (modelsAt_right_ne_left hg)
    | right g S kg vg bg =>
      have hg := modelsAt_right.mpr h
      have hg2 := modelsAt_right.mpr h2
      refine ⟨fun hl => ?_, fun _ => by simpa using getRight_focus hg2⟩
      have := getLeft_focus hg
      simp only [addr_right] at hl
      rw [this] at hl
      exact absurd (Option.some.inj hl) (modelsAt_left_ne_right hg)

/-- C23: on a heap that holds a tree with consistent links, for every node `y`
of the tree that has a left child `x`, `rotate_right(y)` returns; the in-order
sequence of the whole tree is as before; `x` stands where `y` stood, under the
same parent slot or in the root slot, `y` is the right child of `x`, and the
former right subtree of `x` is the left subtree of `y`.  The same holds for
`rotate_left(x)` on a node `x` with a right child `y`, with the sides
exchanged. -/
theorem rotation_keeps_order (t : AVLTree K V) (T : Shape K V) (h : Models t T) :
    (∀ y x, y ∈ T.addrs → getLeft t (some y) = some (some x) →
      ∃ t2 c A B C kx ky vx vy bx yb,
        AVLTree.rotate_right t (some y) = some t2 ∧
        T = plug c (node y (node x A kx vx bx B) ky vy yb C) ∧
        Models t2 (plug c (node x A kx vx bx (node y B ky vy yb C))) ∧
        toList (plug c (node x A kx vx bx (node y B ky vy yb C))) = toList T ∧
        getRight t2 (some x) = some (some y) ∧ getParent t2 (some y) = some (some x) ∧
        getLeft t2 (some y) = getRight t (some x) ∧
        getParent t2 (some x) = getParent t (some y) ∧
        (getParent t (some y) = some none → t2.root_ = some x) ∧
        (∀ p, getParent t (some y) = some (some p) →
          (getLeft t (some p) = some (some y) → getLeft t2 (some p) = some (some x)) ∧
          (getRight t (some p) = some (some y) → getRight t2 (some p) = some (some x)))) ∧
    (∀ x y, x ∈ T.addrs → getRight t (some x) = some (some y) →
      ∃ t2 c A B C kx ky vx vy bx yb,
        AVLTree.rotate_left t (some x) = some t2 ∧
        T = plug c (node x A kx vx bx (node y B ky vy yb C)) ∧
        Models t2 (plug c (node y (node x A kx vx bx B) ky vy yb C)) ∧
        toList (plug c (node y (node x A kx vx bx B) ky vy yb C)) = toList T ∧
        getLeft t2 (some y) = some (some x) ∧ getParent t2 (some x) = some (some y) ∧
        getRight t2 (some x) = getLeft t (some y) ∧
        getParent t2 (some y) = getParent t (some x) ∧
        (getParent t (some x) = some none → t2.root_ = some y) ∧
        (∀ p, getParent t (some x) = some (some p) →
          (getLeft t (some p) = some (some x) → getLeft t2 (some p) = some (some y)) ∧
          (getRight t (some p) = some (some x) → getRight t2 (some p) = some (some y)))) := by
  constructor
  · intro y x hy hl
    obtain ⟨c, L, ky, vy, yb, C, hT⟩ := addr_position T y hy
    have hm : ModelsAt t c (node y L ky vy yb C) := by rw [← models_plug, hT]; exact h
    rw [getLeft_focus hm] at hl
    cases L with
    | nil => simp at hl
    | node x2 A kx vx bx B =>
      simp only [ptr_node, Option.some.injEq] at hl
      subst hl
      obtain ⟨t2, e, m2, -⟩ := rotate_right_spec hm
      have hslot := parent_slot hm m2
      refine ⟨t2, c, A, B, C, kx, ky, vx, vy, bx, yb, e, hT.symm, (models_plug _ _).mpr m2, ?_,
        by simpa using getRight_focus m2, by simpa using getParent_focus (modelsAt_right.mp m2),
        ?_, ?_, hslot.1, hslot.2⟩
      · rw [← hT]; simp [toList_plug, toList]
      · rw [getLeft_focus (modelsAt_right.mp m2), getRight_focus (modelsAt_left.mp hm)]
      · rw [getParent_focus m2, getParent_focus hm]
  · intro x y hx hr
    obtain ⟨c, A, kx, vx, bx, R, hT⟩ := addr_position T x hx
    have hm : ModelsAt t c (node x A kx vx bx R) := by rw [← models_plug, hT]; exact h
    rw [getRight_focus hm] at hr
    cases R with
    | nil => simp at hr
    | node y2 B ky vy yb C =>
      simp only [ptr_node, Option.some.injEq] at hr
      subst hr
      obtain ⟨t2, e, m2, -⟩ := rotate_left_spec hm
      have hslot := parent_slot hm m2
      refine ⟨t2, c, A, B, C, kx, ky, vx, vy, bx, yb, e, hT.symm, (models_plug _ _).mpr m2, ?_,
        by simpa using getLeft_focus m2, by simpa using getParent_focus (modelsAt_left.mp m2),
        ?_, ?_, hslot.1, hslot.2⟩
      · rw [← hT]; simp [toList_plug, toList]
      · rw [getRight_focus (modelsAt_left.mp m2), getLeft_focus (modelsAt_right.mp hm)]
      · rw [getParent_focus m2, getParent_focus hm]

theorem rotation_keeps_order_witness :
    Models sampleTree sampleShape ∧ 2 ∈ sampleShape.addrs ∧
      getLeft sampleTree (some 2) = some (some 3) ∧
      ∃ t2 c A B C kx ky vx vy bx yb,
        AVLTree.rotate_right sampleTree (some 2) = some t2 ∧
        sampleShape = plug c (node 2 (node 3 A kx vx bx B) ky vy yb C) ∧
        Models t2 (plug c (node 3 A kx vx bx (node 2 B ky vy yb C))) ∧
        toList (plug c (node 3 A kx vx bx (node 2 B ky vy yb C))) = toList sampleShape ∧
        getRight t2 (some 3) = some (some 2) ∧ getParent t2 (some 2) = some (some 3) ∧
        getLeft t2 (some 2) = getRight sampleTree (some 3) ∧
        getParent t2 (some 3) = getParent sampleTree (some 2) ∧
        (getParent sampleTree (some 2) = some none → t2.root_ = some 3) ∧
        (∀ p, getParent sampleTree (some 2) = some (some p) →
          (getLeft sampleTree (some p) = some (some 2) → getLeft t2 (some p) = some (some 3)) ∧
          (getRight sampleTree (some p) = some (some 2) →
            getRight t2 (some p) = some (some 3))) :=
  ⟨sampleTree_valid.1, by decide, rfl,
    (rotation_keeps_order sampleTree sampleShape sampleTree_valid.1).1 2 3 (by decide) rfl⟩

end RotationOrder

section Neighbours
open Shape
variable {K V : Type}

/-! ## `predecessor` and `successor` as neighbours in order -/

theorem getLast?_append_cons {α : Type} (l1 l2 : List α) (a : α) :
    (l1 ++ a :: l2).getLast? = (a :: l2).getLast? := by
  rw [List.getLast?_append]
  simp [List.getLast?_cons]

/-- Refinement of the first loop of `predecessor`: it ends at the last node of
the subtree in order. -/
theorem predecessor_descend_last {t : BinarySearchTree K V} (s : Shape K V) :
    ∀ (par : Option Nat) (fuel : Nat), RepTree t par s → s ≠ nil → s.height ≤ fuel →
      BinarySearchTree.predecessor_descend t fuel s.ptr
        = some ((cells s).getLast?.map Prod.fst) := by
  induction s with
  | nil => intro par fuel _ hs; exact absurd rfl hs
  | node a l k v b r _ ihr =>
    intro par fuel h _ hf
    cases fuel with
    | zero => simp [Shape.height] at hf
    | succ fuel =>
      simp only [Shape.height, Nat.add_le_add_iff_right, max_le_iff] at hf
      obtain ⟨h1, h2, h3⟩ := h
      cases r with
      | nil =>
        simp [BinarySearchTree.predecessor_descend, getRight, h1, cells, getLast?_append_cons]
      | node a2 l2 k2 v2 b2 r2 =>
        have := ihr (some a) fuel h3 (by simp) hf.2
        simp only [ptr_node] at this
        have e : (cells (node a l k v b (node a2 l2 k2 v2 b2 r2))).getLast?
            = (cells (node a2 l2 k2 v2 b2 r2)).getLast? := by
          simp only [cells]
          rw [getLast?_append_cons]
          show ((a, (k, v)) :: ([] ++ (cells l2 ++ (a2, (k2, v2)) :: cells r2))).getLast? = _
          rw [← List.cons_append, ← List.append_assoc, getLast?_append_cons,
            getLast?_append_cons]
        simp [BinarySearchTree.predecessor_descend, getRight, h1, this, e]

/-- Refinement of the second loop of `predecessor`: it goes up as long as the
node is a left child and ends at the last node that comes before the path's
open slot in order, or at null. -/
theorem predecessor_ascend_spec {t : BinarySearchTree K V} (c : List (Frame K V)) :
    ∀ (fuel : Nat) (a : Nat) (l r : Shape K V) (k : K) (v : V) (b : Int),
      ModelsAt t c (node a l k v b r) → c.length < fuel →
      BinarySearchTree.predecessor_ascend t fuel (some a)
        = some ((pathBeforeCells c).getLast?.map Prod.fst) := by
  induction c with
  | nil =>
    intro fuel a l r k v b h hf
    cases fuel with
    | zero => simp at hf
    | succ fuel =>
      simp [BinarySearchTree.predecessor_ascend, getParent_focus h, pathBeforeCells]
  | cons f c ih =>
    intro fuel a l r k v b h hf
    cases fuel with
    | zero => simp at hf
    | succ fuel =>
      have hf2 : c.length < fuel := by simpa using hf
      have r1 := getParent_focus h
      cases f with
      | left g kg vg bg R =>
        have hg := modelsAt_left.mpr h
        have r2 := getLeft_focus hg
        have := ih fuel g _ R kg vg bg hg hf2
        simp [BinarySearchTree.predecessor_ascend, r1, r2, this, pathBeforeCells]
      | right g L kg vg bg =>
        have hg := modelsAt_right.mpr h
        have r2 := getLeft_focus hg
        have hne : some a ≠ L.ptr := fun e => modelsAt_left_ne_right hg e.symm
        simp [BinarySearchTree.predecessor_ascend, r1, r2, hne, pathBeforeCells,
          List.getLast?_append]

/-- Refinement of `predecessor`: the node that comes before in order, or null
before the first node. -/
theorem predecessor_spec {t : BinarySearchTree K V} {c : List (Frame K V)} {a : Nat}
    {l r : Shape K V} {k : K} {v : V} {b : Int} (h : ModelsAt t c (node a l k v b r)) :
    BinarySearchTree.predecessor t (some a)
      = some ((pathBeforeCells c ++ cells l).getLast?.map Prod.fst) := by
  have r1 := getLeft_focus h
  have hlen := path_length_le h
  cases l with
  | nil =>
    have := predecessor_ascend_spec c (t.mem.length + 1) a nil r k v b h (by omega)
    simp [BinarySearchTree.predecessor, r1, this, cells]
  | node a2 l2 k2 v2 b2 r2 =>
    have hrep : RepTree t (some a) (node a2 l2 k2 v2 b2 r2) := h.2.2.1.2.1
    have hh : (node a2 l2 k2 v2 b2 r2).height ≤ t.mem.length + 1 := by
      have h2 := height_le_size (node a2 l2 k2 v2 b2 r2)
      simp only [Shape.size] at hlen h2 ⊢
      omega
    have := predecessor_descend_last (node a2 l2 k2 v2 b2 r2) (some a) _ hrep (by simp) hh
    simp only [ptr_node] at this
    have e : (pathBeforeCells c ++ cells (node a2 l2 k2 v2 b2 r2)).getLast?
        = (cells (node a2 l2 k2 v2 b2 r2)).getLast? := by
      simp only [cells]
      rw [← List.append_assoc, getLast?_append_cons, getLast?_append_cons]
    simp [BinarySearchTree.predecessor, r1, this, e]

theorem keys_eq_cells [LinearOrder K] (T : Shape K V) :
    T.keys = (cells T).map (fun e => e.2.1) := by
  unfold keys
  rw [toList_eq_cells, List.map_map]
  rfl

/-- The neighbours of an element of a list that is strictly ascending under a
key function: the element after it has the smallest key above its key, the
element before it the largest key below. -/
theorem sorted_neighbours {α : Type} [LinearOrder K] (f : α → K) (pre post : List α) (e : α)
    (hs : ((pre ++ e :: post).map f).Pairwise (· < ·)) :
    (post.head? = none ↔ ∀ x ∈ pre ++ e :: post, f x ≤ f e) ∧
    (∀ s, post.head? = some s → s ∈ pre ++ e :: post ∧ f e < f s ∧
      ∀ x ∈ pre ++ e :: post, f e < f x → f s ≤ f x) ∧
    (pre.getLast? = none ↔ ∀ x ∈ pre ++ e :: post, f e ≤ f x) ∧
    (∀ s, pre.getLast? = some s → s ∈ pre ++ e :: post ∧ f s < f e ∧
      ∀ x ∈ pre ++ e :: post, f x < f e → f x ≤ f s) := by
  rw [List.map_append, List.map_cons, List.pairwise_append, List.pairwise_cons] at hs
  obtain ⟨hpre, ⟨hpost1, hpost2⟩, hcross⟩ := hs
  have hbefore : ∀ x ∈ pre, f x < f e :=
    fun x hx => hcross (f x) (List.mem_map.mpr ⟨x, hx, rfl⟩) (f e) (by simp)
  have hafter : ∀ x ∈ post, f e < f x :=
    fun x hx => hpost1 (f x) (List.mem_map.mpr ⟨x, hx, rfl⟩)
  refine ⟨?_, ?_, ?_, ?_⟩
  · cases post with
    | nil =>
      simp only [List.head?_nil, true_iff]
      intro x hx
      simp only [List.mem_append, List.mem_cons, List.not_mem_nil, or_false] at hx
      rcases hx with hx | rfl
      · exact le_of_lt (hbefore x hx)
      · exact le_refl _
    | cons s rest =>
      simp only [List.head?_cons, reduceCtorEq, false_iff, not_forall]
      exact ⟨s, by simp, not_le.mpr (hafter s (by simp))⟩
  · intro s hs
    cases post with
    | nil => simp at hs
    | cons s2 rest =>
      simp only [List.head?_cons, Option.some.injEq] at hs
      subst hs
      refine ⟨by simp, hafter s2 (by simp), ?_⟩
      intro x hx hlt
      simp only [List.mem_append, List.mem_cons] at hx
      rcases hx with hx | rfl | rfl | hx
      · exact absurd (lt_trans hlt (hbefore x hx)) (lt_irrefl _)
      · exact absurd hlt (lt_irrefl _)
      · exact le_refl _
      · simp only [List.map_cons, List.pairwise_cons] at hpost2
        exact le_of_lt (hpost2.1 (f x) (List.mem_map.mpr ⟨x, hx, rfl⟩))
  · rcases List.eq_nil_or_concat pre with rfl | ⟨init, s, rfl⟩
    · simp only [List.getLast?_nil, true_iff]
      intro x hx
      simp only [List.nil_append, List.mem_cons] at hx
      rcases hx with rfl | hx
      · exact le_refl _
      · exact le_of_lt (hafter x hx)
    · simp only [List.concat_eq_append, List.getLast?_append, List.getLast?_singleton,
        Option.or, reduceCtorEq, false_iff, not_forall]
      exact ⟨s, by simp, not_le.mpr (hbefore s (by simp))⟩
  · intro s hs
    rcases List.eq_nil_or_concat pre with rfl | ⟨init, s2, rfl⟩
    · simp at hs
    · simp only [List.concat_eq_append, List.getLast?_append, List.getLast?_singleton,
        Option.or, Option.some.injEq] at hs
      subst hs
      refine ⟨by simp, hbefore s2 (by simp), ?_⟩
      intro x hx hlt
      simp only [List.concat_eq_append, List.mem_append, List.mem_cons, List.mem_singleton,
        List.not_mem_nil, or_false] at hx
      rcases hx with (hx | rfl) | rfl | hx
      · simp only [List.concat_eq_append, List.map_append, List.map_cons, List.map_nil,
          List.pairwise_append, List.mem_map, List.mem_singleton] at hpre
        exact le_of_lt (hpre.2.2 (f x) ⟨x, hx, rfl⟩ (f s2) rfl)
      · exact le_refl _
      · exact absurd hlt (lt_irrefl _)
      · exact absurd (lt_trans (hafter x hx) hlt) (lt_irrefl _)

/-- C25: on a heap that holds a tree in binary-search order with consistent
links, for every node `c0` of the tree with key `k`: `successor(c0)` returns
the first node after `c0` in order (the leftmost node of its right subtree, or
else the nearest node on the path up that has `c0` in its left subtree); that
node carries the smallest key greater than `k`, and the result is null exactly
when `k` is the largest key.  `predecessor(c0)` returns the last node before
`c0` in order, which carries the largest key smaller than `k`, and the result
is null exactly when `k` is the smallest key. -/
theorem successor_predecessor_correct [LinearOrder K] (t : BinarySearchTree K V)
    (T : Shape K V) (h : Models t T) (ho : T.ordered) (c0 : Nat) (k : K)
    (hc : c0 ∈ T.addrs) (hk : getKey t (some c0) = some k) :
    ∃ c l v b r, T = plug c (node c0 l k v b r) ∧
      (∃ res, BinarySearchTree.successor t (some c0) = some res ∧
        res = (cells r ++ pathAfterCells c).head?.map Prod.fst ∧
        (res = none ↔ ∀ k2 ∈ T.keys, k2 ≤ k) ∧
        (∀ s, res = some s → s ∈ T.addrs ∧ ∃ ks, getKey t (some s) = some ks ∧ k < ks ∧
          ∀ k2 ∈ T.keys, k < k2 → ks ≤ k2)) ∧
      (∃ res, BinarySearchTree.predecessor t (some c0) = some res ∧
        res = (pathBeforeCells c ++ cells l).getLast?.map Prod.fst ∧
        (res = none ↔ ∀ k2 ∈ T.keys, k ≤ k2) ∧
        (∀ s, res = some s → s ∈ T.addrs ∧ ∃ ks, getKey t (some s) = some ks ∧ ks < k ∧
          ∀ k2 ∈ T.keys, k2 < k → k2 ≤ ks)) := by
  obtain ⟨c, l, k0, v, b, r, hT⟩ := addr_position T c0 hc
  have hm : ModelsAt t c (node c0 l k0 v b r) := by rw [← models_plug, hT]; exact h
  have hk0 : k0 = k := by
    rw [getKey_focus hm] at hk
    exact Option.some.inj hk
  subst hk0
  have hcells : cells T = (pathBeforeCells c ++ cells l) ++ (c0, (k0, v)) ::
      (cells r ++ pathAfterCells c) := by
    rw [← hT, cells_plug]; simp [cells]
  have hsorted := (ordered_iff_sorted T).mp ho
  rw [keys_eq_cells, hcells] at hsorted
  obtain ⟨n1, n2, n3, n4⟩ := sorted_neighbours (fun e : Nat × (K × V) => e.2.1) _ _ _ hsorted
  rw [← hcells] at n1 n2 n3 n4
  have hkeys : ∀ k2, k2 ∈ T.keys ↔ ∃ e ∈ cells T, e.2.1 = k2 := by
    intro k2; rw [keys_eq_cells]; simp
  have hmem : ∀ e, e ∈ cells T → e.1 ∈ T.addrs ∧ getKey t (some e.1) = some e.2.1 := by
    intro e he
    obtain ⟨a, k2, v2⟩ := e
    exact ⟨(cells_addrs_perm T).mem_iff.mp (List.mem_map.mpr ⟨_, he, rfl⟩),
      (cells_deref T a k2 v2 none h.2.1 he).1⟩
  refine ⟨c, l, v, b, r, hT.symm, ⟨_, successor_spec hm, rfl, ?_, ?_⟩,
    ⟨_, predecessor_spec hm, rfl, ?_, ?_⟩⟩
  · rw [Option.map_eq_none', n1]
    constructor
    · intro hx k2 hk2
      obtain ⟨e, he, rfl⟩ := (hkeys k2).mp hk2
      exact hx e he
    · intro hx e he
      exact hx _ ((hkeys _).mpr ⟨e, he, rfl⟩)
  · intro s hs
    obtain ⟨e, he, rfl⟩ := Option.map_eq_some'.mp hs
    obtain ⟨m1, m2, m3⟩ := n2 e he
    refine ⟨(hmem e m1).1, e.2.1, (hmem e m1).2, m2, ?_⟩
    intro k2 hk2 hlt
    obtain ⟨e2, he2, rfl⟩ := (hkeys k2).mp hk2
    exact m3 e2 he2 hlt
  · rw [Option.map_eq_none', n3]
    constructor
    · intro hx k2 hk2
      obtain ⟨e, he, rfl⟩ := (hkeys k2).mp hk2
      exact hx e he
    · intro hx e he
      exact hx _ ((hkeys _).mpr ⟨e, he, rfl⟩)
  · intro s hs
    obtain ⟨e, he, rfl⟩ := Option.map_eq_some'.mp hs
    obtain ⟨m1, m2, m3⟩ := n4 e he
    refine ⟨(hmem e m1).1, e.2.1, (hmem e m1).2, m2, ?_⟩
    intro k2 hk2 hlt
    obtain ⟨e2, he2, rfl⟩ := (hkeys k2).mp hk2
    exact m3 e2 he2 hlt

theorem successor_predecessor_correct_witness :
    Models sampleTree sampleShape ∧ sampleShape.ordered ∧ 3 ∈ sampleShape.addrs ∧
      getKey sampleTree (some 3) = some 25 ∧
      ∃ c l v b r, sampleShape = plug c (node 3 l 25 v b r) ∧
        (∃ res, BinarySearchTree.successor sampleTree (some 3) = some res ∧
          res = (cells r ++ pathAfterCells c).head?.map Prod.fst ∧
          (res = none ↔ ∀ k2 ∈ sampleShape.keys, k2 ≤ 25) ∧
          (∀ s, res = some s → s ∈ sampleShape.addrs ∧
            ∃ ks, getKey sampleTree (some s) = some ks ∧ 25 < ks ∧
              ∀ k2 ∈ sampleShape.keys, 25 < k2 → ks ≤ k2)) ∧
        (∃ res, BinarySearchTree.predecessor sampleTree (some 3) = some res ∧
          res = (pathBeforeCells c ++ cells l).getLast?.map Prod.fst ∧
          (res = none ↔ ∀ k2 ∈ sampleShape.keys, 25 ≤ k2) ∧
          (∀ s, res = some s → s ∈ sampleShape.addrs ∧
            ∃ ks, getKey sampleTree (some s) = some ks ∧ ks < 25 ∧
              ∀ k2 ∈ sampleShape.keys, k2 < 25 → k2 ≤ ks)) :=
  ⟨sampleTree_valid.1, sampleTree_valid.2.1, by decide, rfl,
    successor_predecessor_correct sampleTree sampleShape sampleTree_valid.1 sampleTree_valid.2.1
      3 25 (by decide) rfl⟩

end Neighbours

section HeightChange
open Shape
variable {K V : Type}

/-! ## The height of the tree after `insert` and `remove` -/

theorem pathHeight_append (c1 c2 : List (Frame K V)) (h : Nat) :
    pathHeight (c1 ++ c2) h = pathHeight c2 (pathHeight c1 h) := by
  induction c1 generalizing h with
  | nil => rfl
  | cons f c1 ih => exact ih _

/-- The height of the tree after `insert_fix`, which is entered when the
subtree in the open slot has grown by one: the height the tree had before, or
one more. -/
theorem height_insert_fix (c : List (Frame K V)) :
    ∀ (h : Nat) (p : Nat) (A B : Shape K V) (kp : K) (vp : V) (pb : Int),
      pathBalanced c h → balanced (node p A kp vp pb B) →
      height (node p A kp vp pb B) = h + 1 → pb ≠ 0 →
      height (insert_fix c (node p A kp vp pb B)) = pathHeight c h ∨
      height (insert_fix c (node p A kp vp pb B)) = pathHeight c h + 1 := by
  induction c with
  | nil => intro h p A B kp vp pb _ _ hh _; right; exact hh
  | cons f c ih =>
    intro h p A B kp vp pb hc hs hh hpb
    cases f with
    | left g kg vg bg S =>
      obtain ⟨hb1, hb2, hb3, hS, hc2⟩ := hc
      obtain ⟨hs1, hs2, hs3, hA, hB⟩ := hs
      simp only [Shape.height] at hh
      have hi : int8 (bg - 1) = bg - 1 := int8_of_small (by omega) (by omega)
      simp only [insert_fix, hi, pathHeight, Frame.sibling]
      by_cases h0 : bg - 1 = 0
      · left; rw [if_pos h0, height_plug]
        congr 1
        simp only [Shape.height]; omega
      simp only [h0, if_false]
      by_cases h1 : bg - 1 = -1
      · simp only [h1, if_true]
        have hbal : balanced (node g (node p A kp vp pb B) kg vg (-1) S) := by
          refine ⟨?_, by omega, by omega, ⟨hs1, hs2, hs3, hA, hB⟩, hS⟩
          simp only [Shape.height]; omega
        have hht : height (node g (node p A kp vp pb B) kg vg (-1) S)
            = (max h (height S) + 1) + 1 := by
          simp only [Shape.height]; omega
        exact ih _ g _ _ kg vg (-1) hc2 hbal hht (by omega)
      simp only [h1, if_false]
      have h2 : bg - 1 = -2 := by omega
      simp only [h2, if_true]
      left
      by_cases hz : pb = -1
      · simp only [hz, if_true, height_plug]
        congr 1
        simp only [Shape.height]; omega
      · cases B with
        | nil => simp only [Shape.height] at hh hs1; omega
        | node n B1 kn vn nb B2 =>
          obtain ⟨hn1, hn2, hn3, hB1, hB2⟩ := hB
          simp only [Shape.height] at hh hs1 hn1
          simp only [hz, if_false]
          by_cases q1 : nb = -1
          · simp only [q1, if_true, height_plug]
            congr 1
            simp only [Shape.height]; omega
          by_cases q2 : nb = 0
          · simp [q2, height_plug]
            congr 1
            simp only [Shape.height]; omega
          have q3 : nb = 1 := by omega
          simp [q3, height_plug]
          congr 1
          simp only [Shape.height]; omega
    | right g S kg vg bg =>
      obtain ⟨hb1, hb2, hb3, hS, hc2⟩ := hc
      obtain ⟨hs1, hs2, hs3, hA, hB⟩ := hs
      simp only [Shape.height] at hh
      have hi : int8 (bg + 1) = bg + 1 := int8_of_small (by omega) (by omega)
      simp only [insert_fix, hi, pathHeight, Frame.sibling]
      by_cases h0 : bg + 1 = 0
      · left; rw [if_pos h0, height_plug]
        congr 1
        simp only [Shape.height]; omega
      simp only [h0, if_false]
      by_cases h1 : bg + 1 = 1
      · simp only [h1, if_true]
        have hbal : balanced (node g S kg vg 1 (node p A kp vp pb B)) := by
          refine ⟨?_, by omega, by omega, hS, ⟨hs1, hs2, hs3, hA, hB⟩⟩
          simp only [Shape.height]; omega
        have hht : height (node g S kg vg 1 (node p A kp vp pb B))
            = (max (height S) h + 1) + 1 := by
          simp only [Shape.height]; omega
        rw [max_comm h (height S)]
        exact ih _ g _ _ kg vg 1 hc2 hbal hht (by omega)
      simp only [h1, if_false]
      have h2 : bg + 1 = 2 := by omega
      simp only [h2, if_true]
      left
      by_cases hz : pb = 1
      · simp only [hz, if_true, height_plug]
        congr 1
        simp only [Shape.height]; omega
      · cases A with
        | nil => simp only [Shape.height] at hh hs1; omega
        | node n A1 kn vn nb A2 =>
          obtain ⟨hn1, hn2, hn3, hA1, hA2⟩ := hA
          simp only [Shape.height] at hh hs1 hn1
          simp only [hz, if_false]
          by_cases q1 : nb = 1
          · simp only [q1, if_true, height_plug]
            congr 1
            simp only [Shape.height]; omega
          by_cases q2 : nb = 0
          · simp [q2, height_plug]
            congr 1
            simp only [Shape.height]; omega
          have q3 : nb = -1 := by omega
          simp [q3, height_plug]
          congr 1
          simp only [Shape.height]; omega

theorem height_insert_helper [LinearOrder K] (fresh : Nat) (item : K × V) (s : Shape K V) :
    ∀ (c : List (Frame K V)), s ≠ nil → balanced s → pathBalanced c (height s) →
      height (insert_helper fresh item c s) = pathHeight c (height s) ∨
      height (insert_helper fresh item c s) = pathHeight c (height s) + 1 := by
  induction s with
  | nil => intro c hs; exact absurd rfl hs
  | node a l k v b r ihl ihr =>
    intro c _ hs hc
    obtain ⟨hb1, hb2, hb3, hl, hr⟩ := hs
    simp only [insert_helper]
    by_cases hlt : item.1 < k
    · rw [if_pos hlt]
      by_cases hn : l.ptr = none
      · rw [if_pos hn]
        have hl0 : l = nil := (ptr_eq_none_iff l).mp hn
        subst hl0
        simp only [Shape.height] at hb1 hc ⊢
        by_cases hb : b = 0
        · rw [if_neg (not_not.mpr hb)]
          refine height_insert_fix c (max 0 r.height + 1) a _ _ k v (-1) hc ?_ ?_ (by decide)
          · refine ⟨?_, by omega, by omega, ⟨?_, by omega, by omega, trivial, trivial⟩, hr⟩ <;>
              simp only [Shape.height] <;> omega
          · simp only [Shape.height]; omega
        · rw [if_pos hb, height_plug]
          left
          congr 1
          simp only [Shape.height]; omega
      · rw [if_neg hn]
        have := ihl (Frame.left a k v b r :: c) (fun e => hn ((ptr_eq_none_iff l).mpr e)) hl
          ⟨hb1, hb2, hb3, hr, hc⟩
        simpa only [pathHeight, Frame.sibling, Shape.height] using this
    · rw [if_neg hlt]
      by_cases heq : item.1 = k
      · rw [if_pos heq, height_plug]
        left; rfl
      · rw [if_neg heq]
        by_cases hn : r.ptr = none
        · rw [if_pos hn]
          have hr0 : r = nil := (ptr_eq_none_iff r).mp hn
          subst hr0
          simp only [Shape.height] at hb1 hc ⊢
          by_cases hb : b = 0
          · rw [if_neg (not_not.mpr hb)]
            refine height_insert_fix c (max l.height 0 + 1) a _ _ k v 1 hc ?_ ?_ (by decide)
            · refine ⟨?_, by omega, by omega, hl, ⟨?_, by omega, by omega, trivial, trivial⟩⟩ <;>
                simp only [Shape.height] <;> omega
            · simp only [Shape.height]; omega
          · rw [if_pos hb, height_plug]
            left
            congr 1
            simp only [Shape.height]; omega
        · rw [if_neg hn]
          have := ihr (Frame.right a l k v b :: c) (fun e => hn ((ptr_eq_none_iff r).mpr e)) hr
            ⟨hb1, hb2, hb3, hl, hc⟩
          simpa only [pathHeight, Frame.sibling, Shape.height, max_comm] using this

/-- The height after `insert` on a tree with correct balance factors is the
height before or one more. -/
theorem height_insert [LinearOrder K] (fresh : Nat) (T : Shape K V) (item : K × V)
    (h : balanced T) :
    height (Shape.insert fresh T item) = height T ∨
    height (Shape.insert fresh T item) = height T + 1 := by
  cases T with
  | nil => right; simp [Shape.insert, Shape.height]
  | node a l k v b r => exact height_insert_helper fresh item _ [] (by simp) h trivial

/-- The height of the tree after `remove_fix`, which is entered when the
subtree in the open slot has shrunk by one: the height the tree had before, or
one less. -/
theorem height_remove_fix (c : List (Frame K V)) :
    ∀ (s : Shape K V) (h : Nat), pathBalanced c h → balanced s → height s + 1 = h →
      ∃ T2, Shape.remove_fix c s = some T2 ∧
        (height T2 = pathHeight c h ∨ height T2 + 1 = pathHeight c h) := by
  induction c with
  | nil => intro s h _ hs hh; exact ⟨s, rfl, Or.inr hh⟩
  | cons f c ih =>
    intro s h hc hs hh
    cases f with
    | left n kn vn nb R =>
      obtain ⟨hb1, hb2, hb3, hR, hc2⟩ := hc
      obtain ⟨s2, cont, e, hs2, hh2⟩ := balanced_remove_step 1 n s R kn vn nb
        (max h R.height + 1) (Or.inl rfl) hs hR hb2 hb3 (by omega)
        ⟨fun _ => by omega, fun hx => by omega⟩
      simp only [Shape.remove_fix, Frame.fill, Frame.diff, e, pathHeight, Frame.sibling]
      cases cont with
      | true =>
        simp only [if_true] at hh2
        exact ih s2 _ hc2 hs2 (by omega)
      | false =>
        simp only [Bool.false_eq_true, if_false] at hh2
        refine ⟨_, rfl, Or.inl ?_⟩
        rw [height_plug]
        congr 1
        omega
    | right n L kn vn nb =>
      obtain ⟨hb1, hb2, hb3, hL, hc2⟩ := hc
      obtain ⟨s2, cont, e, hs2, hh2⟩ := balanced_remove_step (-1) n L s kn vn nb
        (max L.height h + 1) (Or.inr rfl) hL hs hb2 hb3 (by omega)
        ⟨fun hx => by omega, fun _ => by omega⟩
      simp only [Shape.remove_fix, Frame.fill, Frame.diff, e, pathHeight, Frame.sibling]
      rw [max_comm h L.height]
      cases cont with
      | true =>
        simp only [if_true] at hh2
        exact ih s2 _ hc2 hs2 (by omega)
      | false =>
        simp only [Bool.false_eq_true, if_false] at hh2
        refine ⟨_, rfl, Or.inl ?_⟩
        rw [height_plug]
        congr 1
        omega

/-- The height after `remove` on a tree with correct balance factors is the
height before or one less. -/
theorem height_remove [LinearOrder K] (T : Shape K V) (key : K) (h : balanced T) :
    ∃ T2, Shape.remove T key = some T2 ∧ (height T2 = height T ∨ height T2 + 1 = height T) := by
  unfold Shape.remove
  have hplug := descend_plug key T []
  rcases hd : descend key [] T with ⟨c, s⟩
  rw [hd] at hplug
  simp only [plug] at hplug
  have hT : height T = pathHeight c (height s) := by rw [← hplug, height_plug]
  rw [← hplug, balanced_plug] at h
  obtain ⟨hs, hc⟩ := h
  rw [hT]
  cases s with
  | nil => exact ⟨T, rfl, Or.inl (by rw [← hplug, height_plug])⟩
  | node n L kn vn nb R =>
    obtain ⟨hb1, hb2, hb3, hL, hR⟩ := hs
    simp only [Shape.height] at hc hb1 ⊢
    cases L with
    | nil =>
      simp only [Shape.height] at hc hb1 ⊢
      exact height_remove_fix c R _ hc hR (by omega)
    | node al ll kl vl bl rl =>
      cases R with
      | nil =>
        simp only [Shape.height] at hc hb1 ⊢
        exact height_remove_fix c _ _ hc hL (by simp only [Shape.height]; omega)
      | node ar lr kr vr br rr =>
        obtain ⟨cm, m, ML, km, vm, mb, hdr, -⟩ :=
          descendRight_shape (node al ll kl vl bl rl) [] (by simp)
        have hdp := descendRight_plug (node al ll kl vl bl rl) []
        rw [hdr] at hdp
        simp only [List.append_nil, plug] at hdp
        simp only [hdr, List.append_nil]
        have hL2 := hL
        rw [← hdp, balanced_plug] at hL2
        obtain ⟨⟨hm1, hm2, hm3, hML, -⟩, hcm⟩ := hL2
        have hhp : pathHeight cm (node m ML km vm mb nil).height
            = (node al ll kl vl bl rl).height := by
          rw [← height_plug, hdp]
        simp only [Shape.height] at hm1
        have hi : int8 nb = nb := int8_of_small (by omega) (by omega)
        have hchild : (if ML.ptr = none then (nil : Shape K V) else ML) = ML := by
          cases ML <;> simp
        rw [hchild]
        obtain ⟨T2, e, hh⟩ := height_remove_fix (cm ++ Frame.left m km vm (int8 nb)
          (node ar lr kr vr br rr) :: c) ML (node m ML km vm mb nil).height
          (by
            rw [pathBalanced_append, hhp]
            refine ⟨hcm, ?_, by omega, by omega, hR, hc⟩
            rw [hi]; exact hb1)
          hML (by simp only [Shape.height]; omega)
        refine ⟨T2, e, ?_⟩
        rw [pathHeight_append, hhp] at hh
        exact hh

/-- On a valid AVL tree the height computation of the code returns the height
of the tree. -/
theorem measured_height [LinearOrder K] {t : AVLTree K V} {T : Shape K V} (h : ValidAVL t T) :
    BinarySearchTree.isBalanced_helper t t.mem.length t.root_ = some (height T : Int) := by
  rw [h.1.1, isBalanced_helper_spec T none _ h.1.2.1
    (le_trans (height_le_size _) (models_size_le h.1)),
    isBalanced_helper_of_heightBalanced T (heightBalanced_of_balanced T h.2.2)]

/-- C28: on a valid AVL tree of height `h` (the value the height computation of
the code returns on it), `insert` of any key and value returns and leaves a
valid AVL tree of height `h` or `h + 1`, and `remove` of any key returns and
leaves a valid AVL tree of height `h` or `h - 1`. -/
theorem height_after_update [LinearOrder K] (t : AVLTree K V) (T : Shape K V)
    (h : ValidAVL t T) :
    BinarySearchTree.isBalanced_helper t t.mem.length t.root_ = some (height T : Int) ∧
    (∀ new_item : K × V, ∃ t2 T2, AVLTree.insert t new_item = some t2 ∧ ValidAVL t2 T2 ∧
      BinarySearchTree.isBalanced_helper t2 t2.mem.length t2.root_ = some (height T2 : Int) ∧
      (height T2 = height T ∨ height T2 = height T + 1)) ∧
    (∀ key : K, ∃ t2 T2, AVLTree.remove t key = some t2 ∧ ValidAVL t2 T2 ∧
      BinarySearchTree.isBalanced_helper t2 t2.mem.length t2.root_ = some (height T2 : Int) ∧
      (height T2 = height T ∨ height T2 + 1 = height T)) := by
  refine ⟨measured_height h, ?_, ?_⟩
  · intro new_item
    obtain ⟨t2, e, v⟩ := insert_valid h new_item
    exact ⟨t2, _, e, v, measured_height v, height_insert _ T new_item h.2.2⟩
  · intro key
    obtain ⟨T2, e, hh⟩ := height_remove T key h.2.2
    obtain ⟨t2, e2, m⟩ := remove_spec key h.1 e
    obtain ⟨T3, e3, b⟩ := balanced_remove T key h.2.2
    have e4 : T3 = T2 := Option.some.inj (e3.symm.trans e)
    subst e4
    have v : ValidAVL t2 T3 := ⟨m, ordered_remove T T3 key h.2.1 e, b⟩
    exact ⟨t2, T3, e2, v, measured_height v, hh⟩

theorem height_after_update_witness :
    ValidAVL sampleTree sampleShape ∧
    BinarySearchTree.isBalanced_helper sampleTree sampleTree.mem.length sampleTree.root_
      = some (height sampleShape : Int) ∧
    (∀ new_item : Nat × Nat, ∃ t2 T2, AVLTree.insert sampleTree new_item = some t2 ∧
      ValidAVL t2 T2 ∧
      BinarySearchTree.isBalanced_helper t2 t2.mem.length t2.root_ = some (height T2 : Int) ∧
      (height T2 = height sampleShape ∨ height T2 = height sampleShape + 1)) ∧
    (∀ key : Nat, ∃ t2 T2, AVLTree.remove sampleTree key = some t2 ∧ ValidAVL t2 T2 ∧
      BinarySearchTree.isBalanced_helper t2 t2.mem.length t2.root_ = some (height T2 : Int) ∧
      (height T2 = height sampleShape ∨ height T2 + 1 = height sampleShape)) :=
  ⟨sampleTree_valid, height_after_update sampleTree sampleShape sampleTree_valid⟩

end HeightChange

section RemoveFixRotation
open Shape
variable {K V : Type}

/-! ## The single-rotation cases of `remove_fix` -/

/-- C21: `remove_fix(n, diff)` on a node `n` whose two subtrees are valid AVL
trees, whose stored balance is in {-1, 0, 1} and whose subtree had height `H`
before the removal took one level from the side `diff`.  When the provisional
balance `nb + diff` is -2 the left child `x` exists; if its balance is 0 the
call performs `rotate_right(n)`, sets the balances of `n` and `x` to -1 and 1
and returns, the path above is as before and the subtree at that place is a
valid AVL tree of height `H`; if its balance is -1 the call performs
`rotate_right(n)`, sets both balances to 0 and goes on with
`remove_fix(parent, side of n)`, and the subtree at that place is a valid AVL
tree of height `H - 1`.  The same holds with the sides exchanged when the
provisional balance is 2. -/
theorem remove_fix_single_rotation (t : AVLTree K V) (c : List (Frame K V)) (n : Nat)
    (L R : Shape K V) (kn : K) (vn : V) (nb diff : Int) (H fuel : Nat)
    (hm : ModelsAt t c (node n L kn vn nb R))
    (hd : diff = 1 ∨ diff = -1) (hL : balanced L) (hR : balanced R)
    (hnb1 : -1 ≤ nb) (hnb2 : nb ≤ 1)
    (hact : (height R : Int) - (height L : Int) = nb + diff)
    (hH : (diff = 1 → H = max (height L + 1) (height R) + 1) ∧
      (diff = -1 → H = max (height L) (height R + 1) + 1)) :
    getParent t (some n) = some (pathPtr c) ∧
    (nb + diff = -2 → ∃ x A kx vx xb B, L = node x A kx vx xb B ∧
      getLeft t (some n) = some (some x) ∧ getBalance t (some x) = some xb ∧
      (xb = 0 → ∃ t1 t2 t3, AVLTree.rotate_right t (some n) = some t1 ∧
        setBalance t1 (some n) (-1) = some t2 ∧ setBalance t2 (some x) 1 = some t3 ∧
        AVLTree.remove_fix (fuel + 1) t (some n) diff = some t3 ∧
        ModelsAt t3 c (node x A kx vx 1 (node n B kn vn (-1) R)) ∧
        balanced (node x A kx vx 1 (node n B kn vn (-1) R)) ∧
        height (node x A kx vx 1 (node n B kn vn (-1) R)) = H) ∧
      (xb = -1 → ∃ t1 t2 t3, AVLTree.rotate_right t (some n) = some t1 ∧
        setBalance t1 (some n) 0 = some t2 ∧ setBalance t2 (some x) 0 = some t3 ∧
        AVLTree.remove_fix (fuel + 1) t (some n) diff =
          AVLTree.remove_fix fuel t3 (pathPtr c) (pathDiff c) ∧
        ModelsAt t3 c (node x A kx vx 0 (node n B kn vn 0 R)) ∧
        balanced (node x A kx vx 0 (node n B kn vn 0 R)) ∧
        height (node x A kx vx 0 (node n B kn vn 0 R)) + 1 = H)) ∧
    (nb + diff = 2 → ∃ x A kx vx xb B, R = node x A kx vx xb B ∧
      getRight t (some n) = some (some x) ∧ getBalance t (some x) = some xb ∧
      (xb = 0 → ∃ t1 t2 t3, AVLTree.rotate_left t (some n) = some t1 ∧
        setBalance t1 (some n) 1 = some t2 ∧ setBalance t2 (some x) (-1) = some t3 ∧
        AVLTree.remove_fix (fuel + 1) t (some n) diff = some t3 ∧
        ModelsAt t3 c (node x (node n L kn vn 1 A) kx vx (-1) B) ∧
        balanced (node x (node n L kn vn 1 A) kx vx (-1) B) ∧
        height (node x (node n L kn vn 1 A) kx vx (-1) B) = H) ∧
      (xb = 1 → ∃ t1 t2 t3, AVLTree.rotate_left t (some n) = some t1 ∧
        setBalance t1 (some n) 0 = some t2 ∧ setBalance t2 (some x) 0 = some t3 ∧
        AVLTree.remove_fix (fuel + 1) t (some n) diff =
          AVLTree.remove_fix fuel t3 (pathPtr c) (pathDiff c) ∧
        ModelsAt t3 c (node x (node n L kn vn 0 A) kx vx 0 B) ∧
        balanced (node x (node n L kn vn 0 A) kx vx 0 B) ∧
        height (node x (node n L kn vn 0 A) kx vx 0 B) + 1 = H)) := by
  have r1 := getParent_focus hm
  have r2 := ndiff_focus hm
  have r3 := getBalance_focus hm
  refine ⟨r1, ?_, ?_⟩
  · intro hs2
    cases L with
    | nil => simp only [Shape.height] at hact; omega
    | node x A kx vx xb B =>
      have hc := modelsAt_left.mp hm
      have r4 := getLeft_focus hm
      have r5 := getBalance_focus hc
      obtain ⟨hx1, hx2, hx3, hA, hB⟩ := hL
      simp only [Shape.height] at hact hx1 hH
      refine ⟨x, A, kx, vx, xb, B, rfl, r4, r5, ?_, ?_⟩
      · intro hz
        subst hz
        obtain ⟨t1, e1, m1, l1⟩ := rotate_right_spec hm
        obtain ⟨t2, e2, m2, l2⟩ := setBalance_right_spec (-1) m1
        obtain ⟨t3, e3, m3, l3⟩ := setBalance_spec 1 m2
        simp only [int8_one, int8_neg_one] at m3
        refine ⟨t1, t2, t3, e1, e2, e3, ?_, m3, ?_, ?_⟩
        · simp only [AVLTree.remove_fix, reduceCtorEq, if_false, r1, r2, r3, andThen_some]
          simp [r4, r5, hs2, e1, e2, e3]
        · refine ⟨?_, by omega, by omega, hA, ?_, by omega, by omega, hB, hR⟩ <;>
            first | omega | (simp only [Shape.height]; omega)
        · rcases hd with rfl | rfl
          · omega
          · have := hH.2 rfl
            simp only [Shape.height]; omega
      · intro hz
        subst hz
        obtain ⟨t1, e1, m1, l1⟩ := rotate_right_spec hm
        obtain ⟨t2, e2, m2, l2⟩ := setBalance_right_spec 0 m1
        obtain ⟨t3, e3, m3, l3⟩ := setBalance_spec 0 m2
        simp only [int8_zero] at m3
        refine ⟨t1, t2, t3, e1, e2, e3, ?_, m3, ?_, ?_⟩
        · simp only [AVLTree.remove_fix, reduceCtorEq, if_false, r1, r2, r3, andThen_some]
          simp [r4, r5, hs2, e1, e2, e3]
        · refine ⟨?_, by omega, by omega, hA, ?_, by omega, by omega, hB, hR⟩ <;>
            first | omega | (simp only [Shape.height]; omega)
        · rcases hd with rfl | rfl
          · omega
          · have := hH.2 rfl
            simp only [Shape.height]; omega
  · intro hs2
    cases R with
    | nil => simp only [Shape.height] at hact; omega
    | node x A kx vx xb B =>
      have hc := modelsAt_right.mp hm
      have r4 := getRight_focus hm
      have r5 := getBalance_focus hc
      obtain ⟨hx1, hx2, hx3, hA, hB⟩ := hR
      simp only [Shape.height] at hact hx1 hH
      have hs3 : ¬ nb + diff = -2 := by omega
      refine ⟨x, A, kx, vx, xb, B, rfl, r4, r5, ?_, ?_⟩
      · intro hz
        subst hz
        obtain ⟨t1, e1, m1, l1⟩ := rotate_left_spec hm
        obtain ⟨t2, e2, m2, l2⟩ := setBalance_left_spec 1 m1
        obtain ⟨t3, e3, m3, l3⟩ := setBalance_spec (-1) m2
        simp only [int8_one, int8_neg_one] at m3
        refine ⟨t1, t2, t3, e1, e2, e3, ?_, m3, ?_, ?_⟩
        · simp only [AVLTree.remove_fix, reduceCtorEq, if_false, r1, r2, r3, andThen_some]
          simp [r4, r5, hs2, e1, e2, e3]
        · refine ⟨?_, by omega, by omega, ⟨?_, by omega, by omega, hL, hA⟩, hB⟩ <;>
            first | omega | (simp only [Shape.height]; omega)
        · rcases hd with rfl | rfl
          · have := hH.1 rfl
            simp only [Shape.height]; omega
          · omega
      · intro hz
        subst hz
        obtain ⟨t1, e1, m1, l1⟩ := rotate_left_spec hm
        obtain ⟨t2, e2, m2, l2⟩ := setBalance_left_spec 0 m1
        obtain ⟨t3, e3, m3, l3⟩ := setBalance_spec 0 m2
        simp only [int8_zero] at m3
        refine ⟨t1, t2, t3, e1, e2, e3, ?_, m3, ?_, ?_⟩
        · simp only [AVLTree.remove_fix, reduceCtorEq, if_false, r1, r2, r3, andThen_some]
          simp [r4, r5, hs2, e1, e2, e3]
        · refine ⟨?_, by omega, by omega, ⟨?_, by omega, by omega, hL, hA⟩, hB⟩ <;>
            first | omega | (simp only [Shape.height]; omega)
        · rcases hd with rfl | rfl
          · have := hH.1 rfl
            simp only [Shape.height]; omega
          · omega

theorem fixupTree_models :
    ModelsAt fixupTree [] (node 0 fixupLeft 20 200 (-1) nil) :=
  (modelsAt_nil _).mpr
    ⟨rfl, ⟨rfl, ⟨rfl, ⟨rfl, trivial, trivial⟩, rfl, trivial, trivial⟩, trivial⟩, by decide⟩

theorem fixupLeft_balanced : balanced fixupLeft := by
  simp [fixupLeft, balanced, height]

theorem remove_fix_single_rotation_witness :
    ModelsAt fixupTree [] (node 0 fixupLeft 20 200 (-1) nil) ∧ balanced fixupLeft ∧
    ((height (nil : Shape Nat Nat) : Int) - (height fixupLeft : Int) = (-1 : Int) + (-1)) ∧
    (getParent fixupTree (some 0) = some (pathPtr ([] : List (Frame Nat Nat))) ∧
    ((-1 : Int) + (-1) = -2 → ∃ x A kx vx xb B, fixupLeft = node x A kx vx xb B ∧
      getLeft fixupTree (some 0) = some (some x) ∧ getBalance fixupTree (some x) = some xb ∧
      (xb = 0 → ∃ t1 t2 t3, AVLTree.rotate_right fixupTree (some 0) = some t1 ∧
        setBalance t1 (some 0) (-1) = some t2 ∧ setBalance t2 (some x) 1 = some t3 ∧
        AVLTree.remove_fix (0 + 1) fixupTree (some 0) (-1) = some t3 ∧
        ModelsAt t3 [] (node x A kx vx 1 (node 0 B 20 200 (-1) nil)) ∧
        balanced (node x A kx vx 1 (node 0 B 20 200 (-1) nil)) ∧
        height (node x A kx vx 1 (node 0 B 20 200 (-1) nil)) = 3) ∧
      (xb = -1 → ∃ t1 t2 t3, AVLTree.rotate_right fixupTree (some 0) = some t1 ∧
        setBalance t1 (some 0) 0 = some t2 ∧ setBalance t2 (some x) 0 = some t3 ∧
        AVLTree.remove_fix (0 + 1) fixupTree (some 0) (-1) =
          AVLTree.remove_fix 0 t3 (pathPtr ([] : List (Frame Nat Nat)))
            (pathDiff ([] : List (Frame Nat Nat))) ∧
        ModelsAt t3 [] (node x A kx vx 0 (node 0 B 20 200 0 nil)) ∧
        balanced (node x A kx vx 0 (node 0 B 20 200 0 nil)) ∧
        height (node x A kx vx 0 (node 0 B 20 200 0 nil)) + 1 = 3)) ∧
    ((-1 : Int) + (-1) = 2 → ∃ x A kx vx xb B, (nil : Shape Nat Nat) = node x A kx vx xb B ∧
      getRight fixupTree (some 0) = some (some x) ∧ getBalance fixupTree (some x) = some xb ∧
      (xb = 0 → ∃ t1 t2 t3, AVLTree.rotate_left fixupTree (some 0) = some t1 ∧
        setBalance t1 (some 0) 1 = some t2 ∧ setBalance t2 (some x) (-1) = some t3 ∧
        AVLTree.remove_fix (0 + 1) fixupTree (some 0) (-1) = some t3 ∧
        ModelsAt t3 [] (node x (node 0 fixupLeft 20 200 1 A) kx vx (-1) B) ∧
        balanced (node x (node 0 fixupLeft 20 200 1 A) kx vx (-1) B) ∧
        height (node x (node 0 fixupLeft 20 200 1 A) kx vx (-1) B) = 3) ∧
      (xb = 1 → ∃ t1 t2 t3, AVLTree.rotate_left fixupTree (some 0) = some t1 ∧
        setBalance t1 (some 0) 0 = some t2 ∧ setBalance t2 (some x) 0 = some t3 ∧
        AVLTree.remove_fix (0 + 1) fixupTree (some 0) (-1) =
          AVLTree.remove_fix 0 t3 (pathPtr ([] : List (Frame Nat Nat)))
            (pathDiff ([] : List (Frame Nat Nat))) ∧
        ModelsAt t3 [] (node x (node 0 fixupLeft 20 200 0 A) kx vx 0 B) ∧
        balanced (node x (node 0 fixupLeft 20 200 0 A) kx vx 0 B) ∧
        height (node x (node 0 fixupLeft 20 200 0 A) kx vx 0 B) + 1 = 3))) :=
  ⟨fixupTree_models, fixupLeft_balanced, by decide,
    remove_fix_single_rotation fixupTree [] 0 fixupLeft nil 20 200 (-1) (-1) 3 0
      fixupTree_models (Or.inr rfl) fixupLeft_balanced trivial (by decide) (by decide)
      (by decide) ⟨fun h => absurd h (by decide), fun _ => by decide⟩⟩

end RemoveFixRotation

section PredecessorSwap
open Shape
variable {K V : Type}

/-! ## The swap with the predecessor in `remove` -/

/-- C24: on a valid AVL tree, for a key that `internalFind` finds at a node `n`
with two children, `remove` first swaps `n` with `predecessor(n)`, the last
node `m` down the right links of the left subtree of `n`; after the swap the
place of `n` carries `m` with the balance factor `n` had and the place of `m`
carries `n` with the balance factor `m` had; `n` has no right child there, so
the node that is unlinked has only the former left subtree of `m` below it,
which takes its place; the entries of the tree are then the old entries without
the entry of the key, and `remove` returns a valid AVL tree with these
entries. -/
theorem remove_swaps_with_predecessor [LinearOrder K] (t : AVLTree K V) (T : Shape K V)
    (h : ValidAVL t T) (key : K) (n l r : Nat)
    (hf : BinarySearchTree.internalFind t key = some (some n))
    (hl : getLeft t (some n) = some (some l)) (hr : getRight t (some n) = some (some r)) :
    ∃ c L R vn nb cm m ML km vm mb t1 t2 t3 T3,
      T = plug c (node n L key vn nb R) ∧ L.ptr = some l ∧ R.ptr = some r ∧
      L = plug cm (node m ML km vm mb nil) ∧
      (∀ f ∈ cm, ∃ a l2 k v b, f = Frame.right a l2 k v b) ∧
      BinarySearchTree.predecessor t (some n) = some (some m) ∧
      getBalance t (some n) = some nb ∧ getBalance t (some m) = some mb ∧
      AVLTree.nodeSwap t (some n) (some m) = some t1 ∧
      ModelsAt t1 (cm ++ Frame.left m km vm nb R :: c) (node n ML key vn mb nil) ∧
      getBalance t1 (some m) = some nb ∧ getBalance t1 (some n) = some mb ∧
      getRight t1 (some n) = some none ∧ getLeft t1 (some n) = some ML.ptr ∧
      ModelsAt t2 (cm ++ Frame.left m km vm nb R :: c) ML ∧
      toList (plug (cm ++ Frame.left m km vm nb R :: c) ML) = eraseEntry key (toList T) ∧
      AVLTree.remove t key = AVLTree.remove_fix (t1.mem.length + 1) t2
        (pathPtr (cm ++ Frame.left m km vm nb R :: c))
        (pathDiff (cm ++ Frame.left m km vm nb R :: c)) ∧
      AVLTree.remove t key = some t3 ∧ ValidAVL t3 T3 ∧
      toList T3 = eraseEntry key (toList T) := by
  obtain ⟨hM, ho, hb⟩ := h
  have hfind := internalFind_spec key hM
  rw [hf, ← descend_ptr key T []] at hfind
  have hplug := descend_plug key T []
  have hkey := descend_key key T []
  obtain ⟨T3, eT, bT⟩ := balanced_remove T key hb
  have hE := toList_remove T T3 key ho eT
  have hT := eT
  unfold Shape.remove at hT
  unfold AVLTree.remove
  rw [hf]
  rcases hd : descend key [] T with ⟨c, s⟩
  rw [hd] at hplug hT hfind hkey
  simp only [plug] at hplug hfind hkey
  have hm : ModelsAt t c s := by
    rw [← models_plug, hplug]; exact hM
  cases s with
  | nil => simp at hfind
  | node n2 L kn vn nb R =>
    simp only [ptr_node, Option.some.injEq] at hfind
    have hn : n = n2 := hfind
    subst hn
    have hk : key = kn := (hkey _ _ _ _ _ _ rfl).symm
    subst hk
    have r1 := getLeft_focus hm
    have r2 := getRight_focus hm
    have r3 := getBalance_focus hm
    rw [hl] at r1
    rw [hr] at r2
    have hLp : L.ptr = some l := (Option.some.inj r1).symm
    have hRp : R.ptr = some r := (Option.some.inj r2).symm
    have hbal := hb
    rw [← hplug, balanced_plug] at hbal
    obtain ⟨⟨hb1, hb2, hb3, hLb, hRb⟩, -⟩ := hbal
    have hi : int8 nb = nb := int8_of_small (by omega) (by omega)
    simp only [andThen_some, reduceCtorEq, if_false, hl, hr, ne_eq, not_false_eq_true, if_true,
      decide_True]
    cases L with
    | nil => simp at hLp
    | node al ll kl vl bl rl =>
      cases R with
      | nil => simp at hRp
      | node ar lr kr vr br rr =>
        simp only [ptr_node, Option.some.injEq] at hLp hRp
        subst hLp
        subst hRp
        simp only at hT
        obtain ⟨cm, m, ML, km, vm, mb, hdr, hall⟩ :=
          descendRight_shape (node al ll kl vl bl rl) [] (by simp)
        have hdp := descendRight_plug (node al ll kl vl bl rl) []
        rw [hdr] at hdp hT
        simp only [List.append_nil, plug] at hdp
        simp only [List.append_nil] at hT
        have hpred : BinarySearchTree.predecessor t (some n) = some (some m) := by
          have hrep : RepTree t (some n) (node al ll kl vl bl rl) := hm.2.2.1.2.1
          have hh : (node al ll kl vl bl rl).height ≤ t.mem.length + 1 := by
            have h1 := path_length_le hm
            have h2 := height_le_size (node al ll kl vl bl rl)
            simp only [Shape.size] at h1 h2 ⊢
            omega
          have := predecessor_descend_spec (node al ll kl vl bl rl) (some n) _ [] hrep
            (by simp) hh
          rw [hdr] at this
          simpa [BinarySearchTree.predecessor, hl] using this
        have hm2 : ModelsAt t (cm ++ Frame.left n key vn nb (node ar lr kr vr br rr) :: c)
            (node m ML km vm mb nil) := by
          rw [modelsAt_append, hdp]
          exact modelsAt_left.mp hm
        have hmb : int8 mb = mb := by
          have hLb2 := hLb
          rw [← hdp, balanced_plug] at hLb2
          obtain ⟨⟨-, hm2b, hm3b, -, -⟩, -⟩ := hLb2
          exact int8_of_small (by omega) (by omega)
        obtain ⟨t1, e1, m1, l1⟩ := nodeSwap_spec hall (by simp) hm2
        rw [hi, hmb] at m1
        obtain ⟨t2, m2, l2, e2⟩ := splice_spec m1 (Or.inr rfl)
        have hchild : (if ML.ptr = none then (nil : Shape K V) else ML) = ML := by
          cases ML <;> simp
        rw [hchild] at m2
        rw [hi, hchild] at hT
        have hfu : (cm ++ Frame.left m km vm nb (node ar lr kr vr br rr) :: c).length
            < t1.mem.length + 1 := by
          have := path_length_le m2; omega
        obtain ⟨t3, e3, m3, l3⟩ := remove_fix_spec _ _ t2 _ T3 m2 hfu hT
        have m1up : ModelsAt t1 c (node m (plug cm (node n ML key vn mb nil)) km vm nb
            (node ar lr kr vr br rr)) :=
          modelsAt_left.mpr ((modelsAt_append _ _ _).mp m1)
        have hrem : (andThen (andThen (BinarySearchTree.predecessor t (some n)) fun pr =>
              AVLTree.nodeSwap t (some n) pr) fun t =>
            andThen (getParent t (some n)) fun p =>
            andThen (if p ≠ none then
                andThen (getLeft t p) fun pl => some (if some n = pl then (1 : Int) else -1)
              else some 0) fun diff =>
            andThen (getLeft t (some n)) fun c =>
            andThen (if c = none then getRight t (some n) else some c) fun c =>
            andThen (delete t (some n)) fun t =>
            andThen (if p = none then some { t with root_ := c }
              else if diff = 1 then setLeft t p c
              else setRight t p c) fun t =>
            andThen (if c ≠ none then setParent t c p else some t) fun t =>
            AVLTree.remove_fix (t.mem.length + 1) t p diff) =
            AVLTree.remove_fix (t1.mem.length + 1) t2
              (pathPtr (cm ++ Frame.left m km vm nb (node ar lr kr vr br rr) :: c))
              (pathDiff (cm ++ Frame.left m km vm nb (node ar lr kr vr br rr) :: c)) := by
          simp only [hpred, e1, andThen_some]
          exact e2
        refine ⟨c, _, _, vn, nb, cm, m, ML, km, vm, mb, t1, t2, t3, T3, hplug.symm, rfl, rfl,
          hdp.symm, hall, hpred, r3, getBalance_focus hm2, e1, m1, getBalance_focus m1up,
          getBalance_focus m1, by simpa using getRight_focus m1, getLeft_focus m1, m2, ?_,
          hrem, by rw [hrem]; exact e3, ⟨m3, ordered_remove T T3 key ho eT, bT⟩, hE⟩
        rw [← hE]
        exact (toList_remove_fix _ _ _ hT).symm

theorem remove_swaps_with_predecessor_witness :
    ValidAVL sampleTree sampleShape ∧
    BinarySearchTree.internalFind sampleTree 20 = some (some 0) ∧
    getLeft sampleTree (some 0) = some (some 1) ∧
    getRight sampleTree (some 0) = some (some 2) ∧
    ∃ c L R vn nb cm m ML km vm mb t1 t2 t3 T3,
      sampleShape = plug c (node 0 L 20 vn nb R) ∧ L.ptr = some 1 ∧ R.ptr = some 2 ∧
      L = plug cm (node m ML km vm mb nil) ∧
      (∀ f ∈ cm, ∃ a l2 k v b, f = Frame.right a l2 k v b) ∧
      BinarySearchTree.predecessor sampleTree (some 0) = some (some m) ∧
      getBalance sampleTree (some 0) = some nb ∧ getBalance sampleTree (some m) = some mb ∧
      AVLTree.nodeSwap sampleTree (some 0) (some m) = some t1 ∧
      ModelsAt t1 (cm ++ Frame.left m km vm nb R :: c) (node 0 ML 20 vn mb nil) ∧
      getBalance t1 (some m) = some nb ∧ getBalance t1 (some 0) = some mb ∧
      getRight t1 (some 0) = some none ∧ getLeft t1 (some 0) = some ML.ptr ∧
      ModelsAt t2 (cm ++ Frame.left m km vm nb R :: c) ML ∧
      toList (plug (cm ++ Frame.left m km vm nb R :: c) ML)
        = eraseEntry 20 (toList sampleShape) ∧
      AVLTree.remove sampleTree 20 = AVLTree.remove_fix (t1.mem.length + 1) t2
        (pathPtr (cm ++ Frame.left m km vm nb R :: c))
        (pathDiff (cm ++ Frame.left m km vm nb R :: c)) ∧
      AVLTree.remove sampleTree 20 = some t3 ∧ ValidAVL t3 T3 ∧
      toList T3 = eraseEntry 20 (toList sampleShape) :=
  ⟨sampleTree_valid, rfl, rfl, rfl,
    remove_swaps_with_predecessor sampleTree sampleShape sampleTree_valid 20 0 1 2 rfl rfl rfl⟩

end PredecessorSwap

section CheckedErasure
open Shape
variable {K V : Type}

/-! ## The checked `insert` and `remove` return what `insert` and `remove` return -/

theorem ret_andThen {α β : Type} {a a2 : Option α} {f g : α → Option β}
    (h1 : ∀ x, a = some x → a2 = some x) (h2 : ∀ x, ∀ y, f x = some y → g x = some y) :
    ∀ y, andThen a f = some y → andThen a2 g = some y := by
  intro y h
  cases a with
  | none => cases h
  | some x =>
    rw [h1 x rfl]
    exact h2 x y h

theorem ret_ite {α : Type} {c : Prop} [Decidable c] {a a2 b b2 : Option α}
    (h1 : ∀ y, a = some y → a2 = some y) (h2 : ∀ y, b = some y → b2 = some y) :
    ∀ y, (if c then a else b) = some y → (if c then a2 else b2) = some y := by
  intro y h
  by_cases hc : c
  · rw [if_pos hc] at h ⊢; exact h1 y h
  · rw [if_neg hc] at h ⊢; exact h2 y h

theorem ret_none {α : Type} {b : Option α} : ∀ y, (none : Option α) = some y → b = some y :=
  fun _ h => by cases h

/-- Where the checked `insert_fix` returns, `insert_fix` returns the same
state. -/
theorem insert_fix_checked_sub :
    ∀ (fuel : Nat) (t : AVLTree K V) (p n : Option Nat) (y : AVLTree K V),
      AVLTree.insert_fix_checked fuel t p n = some y → AVLTree.insert_fix fuel t p n = some y := by
  intro fuel
  induction fuel with
  | zero => intro t p n y h; cases h
  | succ fuel ih =>
    intro t p n
    simp only [AVLTree.insert_fix_checked, AVLTree.insert_fix]
    repeat first
      | exact ih _ _ _
      | exact ret_none
      | with_reducible exact fun _ h => h
      | refine ret_ite ?_ ?_
      | refine ret_andThen ?_ (fun _ => ?_)

/-- Where the checked `insert_helper` returns, `insert_helper` returns the same
state. -/
theorem insert_helper_checked_sub [LinearOrder K] (new_item : K × V) :
    ∀ (fuel : Nat) (t : AVLTree K V) (node : Option Nat) (y : AVLTree K V),
      AVLTree.insert_helper_checked new_item fuel t node = some y →
      AVLTree.insert_helper new_item fuel t node = some y := by
  intro fuel
  induction fuel with
  | zero => intro t node y h; cases h
  | succ fuel ih =>
    intro t node
    simp only [AVLTree.insert_helper_checked, AVLTree.insert_helper]
    repeat first
      | exact ih _ _
      | exact insert_fix_checked_sub _ _ _ _
      | exact ret_none
      | with_reducible exact fun _ h => h
      | refine ret_ite ?_ ?_
      | refine ret_andThen ?_ (fun _ => ?_)

/-- Where the checked `insert` returns, `insert` returns the same state. -/
theorem insert_checked_sub [LinearOrder K] (t : AVLTree K V) (new_item : K × V) :
    ∀ y, AVLTree.insert_checked t new_item = some y → AVLTree.insert t new_item = some y := by
  simp only [AVLTree.insert_checked, AVLTree.insert]
  repeat first
    | exact insert_helper_checked_sub _ _ _ _
    | exact ret_none
    | with_reducible exact fun _ h => h
    | refine ret_ite ?_ ?_
    | refine ret_andThen ?_ (fun _ => ?_)

/-- Where the checked `remove_fix` returns, `remove_fix` returns the same
state. -/
theorem remove_fix_checked_sub :
    ∀ (fuel : Nat) (t : AVLTree K V) (n : Option Nat) (diff : Int) (y : AVLTree K V),
      AVLTree.remove_fix_checked fuel t n diff = some y →
      AVLTree.remove_fix fuel t n diff = some y := by
  intro fuel
  induction fuel with
  | zero => intro t n diff y h; cases h
  | succ fuel ih =>
    intro t n diff
    simp only [AVLTree.remove_fix_checked, AVLTree.remove_fix]
    repeat first
      | exact ih _ _ _
      | exact ret_none
      | with_reducible exact fun _ h => h
      | refine ret_ite ?_ ?_
      | refine ret_andThen ?_ (fun _ => ?_)

/-- Where the checked `remove` returns, `remove` returns the same state. -/
theorem remove_checked_sub [LinearOrder K] (t : AVLTree K V) (key : K) :
    ∀ y, AVLTree.remove_checked t key = some y → AVLTree.remove t key = some y := by
  simp only [AVLTree.remove_checked, AVLTree.remove]
  repeat first
    | exact remove_fix_checked_sub _ _ _ _
    | exact ret_none
    | with_reducible exact fun _ h => h
    | refine ret_ite ?_ ?_
    | refine ret_andThen ?_ (fun _ => ?_)

end CheckedErasure

section CheckedInsert
open Shape
variable {K V : Type}

/-! ## Refinement of the checked `insert` on valid AVL trees -/

/-- Refinement of the checked `insert_fix` under the conditions `insert` calls
it with: the path above has correct balance factors for a subtree of height
`hgt`, and the subtree in focus has correct balance factors, leans to the side
of `n` and has height `hgt + 1`.  The call returns without meeting a value that
a `switch` does not list. -/
theorem insert_fix_checked_spec (c : List (Frame K V)) :
    ∀ (fuel : Nat) (t : AVLTree K V) (p n : Nat) (A B : Shape K V) (kp : K) (vp : V) (pb : Int)
      (hgt : Nat),
      ModelsAt t c (node p A kp vp pb B) →
      ((pb = -1 ∧ A.ptr = some n) ∨ (pb = 1 ∧ B.ptr = some n)) →
      c.length < fuel →
      pathBalanced c hgt → balanced (node p A kp vp pb B) →
      height (node p A kp vp pb B) = hgt + 1 →
      ∃ t2, AVLTree.insert_fix_checked fuel t (some p) (some n) = some t2 ∧
        Models t2 (Shape.insert_fix c (node p A kp vp pb B)) ∧
        t2.mem.length = t.mem.length := by
  induction c with
  | nil =>
    intro fuel t p n A B kp vp pb hgt h _ hf _ _ _
    cases fuel with
    | zero => simp at hf
    | succ fuel =>
      refine ⟨t, ?_, (modelsAt_nil _).mp h, rfl⟩
      simp [AVLTree.insert_fix_checked, getParent_focus h, pathPtr]
  | cons f c ih =>
    intro fuel t p n A B kp vp pb hgt h hn hf hc hs hh
    cases fuel with
    | zero => simp at hf
    | succ fuel =>
      have hf2 : c.length < fuel := by simpa using hf
      cases f with
      | left g kg vg bg R =>
        obtain ⟨hb1, hb2, hb3, hR, hc2⟩ := hc
        obtain ⟨hs1, hs2, hs3, hAb, hBb⟩ := hs
        simp only [Shape.height] at hh
        have hi : int8 (bg - 1) = bg - 1 := int8_of_small (by omega) (by omega)
        have hg := modelsAt_left.mpr h
        have r1 := getParent_focus h
        have r2 := getLeft_focus hg
        have r3 := getBalance_focus hg
        obtain ⟨t1, e1, m1, l1⟩ := setBalance_spec (bg - 1) hg
        have r4 := getBalance_focus m1
        have r5 := getBalance_focus (modelsAt_left.mp m1)
        simp only [AVLTree.insert_fix_checked, Shape.insert_fix, r1, r2, r3, e1, r4, r5, andThen_some,
          pathPtr, Frame.addr, ptr_node, reduceCtorEq, if_false, if_true, if_true]
        by_cases h0 : int8 (bg - 1) = 0
        · simp only [h0, if_true]
          exact ⟨t1, rfl, (models_plug _ _).mpr (h0 ▸ m1), l1⟩
        simp only [h0, if_false]
        by_cases h1 : int8 (bg - 1) = -1
        · rw [h1] at m1
          rw [hi] at h1
          have hbal : balanced (node g (node p A kp vp pb B) kg vg (-1) R) := by
            refine ⟨?_, by omega, by omega, ⟨hs1, hs2, hs3, hAb, hBb⟩, hR⟩
            simp only [Shape.height]; omega
          have hht : height (node g (node p A kp vp pb B) kg vg (-1) R)
              = (max hgt (height R) + 1) + 1 := by
            simp only [Shape.height]; omega
          obtain ⟨t2, e2, m2, l2⟩ := ih fuel t1 g p _ _ kg vg _ _ m1 (Or.inl ⟨rfl, rfl⟩) hf2
            hc2 hbal hht
          rw [← hi] at h1
          simp only [h1, e2, if_true]
          exact ⟨t2, rfl, m2, l2.trans l1⟩
        simp only [h1, if_false]
        by_cases h2 : int8 (bg - 1) = -2
        · simp only [h2, if_true]
          rw [h2] at m1
          by_cases hpb : pb = -1
          · subst hpb
            obtain ⟨t2, e2, m2, l2⟩ := rotate_right_spec m1
            obtain ⟨t3, e3, m3, l3⟩ := setBalance_spec 0 m2
            obtain ⟨t4, e4, m4, l4⟩ := setBalance_right_spec 0 m3
            simp only [e2, e3, e4, andThen_some, if_true, int8_zero] at m4 ⊢
            exact ⟨t4, rfl, (models_plug _ _).mpr m4, by omega⟩
          · have hB : pb = 1 ∧ B.ptr = some n := hn.resolve_left (fun hx => hpb hx.1)
            obtain ⟨hpb1, hBn⟩ := hB
            cases B with
            | nil => simp at hBn
            | node n2 B1 kn vn nb B2 =>
              simp only [ptr_node, Option.some.injEq] at hBn
              subst hBn
              obtain ⟨t2, e2, m2, l2⟩ := rotate_left_spec (modelsAt_left.mp m1)
              obtain ⟨t3, e3, m3, l3⟩ := rotate_right_spec (modelsAt_left.mpr m2)
              have r6 := getBalance_focus m3
              simp only [hpb, e2, e3, r6, andThen_some, if_false]
              by_cases hn1 : nb = -1
              · obtain ⟨t4, e4, m4, l4⟩ := setBalance_left_spec 0 m3
                obtain ⟨t5, e5, m5, l5⟩ := setBalance_right_spec (1) m4
                obtain ⟨t6, e6, m6, l6⟩ := setBalance_spec 0 m5
                simp only [hn1, e4, e5, e6, andThen_some, if_true, int8_zero, int8_one,
                  int8_neg_one] at m6 ⊢
                exact ⟨t6, rfl, (models_plug _ _).mpr m6, by omega⟩
              simp only [hn1, if_false]
              by_cases hn2 : nb = 0
              · obtain ⟨t4, e4, m4, l4⟩ := setBalance_left_spec 0 m3
                obtain ⟨t5, e5, m5, l5⟩ := setBalance_right_spec 0 m4
                obtain ⟨t6, e6, m6, l6⟩ := setBalance_spec 0 m5
                simp only [hn2, e4, e5, e6, andThen_some, if_true, int8_zero, int8_one,
                  int8_neg_one] at m6 ⊢
                exact ⟨t6, rfl, (models_plug _ _).mpr m6, by omega⟩
              simp only [hn2, if_false]
              by_cases hn3 : nb = 1
              · obtain ⟨t4, e4, m4, l4⟩ := setBalance_left_spec (-1) m3
                obtain ⟨t5, e5, m5, l5⟩ := setBalance_right_spec 0 m4
                obtain ⟨t6, e6, m6, l6⟩ := setBalance_spec 0 m5
                simp only [hn3, e4, e5, e6, andThen_some, if_true, int8_zero, int8_one,
                  int8_neg_one] at m6 ⊢
                exact ⟨t6, rfl, (models_plug _ _).mpr m6, by omega⟩
              · exfalso
                obtain ⟨-, hq2, hq3, -, -⟩ := hBb
                omega
        · exfalso
          rw [hi] at h0 h1 h2
          omega
      | right g R kg vg bg =>
        obtain ⟨hb1, hb2, hb3, hR, hc2⟩ := hc
        obtain ⟨hs1, hs2, hs3, hAb, hBb⟩ := hs
        simp only [Shape.height] at hh
        have hi : int8 (bg + 1) = bg + 1 := int8_of_small (by omega) (by omega)
        have hg := modelsAt_right.mpr h
        have r1 := getParent_focus h
        have r2 := getLeft_focus hg
        have hne : some p ≠ R.ptr := fun e => modelsAt_left_ne_right hg e.symm
        have r3 := getBalance_focus hg
        obtain ⟨t1, e1, m1, l1⟩ := setBalance_spec (bg + 1) hg
        have r4 := getBalance_focus m1
        have r5 := getBalance_focus (modelsAt_right.mp m1)
        simp only [AVLTree.insert_fix_checked, Shape.insert_fix, r1, r2, r3, e1, r4, r5, andThen_some,
          pathPtr, Frame.addr, ptr_node, reduceCtorEq, if_false, if_true, hne]
        by_cases h0 : int8 (bg + 1) = 0
        · simp only [h0, if_true]
          exact ⟨t1, rfl, (models_plug _ _).mpr (h0 ▸ m1), l1⟩
        simp only [h0, if_false]
        by_cases h1 : int8 (bg + 1) = 1
        · rw [h1] at m1
          rw [hi] at h1
          have hbal : balanced (node g R kg vg 1 (node p A kp vp pb B)) := by
            refine ⟨?_, by omega, by omega, hR, ⟨hs1, hs2, hs3, hAb, hBb⟩⟩
            simp only [Shape.height]; omega
          have hht : height (node g R kg vg 1 (node p A kp vp pb B))
              = (max (height R) hgt + 1) + 1 := by
            simp only [Shape.height]; omega
          obtain ⟨t2, e2, m2, l2⟩ := ih fuel t1 g p _ _ kg vg _ _ m1 (Or.inr ⟨rfl, rfl⟩) hf2
            hc2 hbal hht
          rw [← hi] at h1
          simp only [h1, e2, if_true]
          exact ⟨t2, rfl, m2, l2.trans l1⟩
        simp only [h1, if_false]
        by_cases h2 : int8 (bg + 1) = 2
        · simp only [h2, if_true]
          rw [h2] at m1
          by_cases hpb : pb = 1
          · subst hpb
            obtain ⟨t2, e2, m2, l2⟩ := rotate_left_spec m1
            obtain ⟨t3, e3, m3, l3⟩ := setBalance_spec 0 m2
            obtain ⟨t4, e4, m4, l4⟩ := setBalance_left_spec 0 m3
            simp only [e2, e3, e4, andThen_some, if_true, int8_zero] at m4 ⊢
            exact ⟨t4, rfl, (models_plug _ _).mpr m4, by omega⟩
          · have hB : pb = -1 ∧ A.ptr = some n := hn.resolve_right (fun hx => hpb hx.1)
            obtain ⟨hpb1, hBn⟩ := hB
            cases A with
            | nil => simp at hBn
            | node n2 A1 kn vn nb A2 =>
              simp only [ptr_node, Option.some.injEq] at hBn
              subst hBn
              obtain ⟨t2, e2, m2, l2⟩ := rotate_right_spec (modelsAt_right.mp m1)
              obtain ⟨t3, e3, m3, l3⟩ := rotate_left_spec (modelsAt_right.mpr m2)
              have r6 := getBalance_focus m3
              simp only [hpb, e2, e3, r6, andThen_some, if_false]
              by_cases hn1 : nb = 1
              · obtain ⟨t4, e4, m4, l4⟩ := setBalance_right_spec 0 m3
                obtain ⟨t5, e5, m5, l5⟩ := setBalance_left_spec (-1) m4
                obtain ⟨t6, e6, m6, l6⟩ := setBalance_spec 0 m5
                simp only [hn1, e4, e5, e6, andThen_some, if_true, int8_zero, int8_one,
                  int8_neg_one] at m6 ⊢
                exact ⟨t6, rfl, (models_plug _ _).mpr m6, by omega⟩
              simp only [hn1, if_false]
              by_cases hn2 : nb = 0
              · obtain ⟨t4, e4, m4, l4⟩ := setBalance_right_spec 0 m3
                obtain ⟨t5, e5, m5, l5⟩ := setBalance_left_spec 0 m4
                obtain ⟨t6, e6, m6, l6⟩ := setBalance_spec 0 m5
                simp only [hn2, e4, e5, e6, andThen_some, if_true, int8_zero, int8_one,
                  int8_neg_one] at m6 ⊢
                exact ⟨t6, rfl, (models_plug _ _).mpr m6, by omega⟩
              simp only [hn2, if_false]
              by_cases hn3 : nb = -1
              · obtain ⟨t4, e4, m4, l4⟩ := setBalance_right_spec (1) m3
                obtain ⟨t5, e5, m5, l5⟩ := setBalance_left_spec 0 m4
                obtain ⟨t6, e6, m6, l6⟩ := setBalance_spec 0 m5
                simp only [hn3, e4, e5, e6, andThen_some, if_true, int8_zero, int8_one,
                  int8_neg_one] at m6 ⊢
                exact ⟨t6, rfl, (models_plug _ _).mpr m6, by omega⟩
              · exfalso
                obtain ⟨-, hq2, hq3, -, -⟩ := hAb
                omega
        · exfalso
          rw [hi] at h0 h1 h2
          omega

/-- Refinement of the checked `insert_helper` on a subtree with correct balance
factors below a path with correct balance factors. -/
theorem insert_helper_checked_spec [LinearOrder K] (item : K × V) (s : Shape K V) :
    ∀ (c : List (Frame K V)) (fuel : Nat) (t : AVLTree K V),
      ModelsAt t c s → s ≠ nil → s.height ≤ fuel →
      balanced s → pathBalanced c (height s) →
      ∃ t2, AVLTree.insert_helper_checked item fuel t s.ptr = some t2 ∧
        Models t2 (Shape.insert_helper t.mem.length item c s) := by
  induction s with
  | nil => intro c fuel t _ hs; exact absurd rfl hs
  | node a l k v b r ihl ihr =>
    intro c fuel t h _ hf hs hc
    obtain ⟨hq1, hq2, hq3, hlb, hrb⟩ := hs
    cases fuel with
    | zero => simp [Shape.height] at hf
    | succ fuel =>
      simp only [Shape.height, Nat.add_le_add_iff_right, max_le_iff] at hf
      have r1 := getKey_focus h
      have r2 := getLeft_focus h
      have r3 := getRight_focus h
      simp only [AVLTree.insert_helper_checked, Shape.insert_helper, ptr_node, r1, r2, r3, andThen_some]
      by_cases hlt : item.1 < k
      · simp only [hlt, if_true]
        cases l with
        | nil =>
          obtain ⟨t1, e1, m1, l1⟩ := attach_left_spec item.1 item.2 h
          have r4 := getBalance_focus m1
          simp only [ptr_nil, if_true, new_AVLNode_snd, e1, r4, andThen_some]
          by_cases hb : b = 0
          · subst hb
            obtain ⟨t2, e2, m2, l2⟩ := setBalance_spec (-1) m1
            simp only [int8_neg_one] at m2
            have hfu : c.length < t2.mem.length + 1 := by
              have := path_length_le m2; omega
            simp only [Shape.height] at hq1 hc
            obtain ⟨t3, e3, m3, l3⟩ := insert_fix_checked_spec c _ t2 a t.mem.length _ _ k v _
              (max 0 r.height + 1) m2 (Or.inl ⟨rfl, rfl⟩) hfu hc
              (by
                refine ⟨?_, by omega, by omega, ⟨?_, by omega, by omega, trivial, trivial⟩,
                  hrb⟩ <;> simp only [Shape.height] <;> omega)
              (by simp only [Shape.height]; omega)
            simp only [ne_eq, not_true_eq_false, if_false, e2, andThen_some, e3]
            exact ⟨t3, rfl, m3⟩
          · obtain ⟨t2, e2, m2, l2⟩ := setBalance_spec 0 m1
            simp only [int8_zero] at m2
            simp only [ne_eq, hb, not_false_eq_true, if_true, e2]
            exact ⟨t2, rfl, (models_plug _ _).mpr m2⟩
        | node a2 l2 k2 v2 b2 r2 =>
          simp only [ptr_node, reduceCtorEq, if_false]
          exact ihl _ fuel t (modelsAt_left.mp h) (by simp) hf.1 hlb
            ⟨hq1, hq2, hq3, hrb, hc⟩
      · simp only [hlt, if_false]
        by_cases heq : item.1 = k
        · obtain ⟨t2, e2, m2, l2⟩ := setValue_spec item.2 h
          simp only [heq, if_true, e2] at m2 ⊢
          exact ⟨t2, by simp [← heq, e2], (models_plug _ _).mpr m2⟩
        · simp only [heq, if_false]
          cases r with
          | nil =>
            obtain ⟨t1, e1, m1, l1⟩ := attach_right_spec item.1 item.2 h
            have r4 := getBalance_focus m1
            simp only [ptr_nil, if_true, new_AVLNode_snd, e1, r4, andThen_some]
            by_cases hb : b = 0
            · subst hb
              obtain ⟨t2, e2, m2, l2⟩ := setBalance_spec 1 m1
              simp only [int8_one] at m2
              have hfu : c.length < t2.mem.length + 1 := by
                have := path_length_le m2; omega
              simp only [Shape.height] at hq1 hc
              obtain ⟨t3, e3, m3, l3⟩ := insert_fix_checked_spec c _ t2 a t.mem.length _ _ k v _
                (max l.height 0 + 1) m2 (Or.inr ⟨rfl, rfl⟩) hfu hc
                (by
                  refine ⟨?_, by omega, by omega, hlb,
                    ⟨?_, by omega, by omega, trivial, trivial⟩⟩ <;>
                    simp only [Shape.height] <;> omega)
                (by simp only [Shape.height]; omega)
              simp only [ne_eq, not_true_eq_false, if_false, e2, andThen_some, e3]
              exact ⟨t3, rfl, m3⟩
            · obtain ⟨t2, e2, m2, l2⟩ := setBalance_spec 0 m1
              simp only [int8_zero] at m2
              simp only [ne_eq, hb, not_false_eq_true, if_true, e2]
              exact ⟨t2, rfl, (models_plug _ _).mpr m2⟩
          | node a2 l2 k2 v2 b2 r2 =>
            simp only [ptr_node, reduceCtorEq, if_false]
            exact ihr _ fuel t (modelsAt_right.mp h) (by simp) hf.2 hrb
              ⟨hq1, hq2, hq3, hlb, hc⟩

/-- Refinement of the checked `insert`: on a heap that holds a tree `T` with
correct balance factors the call returns, and the heap then holds the tree
`Shape.insert` computes. -/
theorem insert_checked_spec [LinearOrder K] {t : AVLTree K V} {T : Shape K V} (item : K × V)
    (h : Models t T) (hb : balanced T) :
    ∃ t2, AVLTree.insert_checked t item = some t2 ∧ Models t2 (Shape.insert t.mem.length T item) := by
  cases T with
  | nil =>
    obtain ⟨hroot, -, -⟩ := h
    simp only [ptr_nil] at hroot
    refine ⟨_, by simp [AVLTree.insert_checked, hroot, new_AVLNode]; rfl, ?_⟩
    refine ⟨rfl, ⟨?_, trivial, trivial⟩, by simp [Shape.addrs]⟩
    simp [deref]
  | node a l k v b r =>
    have hroot := h.1
    simp only [ptr_node] at hroot
    have hs : (node a l k v b r).height ≤ t.mem.length + 1 :=
      le_trans (height_le_size _) (le_trans (models_size_le h) (Nat.le_succ _))
    obtain ⟨t2, e2, m2⟩ := insert_helper_checked_spec item (node a l k v b r) [] _ t
      ((modelsAt_nil _).mpr h) (by simp) hs hb trivial
    refine ⟨t2, ?_, m2⟩
    simp only [AVLTree.insert_checked, hroot, reduceCtorEq, if_false]
    simpa using e2

end CheckedInsert

section CheckedRemove
open Shape
variable {K V : Type}

/-! ## Refinement of the checked `remove` on valid AVL trees -/

/-- One call of the checked `remove_fix` on a node with balance in {-1, 0, 1}
whose subtrees have correct balance factors, removing one level from the side
`diff`: as `remove_fix_step`, and no `switch` meets a value it does not
list. -/
theorem remove_fix_checked_step {t : AVLTree K V} {c : List (Frame K V)} {n : Nat}
    {L R : Shape K V} {kn : K} {vn : V} {nb : Int} {diff : Int} {s2 : Shape K V} {cont : Bool}
    (h : ModelsAt t c (node n L kn vn nb R))
    (hs : remove_step diff (node n L kn vn nb R) = some (s2, cont))
    (hd : diff = 1 ∨ diff = -1) (hLb : balanced L) (hRb : balanced R)
    (hnb1 : -1 ≤ nb) (hnb2 : nb ≤ 1) (fuel : Nat) :
    ∃ t2, ModelsAt t2 c s2 ∧ t2.mem.length = t.mem.length ∧
      AVLTree.remove_fix_checked (fuel + 1) t (some n) diff =
        if cont = true then AVLTree.remove_fix_checked fuel t2 (pathPtr c) (pathDiff c)
        else some t2 := by
  have r1 := getParent_focus h
  have r2 := ndiff_focus h
  have r3 := getBalance_focus h
  simp only [AVLTree.remove_fix_checked, reduceCtorEq, if_false, r1, r2, r3, andThen_some]
  simp only [remove_step] at hs
  by_cases hs2 : nb + diff = -2
  · simp only [hs2, if_true] at hs ⊢
    cases L with
    | nil => simp at hs
    | node c A kc vc cb B =>
      have hc := modelsAt_left.mp h
      have r4 := getLeft_focus h
      have r5 := getBalance_focus hc
      simp only [r4, r5, ptr_node, andThen_some] at hs ⊢
      by_cases hz : cb = -1
      · subst hz
        simp only [if_true, Option.some.injEq, Prod.mk.injEq] at hs
        obtain ⟨rfl, rfl⟩ := hs
        obtain ⟨t1, e1, m1, l1⟩ := rotate_right_spec h
        obtain ⟨t2, e2, m2, l2⟩ := setBalance_right_spec 0 m1
        obtain ⟨t3, e3, m3, l3⟩ := setBalance_spec 0 m2
        simp only [int8_zero] at m3
        exact ⟨t3, m3, by omega, by simp [e1, e2, e3]⟩
      simp only [hz, if_false] at hs ⊢
      by_cases hz0 : cb = 0
      · subst hz0
        simp only [if_true, Option.some.injEq, Prod.mk.injEq] at hs
        obtain ⟨rfl, rfl⟩ := hs
        obtain ⟨t1, e1, m1, l1⟩ := rotate_right_spec h
        obtain ⟨t2, e2, m2, l2⟩ := setBalance_right_spec (-1) m1
        obtain ⟨t3, e3, m3, l3⟩ := setBalance_spec (1) m2
        simp only [int8_one, int8_neg_one] at m3
        exact ⟨t3, m3, by omega, by simp [e1, e2, e3]⟩
      simp only [hz0, if_false] at hs ⊢
      by_cases hz1 : cb = 1
      · subst hz1
        simp only [if_true] at hs ⊢
        cases B with
        | nil => simp at hs
        | node g B1 kg vg gb B2 =>
          have r6 := getRight_focus hc
          obtain ⟨t1, e1, m1, l1⟩ := rotate_left_spec hc
          obtain ⟨t2, e2, m2, l2⟩ := rotate_right_spec (modelsAt_left.mpr m1)
          have r7 := getBalance_focus m2
          simp only [r6, ptr_node, andThen_some, e1, e2, r7]
          by_cases hg1 : gb = 1
          · subst hg1
            simp only [if_true, Option.some.injEq, Prod.mk.injEq] at hs
            obtain ⟨rfl, rfl⟩ := hs
            obtain ⟨t3, e3, m3, l3⟩ := setBalance_right_spec (0) m2
            obtain ⟨t4, e4, m4, l4⟩ := setBalance_left_spec (-1) m3
            obtain ⟨t5, e5, m5, l5⟩ := setBalance_spec 0 m4
            simp only [int8_zero, int8_one, int8_neg_one] at m5
            exact ⟨t5, m5, by omega, by simp [e3, e4, e5]⟩
          simp only [hg1, if_false] at hs ⊢
          by_cases hg2 : gb = 0
          · subst hg2
            simp only [if_true, Option.some.injEq, Prod.mk.injEq] at hs
            obtain ⟨rfl, rfl⟩ := hs
            obtain ⟨t3, e3, m3, l3⟩ := setBalance_right_spec 0 m2
            obtain ⟨t4, e4, m4, l4⟩ := setBalance_left_spec 0 m3
            obtain ⟨t5, e5, m5, l5⟩ := setBalance_spec 0 m4
            simp only [int8_zero, int8_one, int8_neg_one] at m5
            exact ⟨t5, m5, by omega, by simp [e3, e4, e5]⟩
          simp only [hg2, if_false] at hs ⊢
          by_cases hg3 : gb = -1
          · subst hg3
            simp only [if_true, Option.some.injEq, Prod.mk.injEq] at hs
            obtain ⟨rfl, rfl⟩ := hs
            obtain ⟨t3, e3, m3, l3⟩ := setBalance_right_spec (1) m2
            obtain ⟨t4, e4, m4, l4⟩ := setBalance_left_spec (0) m3
            obtain ⟨t5, e5, m5, l5⟩ := setBalance_spec 0 m4
            simp only [int8_zero, int8_one, int8_neg_one] at m5
            exact ⟨t5, m5, by omega, by simp [e3, e4, e5]⟩
          · exfalso
            obtain ⟨-, -, -, -, ⟨-, hq2, hq3, -, -⟩⟩ := hLb
            omega
      · exfalso
        obtain ⟨-, hq2, hq3, -, -⟩ := hLb
        omega
  simp only [hs2, if_false] at hs ⊢
  by_cases hs2 : nb + diff = 2
  · simp only [hs2, if_true] at hs ⊢
    cases R with
    | nil => simp at hs
    | node c A kc vc cb B =>
      have hc := modelsAt_right.mp h
      have r4 := getRight_focus h
      have r5 := getBalance_focus hc
      simp only [r4, r5, ptr_node, andThen_some] at hs ⊢
      by_cases hz : cb = 1
      · subst hz
        simp only [if_true, Option.some.injEq, Prod.mk.injEq] at hs
        obtain ⟨rfl, rfl⟩ := hs
        obtain ⟨t1, e1, m1, l1⟩ := rotate_left_spec h
        obtain ⟨t2, e2, m2, l2⟩ := setBalance_left_spec 0 m1
        obtain ⟨t3, e3, m3, l3⟩ := setBalance_spec 0 m2
        simp only [int8_zero] at m3
        exact ⟨t3, m3, by omega, by simp [e1, e2, e3]⟩
      simp only [hz, if_false] at hs ⊢
      by_cases hz0 : cb = 0
      · subst hz0
        simp only [if_true, Option.some.injEq, Prod.mk.injEq] at hs
        obtain ⟨rfl, rfl⟩ := hs
        obtain ⟨t1, e1, m1, l1⟩ := rotate_left_spec h
        obtain ⟨t2, e2, m2, l2⟩ := setBalance_left_spec (1) m1
        obtain ⟨t3, e3, m3, l3⟩ := setBalance_spec (-1) m2
        simp only [int8_one, int8_neg_one] at m3
        exact ⟨t3, m3, by omega, by simp [e1, e2, e3]⟩
      simp only [hz0, if_false] at hs ⊢
      by_cases hz1 : cb = -1
      · subst hz1
        simp only [if_true] at hs ⊢
        cases A with
        | nil => simp at hs
        | node g A1 kg vg gb A2 =>
          have r6 := getLeft_focus hc
          obtain ⟨t1, e1, m1, l1⟩ := rotate_right_spec hc
          obtain ⟨t2, e2, m2, l2⟩ := rotate_left_spec (modelsAt_right.mpr m1)
          have r7 := getBalance_focus m2
          simp only [r6, ptr_node, andThen_some, e1, e2, r7]
          by_cases hg1 : gb = -1
          · subst hg1
            simp only [if_true, Option.some.injEq, Prod.mk.injEq] at hs
            obtain ⟨rfl, rfl⟩ := hs
            obtain ⟨t3, e3, m3, l3⟩ := setBalance_left_spec (0) m2
            obtain ⟨t4, e4, m4, l4⟩ := setBalance_right_spec (1) m3
            obtain ⟨t5, e5, m5, l5⟩ := setBalance_spec 0 m4
            simp only [int8_zero, int8_one, int8_neg_one] at m5
            exact ⟨t5, m5, by omega, by simp [e3, e4, e5]⟩
          simp only [hg1, if_false] at hs ⊢
          by_cases hg2 : gb = 0
          · subst hg2
            simp only [if_true, Option.some.injEq, Prod.mk.injEq] at hs
            obtain ⟨rfl, rfl⟩ := hs
            obtain ⟨t3, e3, m3, l3⟩ := setBalance_left_spec 0 m2
            obtain ⟨t4, e4, m4, l4⟩ := setBalance_right_spec 0 m3
            obtain ⟨t5, e5, m5, l5⟩ := setBalance_spec 0 m4
            simp only [int8_zero, int8_one, int8_neg_one] at m5
            exact ⟨t5, m5, by omega, by simp [e3, e4, e5]⟩
          simp only [hg2, if_false] at hs ⊢
          by_cases hg3 : gb = 1
          · subst hg3
            simp only [if_true, Option.some.injEq, Prod.mk.injEq] at hs
            obtain ⟨rfl, rfl⟩ := hs
            obtain ⟨t3, e3, m3, l3⟩ := setBalance_left_spec (-1) m2
            obtain ⟨t4, e4, m4, l4⟩ := setBalance_right_spec (0) m3
            obtain ⟨t5, e5, m5, l5⟩ := setBalance_spec 0 m4
            simp only [int8_zero, int8_one, int8_neg_one] at m5
            exact ⟨t5, m5, by omega, by simp [e3, e4, e5]⟩
          · exfalso
            obtain ⟨-, -, -, ⟨-, hq2, hq3, -, -⟩, -⟩ := hRb
            omega
      · exfalso
        obtain ⟨-, hq2, hq3, -, -⟩ := hRb
        omega
  simp only [hs2, if_false] at hs ⊢
  by_cases hs3 : nb + diff = -1
  · simp only [hs3, if_true, Option.some.injEq, Prod.mk.injEq] at hs ⊢
    obtain ⟨rfl, rfl⟩ := hs
    obtain ⟨t1, e1, m1, l1⟩ := setBalance_spec (-1) h
    simp only [int8_neg_one] at m1
    exact ⟨t1, m1, l1, by simp [e1]⟩
  simp only [hs3, if_false] at hs ⊢
  by_cases hs4 : nb + diff = 1
  · simp only [hs4, if_true, Option.some.injEq, Prod.mk.injEq] at hs ⊢
    obtain ⟨rfl, rfl⟩ := hs
    obtain ⟨t1, e1, m1, l1⟩ := setBalance_spec 1 h
    simp only [int8_one] at m1
    exact ⟨t1, m1, l1, by simp [e1]⟩
  simp only [hs4, if_false] at hs ⊢
  by_cases hs5 : nb + diff = 0
  · simp only [hs5, if_true, Option.some.injEq, Prod.mk.injEq] at hs ⊢
    obtain ⟨rfl, rfl⟩ := hs
    obtain ⟨t1, e1, m1, l1⟩ := setBalance_spec 0 h
    simp only [int8_zero] at m1
    exact ⟨t1, m1, l1, by simp [e1]⟩
  · exfalso
    rcases hd with rfl | rfl <;> omega

/-- Refinement of the checked `remove_fix` below a path with correct balance
factors for a subtree one level higher than the subtree now in the open
slot. -/
theorem remove_fix_checked_spec (c : List (Frame K V)) :
    ∀ (fuel : Nat) (t : AVLTree K V) (s T2 : Shape K V) (hgt : Nat),
      ModelsAt t c s → c.length < fuel → Shape.remove_fix c s = some T2 →
      pathBalanced c hgt → balanced s → height s + 1 = hgt →
      ∃ t2, AVLTree.remove_fix_checked fuel t (pathPtr c) (pathDiff c) = some t2 ∧
        Models t2 T2 ∧ t2.mem.length = t.mem.length := by
  induction c with
  | nil =>
    intro fuel t s T2 hgt h hf hs _ _ _
    cases fuel with
    | zero => simp at hf
    | succ fuel =>
      simp only [Shape.remove_fix, Option.some.injEq] at hs
      subst hs
      exact ⟨t, by simp [AVLTree.remove_fix_checked, pathPtr], (modelsAt_nil _).mp h, rfl⟩
  | cons f c ih =>
    intro fuel t s T2 hgt h hf hs hc hsb hh
    cases fuel with
    | zero => simp at hf
    | succ fuel =>
      have hf2 : c.length < fuel := by simpa using hf
      have hN := (modelsAt_cons f c s).mp h
      simp only [Shape.remove_fix] at hs
      cases f with
      | left n kn vn nb R =>
        obtain ⟨hb1, hb2, hb3, hR, hc2⟩ := hc
        obtain ⟨s2, cont, e, hs2, hh2⟩ := balanced_remove_step 1 n s R kn vn nb
          (max hgt R.height + 1) (Or.inl rfl) hsb hR hb2 hb3 (by omega)
          ⟨fun _ => by omega, fun hx => by omega⟩
        simp only [Frame.fill, Frame.diff] at hN hs
        obtain ⟨t1, m1, l1, e1⟩ :=
          remove_fix_checked_step hN e (Or.inl rfl) hsb hR hb2 hb3 fuel
        simp only [pathPtr, pathDiff, Frame.addr, Frame.diff, e1]
        rw [e] at hs
        cases cont with
        | true =>
          simp only [if_true] at hh2
          obtain ⟨t2, e2, m2, l2⟩ := ih fuel t1 s2 T2 _ m1 hf2 hs hc2 hs2 (by omega)
          exact ⟨t2, by simpa using e2, m2, l2.trans l1⟩
        | false =>
          simp only [Option.some.injEq] at hs
          subst hs
          exact ⟨t1, by simp, (models_plug _ _).mpr m1, l1⟩
      | right n L kn vn nb =>
        obtain ⟨hb1, hb2, hb3, hL, hc2⟩ := hc
        obtain ⟨s2, cont, e, hs2, hh2⟩ := balanced_remove_step (-1) n L s kn vn nb
          (max L.height hgt + 1) (Or.inr rfl) hL hsb hb2 hb3 (by omega)
          ⟨fun hx => by omega, fun _ => by omega⟩
        simp only [Frame.fill, Frame.diff] at hN hs
        obtain ⟨t1, m1, l1, e1⟩ :=
          remove_fix_checked_step hN e (Or.inr rfl) hL hsb hb2 hb3 fuel
        simp only [pathPtr, pathDiff, Frame.addr, Frame.diff, e1]
        rw [e] at hs
        cases cont with
        | true =>
          simp only [if_true] at hh2
          obtain ⟨t2, e2, m2, l2⟩ := ih fuel t1 s2 T2 _ m1 hf2 hs hc2 hs2 (by omega)
          exact ⟨t2, by simpa using e2, m2, l2.trans l1⟩
        | false =>
          simp only [Option.some.injEq] at hs
          subst hs
          exact ⟨t1, by simp, (models_plug _ _).mpr m1, l1⟩

/-- Refinement of the checked `remove`: on a heap that holds a tree with correct
balance factors the call returns, and the heap then holds the tree
`Shape.remove` computes. -/
theorem remove_checked_spec [LinearOrder K] {t : AVLTree K V} {T : Shape K V} (key : K)
    (h : Models t T) (hb : balanced T) :
    ∃ t2 T2, AVLTree.remove_checked t key = some t2 ∧ Shape.remove T key = some T2 ∧
      Models t2 T2 := by
  have hfind := internalFind_spec key h
  rw [← descend_ptr key T []] at hfind
  have hplug := descend_plug key T []
  obtain ⟨T2, hT0, -⟩ := balanced_remove T key hb
  have hT := hT0
  unfold Shape.remove at hT
  unfold AVLTree.remove_checked
  rw [hfind]
  rcases hd : descend key [] T with ⟨c, s⟩
  rw [hd] at hplug hT
  simp only [plug] at hplug
  have hm : ModelsAt t c s := by
    rw [← models_plug, hplug]; exact h
  have hbal := hb
  rw [← hplug, balanced_plug] at hbal
  obtain ⟨hsb, hc⟩ := hbal
  cases s with
  | nil =>
    simp only [Option.some.injEq] at hT
    subst hT
    exact ⟨t, T, by simp, hT0, h⟩
  | node n L kn vn nb R =>
    obtain ⟨hb1, hb2, hb3, hL, hR⟩ := hsb
    have r1 := getLeft_focus hm
    have r2 := getRight_focus hm
    simp only [ptr_node, andThen_some, reduceCtorEq, if_false, r1, r2]
    cases L with
    | nil =>
      simp only at hT
      obtain ⟨t2, m2, l2, e2⟩ := splice_gen
        (fun t p diff => AVLTree.remove_fix_checked (t.mem.length + 1) t p diff) hm (Or.inl rfl)
      simp only [ptr_nil, if_true] at m2
      have hfu : c.length < t2.mem.length + 1 := by
        have := path_length_le m2; omega
      simp only [Shape.height] at hc hb1
      obtain ⟨t3, e3, m3, l3⟩ := remove_fix_checked_spec c _ t2 _ T2 _ m2 hfu hT hc hR
        (by omega)
      refine ⟨t3, T2, ?_, hT0, m3⟩
      simp only [ptr_nil, ne_eq, not_true_eq_false, if_false, andThen_some, Bool.false_eq_true]
      rw [e2]; exact e3
    | node al ll kl vl bl rl =>
      cases R with
      | nil =>
        simp only at hT
        obtain ⟨t2, m2, l2, e2⟩ := splice_gen
          (fun t p diff => AVLTree.remove_fix_checked (t.mem.length + 1) t p diff) hm
          (Or.inr rfl)
        simp only [ptr_node, reduceCtorEq, if_false] at m2
        have hfu : c.length < t2.mem.length + 1 := by
          have := path_length_le m2; omega
        simp only [Shape.height] at hc hb1
        obtain ⟨t3, e3, m3, l3⟩ := remove_fix_checked_spec c _ t2 _ T2 _ m2 hfu hT hc hL
          (by simp only [Shape.height]; omega)
        refine ⟨t3, T2, ?_, hT0, m3⟩
        simp only [ptr_node, ptr_nil, ne_eq, not_true_eq_false, reduceCtorEq, not_false_eq_true,
          if_true, if_false, andThen_some, decide_False, Bool.false_eq_true]
        rw [e2]; exact e3
      | node ar lr kr vr br rr =>
        simp only at hT
        obtain ⟨cm, m, ML, km, vm, mb, hdr, hall⟩ :=
          descendRight_shape (node al ll kl vl bl rl) [] (by simp)
        have hdp := descendRight_plug (node al ll kl vl bl rl) []
        rw [hdr] at hdp hT
        simp only [List.append_nil, plug] at hdp
        simp only [List.append_nil] at hT
        have hpred : BinarySearchTree.predecessor t (some n) = some (some m) := by
          have hrep : RepTree t (some n) (node al ll kl vl bl rl) := hm.2.2.1.2.1
          have hh : (node al ll kl vl bl rl).height ≤ t.mem.length + 1 := by
            have h1 := path_length_le hm
            have h2 := height_le_size (node al ll kl vl bl rl)
            simp only [Shape.size] at h1 h2 ⊢
            omega
          have := predecessor_descend_spec (node al ll kl vl bl rl) (some n) _ [] hrep
            (by simp) hh
          rw [hdr] at this
          simpa [BinarySearchTree.predecessor, r1] using this
        have hm2 : ModelsAt t (cm ++ Frame.left n kn vn nb (node ar lr kr vr br rr) :: c)
            (node m ML km vm mb nil) := by
          rw [modelsAt_append, hdp]
          exact modelsAt_left.mp hm
        obtain ⟨t1, e1, m1, l1⟩ := nodeSwap_spec hall (by simp) hm2
        obtain ⟨t2, m2, l2, e2⟩ := splice_gen
          (fun t p diff => AVLTree.remove_fix_checked (t.mem.length + 1) t p diff) m1
          (Or.inr rfl)
        have hfu : (cm ++ Frame.left m km vm (int8 nb) (node ar lr kr vr br rr) :: c).length
            < t2.mem.length + 1 := by
          have := path_length_le m2; omega
        have hL2 := hL
        rw [← hdp, balanced_plug] at hL2
        obtain ⟨⟨hm1, hm2b, hm3, hML, -⟩, hcm⟩ := hL2
        have hhp : pathHeight cm (node m ML km vm mb nil).height
            = (node al ll kl vl bl rl).height := by
          rw [← height_plug, hdp]
        simp only [Shape.height] at hm1
        have hi : int8 nb = nb := int8_of_small (by omega) (by omega)
        have hchild : (if ML.ptr = none then (nil : Shape K V) else ML) = ML := by
          cases ML <;> simp
        rw [hchild] at hT m2
        obtain ⟨t3, e3, m3, l3⟩ := remove_fix_checked_spec _ _ t2 _ T2
          (node m ML km vm mb nil).height m2 hfu hT
          (by
            rw [pathBalanced_append, hhp]
            refine ⟨hcm, ?_, by omega, by omega, hR, hc⟩
            rw [hi]; exact hb1)
          hML (by simp only [Shape.height]; omega)
        refine ⟨t3, T2, ?_, hT0, m3⟩
        simp only [ptr_node, ne_eq, reduceCtorEq, not_false_eq_true, if_true, andThen_some,
          decide_True, hpred, e1]
        rw [e2]; exact e3

end CheckedRemove

section Safety
open Shape
variable {K V : Type}

/-! ## No null pointer is dereferenced and no `switch` is left without a case -/

/-- A returning `rotate_right(y)` was called on a node with a left child. -/
theorem rotate_right_left_child (u u2 : AVLTree K V) (y : Option Nat)
    (h : AVLTree.rotate_right u y = some u2) : ∃ x, getLeft u y = some (some x) := by
  unfold AVLTree.rotate_right at h
  cases hx : getLeft u y with
  | none => rw [hx] at h; cases h
  | some x =>
    cases x with
    | none => rw [hx] at h; simp [getRight, deref] at h
    | some a => exact ⟨a, rfl⟩

/-- A returning `rotate_left(x)` was called on a node with a right child. -/
theorem rotate_left_right_child (u u2 : AVLTree K V) (x : Option Nat)
    (h : AVLTree.rotate_left u x = some u2) : ∃ y, getRight u x = some (some y) := by
  unfold AVLTree.rotate_left at h
  cases hy : getRight u x with
  | none => rw [hy] at h; cases h
  | some y =>
    cases y with
    | none => rw [hy] at h; simp [getLeft, deref] at h
    | some a => exact ⟨a, rfl⟩

/-- C26: on a valid AVL tree `insert` of any key and value and `remove` of any
key return also when every `switch` on a balance value is checked to hit one
of its listed cases, with the same resulting state, which is again a valid AVL
tree.  A call returns only if no null pointer was read or written through:
every access through a null pointer fails, so the child whose balance is read
in a case -2 or 2 exists, and so does the grandchild in a zig-zag case; a
rotation returns only on a node that has the child that is rotated up. -/
theorem no_null_dereference [LinearOrder K] (t : AVLTree K V) (T : Shape K V)
    (h : ValidAVL t T) :
    (∀ new_item : K × V, ∃ t2 T2, AVLTree.insert_checked t new_item = some t2 ∧
      AVLTree.insert t new_item = some t2 ∧ ValidAVL t2 T2) ∧
    (∀ key : K, ∃ t2 T2, AVLTree.remove_checked t key = some t2 ∧
      AVLTree.remove t key = some t2 ∧ ValidAVL t2 T2) ∧
    (∀ (u u2 : AVLTree K V) (y : Option Nat), AVLTree.rotate_right u y = some u2 →
      ∃ x, getLeft u y = some (some x)) ∧
    (∀ (u u2 : AVLTree K V) (x : Option Nat), AVLTree.rotate_left u x = some u2 →
      ∃ y, getRight u x = some (some y)) ∧
    (∀ u : AVLTree K V, getKey u none = none ∧ getBalance u none = none ∧
      getLeft u none = none ∧ getRight u none = none ∧ getParent u none = none ∧
      (∀ b, setBalance u none b = none) ∧ (∀ q, setLeft u none q = none) ∧
      (∀ q, setRight u none q = none) ∧ (∀ q, setParent u none q = none) ∧
      (∀ v : V, setValue u none v = none)) := by
  refine ⟨?_, ?_, rotate_right_left_child, rotate_left_right_child, ?_⟩
  · intro new_item
    obtain ⟨t2, e, m⟩ := insert_checked_spec new_item h.1 h.2.2
    exact ⟨t2, _, e, insert_checked_sub t new_item t2 e, m,
      ordered_insert _ T new_item h.2.1, balanced_insert _ T new_item h.2.2⟩
  · intro key
    obtain ⟨t2, T2, e, eT, m⟩ := remove_checked_spec key h.1 h.2.2
    obtain ⟨T3, e3, b⟩ := balanced_remove T key h.2.2
    have e4 : T3 = T2 := Option.some.inj (e3.symm.trans eT)
    subst e4
    exact ⟨t2, T3, e, remove_checked_sub t key t2 e, m, ordered_remove T T3 key h.2.1 eT, b⟩
  · intro u
    exact ⟨rfl, rfl, rfl, rfl, rfl, fun _ => rfl, fun _ => rfl, fun _ => rfl, fun _ => rfl,
      fun _ => rfl⟩

theorem no_null_dereference_witness :
    ValidAVL sampleTree sampleShape ∧
    (∀ new_item : Nat × Nat, ∃ t2 T2, AVLTree.insert_checked sampleTree new_item = some t2 ∧
      AVLTree.insert sampleTree new_item = some t2 ∧ ValidAVL t2 T2) ∧
    (∀ key : Nat, ∃ t2 T2, AVLTree.remove_checked sampleTree key = some t2 ∧
      AVLTree.remove sampleTree key = some t2 ∧ ValidAVL t2 T2) ∧
    (∀ (u u2 : AVLTree Nat Nat) (y : Option Nat), AVLTree.rotate_right u y = some u2 →
      ∃ x, getLeft u y = some (some x)) ∧
    (∀ (u u2 : AVLTree Nat Nat) (x : Option Nat), AVLTree.rotate_left u x = some u2 →
      ∃ y, getRight u x = some (some y)) ∧
    (∀ u : AVLTree Nat Nat, getKey u none = none ∧ getBalance u none = none ∧
      getLeft u none = none ∧ getRight u none = none ∧ getParent u none = none ∧
      (∀ b, setBalance u none b = none) ∧ (∀ q, setLeft u none q = none) ∧
      (∀ q, setRight u none q = none) ∧ (∀ q, setParent u none q = none) ∧
      (∀ v : Nat, setValue u none v = none)) :=
  ⟨sampleTree_valid, no_null_dereference sampleTree sampleShape sampleTree_valid⟩

end Safety

section TreeLinks
open Shape
variable {K V : Type}

/-! ## The links of a tree held by the heap -/

theorem depthOf_plug (a : Nat) (c : List (Frame K V)) :
    ∀ (s : Shape K V), a ∈ s.addrs → (plug c s).addrs.Nodup →
      depthOf a (plug c s) = depthOf a s + c.length := by
  induction c with
  | nil => intro s _ _; rfl
  | cons f c ih =>
    intro s ha hnd
    have hnd2 : (f.fill s).addrs.Nodup := by
      have := (addrs_plug_perm c (f.fill s)).nodup_iff.mp hnd
      exact (List.nodup_append.mp this).2.1
    have hstep : depthOf a (f.fill s) = depthOf a s + 1 := by
      cases f with
      | left g kg vg bg R =>
        simp only [Frame.fill, Shape.addrs, List.nodup_cons, List.mem_append, not_or,
          List.nodup_append] at hnd2
        have hne : g ≠ a := fun e => hnd2.1.1 (e ▸ ha)
        simp [Frame.fill, depthOf, hne, ha]
      | right g L kg vg bg =>
        simp only [Frame.fill, Shape.addrs, List.nodup_cons, List.mem_append, not_or,
          List.nodup_append] at hnd2
        have hne : g ≠ a := fun e => hnd2.1.2 (e ▸ ha)
        have hnl : a ∉ L.addrs := fun hm => hnd2.2.2.2 hm ha
        simp [Frame.fill, depthOf, hne, hnl]
    have hmem : a ∈ (f.fill s).addrs := by
      cases f <;> simp [Frame.fill, Shape.addrs, ha]
    have := ih (f.fill s) hmem hnd
    simp only [plug, List.length_cons]
    rw [this, hstep]
    omega

/-- The cell of a node of the tree, with the path to the node. -/
theorem cell_of_mem {t : BinarySearchTree K V} {T : Shape K V} (h : Models t T) {x : Nat}
    (hx : x ∈ T.addrs) :
    ∃ c l k v b r, T = plug c (node x l k v b r) ∧ ModelsAt t c (node x l k v b r) ∧
      deref t (some x) = some ⟨k, v, pathPtr c, l.ptr, r.ptr, b⟩ ∧ depthOf x T = c.length := by
  obtain ⟨c, l, k, v, b, r, hT⟩ := addr_position T x hx
  have hm : ModelsAt t c (node x l k v b r) := by rw [← models_plug, hT]; exact h
  refine ⟨c, l, k, v, b, r, hT.symm, hm, modelsAt_deref hm, ?_⟩
  have := depthOf_plug x c (node x l k v b r) (by simp [Shape.addrs]) (by rw [hT]; exact h.2.2)
  rw [hT] at this
  simpa [depthOf] using this

/-- The left child of a node of the tree: it is a node of the tree, one level
further down, it is not also the right child, and its parent link points
back. -/
theorem link_left {t : BinarySearchTree K V} {T : Shape K V} (h : Models t T) {x y : Nat}
    {cx : AVLNode K V} (hx : x ∈ T.addrs) (hc : deref t (some x) = some cx)
    (hl : cx.left_ = some y) :
    y ∈ T.addrs ∧ depthOf y T = depthOf x T + 1 ∧ cx.right_ ≠ some y ∧
      ∃ cy, deref t (some y) = some cy ∧ cy.parent_ = some x := by
  obtain ⟨c, l, k, v, b, r, hT, hm, hd, hdep⟩ := cell_of_mem h hx
  rw [hd] at hc
  cases hc
  cases l with
  | nil => simp at hl
  | node y2 l2 k2 v2 b2 r2 =>
    simp only [ptr_node, Option.some.injEq] at hl
    subst hl
    have hm2 := modelsAt_left.mp hm
    have hy : y2 ∈ T.addrs := by
      rw [hT, (addrs_plug_perm _ _).mem_iff]
      simp [Shape.addrs]
    have hnd : (plug (Frame.left x k v b r :: c) (node y2 l2 k2 v2 b2 r2)).addrs.Nodup := by
      show (plug c (node x (node y2 l2 k2 v2 b2 r2) k v b r)).addrs.Nodup
      rw [← hT]; exact h.2.2
    have hdy := depthOf_plug y2 (Frame.left x k v b r :: c) (node y2 l2 k2 v2 b2 r2)
      (by simp [Shape.addrs]) hnd
    have hdy2 : depthOf y2 T = c.length + 1 := by
      rw [hT]
      simpa [depthOf] using hdy
    refine ⟨hy, by omega, modelsAt_right_ne_left hm, _, modelsAt_deref hm2, rfl⟩

/-- The right child of a node of the tree. -/
theorem link_right {t : BinarySearchTree K V} {T : Shape K V} (h : Models t T) {x y : Nat}
    {cx : AVLNode K V} (hx : x ∈ T.addrs) (hc : deref t (some x) = some cx)
    (hr : cx.right_ = some y) :
    y ∈ T.addrs ∧ depthOf y T = depthOf x T + 1 ∧ cx.left_ ≠ some y ∧
      ∃ cy, deref t (some y) = some cy ∧ cy.parent_ = some x := by
  obtain ⟨c, l, k, v, b, r, hT, hm, hd, hdep⟩ := cell_of_mem h hx
  rw [hd] at hc
  cases hc
  cases r with
  | nil => simp at hr
  | node y2 l2 k2 v2 b2 r2 =>
    simp only [ptr_node, Option.some.injEq] at hr
    subst hr
    have hm2 := modelsAt_right.mp hm
    have hy : y2 ∈ T.addrs := by
      rw [hT, (addrs_plug_perm _ _).mem_iff]
      simp [Shape.addrs]
    have hnd : (plug (Frame.right x l k v b :: c) (node y2 l2 k2 v2 b2 r2)).addrs.Nodup := by
      show (plug c (node x l k v b (node y2 l2 k2 v2 b2 r2))).addrs.Nodup
      rw [← hT]; exact h.2.2
    have hdy := depthOf_plug y2 (Frame.right x l k v b :: c) (node y2 l2 k2 v2 b2 r2)
      (by simp [Shape.addrs]) hnd
    have hdy2 : depthOf y2 T = c.length + 1 := by
      rw [hT]
      simpa [depthOf] using hdy
    refine ⟨hy, by omega, modelsAt_left_ne_right hm, _, modelsAt_deref hm2, rfl⟩

/-- The parent of a node of the tree: it is a node of the tree and one of its
child links points back. -/
theorem link_parent {t : BinarySearchTree K V} {T : Shape K V} (h : Models t T) {x p : Nat}
    {cx : AVLNode K V} (hx : x ∈ T.addrs) (hc : deref t (some x) = some cx)
    (hp : cx.parent_ = some p) :
    p ∈ T.addrs ∧ ∃ cp, deref t (some p) = some cp ∧
      (cp.left_ = some x ∨ cp.right_ = some x) := by
  obtain ⟨c, l, k, v, b, r, hT, hm, hd, hdep⟩ := cell_of_mem h hx
  rw [hd] at hc
  cases hc
  cases c with
  | nil => simp [pathPtr] at hp
  | cons f c =>
    simp only [pathPtr_cons, Option.some.injEq] at hp
    subst hp
    have hmem : f.addr ∈ T.addrs := by
      rw [hT, (addrs_plug_perm _ _).mem_iff]
      simp [pathAddrs]
    cases f with
    | left g kg vg bg S =>
      exact ⟨hmem, _, modelsAt_deref (modelsAt_left.mpr hm), Or.inl rfl⟩
    | right g S kg vg bg =>
      exact ⟨hmem, _, modelsAt_deref (modelsAt_right.mpr hm), Or.inr rfl⟩

/-- The node without a parent is the node `root_` points at. -/
theorem link_root {t : BinarySearchTree K V} {T : Shape K V} (h : Models t T) {x : Nat}
    {cx : AVLNode K V} (hx : x ∈ T.addrs) (hc : deref t (some x) = some cx) :
    cx.parent_ = none ↔ t.root_ = some x := by
  obtain ⟨c, l, k, v, b, r, hT, hm, hd, hdep⟩ := cell_of_mem h hx
  rw [hd] at hc
  cases hc
  cases c with
  | nil => simp [pathPtr, hm.1, pathRoot]
  | cons f c =>
    simp only [pathPtr_cons, reduceCtorEq, false_iff]
    intro hr
    obtain ⟨a, ha, e⟩ := pathRoot_mem f c (node x l k v b r).ptr
    rw [hm.1, e] at hr
    have hnd := hm.2.2.2
    rw [List.nodup_append] at hnd
    have : a = x := Option.some.inj hr
    subst this
    exact hnd.2.2 ha (by simp [Shape.addrs])

end TreeLinks

section Writes
open Shape
variable {K V : Type}

/-! ## The cells after a write through a pointer -/

theorem modifyNode_pw (t : BinarySearchTree K V) (x : Nat) (f : AVLNode K V → AVLNode K V)
    (hx : (deref t (some x)).isSome) :
    ∃ t2, modifyNode t (some x) f = some t2 ∧ t2.root_ = t.root_ ∧
      t2.mem.length = t.mem.length ∧
      ∀ a, deref t2 (some a) = (deref t (some a)).map (fun c => if a = x then f c else c) := by
  obtain ⟨c, hc⟩ := Option.isSome_iff_exists.mp hx
  refine ⟨store t x (f c), modifyNode_eq hc f, rfl, store_length _ _ _, fun a => ?_⟩
  rw [deref_store]
  by_cases h : a = x
  · subst h
    simp [hc, deref_lt hc]
  · simp only [h, if_false]
    cases deref t (some a) <;> rfl

theorem guarded_pw (t : BinarySearchTree K V) (g : Prop) [Decidable g] (p : Option Nat)
    (f : AVLNode K V → AVLNode K V) (hg : g → (deref t p).isSome) :
    ∃ t2, (if g then modifyNode t p f else some t) = some t2 ∧ t2.root_ = t.root_ ∧
      t2.mem.length = t.mem.length ∧
      ∀ a, deref t2 (some a) =
        (deref t (some a)).map (fun c => if g ∧ p = some a then f c else c) := by
  by_cases h : g
  · cases p with
    | none => simp at hg; exact absurd h hg
    | some x =>
      obtain ⟨t2, e, r, l, hp⟩ := modifyNode_pw t x f (hg h)
      refine ⟨t2, by simp [h, e], r, l, fun a => ?_⟩
      rw [hp]
      simp only [h, true_and, Option.some.injEq]
      congr 1
      funext c
      by_cases e2 : a = x
      · simp [e2]
      · simp [e2, Ne.symm e2]
  · refine ⟨t, by simp [h], rfl, rfl, fun a => ?_⟩
    simp only [h, false_and, if_false]
    cases deref t (some a) <;> rfl

/-- A write through `p`, made only if `g` holds, on a heap `t` that has the
cells of `t0`: it returns, and every cell is as before except the one written
to. -/
theorem step_pw (t0 t : BinarySearchTree K V)
    (al : ∀ a, (deref t (some a)).isSome = (deref t0 (some a)).isSome)
    (g : Prop) [Decidable g] (p : Option Nat) (f : AVLNode K V → AVLNode K V)
    (hg : g → (deref t0 p).isSome) :
    ∃ t2, (if g then modifyNode t p f else some t) = some t2 ∧ t2.root_ = t.root_ ∧
      t2.mem.length = t.mem.length ∧
      (∀ a, (deref t2 (some a)).isSome = (deref t0 (some a)).isSome) ∧
      ∀ a, deref t2 (some a) =
        (deref t (some a)).map (fun c => if g ∧ p = some a then f c else c) := by
  have hg2 : g → (deref t p).isSome := by
    intro h
    have := hg h
    cases p with
    | none => simp at this
    | some x => rw [al]; exact this
  obtain ⟨t2, e, r, l, d⟩ := guarded_pw t g p f hg2
  refine ⟨t2, e, r, l, fun a => ?_, d⟩
  rw [d, Option.isSome_map', al]

/-- A write through a pointer that is not null. -/
theorem write_pw (t0 t : BinarySearchTree K V)
    (al : ∀ a, (deref t (some a)).isSome = (deref t0 (some a)).isSome)
    (x : Nat) (f : AVLNode K V → AVLNode K V) (hx : (deref t0 (some x)).isSome) :
    ∃ t2, modifyNode t (some x) f = some t2 ∧ t2.root_ = t.root_ ∧
      t2.mem.length = t.mem.length ∧
      (∀ a, (deref t2 (some a)).isSome = (deref t0 (some a)).isSome) ∧
      ∀ a, deref t2 (some a) = (deref t (some a)).map (fun c => if a = x then f c else c) := by
  obtain ⟨t2, e, r, l, d⟩ := modifyNode_pw t x f (by rw [al]; exact hx)
  refine ⟨t2, e, r, l, fun a => ?_, d⟩
  rw [d, Option.isSome_map', al]

/-- The two writes of one of the adjacent cases of `nodeSwap`, made only if `g`
holds. -/
theorem pair_pw (t0 t : BinarySearchTree K V)
    (al : ∀ a, (deref t (some a)).isSome = (deref t0 (some a)).isSome)
    (g : Prop) [Decidable g] (x y : Nat) (f1 f2 : AVLNode K V → AVLNode K V)
    (hx : (deref t0 (some x)).isSome) (hy : (deref t0 (some y)).isSome) :
    ∃ t2, (if g then andThen (modifyNode t (some x) f1) fun t => modifyNode t (some y) f2
        else some t) = some t2 ∧ t2.root_ = t.root_ ∧
      t2.mem.length = t.mem.length ∧
      (∀ a, (deref t2 (some a)).isSome = (deref t0 (some a)).isSome) ∧
      ∀ a, deref t2 (some a) =
        (deref t (some a)).map (fun c =>
          if g ∧ a = y then f2 (if a = x then f1 c else c)
          else if g ∧ a = x then f1 c else c) := by
  by_cases h : g
  · obtain ⟨t1, e1, r1, l1, al1, d1⟩ := write_pw t0 t al x f1 hx
    obtain ⟨t2, e2, r2, l2, al2, d2⟩ := write_pw t0 t1 al1 y f2 hy
    refine ⟨t2, by simp [h, e1, e2], r2.trans r1, l2.trans l1, al2, fun a => ?_⟩
    rw [d2, d1, Option.map_map]
    congr 1
    funext c
    by_cases hay : a = y <;> simp [Function.comp, h, hay]
  · refine ⟨t, by simp [h], rfl, rfl, al, fun a => ?_⟩
    simp only [h, false_and, if_false]
    cases deref t (some a) <;> rfl

theorem ite_modifyNode (t : BinarySearchTree K V) (b : Prop) [Decidable b] (p : Option Nat)
    (f1 f2 : AVLNode K V → AVLNode K V) :
    (if b then modifyNode t p f1 else modifyNode t p f2)
      = modifyNode t p (fun c => if b then f1 c else f2 c) := by
  by_cases h : b <;> simp [h]

/-- The writes of the adjacent cases of `nodeSwap`: at most one of the four
pairs of writes is made. -/
theorem adjacent_pw (t0 t : BinarySearchTree K V)
    (al : ∀ a, (deref t (some a)).isSome = (deref t0 (some a)).isSome)
    (A B C D : Prop) [Decidable A] [Decidable B] [Decidable C] [Decidable D] (n1 n2 : Nat)
    (hne : n1 ≠ n2)
    (h1 : (deref t0 (some n1)).isSome) (h2 : (deref t0 (some n2)).isSome) :
    ∃ t2, (if A then
          andThen (modifyNode t (some n2) fun n => { n with right_ := some n1 }) fun t =>
            modifyNode t (some n1) fun n => { n with parent_ := some n2 }
        else if B then
          andThen (modifyNode t (some n1) fun n => { n with right_ := some n2 }) fun t =>
            modifyNode t (some n2) fun n => { n with parent_ := some n1 }
        else if C then
          andThen (modifyNode t (some n2) fun n => { n with left_ := some n1 }) fun t =>
            modifyNode t (some n1) fun n => { n with parent_ := some n2 }
        else if D then
          andThen (modifyNode t (some n1) fun n => { n with left_ := some n2 }) fun t =>
            modifyNode t (some n2) fun n => { n with parent_ := some n1 }
        else some t) = some t2 ∧ t2.root_ = t.root_ ∧
      t2.mem.length = t.mem.length ∧
      (∀ a, (deref t2 (some a)).isSome = (deref t0 (some a)).isSome) ∧
      ∀ a, deref t2 (some a) =
        (deref t (some a)).map (fun c =>
          if A then
            (if a = n1 then { c with parent_ := some n2 }
             else if a = n2 then { c with right_ := some n1 } else c)
          else if B then
            (if a = n2 then { c with parent_ := some n1 }
             else if a = n1 then { c with right_ := some n2 } else c)
          else if C then
            (if a = n1 then { c with parent_ := some n2 }
             else if a = n2 then { c with left_ := some n1 } else c)
          else if D then
            (if a = n2 then { c with parent_ := some n1 }
             else if a = n1 then { c with left_ := some n2 } else c)
          else c) := by
  by_cases hA : A
  · obtain ⟨t2, e, r, l, al2, d⟩ := pair_pw t0 t al True n2 n1
      (fun n => { n with right_ := some n1 }) (fun n => { n with parent_ := some n2 }) h2 h1
    simp only [if_true] at e
    refine ⟨t2, by simp only [hA, if_true]; exact e, r, l, al2, fun a => ?_⟩
    rw [d]
    congr 1
    funext c
    by_cases e1 : a = n1 <;> by_cases e2 : a = n2 <;> simp [hA, e1, e2, hne, hne.symm]
  by_cases hB : B
  · obtain ⟨t2, e, r, l, al2, d⟩ := pair_pw t0 t al True n1 n2
      (fun n => { n with right_ := some n2 }) (fun n => { n with parent_ := some n1 }) h1 h2
    simp only [if_true] at e
    refine ⟨t2, by simp only [hA, hB, if_true, if_false]; exact e, r, l, al2, fun a => ?_⟩
    rw [d]
    congr 1
    funext c
    by_cases e1 : a = n1 <;> by_cases e2 : a = n2 <;> simp [hA, hB, e1, e2, hne, hne.symm]
  by_cases hC : C
  · obtain ⟨t2, e, r, l, al2, d⟩ := pair_pw t0 t al True n2 n1
      (fun n => { n with left_ := some n1 }) (fun n => { n with parent_ := some n2 }) h2 h1
    simp only [if_true] at e
    refine ⟨t2, by simp only [hA, hB, hC, if_true, if_false]; exact e, r, l, al2, fun a => ?_⟩
    rw [d]
    congr 1
    funext c
    by_cases e1 : a = n1 <;> by_cases e2 : a = n2 <;>
      simp [hA, hB, hC, e1, e2, hne, hne.symm]
  by_cases hD : D
  · obtain ⟨t2, e, r, l, al2, d⟩ := pair_pw t0 t al True n1 n2
      (fun n => { n with left_ := some n2 }) (fun n => { n with parent_ := some n1 }) h1 h2
    simp only [if_true] at e
    refine ⟨t2, by simp only [hA, hB, hC, hD, if_true, if_false]; exact e, r, l, al2,
      fun a => ?_⟩
    rw [d]
    congr 1
    funext c
    by_cases e1 : a = n1 <;> by_cases e2 : a = n2 <;>
      simp [hA, hB, hC, hD, e1, e2, hne, hne.symm]
  · refine ⟨t, by simp only [hA, hB, hC, hD, if_false], rfl, rfl, al, fun a => ?_⟩
    simp only [hA, hB, hC, hD, if_false]
    cases deref t (some a) <;> rfl

end Writes

section NodeSwapWrites
open Shape
variable {K V : Type}

/-! ## The writes of `nodeSwap` -/

/-- The writes of `nodeSwap(n1, n2)` on two distinct cells whose neighbours are
cells of the heap: the call returns, `root_` names `n2` if it named `n1` and the
other way round, and every cell is the old cell with the writes made to it
applied in the order of the code. -/
theorem nodeSwap_writes (t : BinarySearchTree K V) (n1 n2 : Nat) (hne : n1 ≠ n2)
    (k1 k2 : K) (v1 v2 : V) (p1 l1 r1 p2 l2 r2 : Option Nat) (b1 b2 : Int) (isl1 isl2 : Bool)
    (hc1 : deref t (some n1) = some ⟨k1, v1, p1, l1, r1, b1⟩)
    (hc2 : deref t (some n2) = some ⟨k2, v2, p2, l2, r2, b2⟩)
    (hi1 : (if p1 ≠ none then andThen (getLeft t p1) fun l => some (decide (some n1 = l))
        else some false) = some isl1)
    (hi2 : (if p2 ≠ none then andThen (getLeft t p2) fun l => some (decide (some n2 = l))
        else some false) = some isl2)
    (hp1 : p1 ≠ none → (deref t p1).isSome) (hl1 : l1 ≠ none → (deref t l1).isSome)
    (hr1 : r1 ≠ none → (deref t r1).isSome) (hp2 : p2 ≠ none → (deref t p2).isSome)
    (hl2 : l2 ≠ none → (deref t l2).isSome) (hr2 : r2 ≠ none → (deref t r2).isSome) :
    ∃ t2, BinarySearchTree.nodeSwap t (some n1) (some n2) = some t2 ∧
      t2.root_ = swapPtr n1 n2 t.root_ ∧ t2.mem.length = t.mem.length ∧
      ∀ a, deref t2 (some a) =
        ((((((((((((((deref t (some a)).map (fun c => if a = n1 then { c with parent_ := p2 } else c)).map (fun c => if a = n2 then { c with parent_ := p1 } else c)).map (fun c => if a = n1 then { c with left_ := l2 } else c)).map (fun c => if a = n2 then { c with left_ := l1 } else c)).map (fun c => if a = n1 then { c with right_ := r2 } else c)).map (fun c => if a = n2 then { c with right_ := r1 } else c)).map (fun c =>
          if r1 ≠ none ∧ r1 = some n2 then
            (if a = n1 then { c with parent_ := some n2 }
             else if a = n2 then { c with right_ := some n1 } else c)
          else if r2 ≠ none ∧ r2 = some n1 then
            (if a = n2 then { c with parent_ := some n1 }
             else if a = n1 then { c with right_ := some n2 } else c)
          else if l1 ≠ none ∧ l1 = some n2 then
            (if a = n1 then { c with parent_ := some n2 }
             else if a = n2 then { c with left_ := some n1 } else c)
          else if l2 ≠ none ∧ l2 = some n1 then
            (if a = n2 then { c with parent_ := some n1 }
             else if a = n1 then { c with left_ := some n2 } else c)
          else c)).map (fun c => if (p1 ≠ none ∧ p1 ≠ some n2) ∧ p1 = some a then (if isl1 = true then { c with left_ := some n2 } else { c with right_ := some n2 }) else c)).map (fun c => if (r1 ≠ none ∧ r1 ≠ some n2) ∧ r1 = some a then { c with parent_ := some n2 } else c)).map (fun c => if (l1 ≠ none ∧ l1 ≠ some n2) ∧ l1 = some a then { c with parent_ := some n2 } else c)).map (fun c => if (p2 ≠ none ∧ p2 ≠ some n1) ∧ p2 = some a then (if isl2 = true then { c with left_ := some n1 } else { c with right_ := some n1 }) else c)).map (fun c => if (r2 ≠ none ∧ r2 ≠ some n1) ∧ r2 = some a then { c with parent_ := some n1 } else c)).map (fun c => if (l2 ≠ none ∧ l2 ≠ some n1) ∧ l2 = some a then { c with parent_ := some n1 } else c)) := by
  unfold BinarySearchTree.nodeSwap
  have hne2 : (some n1 : Option Nat) ≠ some n2 := fun e => hne (Option.some.inj e)
  have w1 : (deref t (some n1)).isSome := by rw [hc1]; rfl
  have w2 : (deref t (some n2)).isSome := by rw [hc2]; rfl
  have g1 : getParent t (some n1) = some p1 := by simp [getParent, hc1]
  have g2 : getLeft t (some n1) = some l1 := by simp [getLeft, hc1]
  have g3 : getRight t (some n1) = some r1 := by simp [getRight, hc1]
  have g4 : getParent t (some n2) = some p2 := by simp [getParent, hc2]
  have g5 : getLeft t (some n2) = some l2 := by simp [getLeft, hc2]
  have g6 : getRight t (some n2) = some r2 := by simp [getRight, hc2]
  simp only [hne2, reduceCtorEq, or_self, if_false, g1, g2, g3, g4, g5, g6, andThen_some, hi1,
    hi2]
  simp only [getParent, getRight, getLeft, setParent, setLeft, setRight, ite_modifyNode]
  obtain ⟨t1, e1, rt1, ln1, al1, d1⟩ := write_pw t t (fun _ => rfl) n1
    (fun n => { n with parent_ := p2 }) w1
  rw [e1]; simp only [andThen_some]
  obtain ⟨t2, e2, rt2, ln2, al2, d2⟩ := write_pw t t1 al1 n2
    (fun n => { n with parent_ := p1 }) w2
  rw [e2]; simp only [andThen_some]
  have q1 : deref t2 (some n1) = some ⟨k1, v1, p2, l1, r1, b1⟩ := by
    rw [d2, d1, hc1]; simp [hne]
  have q2 : deref t2 (some n2) = some ⟨k2, v2, p1, l2, r2, b2⟩ := by
    rw [d2, d1, hc2]; simp [hne.symm]
  simp only [q1, q2, Option.map_some', andThen_some]
  obtain ⟨t3, e3, rt3, ln3, al3, d3⟩ := write_pw t t2 al2 n1
    (fun n => { n with left_ := l2 }) w1
  rw [e3]; simp only [andThen_some]
  obtain ⟨t4, e4, rt4, ln4, al4, d4⟩ := write_pw t t3 al3 n2
    (fun n => { n with left_ := l1 }) w2
  rw [e4]; simp only [andThen_some]
  have q3 : deref t4 (some n1) = some ⟨k1, v1, p2, l2, r1, b1⟩ := by
    rw [d4, d3, q1]; simp [hne]
  have q4 : deref t4 (some n2) = some ⟨k2, v2, p1, l1, r2, b2⟩ := by
    rw [d4, d3, q2]; simp [hne.symm]
  simp only [q3, q4, Option.map_some', andThen_some]
  obtain ⟨t5, e5, rt5, ln5, al5, d5⟩ := write_pw t t4 al4 n1
    (fun n => { n with right_ := r2 }) w1
  rw [e5]; simp only [andThen_some]
  obtain ⟨t6, e6, rt6, ln6, al6, d6⟩ := write_pw t t5 al5 n2
    (fun n => { n with right_ := r1 }) w2
  rw [e6]; simp only [andThen_some]
  obtain ⟨t7, e7, rt7, ln7, al7, d7⟩ := adjacent_pw t t6 al6 (r1 ≠ none ∧ r1 = some n2)
    (r2 ≠ none ∧ r2 = some n1) (l1 ≠ none ∧ l1 = some n2) (l2 ≠ none ∧ l2 = some n1) n1 n2 hne
    w1 w2
  rw [e7]; simp only [andThen_some]
  obtain ⟨t8, e8, rt8, ln8, al8, d8⟩ := step_pw t t7 al7 (p1 ≠ none ∧ p1 ≠ some n2) p1
    (fun c => if isl1 = true then { c with left_ := some n2 } else { c with right_ := some n2 })
    (fun h => hp1 h.1)
  rw [e8]; simp only [andThen_some]
  obtain ⟨t9, e9, rt9, ln9, al9, d9⟩ := step_pw t t8 al8 (r1 ≠ none ∧ r1 ≠ some n2) r1
    (fun c => { c with parent_ := some n2 }) (fun h => hr1 h.1)
  rw [e9]; simp only [andThen_some]
  obtain ⟨t10, e10, rt10, ln10, al10, d10⟩ := step_pw t t9 al9 (l1 ≠ none ∧ l1 ≠ some n2) l1
    (fun c => { c with parent_ := some n2 }) (fun h => hl1 h.1)
  rw [e10]; simp only [andThen_some]
  obtain ⟨t11, e11, rt11, ln11, al11, d11⟩ := step_pw t t10 al10 (p2 ≠ none ∧ p2 ≠ some n1) p2
    (fun c => if isl2 = true then { c with left_ := some n1 } else { c with right_ := some n1 })
    (fun h => hp2 h.1)
  rw [e11]; simp only [andThen_some]
  obtain ⟨t12, e12, rt12, ln12, al12, d12⟩ := step_pw t t11 al11 (r2 ≠ none ∧ r2 ≠ some n1) r2
    (fun c => { c with parent_ := some n1 }) (fun h => hr2 h.1)
  rw [e12]; simp only [andThen_some]
  obtain ⟨t13, e13, rt13, ln13, al13, d13⟩ := step_pw t t12 al12 (l2 ≠ none ∧ l2 ≠ some n1) l2
    (fun c => { c with parent_ := some n1 }) (fun h => hl2 h.1)
  rw [e13]; simp only [andThen_some]
  have hroot : t13.root_ = t.root_ := by
    rw [rt13, rt12, rt11, rt10, rt9, rt8, rt7, rt6, rt5, rt4, rt3, rt2, rt1]
  have hlen : t13.mem.length = t.mem.length := by
    rw [ln13, ln12, ln11, ln10, ln9, ln8, ln7, ln6, ln5, ln4, ln3, ln2, ln1]
  have hcells : ∀ a, deref t13 (some a) = _ := fun a => by
    rw [d13, d12, d11, d10, d9, d8, d7, d6, d5, d4, d3, d2, d1]
  by_cases hr1 : t13.root_ = some n1
  · refine ⟨{ t13 with root_ := some n2 }, by rw [if_pos hr1], ?_, hlen, fun a => ?_⟩
    · rw [← hroot, hr1]; simp [swapPtr, swapAddr]
    · rw [deref_set_root]; exact hcells a
  by_cases hr2 : t13.root_ = some n2
  · refine ⟨{ t13 with root_ := some n1 }, by rw [if_neg hr1, if_pos hr2], ?_, hlen,
      fun a => ?_⟩
    · rw [← hroot, hr2]; simp [swapPtr, swapAddr, hne.symm]
    · rw [deref_set_root]; exact hcells a
  · refine ⟨t13, by rw [if_neg hr1, if_neg hr2], ?_, hlen, hcells⟩
    rw [← hroot]
    cases hr : t13.root_ with
    | none => rfl
    | some x =>
      rw [hr] at hr1 hr2
      have x1 : x ≠ n1 := fun e => hr1 (by rw [e])
      have x2 : x ≠ n2 := fun e => hr2 (by rw [e])
      simp [swapPtr, swapAddr, x1, x2]

end NodeSwapWrites

section Adjacency
open Shape
variable {K V : Type}

/-! ## The cells after `nodeSwap` -/

theorem cell_ext (x y : AVLNode K V) (h1 : x.key = y.key) (h2 : x.value = y.value)
    (h3 : x.parent_ = y.parent_) (h4 : x.left_ = y.left_) (h5 : x.right_ = y.right_)
    (h6 : x.balance_ = y.balance_) : x = y := by
  cases x; cases y; simp_all

/-! ## The links between two nodes of a tree -/

/-- The links between two nodes `u` and `w` of the tree, which may be the same
node. -/
theorem pair_facts {t : BinarySearchTree K V} {T : Shape K V} (h : Models t T) {u w : Nat}
    {cu cw : AVLNode K V} (hu : u ∈ T.addrs) (hw : w ∈ T.addrs)
    (hcu : deref t (some u) = some cu) (hcw : deref t (some w) = some cw) :
    (cu.left_ = some w →
      cw.parent_ = some u ∧ depthOf w T = depthOf u T + 1 ∧ cu.right_ ≠ some w) ∧
    (cu.right_ = some w →
      cw.parent_ = some u ∧ depthOf w T = depthOf u T + 1 ∧ cu.left_ ≠ some w) ∧
    (cw.parent_ = some u → cu.left_ = some w ∨ cu.right_ = some w) := by
  refine ⟨fun hl => ?_, fun hr => ?_, fun hp => ?_⟩
  · obtain ⟨-, hd, hne, cy, hcy, hpy⟩ := link_left h hu hcu hl
    rw [hcw] at hcy
    cases hcy
    exact ⟨hpy, hd, hne⟩
  · obtain ⟨-, hd, hne, cy, hcy, hpy⟩ := link_right h hu hcu hr
    rw [hcw] at hcy
    cases hcy
    exact ⟨hpy, hd, hne⟩
  · obtain ⟨-, cp, hcp, hor⟩ := link_parent h hw hcw hp
    rw [hcu] at hcp
    cases hcp
    exact hor

/-- The neighbours of a node of the tree are cells of the heap and nodes of the
tree. -/
theorem neighbours_valid {t : BinarySearchTree K V} {T : Shape K V} (h : Models t T) {u : Nat}
    {cu : AVLNode K V} (hu : u ∈ T.addrs) (hcu : deref t (some u) = some cu) :
    (cu.parent_ ≠ none → (deref t cu.parent_).isSome) ∧
    (cu.left_ ≠ none → (deref t cu.left_).isSome) ∧
    (cu.right_ ≠ none → (deref t cu.right_).isSome) ∧
    (∀ a, cu.parent_ = some a → a ∈ T.addrs) ∧ (∀ a, cu.left_ = some a → a ∈ T.addrs) ∧
    (∀ a, cu.right_ = some a → a ∈ T.addrs) := by
  refine ⟨fun hp => ?_, fun hl => ?_, fun hr => ?_, fun a hp => (link_parent h hu hcu hp).1,
    fun a hl => (link_left h hu hcu hl).1, fun a hr => (link_right h hu hcu hr).1⟩
  · cases hp2 : cu.parent_ with
    | none => exact absurd hp2 hp
    | some p =>
      obtain ⟨-, cp, hcp, -⟩ := link_parent h hu hcu hp2
      rw [hcp]; rfl
  · cases hl2 : cu.left_ with
    | none => exact absurd hl2 hl
    | some y =>
      obtain ⟨-, -, -, cy, hcy, -⟩ := link_left h hu hcu hl2
      rw [hcy]; rfl
  · cases hr2 : cu.right_ with
    | none => exact absurd hr2 hr
    | some y =>
      obtain ⟨-, -, -, cy, hcy, -⟩ := link_right h hu hcu hr2
      rw [hcy]; rfl

/-- The flag `n1isLeft` of `nodeSwap`: whether the node is the left child of
its parent. -/
theorem isLeft_spec {t : BinarySearchTree K V} {T : Shape K V} (h : Models t T) {u : Nat}
    {cu : AVLNode K V} (hu : u ∈ T.addrs) (hcu : deref t (some u) = some cu) :
    ∃ b : Bool, (if cu.parent_ ≠ none then
        andThen (getLeft t cu.parent_) fun l => some (decide (some u = l))
      else some false) = some b ∧
      ∀ w cw, deref t (some w) = some cw → cu.parent_ = some w →
        (b = true ↔ cw.left_ = some u) := by
  cases hp : cu.parent_ with
  | none => exact ⟨false, by simp, fun w cw _ hw => by cases hw⟩
  | some p =>
    obtain ⟨-, cp, hcp, -⟩ := link_parent h hu hcu hp
    refine ⟨decide (some u = cp.left_), by simp [getLeft, hcp], fun w cw hcw hw => ?_⟩
    cases hw
    rw [hcp] at hcw
    cases hcw
    simp [eq_comm]

theorem cell_exists {t : BinarySearchTree K V} {T : Shape K V} (h : Models t T) {x : Nat}
    (hx : x ∈ T.addrs) : ∃ c, deref t (some x) = some c := by
  obtain ⟨_, _, _, _, _, _, -, -, hc, -⟩ := cell_of_mem h hx
  exact ⟨_, hc⟩

theorem succ_ne_self_eq {d : Nat} (h : d = d + 1) : False := by omega

theorem succ_succ_absurd {d1 d2 : Nat} (h1 : d2 = d1 + 1) (h2 : d1 = d2 + 1) : False := by omega

/-- No link of a node of the tree points at the node. -/
theorem no_self_link {t : BinarySearchTree K V} {T : Shape K V} (h : Models t T) {u : Nat}
    {cu : AVLNode K V} (hu : u ∈ T.addrs) (hcu : deref t (some u) = some cu) :
    cu.parent_ ≠ some u ∧ cu.left_ ≠ some u ∧ cu.right_ ≠ some u := by
  obtain ⟨f1, f2, f3⟩ := pair_facts h hu hu hcu hcu
  have hl : cu.left_ ≠ some u := fun e => succ_ne_self_eq (f1 e).2.1
  have hr : cu.right_ ≠ some u := fun e => succ_ne_self_eq (f2 e).2.1
  exact ⟨fun e => (f3 e).elim hl hr, hl, hr⟩

/-- Two distinct nodes `u` and `w` of the tree: `w` is the right child of `u`,
or `u` the right child of `w`, or `w` the left child of `u`, or `u` the left
child of `w`, or there is no link between them. -/
theorem adjacency {t : BinarySearchTree K V} {T : Shape K V} (h : Models t T) {u w : Nat}
    {cu cw : AVLNode K V} (hu : u ∈ T.addrs) (hw : w ∈ T.addrs)
    (hcu : deref t (some u) = some cu) (hcw : deref t (some w) = some cw) :
    (cu.right_ = some w ∧ cw.parent_ = some u ∧ cu.left_ ≠ some w ∧ cu.parent_ ≠ some w ∧
      cw.left_ ≠ some u ∧ cw.right_ ≠ some u) ∨
    (cw.right_ = some u ∧ cu.parent_ = some w ∧ cw.left_ ≠ some u ∧ cw.parent_ ≠ some u ∧
      cu.left_ ≠ some w ∧ cu.right_ ≠ some w) ∨
    (cu.left_ = some w ∧ cw.parent_ = some u ∧ cu.right_ ≠ some w ∧ cu.parent_ ≠ some w ∧
      cw.left_ ≠ some u ∧ cw.right_ ≠ some u) ∨
    (cw.left_ = some u ∧ cu.parent_ = some w ∧ cw.right_ ≠ some u ∧ cw.parent_ ≠ some u ∧
      cu.left_ ≠ some w ∧ cu.right_ ≠ some w) ∨
    (cu.right_ ≠ some w ∧ cu.left_ ≠ some w ∧ cu.parent_ ≠ some w ∧
      cw.right_ ≠ some u ∧ cw.left_ ≠ some u ∧ cw.parent_ ≠ some u) := by
  obtain ⟨f1, f2, f3⟩ := pair_facts h hu hw hcu hcw
  obtain ⟨g1, g2, g3⟩ := pair_facts h hw hu hcw hcu
  -- a child of `u` is further down than `u`, so `u` is not below it
  have up : ∀ {d1 d2 : Nat}, d2 = d1 + 1 → d1 = d2 + 1 → False := succ_succ_absurd
  by_cases hA : cu.right_ = some w
  · obtain ⟨a1, a2, a3⟩ := f2 hA
    refine Or.inl ⟨hA, a1, a3, fun e => ?_, fun e => up a2 (g1 e).2.1, fun e => up a2 (g2 e).2.1⟩
    exact (g3 e).elim (fun e2 => up a2 (g1 e2).2.1) (fun e2 => up a2 (g2 e2).2.1)
  by_cases hB : cw.right_ = some u
  · obtain ⟨a1, a2, a3⟩ := g2 hB
    refine Or.inr (Or.inl ⟨hB, a1, a3, fun e => ?_, fun e => up a2 (f1 e).2.1, hA⟩)
    exact (f3 e).elim (fun e2 => up a2 (f1 e2).2.1) (fun e2 => up a2 (f2 e2).2.1)
  by_cases hC : cu.left_ = some w
  · obtain ⟨a1, a2, a3⟩ := f1 hC
    refine Or.inr (Or.inr (Or.inl ⟨hC, a1, hA, fun e => ?_, fun e => up a2 (g1 e).2.1, hB⟩))
    exact (g3 e).elim (fun e2 => up a2 (g1 e2).2.1) (fun e2 => up a2 (g2 e2).2.1)
  by_cases hD : cw.left_ = some u
  · obtain ⟨a1, a2, a3⟩ := g1 hD
    refine Or.inr (Or.inr (Or.inr (Or.inl ⟨hD, a1, hB, fun e => ?_, hC, hA⟩)))
    exact (f3 e).elim (fun e2 => up a2 (f1 e2).2.1) (fun e2 => up a2 (f2 e2).2.1)
  · exact Or.inr (Or.inr (Or.inr (Or.inr ⟨hA, hC, fun e => (g3 e).elim hD hB, hB, hD,
      fun e => (f3 e).elim hC hA⟩)))

theorem swapPtr_left (n1 n2 : Nat) : swapPtr n1 n2 (some n1) = some n2 := by
  simp [swapPtr, swapAddr]

theorem swapPtr_right (n1 n2 : Nat) : swapPtr n1 n2 (some n2) = some n1 := by
  by_cases h : n2 = n1 <;> simp [swapPtr, swapAddr, h]

theorem swapPtr_other (n1 n2 : Nat) (p : Option Nat) (h1 : p ≠ some n1) (h2 : p ≠ some n2) :
    swapPtr n1 n2 p = p := by
  cases p with
  | none => rfl
  | some a =>
    have a1 : a ≠ n1 := fun e => h1 (by rw [e])
    have a2 : a ≠ n2 := fun e => h2 (by rw [e])
    simp [swapPtr, swapAddr, a1, a2]

end Adjacency

section NodeSwapCells
open Shape
variable {K V : Type}

set_option maxHeartbeats 1000000 in
/-- The cells after `nodeSwap`: the root slot and every link follow the
exchange of the two addresses, the cells outside the tree are untouched, and
the cell at the exchanged address keeps its key, value and balance. -/
theorem nodeSwap_cells {t : BinarySearchTree K V} {T : Shape K V} (h : Models t T)
    {n1 n2 : Nat} (h1 : n1 ∈ T.addrs) (h2 : n2 ∈ T.addrs) (hne : n1 ≠ n2) :
    ∃ t2, BinarySearchTree.nodeSwap t (some n1) (some n2) = some t2 ∧
      t2.root_ = swapPtr n1 n2 t.root_ ∧ t2.mem.length = t.mem.length ∧
      (∀ a, a ∉ T.addrs → deref t2 (some a) = deref t (some a)) ∧
      ∀ a ∈ T.addrs, ∀ c c2, deref t (some a) = some c →
        deref t (some (swapAddr n1 n2 a)) = some c2 →
        deref t2 (some (swapAddr n1 n2 a)) = some ⟨c2.key, c2.value, swapPtr n1 n2 c.parent_,
          swapPtr n1 n2 c.left_, swapPtr n1 n2 c.right_, c2.balance_⟩ := by
  obtain ⟨⟨k1, v1, p1, l1, r1, b1⟩, hc1⟩ := cell_exists h h1
  obtain ⟨⟨k2, v2, p2, l2, r2, b2⟩, hc2⟩ := cell_exists h h2
  obtain ⟨isl1, hi1, hs1⟩ := isLeft_spec h h1 hc1
  obtain ⟨isl2, hi2, hs2⟩ := isLeft_spec h h2 hc2
  obtain ⟨vp1, vl1, vr1, mp1, ml1, mr1⟩ := neighbours_valid h h1 hc1
  obtain ⟨vp2, vl2, vr2, mp2, ml2, mr2⟩ := neighbours_valid h h2 hc2
  obtain ⟨t2, e, hroot, hlen, hcells⟩ := nodeSwap_writes t n1 n2 hne k1 k2 v1 v2 p1 l1 r1 p2 l2 r2
    b1 b2 isl1 isl2 hc1 hc2 hi1 hi2 vp1 vl1 vr1 vp2 vl2 vr2
  obtain ⟨sp1, sl1, sr1⟩ := no_self_link h h1 hc1
  obtain ⟨sp2, sl2, sr2⟩ := no_self_link h h2 hc2
  have adj := adjacency h h1 h2 hc1 hc2
  simp only at hs1 hs2 mp1 ml1 mr1 mp2 ml2 mr2 sp1 sl1 sr1 sp2 sl2 sr2 adj
  refine ⟨t2, e, hroot, hlen, ?_, ?_⟩
  · intro a ha
    rw [hcells]
    have a1 : a ≠ n1 := fun e => ha (e ▸ h1)
    have a2 : a ≠ n2 := fun e => ha (e ▸ h2)
    have x1 : p1 ≠ some a := fun e => ha (mp1 a e)
    have x2 : l1 ≠ some a := fun e => ha (ml1 a e)
    have x3 : r1 ≠ some a := fun e => ha (mr1 a e)
    have x4 : p2 ≠ some a := fun e => ha (mp2 a e)
    have x5 : l2 ≠ some a := fun e => ha (ml2 a e)
    have x6 : r2 ≠ some a := fun e => ha (mr2 a e)
    simp only [a1, a2, x1, x2, x3, x4, x5, x6, and_false, if_false, ite_self, Option.map_id']
  · intro a ha c c2 hca hca2
    obtain ⟨kx, vx, px, lx, rx, bx⟩ := c
    by_cases a1 : a = n1
    · rw [a1] at hca hca2 ⊢
      rw [hc1] at hca
      cases hca
      have hs : swapAddr n1 n2 n1 = n2 := by simp [swapAddr]
      rw [hs] at hca2 ⊢
      rw [hc2] at hca2
      cases hca2
      rw [hcells, hc2]
      simp only [Option.map_some', Option.some.injEq]
      rcases adj with ⟨q1, q2, q3, q4, q5, q6⟩ | ⟨q1, q2, q3, q4, q5, q6⟩ |
        ⟨q1, q2, q3, q4, q5, q6⟩ | ⟨q1, q2, q3, q4, q5, q6⟩ | ⟨q1, q2, q3, q4, q5, q6⟩ <;>
      (apply cell_ext <;>
        simp only [apply_ite AVLNode.key, apply_ite AVLNode.value, apply_ite AVLNode.parent_,
          apply_ite AVLNode.left_, apply_ite AVLNode.right_, apply_ite AVLNode.balance_,
          ite_self, hne, hne.symm, if_true, if_false, reduceCtorEq, q1, q2, q3, q4, q5, q6,
          sp1, sl1, sr1, sp2, sl2, sr2, ne_eq, not_true_eq_false, not_false_eq_true,
          and_true, and_false, true_and, false_and, Option.some.injEq, swapPtr_left,
          swapPtr_right]) <;>
      exact (swapPtr_other n1 n2 _ (by assumption) (by assumption)).symm
    by_cases a2 : a = n2
    · rw [a2] at hca hca2 ⊢
      rw [hc2] at hca
      cases hca
      have hs : swapAddr n1 n2 n2 = n1 := by simp [swapAddr, hne.symm]
      rw [hs] at hca2 ⊢
      rw [hc1] at hca2
      cases hca2
      rw [hcells, hc1]
      simp only [Option.map_some', Option.some.injEq]
      rcases adj with ⟨q1, q2, q3, q4, q5, q6⟩ | ⟨q1, q2, q3, q4, q5, q6⟩ |
        ⟨q1, q2, q3, q4, q5, q6⟩ | ⟨q1, q2, q3, q4, q5, q6⟩ | ⟨q1, q2, q3, q4, q5, q6⟩ <;>
      (apply cell_ext <;>
        simp only [apply_ite AVLNode.key, apply_ite AVLNode.value, apply_ite AVLNode.parent_,
          apply_ite AVLNode.left_, apply_ite AVLNode.right_, apply_ite AVLNode.balance_,
          ite_self, hne, hne.symm, if_true, if_false, reduceCtorEq, q1, q2, q3, q4, q5, q6,
          sp1, sl1, sr1, sp2, sl2, sr2, ne_eq, not_true_eq_false, not_false_eq_true,
          and_true, and_false, true_and, false_and, Option.some.injEq, swapPtr_left,
          swapPtr_right]) <;>
      exact (swapPtr_other n1 n2 _ (by assumption) (by assumption)).symm
    · have hs : swapAddr n1 n2 a = a := by simp [swapAddr, a1, a2]
      rw [hs] at hca2 ⊢
      rw [hca] at hca2
      cases hca2
      rw [hcells, hca]
      simp only [Option.map_some', Option.some.injEq]
      have adj1 := adjacency h h1 ha hc1 hca
      have adj2 := adjacency h h2 ha hc2 hca
      have i1 := hs1 a _ hca
      have i2 := hs2 a _ hca
      simp only at adj1 adj2 i1 i2
      have fl1 : (p1 = some a → lx = some n1 → isl1 = true) ∧
          (p1 = some a → lx ≠ some n1 → isl1 = false) :=
        ⟨fun e1 e2 => (i1 e1).mpr e2, fun e1 e2 => by
          cases hb : isl1 with
          | false => rfl
          | true => exact absurd ((i1 e1).mp hb) e2⟩
      have fl2 : (p2 = some a → lx = some n2 → isl2 = true) ∧
          (p2 = some a → lx ≠ some n2 → isl2 = false) :=
        ⟨fun e1 e2 => (i2 e1).mpr e2, fun e1 e2 => by
          cases hb : isl2 with
          | false => rfl
          | true => exact absurd ((i2 e1).mp hb) e2⟩
      have a1s : n1 ≠ a := fun e => a1 e.symm
      have a2s : n2 ≠ a := fun e => a2 e.symm
      rcases adj1 with ⟨q1, q2, q3, q4, q5, q6⟩ | ⟨q1, q2, q3, q4, q5, q6⟩ |
        ⟨q1, q2, q3, q4, q5, q6⟩ | ⟨q1, q2, q3, q4, q5, q6⟩ | ⟨q1, q2, q3, q4, q5, q6⟩ <;>
      rcases adj2 with ⟨w1, w2, w3, w4, w5, w6⟩ | ⟨w1, w2, w3, w4, w5, w6⟩ |
        ⟨w1, w2, w3, w4, w5, w6⟩ | ⟨w1, w2, w3, w4, w5, w6⟩ | ⟨w1, w2, w3, w4, w5, w6⟩ <;>
      first
      | exact absurd (Option.some.inj (q2.symm.trans w2)) hne
      | exact absurd (Option.some.inj (q1.symm.trans w1)) hne
      | ((apply cell_ext <;>
          simp only [apply_ite AVLNode.key, apply_ite AVLNode.value, apply_ite AVLNode.parent_,
            apply_ite AVLNode.left_, apply_ite AVLNode.right_, apply_ite AVLNode.balance_,
            ite_self, hne, hne.symm, a1, a2, a1s, a2s, if_true, if_false, reduceCtorEq,
            q1, q2, q3, q4, q5, q6, w1, w2, w3, w4, w5, w6, fl1.1, fl1.2, fl2.1, fl2.2,
            sp1, sl1, sr1, sp2, sl2, sr2, ne_eq, not_true_eq_false, not_false_eq_true,
            and_true, and_false, true_and, false_and, Option.some.injEq, swapPtr_left,
            swapPtr_right, Bool.false_eq_true]) <;>
         exact (swapPtr_other n1 n2 _ (by assumption) (by assumption)).symm)

end NodeSwapCells

section ExchangedTree
open Shape
variable {K V : Type}

/-! ## The tree after the exchange -/

theorem swapAddr_invol (n1 n2 a : Nat) : swapAddr n1 n2 (swapAddr n1 n2 a) = a := by
  unfold swapAddr
  by_cases h1 : a = n1
  · by_cases h2 : n2 = n1 <;> simp [h1, h2]
  · by_cases h2 : a = n2 <;> simp [h1, h2]

theorem swapAddr_injective (n1 n2 : Nat) : Function.Injective (swapAddr n1 n2) :=
  fun a b e => by rw [← swapAddr_invol n1 n2 a, e, swapAddr_invol]

theorem ptr_swapNodes (n1 n2 : Nat) (c1 c2 : AVLNode K V) (s : Shape K V) :
    (swapNodes n1 n2 c1 c2 s).ptr = swapPtr n1 n2 s.ptr := by
  cases s with
  | nil => rfl
  | node a l k v b r =>
    by_cases h1 : a = n1
    · simp [swapNodes, swapPtr, swapAddr, h1]
    · by_cases h2 : a = n2
      · subst h2; simp [swapNodes, swapPtr, swapAddr, h1]
      · simp [swapNodes, swapPtr, swapAddr, h1, h2]

theorem addrs_swapNodes (n1 n2 : Nat) (c1 c2 : AVLNode K V) (s : Shape K V) :
    (swapNodes n1 n2 c1 c2 s).addrs = s.addrs.map (swapAddr n1 n2) := by
  induction s with
  | nil => rfl
  | node a l k v b r ihl ihr =>
    by_cases h1 : a = n1
    · simp [swapNodes, swapAddr, addrs, h1, ihl, ihr]
    · by_cases h2 : a = n2
      · subst h2; simp [swapNodes, swapAddr, addrs, h1, ihl, ihr]
      · simp [swapNodes, swapAddr, addrs, h1, h2, ihl, ihr]

/-- The links of a subtree after the exchange. -/
theorem repTree_swapNodes {t t2 : BinarySearchTree K V} {T : Shape K V} {n1 n2 : Nat}
    {c1 c2 : AVLNode K V} (hc1 : deref t (some n1) = some c1) (hc2 : deref t (some n2) = some c2)
    (hcells : ∀ a ∈ T.addrs, ∀ c c2, deref t (some a) = some c →
        deref t (some (swapAddr n1 n2 a)) = some c2 →
        deref t2 (some (swapAddr n1 n2 a)) = some ⟨c2.key, c2.value, swapPtr n1 n2 c.parent_,
          swapPtr n1 n2 c.left_, swapPtr n1 n2 c.right_, c2.balance_⟩)
    (s : Shape K V) (par : Option Nat) (hs : ∀ a ∈ s.addrs, a ∈ T.addrs) (hr : RepTree t par s) :
    RepTree t2 (swapPtr n1 n2 par) (swapNodes n1 n2 c1 c2 s) := by
  induction s generalizing par with
  | nil => trivial
  | node a l k v b r ihl ihr =>
    obtain ⟨hc, hl, hrr⟩ := hr
    have ha : a ∈ T.addrs := hs a (by simp [addrs])
    have hsl : ∀ x ∈ l.addrs, x ∈ T.addrs := fun x hx => hs x (by simp [addrs, hx])
    have hsr : ∀ x ∈ r.addrs, x ∈ T.addrs := fun x hx => hs x (by simp [addrs, hx])
    have il := ihl (some a) hsl hl
    have ir := ihr (some a) hsr hrr
    by_cases h1 : a = n1
    · subst h1
      have e := hcells a ha _ _ hc (by simpa [swapAddr] using hc2)
      have sa : swapAddr a n2 a = n2 := by simp [swapAddr]
      rw [sa] at e
      have sp : swapPtr a n2 (some a) = some n2 := swapPtr_left a n2
      rw [sp] at il ir
      simp only [swapNodes, if_true]
      exact ⟨by rw [e, ptr_swapNodes, ptr_swapNodes], il, ir⟩
    · by_cases h2 : a = n2
      · subst h2
        have sa : swapAddr n1 a a = n1 := by simp [swapAddr, h1]
        have e := hcells a ha _ _ hc (by rw [sa]; exact hc1)
        rw [sa] at e
        have sp : swapPtr n1 a (some a) = some n1 := swapPtr_right n1 a
        rw [sp] at il ir
        simp only [swapNodes, h1, if_false, if_true]
        exact ⟨by rw [e, ptr_swapNodes, ptr_swapNodes], il, ir⟩
      · have sa : swapAddr n1 n2 a = a := by simp [swapAddr, h1, h2]
        have e := hcells a ha _ _ hc (by rw [sa]; exact hc)
        rw [sa] at e
        have sp : swapPtr n1 n2 (some a) = some a := by simp [swapPtr, sa]
        rw [sp] at il ir
        simp only [swapNodes, h1, h2, if_false]
        exact ⟨by rw [e, ptr_swapNodes, ptr_swapNodes], il, ir⟩

/-- The heap after `nodeSwap` holds the tree with the two nodes exchanged. -/
theorem nodeSwap_models {t : BinarySearchTree K V} {T : Shape K V} (h : Models t T)
    {n1 n2 : Nat} {c1 c2 : AVLNode K V} (hc1 : deref t (some n1) = some c1) (hc2 : deref t (some n2) = some c2)
    {t2 : BinarySearchTree K V} (hroot : t2.root_ = swapPtr n1 n2 t.root_)
    (hcells : ∀ a ∈ T.addrs, ∀ c c2, deref t (some a) = some c →
        deref t (some (swapAddr n1 n2 a)) = some c2 →
        deref t2 (some (swapAddr n1 n2 a)) = some ⟨c2.key, c2.value, swapPtr n1 n2 c.parent_,
          swapPtr n1 n2 c.left_, swapPtr n1 n2 c.right_, c2.balance_⟩) :
    Models t2 (swapNodes n1 n2 c1 c2 T) := by
  obtain ⟨hr, hrep, hnd⟩ := h
  refine ⟨by rw [hroot, hr, ptr_swapNodes], ?_, ?_⟩
  · exact repTree_swapNodes hc1 hc2 hcells T none (fun a ha => ha) hrep
  · rw [addrs_swapNodes]
    exact hnd.map (swapAddr_injective n1 n2)

end ExchangedTree

section NodeSwapPositions
open Shape
variable {K V : Type}

theorem swapPtr_eq_left (n1 n2 : Nat) (p : Option Nat) :
    swapPtr n1 n2 p = some n1 ↔ p = some n2 := by
  constructor
  · intro e
    cases p with
    | none => cases e
    | some a =>
      have e2 : swapAddr n1 n2 a = swapAddr n1 n2 n2 := by
        have := Option.some.inj (e.trans (swapPtr_right n1 n2).symm)
        exact this
      rw [swapAddr_injective n1 n2 e2]
  · intro e
    rw [e, swapPtr_right]

theorem swapPtr_eq_right (n1 n2 : Nat) (p : Option Nat) :
    swapPtr n1 n2 p = some n2 ↔ p = some n1 := by
  constructor
  · intro e
    cases p with
    | none => cases e
    | some a =>
      have e2 : swapAddr n1 n2 a = swapAddr n1 n2 n1 := by
        have := Option.some.inj (e.trans (swapPtr_left n1 n2).symm)
        exact this
      rw [swapAddr_injective n1 n2 e2]
  · intro e
    rw [e, swapPtr_left]

/-- C22: in a tree with consistent links, `BinarySearchTree::nodeSwap(n1, n2)`
on two distinct nodes returns, whether or not the nodes are adjacent and
whether or not one of them is the root. Afterwards the root slot names `n2` if
it named `n1` and vice versa; `n1` keeps its key and value (and balance) and
has the parent, left child and right child that `n2` had, with `n2` standing in
for `n1` where they were adjacent, and vice versa; `n1` hangs on the side of its
new parent on which `n2` hung before, and vice versa; every other node of the
tree keeps its data and its links, up to the exchange of the two addresses;
cells outside the tree are untouched; the heap holds the same tree shape with
the two nodes exchanged, so the links are consistent again; and no node is its
own parent or child. -/
theorem nodeSwap_exchanges_positions (t : BinarySearchTree K V) (T : Shape K V)
    (h : Models t T) (n1 n2 : Nat) (c1 c2 : AVLNode K V) (h1 : n1 ∈ T.addrs)
    (h2 : n2 ∈ T.addrs) (hne : n1 ≠ n2) (hc1 : deref t (some n1) = some c1)
    (hc2 : deref t (some n2) = some c2) :
    ∃ t2, BinarySearchTree.nodeSwap t (some n1) (some n2) = some t2 ∧
      t2.root_ = swapPtr n1 n2 t.root_ ∧
      (t.root_ = some n1 → t2.root_ = some n2) ∧ (t.root_ = some n2 → t2.root_ = some n1) ∧
      deref t2 (some n1) = some ⟨c1.key, c1.value, swapPtr n1 n2 c2.parent_,
        swapPtr n1 n2 c2.left_, swapPtr n1 n2 c2.right_, c1.balance_⟩ ∧
      deref t2 (some n2) = some ⟨c2.key, c2.value, swapPtr n1 n2 c1.parent_,
        swapPtr n1 n2 c1.left_, swapPtr n1 n2 c1.right_, c2.balance_⟩ ∧
      (∀ a ∈ T.addrs, a ≠ n1 → a ≠ n2 → ∀ c, deref t (some a) = some c →
        deref t2 (some a) = some ⟨c.key, c.value, swapPtr n1 n2 c.parent_,
          swapPtr n1 n2 c.left_, swapPtr n1 n2 c.right_, c.balance_⟩) ∧
      (∀ w ∈ T.addrs, ∀ cw cw2, deref t (some w) = some cw →
        deref t2 (some (swapAddr n1 n2 w)) = some cw2 →
        (cw2.left_ = some n1 ↔ cw.left_ = some n2) ∧
        (cw2.right_ = some n1 ↔ cw.right_ = some n2) ∧
        (cw2.left_ = some n2 ↔ cw.left_ = some n1) ∧
        (cw2.right_ = some n2 ↔ cw.right_ = some n1)) ∧
      (∀ a, a ∉ T.addrs → deref t2 (some a) = deref t (some a)) ∧
      t2.mem.length = t.mem.length ∧
      Models t2 (swapNodes n1 n2 c1 c2 T) ∧
      ∀ a ∈ T.addrs, ∀ c, deref t2 (some a) = some c →
        c.parent_ ≠ some a ∧ c.left_ ≠ some a ∧ c.right_ ≠ some a := by
  obtain ⟨t2, e, hroot, hlen, hout, hcells⟩ := nodeSwap_cells h h1 h2 hne
  have hm := nodeSwap_models h hc1 hc2 hroot hcells
  have s1 : swapAddr n1 n2 n1 = n2 := by simp [swapAddr]
  have s2 : swapAddr n1 n2 n2 = n1 := by
    have := swapAddr_invol n1 n2 n1
    rwa [s1] at this
  refine ⟨t2, e, hroot, fun e1 => by rw [hroot, e1, swapPtr_left],
    fun e1 => by rw [hroot, e1, swapPtr_right], ?_, ?_, ?_, ?_, hout, hlen, hm, ?_⟩
  · have := hcells n2 h2 c2 c1 hc2 (by rw [s2]; exact hc1)
    rwa [s2] at this
  · have := hcells n1 h1 c1 c2 hc1 (by rw [s1]; exact hc2)
    rwa [s1] at this
  · intro a ha a1 a2 c hc
    have sa : swapAddr n1 n2 a = a := by simp [swapAddr, a1, a2]
    have := hcells a ha c c hc (by rw [sa]; exact hc)
    rwa [sa] at this
  · intro w hw cw cw2 hcw hcw2
    obtain ⟨cx, hcx⟩ : ∃ cx, deref t (some (swapAddr n1 n2 w)) = some cx := by
      by_cases w1 : w = n1
      · exact ⟨c2, by rw [w1, s1]; exact hc2⟩
      · by_cases w2 : w = n2
        · exact ⟨c1, by rw [w2, s2]; exact hc1⟩
        · exact ⟨cw, by simp only [swapAddr, w1, w2, if_false]; exact hcw⟩
    have := hcells w hw cw cx hcw hcx
    rw [hcw2] at this
    cases this
    exact ⟨swapPtr_eq_left n1 n2 _, swapPtr_eq_left n1 n2 _, swapPtr_eq_right n1 n2 _,
      swapPtr_eq_right n1 n2 _⟩
  · intro a ha c hc
    have ha2 : a ∈ (swapNodes n1 n2 c1 c2 T).addrs := by
      rw [addrs_swapNodes, List.mem_map]
      by_cases w1 : a = n1
      · exact ⟨n2, h2, by rw [s2, w1]⟩
      · by_cases w2 : a = n2
        · exact ⟨n1, h1, by rw [s1, w2]⟩
        · exact ⟨a, ha, by simp [swapAddr, w1, w2]⟩
    exact no_self_link hm ha2 hc

theorem nodeSwap_exchanges_positions_witness :
    Models sampleTree sampleShape ∧ 0 ∈ sampleShape.addrs ∧ 2 ∈ sampleShape.addrs ∧
      (0 : Nat) ≠ 2 ∧
      ∃ t2, BinarySearchTree.nodeSwap sampleTree (some 0) (some 2) = some t2 ∧
        t2.root_ = some 2 ∧
        deref t2 (some 0) = some ⟨20, 200, some 2, some 3, none, 1⟩ ∧
        deref t2 (some 2) = some ⟨30, 300, none, some 1, some 0, -1⟩ ∧
        Models t2 (node 2 (node 1 nil 10 100 0 nil) 30 300 (-1)
          (node 0 (node 3 nil 25 250 0 nil) 20 200 1 nil)) :=
  ⟨sampleTree_valid.1, by decide, by decide, by decide,
    match nodeSwap_exchanges_positions sampleTree sampleShape sampleTree_valid.1 0 2
      ⟨20, 200, none, some 1, some 2, 1⟩ ⟨30, 300, some 0, some 3, none, -1⟩
      (by decide) (by decide) (by decide) rfl rfl with
    | ⟨t2, e, hr, _, _, d1, d2, _, _, _, _, hm, _⟩ => ⟨t2, e, hr, d1, d2, hm⟩⟩

end NodeSwapPositions

section BaseInsert
open Shape
variable {K V : Type}

/-! ## Refinement of the base-class `insert` -/

/-- Refinement of `insert_helper` of the base class. -/
theorem bst_insert_helper_spec [LinearOrder K] (item : K × V) (s : Shape K V) :
    ∀ (c : List (Frame K V)) (fuel : Nat) (t : BinarySearchTree K V),
      ModelsAt t c s → s ≠ nil → s.height ≤ fuel →
      ∃ t2, BinarySearchTree.insert_helper item fuel t s.ptr = some t2 ∧
        Models t2 (Shape.bst_insert_helper t.mem.length item c s) := by
  induction s with
  | nil => intro c fuel t _ hs; exact absurd rfl hs
  | node a l k v b r ihl ihr =>
    intro c fuel t h _ hf
    cases fuel with
    | zero => simp [Shape.height] at hf
    | succ fuel =>
      simp only [Shape.height, Nat.add_le_add_iff_right, max_le_iff] at hf
      have r1 := getKey_focus h
      have r2 := getLeft_focus h
      have r3 := getRight_focus h
      simp only [BinarySearchTree.insert_helper, Shape.bst_insert_helper, ptr_node, r1, r2, r3,
        andThen_some]
      by_cases hlt : item.1 < k
      · simp only [hlt, if_true]
        cases l with
        | nil =>
          obtain ⟨t1, e1, m1, l1⟩ := attach_left_spec item.1 item.2 h
          simp only [ptr_nil, if_true, new_Node, new_AVLNode_snd, e1]
          exact ⟨t1, rfl, (models_plug _ _).mpr m1⟩
        | node a2 l2 k2 v2 b2 r2 =>
          simp only [ptr_node, reduceCtorEq, if_false]
          exact ihl _ fuel t (modelsAt_left.mp h) (by simp) hf.1
      · simp only [hlt, if_false]
        by_cases heq : item.1 = k
        · obtain ⟨t2, e2, m2, l2⟩ := setValue_spec item.2 h
          simp only [heq, if_true, e2] at m2 ⊢
          exact ⟨t2, by simp [← heq, e2], (models_plug _ _).mpr m2⟩
        · simp only [heq, if_false]
          cases r with
          | nil =>
            obtain ⟨t1, e1, m1, l1⟩ := attach_right_spec item.1 item.2 h
            simp only [ptr_nil, if_true, new_Node, new_AVLNode_snd, e1]
            exact ⟨t1, rfl, (models_plug _ _).mpr m1⟩
          | node a2 l2 k2 v2 b2 r2 =>
            simp only [ptr_node, reduceCtorEq, if_false]
            exact ihr _ fuel t (modelsAt_right.mp h) (by simp) hf.2

/-- Refinement of `BinarySearchTree::insert`: on a heap that holds the tree `T`
the call returns, and the heap then holds the tree `Shape.bst_insert`
computes. -/
theorem bst_insert_spec [LinearOrder K] {t : BinarySearchTree K V} {T : Shape K V}
    (item : K × V) (h : Models t T) :
    ∃ t2, BinarySearchTree.insert t item = some t2 ∧
      Models t2 (Shape.bst_insert t.mem.length T item) := by
  cases T with
  | nil =>
    obtain ⟨hroot, -, -⟩ := h
    simp only [ptr_nil] at hroot
    refine ⟨_, by simp [BinarySearchTree.insert, hroot, new_Node, new_AVLNode]; rfl, ?_⟩
    refine ⟨rfl, ⟨?_, trivial, trivial⟩, by simp [Shape.addrs]⟩
    simp [deref]
  | node a l k v b r =>
    have hroot := h.1
    simp only [ptr_node] at hroot
    have hs : (node a l k v b r).height ≤ t.mem.length + 1 :=
      le_trans (height_le_size _) (le_trans (models_size_le h) (Nat.le_succ _))
    obtain ⟨t2, e2, m2⟩ := bst_insert_helper_spec item (node a l k v b r) [] _ t
      ((modelsAt_nil _).mpr h) (by simp) hs
    refine ⟨t2, ?_, m2⟩
    simp only [BinarySearchTree.insert, hroot, reduceCtorEq, if_false]
    simpa using e2

theorem toList_bst_insert_helper [LinearOrder K] (fresh : Nat) (item : K × V) (s : Shape K V) :
    ∀ (c : List (Frame K V)), s ≠ nil → ordered s →
      toList (bst_insert_helper fresh item c s)
        = pathBefore c ++ insertEntry item.1 item.2 (toList s) ++ pathAfter c := by
  induction s with
  | nil => intro c hs; exact absurd rfl hs
  | node a l k v b r ihl ihr =>
    intro c _ hs
    obtain ⟨ho1, ho2, hl, hr⟩ := hs
    have hlk : ∀ e ∈ toList l, e.1 < k := fun e he => ho1 e.1 (mem_keys_iff.mpr ⟨e, he, rfl⟩)
    simp only [bst_insert_helper]
    by_cases hlt : item.1 < k
    · rw [if_pos hlt]
      simp only [toList, insertEntry_append_lt _ _ _ _ _ _ hlt]
      by_cases hn : l.ptr = none
      · rw [if_pos hn]
        have hl0 : l = nil := (ptr_eq_none_iff l).mp hn
        subst hl0
        simp [toList_plug, toList, insertEntry]
      · rw [if_neg hn, ihl _ (fun e => hn ((ptr_eq_none_iff l).mpr e)) hl]
        simp [pathBefore, pathAfter]
    · rw [if_neg hlt]
      by_cases heq : item.1 = k
      · rw [if_pos heq]
        simp only [toList, toList_plug]
        rw [← heq, insertEntry_append_eq _ _ _ _ _ (fun e he => heq ▸ hlk e he)]
      · rw [if_neg heq]
        have hgt : k < item.1 := lt_of_le_of_ne (le_of_not_lt hlt) (Ne.symm heq)
        simp only [toList]
        rw [insertEntry_append_gt _ _ _ _ _ _ (fun e he => lt_trans (hlk e he) hgt) hgt]
        by_cases hn : r.ptr = none
        · rw [if_pos hn]
          have hr0 : r = nil := (ptr_eq_none_iff r).mp hn
          subst hr0
          simp [toList_plug, toList, insertEntry]
        · rw [if_neg hn, ihr _ (fun e => hn ((ptr_eq_none_iff r).mpr e)) hr]
          simp [pathBefore, pathAfter]

/-- The entries after the base-class `insert`: the sorted sequence with the
entry for the key set to the new item. -/
theorem toList_bst_insert [LinearOrder K] (fresh : Nat) (T : Shape K V) (item : K × V)
    (h : ordered T) :
    toList (Shape.bst_insert fresh T item) = insertEntry item.1 item.2 (toList T) := by
  cases T with
  | nil => rfl
  | node a l k v b r =>
    simpa [pathBefore, pathAfter] using toList_bst_insert_helper fresh item _ [] (by simp) h

end BaseInsert

section BaseSplice
open Shape
variable {K V : Type}

/-! ## Unlinking a node with at most one child, in the base class -/

/-- The pointer work of the base-class `remove` after the optional swap, on a
node with at most one child: its child, if any, takes its place and the node
is released. -/
theorem bst_splice_spec {t : BinarySearchTree K V} {c : List (Frame K V)} {n : Nat}
    {L R : Shape K V} {kn : K} {vn : V} {nb : Int} (h : ModelsAt t c (node n L kn vn nb R))
    (hLR : L = nil ∨ R = nil) :
    ∃ t2,
      (andThen (getLeft t (some n)) fun left =>
       andThen (getRight t (some n)) fun right =>
       andThen (if left ≠ none ∨ right ≠ none then
                  andThen (getParent t (some n)) fun parent =>
                  let child := if left ≠ none then left else right
                  andThen (if parent ≠ none then
                             andThen (getLeft t parent) fun pl =>
                             if some n = pl then setLeft t parent child
                             else setRight t parent child
                           else some { t with root_ := child }) fun t =>
                  setParent t child parent
                else
                  andThen (getParent t (some n)) fun np =>
                  if np ≠ none then
                    andThen (getParent t (some n)) fun np1 =>
                    andThen (getLeft t np1) fun pl =>
                    if some n = pl then
                      andThen (getParent t (some n)) fun np2 => setLeft t np2 none
                    else
                      andThen (getParent t (some n)) fun np2 => setRight t np2 none
                  else some { t with root_ := none }) fun t =>
       delete t (some n)) = some t2 ∧
      ModelsAt t2 c (if L.ptr = none then R else L) ∧ t2.mem.length = t.mem.length := by
  obtain ⟨hroot, hpath, ⟨hn, hL, hR⟩, hnd0⟩ := h
  have hnl := deref_lt hn
  have hnd := hnd0
  cases c with
  | nil =>
    rcases hLR with rfl | rfl
    · cases R with
      | nil =>
        simp only [Shape.addrs, pathAddrs, addr_left, addr_right, Frame.sibling,
          List.nodup_append, List.nodup_cons, List.mem_append, List.mem_cons,
          not_or, List.cons_append, List.append_assoc, List.disjoint_append_left,
          List.disjoint_append_right, List.disjoint_cons_left, List.disjoint_cons_right,
          List.nil_append, List.append_nil, List.not_mem_nil, not_false_eq_true, true_and,
          and_true, List.nodup_nil, List.disjoint_nil_left, List.disjoint_nil_right] at hnd
        simp only [RepPath, RepTree, pathPtr_nil, pathPtr_cons, ptr_node, ptr_nil, addr_left,
          addr_right] at hn hpath hL hR hroot
        simp only [getParent, getLeft, getRight, setParent, setLeft, setRight, delete, modifyNode,
          deref_store, deref_free, deref_mk_root, pathPtr_nil, pathPtr_cons, pathDiff_nil,
          pathDiff_cons, addr_left, addr_right, diff_left, diff_right, ptr_node, ptr_nil,
          Option.map_some', andThen_some, ne_eq, not_true_eq_false, not_false_eq_true,
          reduceCtorEq, if_true, if_false, free_length, store_length, Option.some.injEq,
          or_self, or_true, true_or, or_false, false_or,
          hn, hnl]
        refine ⟨_, rfl, ⟨?_, ?_, ?_, ?_⟩, ?_⟩
        · rfl
        · simp [RepPath, RepTree, deref_store, deref_free, RepTree_store_iff,
            RepPath_store_iff, RepTree_free_iff, RepPath_free_iff, hn, hnl, hnd]
        · simp [RepPath, RepTree, deref_store, deref_free, RepTree_store_iff,
            RepPath_store_iff, RepTree_free_iff, RepPath_free_iff, hn, hnl, hnd]
        · simp only [Shape.addrs, pathAddrs, addr_left, addr_right, Frame.sibling,
            List.nodup_append, List.nodup_cons, List.mem_append, List.mem_cons,
            not_or, List.cons_append, List.append_assoc, List.disjoint_append_left,
            List.disjoint_append_right, List.disjoint_cons_left, List.disjoint_cons_right,
            List.nil_append, List.append_nil, List.not_mem_nil, not_false_eq_true, true_and,
            and_true, List.nodup_nil, List.disjoint_nil_left, List.disjoint_nil_right]
          try tauto
        all_goals simp
      | node ch C1 kc vc cb C2 =>
        simp only [Shape.addrs, pathAddrs, addr_left, addr_right, Frame.sibling,
          List.nodup_append, List.nodup_cons, List.mem_append, List.mem_cons,
          not_or, List.cons_append, List.append_assoc, List.disjoint_append_left,
          List.disjoint_append_right, List.disjoint_cons_left, List.disjoint_cons_right,
          List.nil_append, List.append_nil, List.not_mem_nil, not_false_eq_true, true_and,
          and_true, List.nodup_nil, List.disjoint_nil_left, List.disjoint_nil_right] at hnd
        simp only [RepPath, RepTree, pathPtr_nil, pathPtr_cons, ptr_node, ptr_nil, addr_left,
          addr_right] at hn hpath hL hR hroot
        obtain ⟨hch, hC1, hC2⟩ := hR
        have hchl := deref_lt hch
        have e1 : n ≠ ch := by omega
        simp only [getParent, getLeft, getRight, setParent, setLeft, setRight, delete, modifyNode,
          deref_store, deref_free, deref_mk_root, pathPtr_nil, pathPtr_cons, pathDiff_nil,
          pathDiff_cons, addr_left, addr_right, diff_left, diff_right, ptr_node, ptr_nil,
          Option.map_some', andThen_some, ne_eq, not_true_eq_false, not_false_eq_true,
          reduceCtorEq, if_true, if_false, free_length, store_length, Option.some.injEq,
          or_self, or_true, true_or, or_false, false_or,
          hn, hnl, hch, hchl, e1, e1.symm]
        refine ⟨_, rfl, ⟨?_, ?_, ?_, ?_⟩, ?_⟩
        · rfl
        · simp [RepPath, RepTree, deref_store, deref_free, RepTree_store_iff,
            RepPath_store_iff, RepTree_free_iff, RepPath_free_iff, hn, hnl, hch, hchl, e1, e1.symm, hnd, hC1, hC2]
        · simp [RepPath, RepTree, deref_store, deref_free, RepTree_store_iff,
            RepPath_store_iff, RepTree_free_iff, RepPath_free_iff, hn, hnl, hch, hchl, e1, e1.symm, hnd, hC1, hC2]
        · simp only [Shape.addrs, pathAddrs, addr_left, addr_right, Frame.sibling,
            List.nodup_append, List.nodup_cons, List.mem_append, List.mem_cons,
            not_or, List.cons_append, List.append_assoc, List.disjoint_append_left,
            List.disjoint_append_right, List.disjoint_cons_left, List.disjoint_cons_right,
            List.nil_append, List.append_nil, List.not_mem_nil, not_false_eq_true, true_and,
            and_true, List.nodup_nil, List.disjoint_nil_left, List.disjoint_nil_right]
          try tauto
        all_goals simp
    · cases L with
      | nil =>
        simp only [Shape.addrs, pathAddrs, addr_left, addr_right, Frame.sibling,
          List.nodup_append, List.nodup_cons, List.mem_append, List.mem_cons,
          not_or, List.cons_append, List.append_assoc, List.disjoint_append_left,
          List.disjoint_append_right, List.disjoint_cons_left, List.disjoint_cons_right,
          List.nil_append, List.append_nil, List.not_mem_nil, not_false_eq_true, true_and,
          and_true, List.nodup_nil, List.disjoint_nil_left, List.disjoint_nil_right] at hnd
        simp only [RepPath, RepTree, pathPtr_nil, pathPtr_cons, ptr_node, ptr_nil, addr_left,
          addr_right] at hn hpath hL hR hroot
        simp only [getParent, getLeft, getRight, setParent, setLeft, setRight, delete, modifyNode,
          deref_store, deref_free, deref_mk_root, pathPtr_nil, pathPtr_cons, pathDiff_nil,
          pathDiff_cons, addr_left, addr_right, diff_left, diff_right, ptr_node, ptr_nil,
          Option.map_some', andThen_some, ne_eq, not_true_eq_false, not_false_eq_true,
          reduceCtorEq, if_true, if_false, free_length, store_length, Option.some.injEq,
          or_self, or_true, true_or, or_false, false_or,
          hn, hnl]
        refine ⟨_, rfl, ⟨?_, ?_, ?_, ?_⟩, ?_⟩
        · rfl
        · simp [RepPath, RepTree, deref_store, deref_free, RepTree_store_iff,
            RepPath_store_iff, RepTree_free_iff, RepPath_free_iff, hn, hnl, hnd]
        · simp [RepPath, RepTree, deref_store, deref_free, RepTree_store_iff,
            RepPath_store_iff, RepTree_free_iff, RepPath_free_iff, hn, hnl, hnd]
        · simp only [Shape.addrs, pathAddrs, addr_left, addr_right, Frame.sibling,
            List.nodup_append, List.nodup_cons, List.mem_append, List.mem_cons,
            not_or, List.cons_append, List.append_assoc, List.disjoint_append_left,
            List.disjoint_append_right, List.disjoint_cons_left, List.disjoint_cons_right,
            List.nil_append, List.append_nil, List.not_mem_nil, not_false_eq_true, true_and,
            and_true, List.nodup_nil, List.disjoint_nil_left, List.disjoint_nil_right]
          try tauto
        all_goals simp
      | node ch C1 kc vc cb C2 =>
        simp only [Shape.addrs, pathAddrs, addr_left, addr_right, Frame.sibling,
          List.nodup_append, List.nodup_cons, List.mem_append, List.mem_cons,
          not_or, List.cons_append, List.append_assoc, List.disjoint_append_left,
          List.disjoint_append_right, List.disjoint_cons_left, List.disjoint_cons_right,
          List.nil_append, List.append_nil, List.not_mem_nil, not_false_eq_true, true_and,
          and_true, List.nodup_nil, List.disjoint_nil_left, List.disjoint_nil_right] at hnd
        simp only [RepPath, RepTree, pathPtr_nil, pathPtr_cons, ptr_node, ptr_nil, addr_left,
          addr_right] at hn hpath hL hR hroot
        obtain ⟨hch, hC1, hC2⟩ := hL
        have hchl := deref_lt hch
        have e1 : n ≠ ch := by omega
        simp only [getParent, getLeft, getRight, setParent, setLeft, setRight, delete, modifyNode,
          deref_store, deref_free, deref_mk_root, pathPtr_nil, pathPtr_cons, pathDiff_nil,
          pathDiff_cons, addr_left, addr_right, diff_left, diff_right, ptr_node, ptr_nil,
          Option.map_some', andThen_some, ne_eq, not_true_eq_false, not_false_eq_true,
          reduceCtorEq, if_true, if_false, free_length, store_length, Option.some.injEq,
          or_self, or_true, true_or, or_false, false_or,
          hn, hnl, hch, hchl, e1, e1.symm]
        refine ⟨_, rfl, ⟨?_, ?_, ?_, ?_⟩, ?_⟩
        · rfl
        · simp [RepPath, RepTree, deref_store, deref_free, RepTree_store_iff,
            RepPath_store_iff, RepTree_free_iff, RepPath_free_iff, hn, hnl, hch, hchl, e1, e1.symm, hnd, hC1, hC2]
        · simp [RepPath, RepTree, deref_store, deref_free, RepTree_store_iff,
            RepPath_store_iff, RepTree_free_iff, RepPath_free_iff, hn, hnl, hch, hchl, e1, e1.symm, hnd, hC1, hC2]
        · simp only [Shape.addrs, pathAddrs, addr_left, addr_right, Frame.sibling,
            List.nodup_append, List.nodup_cons, List.mem_append, List.mem_cons,
            not_or, List.cons_append, List.append_assoc, List.disjoint_append_left,
            List.disjoint_append_right, List.disjoint_cons_left, List.disjoint_cons_right,
            List.nil_append, List.append_nil, List.not_mem_nil, not_false_eq_true, true_and,
            and_true, List.nodup_nil, List.disjoint_nil_left, List.disjoint_nil_right]
          try tauto
        all_goals simp
  | cons f c =>
    cases f with
    | left p kp vp pb S =>
      rcases hLR with rfl | rfl
      · cases R with
        | nil =>
          simp only [Shape.addrs, pathAddrs, addr_left, addr_right, Frame.sibling,
            List.nodup_append, List.nodup_cons, List.mem_append, List.mem_cons,
            not_or, List.cons_append, List.append_assoc, List.disjoint_append_left,
            List.disjoint_append_right, List.disjoint_cons_left, List.disjoint_cons_right,
            List.nil_append, List.append_nil, List.not_mem_nil, not_false_eq_true, true_and,
            and_true, List.nodup_nil, List.disjoint_nil_left, List.disjoint_nil_right] at hnd
          simp only [RepPath, RepTree, pathPtr_nil, pathPtr_cons, ptr_node, ptr_nil, addr_left,
            addr_right] at hn hpath hL hR hroot
          obtain ⟨hp, hS, hc⟩ := hpath
          have hpl := deref_lt hp
          have e1 : n ≠ p := by omega
          simp only [getParent, getLeft, getRight, setParent, setLeft, setRight, delete, modifyNode,
            deref_store, deref_free, deref_mk_root, pathPtr_nil, pathPtr_cons, pathDiff_nil,
            pathDiff_cons, addr_left, addr_right, diff_left, diff_right, ptr_node, ptr_nil,
            Option.map_some', andThen_some, ne_eq, not_true_eq_false, not_false_eq_true,
            reduceCtorEq, if_true, if_false, free_length, store_length, Option.some.injEq,
            or_self, or_true, true_or, or_false, false_or,
            hn, hnl, hp, hpl, e1, e1.symm]
          refine ⟨_, rfl, ⟨?_, ?_, ?_, ?_⟩, ?_⟩
          · exact hroot
          · simp [RepPath, RepTree, deref_store, deref_free, RepTree_store_iff,
              RepPath_store_iff, RepTree_free_iff, RepPath_free_iff, hn, hnl, hp, hpl, e1, e1.symm, hnd, hS, hc]
          · simp [RepPath, RepTree, deref_store, deref_free, RepTree_store_iff,
              RepPath_store_iff, RepTree_free_iff, RepPath_free_iff, hn, hnl, hp, hpl, e1, e1.symm, hnd, hS, hc]
          · simp only [Shape.addrs, pathAddrs, addr_left, addr_right, Frame.sibling,
              List.nodup_append, List.nodup_cons, List.mem_append, List.mem_cons,
              not_or, List.cons_append, List.append_assoc, List.disjoint_append_left,
              List.disjoint_append_right, List.disjoint_cons_left, List.disjoint_cons_right,
              List.nil_append, List.append_nil, List.not_mem_nil, not_false_eq_true, true_and,
              and_true, List.nodup_nil, List.disjoint_nil_left, List.disjoint_nil_right]
            try tauto
          all_goals simp
        | node ch C1 kc vc cb C2 =>
          simp only [Shape.addrs, pathAddrs, addr_left, addr_right, Frame.sibling,
            List.nodup_append, List.nodup_cons, List.mem_append, List.mem_cons,
            not_or, List.cons_append, List.append_assoc, List.disjoint_append_left,
            List.disjoint_append_right, List.disjoint_cons_left, List.disjoint_cons_right,
            List.nil_append, List.append_nil, List.not_mem_nil, not_false_eq_true, true_and,
            and_true, List.nodup_nil, List.disjoint_nil_left, List.disjoint_nil_right] at hnd
          simp only [RepPath, RepTree, pathPtr_nil, pathPtr_cons, ptr_node, ptr_nil, addr_left,
            addr_right] at hn hpath hL hR hroot
          obtain ⟨hp, hS, hc⟩ := hpath
          have hpl := deref_lt hp
          obtain ⟨hch, hC1, hC2⟩ := hR
          have hchl := deref_lt hch
          have e1 : n ≠ p := by omega
          have e2 : n ≠ ch := by omega
          have e3 : p ≠ ch := by omega
          simp only [getParent, getLeft, getRight, setParent, setLeft, setRight, delete, modifyNode,
            deref_store, deref_free, deref_mk_root, pathPtr_nil, pathPtr_cons, pathDiff_nil,
            pathDiff_cons, addr_left, addr_right, diff_left, diff_right, ptr_node, ptr_nil,
            Option.map_some', andThen_some, ne_eq, not_true_eq_false, not_false_eq_true,
            reduceCtorEq, if_true, if_false, free_length, store_length, Option.some.injEq,
            or_self, or_true, true_or, or_false, false_or,
            hn, hnl, hp, hpl, hch, hchl, e1, e1.symm, e2, e2.symm, e3, e3.symm]
          refine ⟨_, rfl, ⟨?_, ?_, ?_, ?_⟩, ?_⟩
          · exact hroot
          · simp [RepPath, RepTree, deref_store, deref_free, RepTree_store_iff,
              RepPath_store_iff, RepTree_free_iff, RepPath_free_iff, hn, hnl, hp, hpl, hch, hchl, e1, e1.symm, e2, e2.symm, e3, e3.symm, hnd, hS, hc, hC1, hC2]
          · simp [RepPath, RepTree, deref_store, deref_free, RepTree_store_iff,
              RepPath_store_iff, RepTree_free_iff, RepPath_free_iff, hn, hnl, hp, hpl, hch, hchl, e1, e1.symm, e2, e2.symm, e3, e3.symm, hnd, hS, hc, hC1, hC2]
          · simp only [Shape.addrs, pathAddrs, addr_left, addr_right, Frame.sibling,
              List.nodup_append, List.nodup_cons, List.mem_append, List.mem_cons,
              not_or, List.cons_append, List.append_assoc, List.disjoint_append_left,
              List.disjoint_append_right, List.disjoint_cons_left, List.disjoint_cons_right,
              List.nil_append, List.append_nil, List.not_mem_nil, not_false_eq_true, true_and,
              and_true, List.nodup_nil, List.disjoint_nil_left, List.disjoint_nil_right]
            try tauto
          all_goals simp
      · cases L with
        | nil =>
          simp only [Shape.addrs, pathAddrs, addr_left, addr_right, Frame.sibling,
            List.nodup_append, List.nodup_cons, List.mem_append, List.mem_cons,
            not_or, List.cons_append, List.append_assoc, List.disjoint_append_left,
            List.disjoint_append_right, List.disjoint_cons_left, List.disjoint_cons_right,
            List.nil_append, List.append_nil, List.not_mem_nil, not_false_eq_true, true_and,
            and_true, List.nodup_nil, List.disjoint_nil_left, List.disjoint_nil_right] at hnd
          simp only [RepPath, RepTree, pathPtr_nil, pathPtr_cons, ptr_node, ptr_nil, addr_left,
            addr_right] at hn hpath hL hR hroot
          obtain ⟨hp, hS, hc⟩ := hpath
          have hpl := deref_lt hp
          have e1 : n ≠ p := by omega
          simp only [getParent, getLeft, getRight, setParent, setLeft, setRight, delete, modifyNode,
            deref_store, deref_free, deref_mk_root, pathPtr_nil, pathPtr_cons, pathDiff_nil,
            pathDiff_cons, addr_left, addr_right, diff_left, diff_right, ptr_node, ptr_nil,
            Option.map_some', andThen_some, ne_eq, not_true_eq_false, not_false_eq_true,
            reduceCtorEq, if_true, if_false, free_length, store_length, Option.some.injEq,
            or_self, or_true, true_or, or_false, false_or,
            hn, hnl, hp, hpl, e1, e1.symm]
          refine ⟨_, rfl, ⟨?_, ?_, ?_, ?_⟩, ?_⟩
          · exact hroot
          · simp [RepPath, RepTree, deref_store, deref_free, RepTree_store_iff,
              RepPath_store_iff, RepTree_free_iff, RepPath_free_iff, hn, hnl, hp, hpl, e1, e1.symm, hnd, hS, hc]
          · simp [RepPath, RepTree, deref_store, deref_free, RepTree_store_iff,
              RepPath_store_iff, RepTree_free_iff, RepPath_free_iff, hn, hnl, hp, hpl, e1, e1.symm, hnd, hS, hc]
          · simp only [Shape.addrs, pathAddrs, addr_left, addr_right, Frame.sibling,
              List.nodup_append, List.nodup_cons, List.mem_append, List.mem_cons,
              not_or, List.cons_append, List.append_assoc, List.disjoint_append_left,
              List.disjoint_append_right, List.disjoint_cons_left, List.disjoint_cons_right,
              List.nil_append, List.append_nil, List.not_mem_nil, not_false_eq_true, true_and,
              and_true, List.nodup_nil, List.disjoint_nil_left, List.disjoint_nil_right]
            try tauto
          all_goals simp
        | node ch C1 kc vc cb C2 =>
          simp only [Shape.addrs, pathAddrs, addr_left, addr_right, Frame.sibling,
            List.nodup_append, List.nodup_cons, List.mem_append, List.mem_cons,
            not_or, List.cons_append, List.append_assoc, List.disjoint_append_left,
            List.disjoint_append_right, List.disjoint_cons_left, List.disjoint_cons_right,
            List.nil_append, List.append_nil, List.not_mem_nil, not_false_eq_true, true_and,
            and_true, List.nodup_nil, List.disjoint_nil_left, List.disjoint_nil_right] at hnd
          simp only [RepPath, RepTree, pathPtr_nil, pathPtr_cons, ptr_node, ptr_nil, addr_left,
            addr_right] at hn hpath hL hR hroot
          obtain ⟨hp, hS, hc⟩ := hpath
          have hpl := deref_lt hp
          obtain ⟨hch, hC1, hC2⟩ := hL
          have hchl := deref_lt hch
          have e1 : n ≠ p := by omega
          have e2 : n ≠ ch := by omega
          have e3 : p ≠ ch := by omega
          simp only [getParent, getLeft, getRight, setParent, setLeft, setRight, delete, modifyNode,
            deref_store, deref_free, deref_mk_root, pathPtr_nil, pathPtr_cons, pathDiff_nil,
            pathDiff_cons, addr_left, addr_right, diff_left, diff_right, ptr_node, ptr_nil,
            Option.map_some', andThen_some, ne_eq, not_true_eq_false, not_false_eq_true,
            reduceCtorEq, if_true, if_false, free_length, store_length, Option.some.injEq,
            or_self, or_true, true_or, or_false, false_or,
            hn, hnl, hp, hpl, hch, hchl, e1, e1.symm, e2, e2.symm, e3, e3.symm]
          refine ⟨_, rfl, ⟨?_, ?_, ?_, ?_⟩, ?_⟩
          · exact hroot
          · simp [RepPath, RepTree, deref_store, deref_free, RepTree_store_iff,
              RepPath_store_iff, RepTree_free_iff, RepPath_free_iff, hn, hnl, hp, hpl, hch, hchl, e1, e1.symm, e2, e2.symm, e3, e3.symm, hnd, hS, hc, hC1, hC2]
          · simp [RepPath, RepTree, deref_store, deref_free, RepTree_store_iff,
              RepPath_store_iff, RepTree_free_iff, RepPath_free_iff, hn, hnl, hp, hpl, hch, hchl, e1, e1.symm, e2, e2.symm, e3, e3.symm, hnd, hS, hc, hC1, hC2]
          · simp only [Shape.addrs, pathAddrs, addr_left, addr_right, Frame.sibling,
              List.nodup_append, List.nodup_cons, List.mem_append, List.mem_cons,
              not_or, List.cons_append, List.append_assoc, List.disjoint_append_left,
              List.disjoint_append_right, List.disjoint_cons_left, List.disjoint_cons_right,
              List.nil_append, List.append_nil, List.not_mem_nil, not_false_eq_true, true_and,
              and_true, List.nodup_nil, List.disjoint_nil_left, List.disjoint_nil_right]
            try tauto
          all_goals simp
    | right p S kp vp pb =>
      rcases hLR with rfl | rfl
      · cases R with
        | nil =>
          simp only [Shape.addrs, pathAddrs, addr_left, addr_right, Frame.sibling,
            List.nodup_append, List.nodup_cons, List.mem_append, List.mem_cons,
            not_or, List.cons_append, List.append_assoc, List.disjoint_append_left,
            List.disjoint_append_right, List.disjoint_cons_left, List.disjoint_cons_right,
            List.nil_append, List.append_nil, List.not_mem_nil, not_false_eq_true, true_and,
            and_true, List.nodup_nil, List.disjoint_nil_left, List.disjoint_nil_right] at hnd
          simp only [RepPath, RepTree, pathPtr_nil, pathPtr_cons, ptr_node, ptr_nil, addr_left,
            addr_right] at hn hpath hL hR hroot
          obtain ⟨hp, hS, hc⟩ := hpath
          have hpl := deref_lt hp
          have e1 : n ≠ p := by omega
          have hSn : S.ptr ≠ some n := ptr_ne_of_not_mem (by tauto)
          have hSn2 : some n ≠ S.ptr := fun e => hSn e.symm
          simp only [getParent, getLeft, getRight, setParent, setLeft, setRight, delete, modifyNode,
            deref_store, deref_free, deref_mk_root, pathPtr_nil, pathPtr_cons, pathDiff_nil,
            pathDiff_cons, addr_left, addr_right, diff_left, diff_right, ptr_node, ptr_nil,
            Option.map_some', andThen_some, ne_eq, not_true_eq_false, not_false_eq_true,
            reduceCtorEq, if_true, if_false, free_length, store_length, Option.some.injEq,
            or_self, or_true, true_or, or_false, false_or,
            hn, hnl, hp, hpl, e1, e1.symm, hSn, hSn2]
          refine ⟨_, rfl, ⟨?_, ?_, ?_, ?_⟩, ?_⟩
          · exact hroot
          · simp [RepPath, RepTree, deref_store, deref_free, RepTree_store_iff,
              RepPath_store_iff, RepTree_free_iff, RepPath_free_iff, hn, hnl, hp, hpl, e1, e1.symm, hSn, hSn2, hnd, hS, hc]
          · simp [RepPath, RepTree, deref_store, deref_free, RepTree_store_iff,
              RepPath_store_iff, RepTree_free_iff, RepPath_free_iff, hn, hnl, hp, hpl, e1, e1.symm, hSn, hSn2, hnd, hS, hc]
          · simp only [Shape.addrs, pathAddrs, addr_left, addr_right, Frame.sibling,
              List.nodup_append, List.nodup_cons, List.mem_append, List.mem_cons,
              not_or, List.cons_append, List.append_assoc, List.disjoint_append_left,
              List.disjoint_append_right, List.disjoint_cons_left, List.disjoint_cons_right,
              List.nil_append, List.append_nil, List.not_mem_nil, not_false_eq_true, true_and,
              and_true, List.nodup_nil, List.disjoint_nil_left, List.disjoint_nil_right]
            try tauto
          all_goals simp
        | node ch C1 kc vc cb C2 =>
          simp only [Shape.addrs, pathAddrs, addr_left, addr_right, Frame.sibling,
            List.nodup_append, List.nodup_cons, List.mem_append, List.mem_cons,
            not_or, List.cons_append, List.append_assoc, List.disjoint_append_left,
            List.disjoint_append_right, List.disjoint_cons_left, List.disjoint_cons_right,
            List.nil_append, List.append_nil, List.not_mem_nil, not_false_eq_true, true_and,
            and_true, List.nodup_nil, List.disjoint_nil_left, List.disjoint_nil_right] at hnd
          simp only [RepPath, RepTree, pathPtr_nil, pathPtr_cons, ptr_node, ptr_nil, addr_left,
            addr_right] at hn hpath hL hR hroot
          obtain ⟨hp, hS, hc⟩ := hpath
          have hpl := deref_lt hp
          obtain ⟨hch, hC1, hC2⟩ := hR
          have hchl := deref_lt hch
          have e1 : n ≠ p := by omega
          have e2 : n ≠ ch := by omega
          have e3 : p ≠ ch := by omega
          have hSn : S.ptr ≠ some n := ptr_ne_of_not_mem (by tauto)
          have hSn2 : some n ≠ S.ptr := fun e => hSn e.symm
          simp only [getParent, getLeft, getRight, setParent, setLeft, setRight, delete, modifyNode,
            deref_store, deref_free, deref_mk_root, pathPtr_nil, pathPtr_cons, pathDiff_nil,
            pathDiff_cons, addr_left, addr_right, diff_left, diff_right, ptr_node, ptr_nil,
            Option.map_some', andThen_some, ne_eq, not_true_eq_false, not_false_eq_true,
            reduceCtorEq, if_true, if_false, free_length, store_length, Option.some.injEq,
            or_self, or_true, true_or, or_false, false_or,
            hn, hnl, hp, hpl, hch, hchl, e1, e1.symm, e2, e2.symm, e3, e3.symm, hSn, hSn2]
          refine ⟨_, rfl, ⟨?_, ?_, ?_, ?_⟩, ?_⟩
          · exact hroot
          · simp [RepPath, RepTree, deref_store, deref_free, RepTree_store_iff,
              RepPath_store_iff, RepTree_free_iff, RepPath_free_iff, hn, hnl, hp, hpl, hch, hchl, e1, e1.symm, e2, e2.symm, e3, e3.symm, hSn, hSn2, hnd, hS, hc, hC1, hC2]
          · simp [RepPath, RepTree, deref_store, deref_free, RepTree_store_iff,
              RepPath_store_iff, RepTree_free_iff, RepPath_free_iff, hn, hnl, hp, hpl, hch, hchl, e1, e1.symm, e2, e2.symm, e3, e3.symm, hSn, hSn2, hnd, hS, hc, hC1, hC2]
          · simp only [Shape.addrs, pathAddrs, addr_left, addr_right, Frame.sibling,
              List.nodup_append, List.nodup_cons, List.mem_append, List.mem_cons,
              not_or, List.cons_append, List.append_assoc, List.disjoint_append_left,
              List.disjoint_append_right, List.disjoint_cons_left, List.disjoint_cons_right,
              List.nil_append, List.append_nil, List.not_mem_nil, not_false_eq_true, true_and,
              and_true, List.nodup_nil, List.disjoint_nil_left, List.disjoint_nil_right]
            try tauto
          all_goals simp
      · cases L with
        | nil =>
          simp only [Shape.addrs, pathAddrs, addr_left, addr_right, Frame.sibling,
            List.nodup_append, List.nodup_cons, List.mem_append, List.mem_cons,
            not_or, List.cons_append, List.append_assoc, List.disjoint_append_left,
            List.disjoint_append_right, List.disjoint_cons_left, List.disjoint_cons_right,
            List.nil_append, List.append_nil, List.not_mem_nil, not_false_eq_true, true_and,
            and_true, List.nodup_nil, List.disjoint_nil_left, List.disjoint_nil_right] at hnd
          simp only [RepPath, RepTree, pathPtr_nil, pathPtr_cons, ptr_node, ptr_nil, addr_left,
            addr_right] at hn hpath hL hR hroot
          obtain ⟨hp, hS, hc⟩ := hpath
          have hpl := deref_lt hp
          have e1 : n ≠ p := by omega
          have hSn : S.ptr ≠ some n := ptr_ne_of_not_mem (by tauto)
          have hSn2 : some n ≠ S.ptr := fun e => hSn e.symm
          simp only [getParent, getLeft, getRight, setParent, setLeft, setRight, delete, modifyNode,
            deref_store, deref_free, deref_mk_root, pathPtr_nil, pathPtr_cons, pathDiff_nil,
            pathDiff_cons, addr_left, addr_right, diff_left, diff_right, ptr_node, ptr_nil,
            Option.map_some', andThen_some, ne_eq, not_true_eq_false, not_false_eq_true,
            reduceCtorEq, if_true, if_false, free_length, store_length, Option.some.injEq,
            or_self, or_true, true_or, or_false, false_or,
            hn, hnl, hp, hpl, e1, e1.symm, hSn, hSn2]
          refine ⟨_, rfl, ⟨?_, ?_, ?_, ?_⟩, ?_⟩
          · exact hroot
          · simp [RepPath, RepTree, deref_store, deref_free, RepTree_store_iff,
              RepPath_store_iff, RepTree_free_iff, RepPath_free_iff, hn, hnl, hp, hpl, e1, e1.symm, hSn, hSn2, hnd, hS, hc]
          · simp [RepPath, RepTree, deref_store, deref_free, RepTree_store_iff,
              RepPath_store_iff, RepTree_free_iff, RepPath_free_iff, hn, hnl, hp, hpl, e1, e1.symm, hSn, hSn2, hnd, hS, hc]
          · simp only [Shape.addrs, pathAddrs, addr_left, addr_right, Frame.sibling,
              List.nodup_append, List.nodup_cons, List.mem_append, List.mem_cons,
              not_or, List.cons_append, List.append_assoc, List.disjoint_append_left,
              List.disjoint_append_right, List.disjoint_cons_left, List.disjoint_cons_right,
              List.nil_append, List.append_nil, List.not_mem_nil, not_false_eq_true, true_and,
              and_true, List.nodup_nil, List.disjoint_nil_left, List.disjoint_nil_right]
            try tauto
          all_goals simp
        | node ch C1 kc vc cb C2 =>
          simp only [Shape.addrs, pathAddrs, addr_left, addr_right, Frame.sibling,
            List.nodup_append, List.nodup_cons, List.mem_append, List.mem_cons,
            not_or, List.cons_append, List.append_assoc, List.disjoint_append_left,
            List.disjoint_append_right, List.disjoint_cons_left, List.disjoint_cons_right,
            List.nil_append, List.append_nil, List.not_mem_nil, not_false_eq_true, true_and,
            and_true, List.nodup_nil, List.disjoint_nil_left, List.disjoint_nil_right] at hnd
          simp only [RepPath, RepTree, pathPtr_nil, pathPtr_cons, ptr_node, ptr_nil, addr_left,
            addr_right] at hn hpath hL hR hroot
          obtain ⟨hp, hS, hc⟩ := hpath
          have hpl := deref_lt hp
          obtain ⟨hch, hC1, hC2⟩ := hL
          have hchl := deref_lt hch
          have e1 : n ≠ p := by omega
          have e2 : n ≠ ch := by omega
          have e3 : p ≠ ch := by omega
          have hSn : S.ptr ≠ some n := ptr_ne_of_not_mem (by tauto)
          have hSn2 : some n ≠ S.ptr := fun e => hSn e.symm
          simp only [getParent, getLeft, getRight, setParent, setLeft, setRight, delete, modifyNode,
            deref_store, deref_free, deref_mk_root, pathPtr_nil, pathPtr_cons, pathDiff_nil,
            pathDiff_cons, addr_left, addr_right, diff_left, diff_right, ptr_node, ptr_nil,
            Option.map_some', andThen_some, ne_eq, not_true_eq_false, not_false_eq_true,
            reduceCtorEq, if_true, if_false, free_length, store_length, Option.some.injEq,
            or_self, or_true, true_or, or_false, false_or,
            hn, hnl, hp, hpl, hch, hchl, e1, e1.symm, e2, e2.symm, e3, e3.symm, hSn, hSn2]
          refine ⟨_, rfl, ⟨?_, ?_, ?_, ?_⟩, ?_⟩
          · exact hroot
          · simp [RepPath, RepTree, deref_store, deref_free, RepTree_store_iff,
              RepPath_store_iff, RepTree_free_iff, RepPath_free_iff, hn, hnl, hp, hpl, hch, hchl, e1, e1.symm, e2, e2.symm, e3, e3.symm, hSn, hSn2, hnd, hS, hc, hC1, hC2]
          · simp [RepPath, RepTree, deref_store, deref_free, RepTree_store_iff,
              RepPath_store_iff, RepTree_free_iff, RepPath_free_iff, hn, hnl, hp, hpl, hch, hchl, e1, e1.symm, e2, e2.symm, e3, e3.symm, hSn, hSn2, hnd, hS, hc, hC1, hC2]
          · simp only [Shape.addrs, pathAddrs, addr_left, addr_right, Frame.sibling,
              List.nodup_append, List.nodup_cons, List.mem_append, List.mem_cons,
              not_or, List.cons_append, List.append_assoc, List.disjoint_append_left,
              List.disjoint_append_right, List.disjoint_cons_left, List.disjoint_cons_right,
              List.nil_append, List.append_nil, List.not_mem_nil, not_false_eq_true, true_and,
              and_true, List.nodup_nil, List.disjoint_nil_left, List.disjoint_nil_right]
            try tauto
          all_goals simp

end BaseSplice

section BaseSwap
open Shape
variable {K V : Type}

/-! ## The swap with the predecessor in the base class -/

theorem swapNodes_of_not_mem (n1 n2 : Nat) (c1 c2 : AVLNode K V) (s : Shape K V)
    (h1 : n1 ∉ s.addrs) (h2 : n2 ∉ s.addrs) : swapNodes n1 n2 c1 c2 s = s := by
  induction s with
  | nil => rfl
  | node a l k v b r ihl ihr =>
    simp only [Shape.addrs, List.mem_cons, List.mem_append, not_or] at h1 h2
    have a1 : a ≠ n1 := fun e => h1.1 e.symm
    have a2 : a ≠ n2 := fun e => h2.1 e.symm
    simp only [swapNodes, a1, a2, if_false]
    rw [ihl h1.2.1 h2.2.1, ihr h1.2.2 h2.2.2]

theorem swapNodes_plug (n1 n2 : Nat) (c1 c2 : AVLNode K V) (c : List (Frame K V)) :
    ∀ s : Shape K V, n1 ∉ pathAddrs c → n2 ∉ pathAddrs c →
      swapNodes n1 n2 c1 c2 (plug c s) = plug c (swapNodes n1 n2 c1 c2 s) := by
  induction c with
  | nil => intro s _ _; rfl
  | cons f c ih =>
    intro s h1 h2
    simp only [pathAddrs, List.mem_cons, List.mem_append, not_or] at h1 h2
    simp only [plug]
    rw [ih _ h1.2.2 h2.2.2]
    congr 1
    cases f with
    | left a k v b r =>
      simp only [Frame.addr, Frame.sibling] at h1 h2
      have a1 : a ≠ n1 := fun e => h1.1 e.symm
      have a2 : a ≠ n2 := fun e => h2.1 e.symm
      simp only [Frame.fill, swapNodes, a1, a2, if_false,
        swapNodes_of_not_mem _ _ _ _ r h1.2.1 h2.2.1]
    | right a l k v b =>
      simp only [Frame.addr, Frame.sibling] at h1 h2
      have a1 : a ≠ n1 := fun e => h1.1 e.symm
      have a2 : a ≠ n2 := fun e => h2.1 e.symm
      simp only [Frame.fill, swapNodes, a1, a2, if_false,
        swapNodes_of_not_mem _ _ _ _ l h1.2.1 h2.2.1]

/-- The swap of the base-class `remove`: the node `n` changes places with its
in-order predecessor `m`, the last node on the path down the right links of
the left subtree of `n`; keys, values and balance fields stay with the
nodes. -/
theorem nodeSwap_predecessor {t : BinarySearchTree K V} {c cm : List (Frame K V)} {n m : Nat}
    {ML R : Shape K V} {kn km : K} {vn vm : V} {nb mb : Int}
    (h : ModelsAt t (cm ++ Frame.left n kn vn nb R :: c) (node m ML km vm mb nil)) :
    ∃ t2, BinarySearchTree.nodeSwap t (some n) (some m) = some t2 ∧
      ModelsAt t2 (cm ++ Frame.left m km vm mb R :: c) (node n ML kn vn nb nil) ∧
      t2.mem.length = t.mem.length := by
  have hM : Models t (plug (cm ++ Frame.left n kn vn nb R :: c) (node m ML km vm mb nil)) :=
    (models_plug _ _).mpr h
  have hnd := h.2.2.2
  rw [pathAddrs_append] at hnd
  simp only [Shape.addrs, pathAddrs, Frame.addr, Frame.sibling, List.nodup_append,
    List.nodup_cons, List.mem_append, List.mem_cons, not_or, List.cons_append,
    List.append_assoc, List.disjoint_append_left, List.disjoint_append_right,
    List.disjoint_cons_left, List.disjoint_cons_right, List.nil_append, List.append_nil,
    List.not_mem_nil, not_false_eq_true, true_and, and_true, List.nodup_nil,
    List.disjoint_nil_left, List.disjoint_nil_right] at hnd
  have hc2 := modelsAt_deref h
  have h2 : ModelsAt t c (node n (plug cm (node m ML km vm mb nil)) kn vn nb R) :=
    modelsAt_left.mpr ((modelsAt_append _ _ _).mp h)
  have hc1 := modelsAt_deref h2
  have hmem : ∀ x, x ∈ (plug (cm ++ Frame.left n kn vn nb R :: c) (node m ML km vm mb nil)).addrs
      ↔ x ∈ pathAddrs (cm ++ Frame.left n kn vn nb R :: c) ++ (node m ML km vm mb nil).addrs :=
    fun x => (addrs_plug_perm _ _).mem_iff
  have h1m : n ∈ (plug (cm ++ Frame.left n kn vn nb R :: c) (node m ML km vm mb nil)).addrs := by
    rw [hmem, pathAddrs_append]; simp [pathAddrs, Frame.addr]
  have h2m : m ∈ (plug (cm ++ Frame.left n kn vn nb R :: c) (node m ML km vm mb nil)).addrs := by
    rw [hmem]; simp [Shape.addrs]
  have hne : n ≠ m := by tauto
  obtain ⟨t2, e, hroot, hlen, -, hcells⟩ := nodeSwap_cells hM h1m h2m hne
  have hm2 := nodeSwap_models hM hc1 hc2 hroot hcells
  refine ⟨t2, e, ?_, hlen⟩
  rw [modelsAt_append, ← modelsAt_left, ← models_plug]
  have e1 : n ∉ pathAddrs c := by tauto
  have e2 : m ∉ pathAddrs c := by tauto
  have e3 : n ∉ pathAddrs cm := by tauto
  have e4 : m ∉ pathAddrs cm := by tauto
  have e5 : n ∉ R.addrs := by tauto
  have e6 : m ∉ R.addrs := by tauto
  have e7 : n ∉ ML.addrs := by tauto
  have e8 : m ∉ ML.addrs := by tauto
  have hmn : m ≠ n := fun e => hne e.symm
  rw [plug_append] at hm2
  simp only [plug, Frame.fill] at hm2
  rw [swapNodes_plug _ _ _ _ c _ e1 e2] at hm2
  simp only [swapNodes, if_true] at hm2
  rw [swapNodes_plug _ _ _ _ cm _ e3 e4, swapNodes_of_not_mem _ _ _ _ R e5 e6] at hm2
  simp only [swapNodes, hmn, if_false, if_true] at hm2
  rw [swapNodes_of_not_mem _ _ _ _ ML e7 e8] at hm2
  simpa [swapNodes] using hm2

end BaseSwap

section BaseRemove
open Shape
variable {K V : Type}

/-! ## Refinement of the base-class `remove` -/

/-- Refinement of `BinarySearchTree::remove`: on a heap that holds the tree `T`
the call returns, and the heap then holds the tree `Shape.bst_remove`
computes. -/
theorem bst_remove_spec [LinearOrder K] {t : BinarySearchTree K V} {T : Shape K V} (key : K)
    (h : Models t T) :
    ∃ t2, BinarySearchTree.remove t key = some t2 ∧ Models t2 (Shape.bst_remove T key) := by
  have hfind := internalFind_spec key h
  rw [← descend_ptr key T []] at hfind
  have hplug := descend_plug key T []
  unfold Shape.bst_remove
  unfold BinarySearchTree.remove
  rw [hfind]
  rcases hd : descend key [] T with ⟨c, s⟩
  rw [hd] at hplug
  simp only at hplug
  have hm : ModelsAt t c s := by
    rw [← models_plug, hplug]; exact h
  cases s with
  | nil => exact ⟨t, by simp, h⟩
  | node n L kn vn nb R =>
    have r1 := getLeft_focus hm
    have r2 := getRight_focus hm
    simp only [ptr_node, andThen_some, reduceCtorEq, if_false]
    rw [r1]
    cases L with
    | nil =>
      obtain ⟨t2, e2, m2, l2⟩ := bst_splice_spec hm (Or.inl rfl)
      simp only [ptr_nil, if_true] at m2
      refine ⟨t2, ?_, (models_plug _ _).mpr m2⟩
      simp only [ptr_nil, ne_eq, not_true_eq_false, if_false, andThen_some, Bool.false_eq_true]
      exact e2
    | node al ll kl vl bl rl =>
      cases R with
      | nil =>
        obtain ⟨t2, e2, m2, l2⟩ := bst_splice_spec hm (Or.inr rfl)
        simp only [ptr_node, reduceCtorEq, if_false] at m2
        refine ⟨t2, ?_, (models_plug _ _).mpr m2⟩
        rw [r2]
        simp only [ptr_node, ptr_nil, ne_eq, not_true_eq_false, reduceCtorEq, not_false_eq_true,
          if_true, if_false, andThen_some, decide_False, Bool.false_eq_true]
        exact e2
      | node ar lr kr vr br rr =>
        obtain ⟨cm, m, ML, km, vm, mb, hdr, hall⟩ :=
          descendRight_shape (node al ll kl vl bl rl) [] (by simp)
        have hdp := descendRight_plug (node al ll kl vl bl rl) []
        rw [hdr] at hdp
        simp only [List.append_nil, plug] at hdp
        have hpred : BinarySearchTree.predecessor t (some n) = some (some m) := by
          have hrep : RepTree t (some n) (node al ll kl vl bl rl) := hm.2.2.1.2.1
          have hh : (node al ll kl vl bl rl).height ≤ t.mem.length + 1 := by
            have h1 := path_length_le hm
            have h2 := height_le_size (node al ll kl vl bl rl)
            simp only [Shape.size] at h1 h2 ⊢
            omega
          have := predecessor_descend_spec (node al ll kl vl bl rl) (some n) _ [] hrep
            (by simp) hh
          rw [hdr] at this
          simpa [BinarySearchTree.predecessor, r1] using this
        have hm2 : ModelsAt t (cm ++ Frame.left n kn vn nb (node ar lr kr vr br rr) :: c)
            (node m ML km vm mb nil) := by
          rw [modelsAt_append, hdp]
          exact modelsAt_left.mp hm
        obtain ⟨t1, e1, m1, l1⟩ := nodeSwap_predecessor hm2
        obtain ⟨t2, e2, m2, l2⟩ := bst_splice_spec m1 (Or.inr rfl)
        have hchild : (if ML.ptr = none then (nil : Shape K V) else ML) = ML := by
          cases ML <;> simp
        rw [hchild] at m2
        refine ⟨t2, ?_, ?_⟩
        · rw [r2]
          simp only [ptr_node, ne_eq, reduceCtorEq, not_false_eq_true, if_true, andThen_some,
            decide_True, hpred, e1]
          exact e2
        · simp only [hdr, List.append_nil]
          exact (models_plug _ _).mpr m2

/-- The entries after the base-class `remove` of a key found by the search:
the entry at the node found is taken out, everything else stays in place. -/
theorem toList_bst_remove_found [LinearOrder K] (T : Shape K V) (key : K)
    (hf : locate key T ≠ none) :
    ∃ l1 l2 v, toList T = l1 ++ (key, v) :: l2 ∧ toList (Shape.bst_remove T key) = l1 ++ l2 := by
  unfold Shape.bst_remove
  have hplug := descend_plug key T []
  have hptr := descend_ptr key T []
  have hkey := descend_key key T []
  rcases hd : descend key [] T with ⟨c, s⟩
  rw [hd] at hplug hptr hkey
  simp only [plug] at hplug hptr hkey
  cases s with
  | nil => exact absurd hptr.symm hf
  | node n L kn vn nb R =>
    have hk : kn = key := hkey n L R kn vn nb rfl
    subst hk
    have hT : toList T = pathBefore c ++ (toList L ++ (kn, vn) :: toList R) ++ pathAfter c := by
      rw [← hplug, toList_plug]; rfl
    cases L with
    | nil =>
      refine ⟨pathBefore c, toList R ++ pathAfter c, vn, ?_, ?_⟩
      · rw [hT]; simp [toList]
      · simp only [toList_plug]; simp
    | node al ll kl vl bl rl =>
      cases R with
      | nil =>
        refine ⟨pathBefore c ++ toList (node al ll kl vl bl rl), pathAfter c, vn, ?_, ?_⟩
        · rw [hT]; simp [toList]
        · simp only [toList_plug]
      | node ar lr kr vr br rr =>
        obtain ⟨cm, m, ML, km, vm, mb, hdr, hall⟩ :=
          descendRight_shape (node al ll kl vl bl rl) [] (by simp)
        have hdp := descendRight_plug (node al ll kl vl bl rl) []
        rw [hdr] at hdp
        simp only [List.append_nil, plug] at hdp
        have hL : toList (node al ll kl vl bl rl)
            = pathBefore cm ++ (toList ML ++ [(km, vm)]) := by
          rw [← hdp, toList_plug, pathAfter_right cm hall]; simp [toList]
        refine ⟨pathBefore c ++ toList (node al ll kl vl bl rl),
          toList (node ar lr kr vr br rr) ++ pathAfter c, vn, ?_, ?_⟩
        · rw [hT]; simp
        · simp only [hdr, List.append_nil]
          rw [toList_plug, pathBefore_append, pathAfter_append, pathAfter_right cm hall, hL]
          simp [pathBefore, pathAfter]

/-- The entries after the base-class `remove` on a tree in binary-search
order: the in-order sequence without the entry for the key. -/
theorem toList_bst_remove [LinearOrder K] (T : Shape K V) (key : K) (ho : ordered T) :
    toList (Shape.bst_remove T key) = eraseEntry key (toList T) := by
  by_cases hf : locate key T = none
  · have hT : Shape.bst_remove T key = T := by
      unfold Shape.bst_remove
      have hptr := descend_ptr key T []
      rcases hd : descend key [] T with ⟨c, s⟩
      rw [hd] at hptr
      simp only at hptr
      cases s with
      | nil => rfl
      | node n L kn vn nb R => rw [hf] at hptr; simp at hptr
    rw [hT, eraseEntry_absent]
    exact (locate_eq_none_iff key T ho).mp hf
  · obtain ⟨l1, l2, v, e1, e2⟩ := toList_bst_remove_found T key hf
    rw [e2, e1, eraseEntry_sorted]
    have := (ordered_iff_sorted T).mp ho
    unfold keys at this
    rwa [e1] at this

end BaseRemove

section SameMapping
open Shape
variable {K V : Type}

/-- C27: take a valid AVL tree and a tree of the base class with consistent
links and keys in binary-search order that holds the same entries, in
particular one with the same shape and contents or the very same heap. For
every key and value, `AVLTree::insert` and `BinarySearchTree::insert` both
return, and the iteration from `begin()` to `end()` reads the same sequence
of (key, value) pairs from the two results: the old sequence with the entry
for the key set to the new item. For every key, `AVLTree::remove` and
`BinarySearchTree::remove` both return and the iteration reads the same
sequence from the two results: the old sequence without the entry for the
key. The result of the AVL operation is again a valid AVL tree, the result of
the base-class operation a tree with consistent links. -/
theorem balancing_keeps_mapping [LinearOrder K] (t : AVLTree K V) (T : Shape K V)
    (h : ValidAVL t T) (b : BinarySearchTree K V) (B : Shape K V) (hb : Models b B)
    (hbo : B.ordered) (hsame : B.toList = T.toList) (item : K × V) (key : K) :
    (∃ t2 T2 b2 B2, AVLTree.insert t item = some t2 ∧ ValidAVL t2 T2 ∧
      BinarySearchTree.insert b item = some b2 ∧ Models b2 B2 ∧ B2.ordered ∧
      T2.toList = B2.toList ∧
      (iterator.traverse t2).map (List.map Prod.snd) =
        (iterator.traverse b2).map (List.map Prod.snd) ∧
      (iterator.traverse t2).map (List.map Prod.snd) =
        some (insertEntry item.1 item.2 T.toList)) ∧
    (∃ t3 T3 b3 B3, AVLTree.remove t key = some t3 ∧ ValidAVL t3 T3 ∧
      BinarySearchTree.remove b key = some b3 ∧ Models b3 B3 ∧ B3.ordered ∧
      T3.toList = B3.toList ∧
      (iterator.traverse t3).map (List.map Prod.snd) =
        (iterator.traverse b3).map (List.map Prod.snd) ∧
      (iterator.traverse t3).map (List.map Prod.snd) = some (eraseEntry key T.toList)) := by
  constructor
  · obtain ⟨t2, e2, v2⟩ := insert_valid h item
    obtain ⟨b2, f2, m2⟩ := bst_insert_spec item hb
    have l1 := toList_insert t.mem.length T item h.2.1
    have l2 := toList_bst_insert b.mem.length B item hbo
    have hs : (Shape.insert t.mem.length T item).toList
        = (Shape.bst_insert b.mem.length B item).toList := by rw [l1, l2, hsame]
    have ho : (Shape.bst_insert b.mem.length B item).ordered := by
      rw [ordered_iff_sorted]
      unfold keys
      rw [← hs]
      exact (ordered_iff_sorted _).mp v2.2.1
    refine ⟨t2, _, b2, _, e2, v2, f2, m2, ho, hs, ?_, ?_⟩
    · rw [traverse_spec v2.1, traverse_spec m2, Option.map_some', Option.map_some',
        ← toList_eq_cells, ← toList_eq_cells, hs]
    · rw [traverse_spec v2.1, Option.map_some', ← toList_eq_cells, l1]
  · obtain ⟨t3, T3, e3, s3, v3⟩ := remove_valid h key
    obtain ⟨b3, f3, m3⟩ := bst_remove_spec key hb
    have l1 := toList_remove T T3 key h.2.1 s3
    have l2 := toList_bst_remove B key hbo
    have hs : T3.toList = (Shape.bst_remove B key).toList := by rw [l1, l2, hsame]
    have ho : (Shape.bst_remove B key).ordered := by
      rw [ordered_iff_sorted]
      unfold keys
      rw [← hs]
      exact (ordered_iff_sorted _).mp v3.2.1
    refine ⟨t3, T3, b3, _, e3, v3, f3, m3, ho, hs, ?_, ?_⟩
    · rw [traverse_spec v3.1, traverse_spec m3, Option.map_some', Option.map_some',
        ← toList_eq_cells, ← toList_eq_cells, hs]
    · rw [traverse_spec v3.1, Option.map_some', ← toList_eq_cells, l1]

theorem balancing_keeps_mapping_witness :
    ValidAVL sampleTree sampleShape ∧ Models sampleTree sampleShape ∧ sampleShape.ordered ∧
    (∃ t2 T2 b2 B2, AVLTree.insert sampleTree (27, 270) = some t2 ∧ ValidAVL t2 T2 ∧
      BinarySearchTree.insert sampleTree (27, 270) = some b2 ∧ Models b2 B2 ∧ B2.ordered ∧
      T2.toList = B2.toList ∧
      (iterator.traverse t2).map (List.map Prod.snd) =
        (iterator.traverse b2).map (List.map Prod.snd) ∧
      (iterator.traverse t2).map (List.map Prod.snd) =
        some (insertEntry 27 270 sampleShape.toList)) ∧
    (∃ t3 T3 b3 B3, AVLTree.remove sampleTree 20 = some t3 ∧ ValidAVL t3 T3 ∧
      BinarySearchTree.remove sampleTree 20 = some b3 ∧ Models b3 B3 ∧ B3.ordered ∧
      T3.toList = B3.toList ∧
      (iterator.traverse t3).map (List.map Prod.snd) =
        (iterator.traverse b3).map (List.map Prod.snd) ∧
      (iterator.traverse t3).map (List.map Prod.snd) =
        some (eraseEntry 20 sampleShape.toList)) :=
  ⟨sampleTree_valid, sampleTree_valid.1, sampleTree_valid.2.1,
    balancing_keeps_mapping sampleTree sampleShape sampleTree_valid sampleTree sampleShape
      sampleTree_valid.1 sampleTree_valid.2.1 rfl (27, 270) 20⟩

end SameMapping
